import Mathlib

/-! morgflow: a verification development

Shallow embedding of the numerical core of the shallow-water solver
(`src/TemporalScheme.hpp`, `src/TemporalSchemes/RungeKutta.hpp`, the Minmod,
flux and temporal-derivative kernels, the Cartesian mesh) and theorems about it.

Arithmetic model.  The C++ scalar types `float` and `double` are embedded as
`ValueType`: an exact rational number or `nan`.  Round-off, overflow and the two
infinities are outside the model (a division by zero gives `nan`); every `nan` rule the code relies on (a
comparison with `nan` is false, `x != x` holds exactly for `nan`, arithmetic
propagates `nan`, `fmax` and `fmin` drop a `nan` argument, `sign(nan) = 0`) is
kept.  The library functions `sqrt` and `pow` are parameters of the model.
-/

namespace Morgflow

/-! ## Scalars -/

/-- The scalar type of the solver (`float`, and `double` for times): an exact
rational or `nan`. -/
inductive ValueType where
  | nan : ValueType
  | num : ℚ → ValueType
deriving DecidableEq

namespace ValueType

instance : Inhabited ValueType := ⟨num 0⟩

/-- Addition; `nan` propagates. -/
def add : ValueType → ValueType → ValueType
  | num a, num b => num (a + b)
  | _, _ => nan

/-- Subtraction; `nan` propagates. -/
def sub : ValueType → ValueType → ValueType
  | num a, num b => num (a - b)
  | _, _ => nan

/-- Multiplication; `nan` propagates (also `0 * nan`). -/
def mul : ValueType → ValueType → ValueType
  | num a, num b => num (a * b)
  | _, _ => nan

/-- Division; `nan` propagates, and a division by zero (an infinity or `nan` in
IEEE arithmetic) is `nan` in this model. -/
def div : ValueType → ValueType → ValueType
  | num a, num b => if b = 0 then nan else num (a / b)
  | _, _ => nan

/-- Unary minus. -/
def neg : ValueType → ValueType
  | num a => num (-a)
  | nan => nan

instance : Add ValueType := ⟨add⟩
instance : Sub ValueType := ⟨sub⟩
instance : Mul ValueType := ⟨mul⟩
instance : Div ValueType := ⟨div⟩
instance : Neg ValueType := ⟨neg⟩

/-- The C++ comparison `a < b`: false when either side is `nan`. -/
def lt : ValueType → ValueType → Bool
  | num a, num b => decide (a < b)
  | _, _ => false

/-- The C++ comparison `a <= b`: false when either side is `nan`. -/
def le : ValueType → ValueType → Bool
  | num a, num b => decide (a ≤ b)
  | _, _ => false

/-- The C++ comparison `a > b`. -/
def gt (a b : ValueType) : Bool := lt b a

/-- The C++ comparison `a >= b`. -/
def ge (a b : ValueType) : Bool := le b a

/-- The C++ comparison `a == b`: false when either side is `nan`. -/
def eq : ValueType → ValueType → Bool
  | num a, num b => decide (a = b)
  | _, _ => false

/-- The C++ comparison `a != b`: true when either side is `nan`, so that
`x != x` is the test for `nan` used by the kernels. -/
def ne (a b : ValueType) : Bool := !(eq a b)

/-- The value is `nan`. -/
def isNan : ValueType → Bool
  | nan => true
  | num _ => false

/-- The rational value, `0` for `nan`. -/
def toRat : ValueType → ℚ
  | num a => a
  | nan => 0

/-- The builtin `fmax`: a `nan` argument is dropped. -/
def fmax : ValueType → ValueType → ValueType
  | num a, num b => if a < b then num b else num a
  | nan, y => y
  | x, nan => x

/-- The builtin `fmin`: a `nan` argument is dropped. -/
def fmin : ValueType → ValueType → ValueType
  | num a, num b => if b < a then num b else num a
  | nan, y => y
  | x, nan => x

/-- The builtin `min(x, y)`: `y` if `y < x`, otherwise `x`. -/
def min (x y : ValueType) : ValueType := if lt y x then y else x

/-- The builtin `fabs`. -/
def fabs : ValueType → ValueType
  | num a => num |a|
  | nan => nan

/-- Sign of a rational: `1`, `0` or `-1`. -/
def signRat (a : ℚ) : ℚ := if 0 < a then 1 else if a < 0 then -1 else 0

/-- The builtin `sign`: `1` above zero, `-1` below, `0` at zero and at `nan`. -/
def sign : ValueType → ValueType
  | num a => num (signRat a)
  | nan => num 0

/-- A library function of one argument (`sqrt`) lifted to `ValueType`: `nan` at
`nan` and at negative arguments. -/
def liftSqrt (f : ℚ → ℚ) : ValueType → ValueType
  | num a => if a < 0 then nan else num (f a)
  | nan => nan

/-- A library function of two arguments (`pow`) lifted to `ValueType`. -/
def lift2 (f : ℚ → ℚ → ℚ) : ValueType → ValueType → ValueType
  | num a, num b => num (f a b)
  | _, _ => nan

end ValueType

open ValueType (num nan)

/-- The library functions the kernels call that have no rational definition. -/
structure Builtins where
  sqrt : ℚ → ℚ
  pow : ℚ → ℚ → ℚ

/-! ## Fields -/

/-- A field: one scalar per mesh object, indexed by the linear object id. -/
abbrev MeshField := Nat → ValueType

/-- A vector of `N` fields over the same mesh objects (`FieldVector`). -/
abbrev FieldVector (N : Nat) := Fin N → MeshField

/-- The solution state `U = (h, u, v)` (`SVSolver::SolutionState`). -/
abbrev SolutionState := FieldVector 3

/-- A kernel submission over the index range `[0, n)`: item `i` of the range is
written with `kernel i`, every other entry keeps its value. -/
def parallel_for {N : Nat} (n : Nat) (kernel : Nat → Fin N → ValueType)
    (old : FieldVector N) : FieldVector N :=
  fun k i => if i < n then kernel i k else old k i

/-! ## Mesh (`Meshes/Cartesian2DMesh.hpp`) -/

/-- The uniform Cartesian mesh: cell counts, origin and cell size per axis.
Indices are `size_t` in the source; they are natural numbers here (no cell
exists when a count is `0`, so the one subtraction `ncells - 1` never wraps at
a cell). -/
structure Cartesian2DMesh where
  ncells_0 : Nat
  ncells_1 : Nat
  origin_0 : ℚ
  origin_1 : ℚ
  cell_size_0 : ℚ
  cell_size_1 : ℚ

namespace Cartesian2DMesh

/-- The method `cell_count`, that is `object_count<Cell>`. -/
def cell_count (m : Cartesian2DMesh) : Nat := m.ncells_0 * m.ncells_1

/-- The method `face_count`, that is `object_count<Face>`. -/
def face_count (m : Cartesian2DMesh) : Nat :=
  (m.ncells_0 + 1) * m.ncells_1 + m.ncells_0 * (m.ncells_1 + 1)

/-- The method `get_cell_index`. -/
def get_cell_index (m : Cartesian2DMesh) (linear_id : Nat) : Nat × Nat :=
  (linear_id % m.ncells_0, linear_id / m.ncells_0)

/-- The method `get_cell_linear_id`. -/
def get_cell_linear_id (m : Cartesian2DMesh) (index : Nat × Nat) : Nat :=
  index.2 * m.ncells_0 + index.1

/-- The method `get_cells_around_face`: the cells left/right of a vertical face
or below/above a horizontal one, `face_count` standing for an absent cell. -/
def get_cells_around_face (m : Cartesian2DMesh) (face_id : Nat) : Nat × Nat :=
  if face_id < (m.ncells_0 + 1) * m.ncells_1 then
    let fyid := face_id / (m.ncells_0 + 1)
    let fxid := face_id % (m.ncells_0 + 1)
    if fxid < m.ncells_0 then
      if fxid > 0 then
        (m.get_cell_linear_id (fxid - 1, fyid), m.get_cell_linear_id (fxid, fyid))
      else
        (m.face_count, m.get_cell_linear_id (fxid, fyid))
    else
      (m.get_cell_linear_id (fxid - 1, fyid), m.face_count)
  else
    let local_id := face_id - (m.ncells_0 + 1) * m.ncells_1
    let fyid := local_id / m.ncells_0
    let fxid := local_id % m.ncells_0
    if fyid < m.ncells_1 then
      if fyid > 0 then
        (m.get_cell_linear_id (fxid, fyid - 1), m.get_cell_linear_id (fxid, fyid))
      else
        (m.face_count, m.get_cell_linear_id (fxid, fyid))
    else
      (m.get_cell_linear_id (fxid, fyid - 1), m.face_count)

/-- The method `get_faces_around_cell`: the face ids `(W, E, S, N)`. -/
def get_faces_around_cell (m : Cartesian2DMesh) (cell_index : Nat × Nat) :
    Nat × Nat × Nat × Nat :=
  let w := cell_index.2 * (m.ncells_0 + 1) + cell_index.1
  let e := w + 1
  let s := (m.ncells_0 + 1) * m.ncells_1 + cell_index.2 * m.ncells_0 + cell_index.1
  let n := s + m.ncells_0
  (w, e, s, n)

end Cartesian2DMesh

/-! ## Minmod reconstruction
(`SpatialDerivatives/Minmod/Kernels/Cartesian2DMeshCell2CellKernel.hpp`) -/

/-- The limiter `minmod3(a, b, c)`. -/
def minmod3 (a b c : ValueType) : ValueType :=
  let mm := num (1 / 2) * (a.sign + b.sign) * ValueType.min a.fabs b.fabs
  num (1 / 2) * (mm.sign + c.sign) * ValueType.min mm.fabs c.fabs

/-- The neighbour ids `(cid_w, cid_e, cid_s, cid_n)` computed at the head of the
Minmod kernel: the adjacent cell, or the cell itself where the mesh ends. -/
def minmodNeighbours (mesh_ : Cartesian2DMesh) (cid_c : Nat) : Nat × Nat × Nat × Nat :=
  let cidx_c := mesh_.get_cell_index cid_c
  let cid_w := if cidx_c.1 > 0 then mesh_.get_cell_linear_id (cidx_c.1 - 1, cidx_c.2) else cid_c
  let cid_e := if cidx_c.1 < mesh_.ncells_0 - 1 then
    mesh_.get_cell_linear_id (cidx_c.1 + 1, cidx_c.2) else cid_c
  let cid_s := if cidx_c.2 > 0 then mesh_.get_cell_linear_id (cidx_c.1, cidx_c.2 - 1) else cid_c
  let cid_n := if cidx_c.2 < mesh_.ncells_1 - 1 then
    mesh_.get_cell_linear_id (cidx_c.1, cidx_c.2 + 1) else cid_c
  (cid_w, cid_e, cid_s, cid_n)

/-- The substitution `if (Un != Un) Un = Uc` of the Minmod kernel: a `nan`
neighbour value is replaced by the centre value. -/
def orCentre (Un Uc : ValueType) : ValueType := if Un.ne Un then Uc else Un

/-- The kernel `MinmodCartesian2DMeshCell2CellSpatialDerivativeKernel::operator()`
at cell `cid_c` for component `i`: the pair `(dUdx[i][cid_c], dUdy[i][cid_c])`. -/
def MinmodKernel {N : Nat} (mesh_ : Cartesian2DMesh) (theta_ : ValueType)
    (U_ro_ : FieldVector N) (cid_c : Nat) (i : Fin N) : ValueType × ValueType :=
  let ids := minmodNeighbours mesh_ cid_c
  let U := U_ro_ i
  let Uc := U cid_c
  let Uw := orCentre (U ids.1) Uc
  let Ue := orCentre (U ids.2.1) Uc
  let Us := orCentre (U ids.2.2.1) Uc
  let Un := orCentre (U ids.2.2.2) Uc
  let cell_size_0 := num mesh_.cell_size_0
  let cell_size_1 := num mesh_.cell_size_1
  (minmod3 (theta_ * (Uc - Uw) / cell_size_0)
           (theta_ * (Ue - Uc) / cell_size_0)
           (num (1 / 2) * (Ue - Uw) / cell_size_0),
   minmod3 (theta_ * (Uc - Us) / cell_size_1)
           (theta_ * (Un - Uc) / cell_size_1)
           (num (1 / 2) * (Un - Us) / cell_size_1))

/-! ## Flux solver
(`FluxFunctions/SV/Kernels/Cartesian2DMeshCell2FaceKernel.hpp`) -/

/-- Lines 231-328 of the flux kernel: from the states projected to the two
sides of a face (`m` upstream, `p` downstream) to the four face outputs
`(Hh, Hu, Hv, dz_f)`.  The arguments `xdir`, `ydir` are the `int` flags of the
source used as factors. -/
def faceFlux (B : Builtins) (xdir ydir : ValueType)
    (z_m z_p h_m h_p u_m u_p v_m v_p : ValueType) : Fin 4 → ValueType :=
  let z_f := ValueType.fmax z_m z_p
  let h_m := ValueType.fmax h_m (num 0)
  let h_p := ValueType.fmax h_p (num 0)
  let y_m := z_m + h_m
  let y_p := z_p + h_p
  let c_m := ValueType.liftSqrt B.sqrt (num (981 / 100) * h_m)
  let c_p := ValueType.liftSqrt B.sqrt (num (981 / 100) * h_p)
  let dz_f := z_p - z_m
  if y_m.gt z_f || y_p.gt z_f then
    let spd_p := u_p * xdir + v_p * ydir
    let spd_m := u_m * xdir + v_m * ydir
    let Fh_m := h_m * spd_m
    let Fh_p := h_p * spd_p
    let Fu_m := u_m * ((num 1 - num (1 / 2) * xdir) * spd_m) + num (981 / 100) * h_m * xdir
    let Fu_p := u_p * ((num 1 - num (1 / 2) * xdir) * spd_p) + num (981 / 100) * h_p * xdir
    let Fv_m := v_m * ((num 1 - num (1 / 2) * ydir) * spd_m) + num (981 / 100) * h_m * ydir
    let Fv_p := v_p * ((num 1 - num (1 / 2) * ydir) * spd_p) + num (981 / 100) * h_p * ydir
    let a := ValueType.fmax (spd_p + spd_p.sign * c_p).fabs (spd_m + spd_m.sign * c_m).fabs
    let Hh := num (1 / 2) * (Fh_p + Fh_m) - num (1 / 2) * a * (h_p - h_m)
    let Hu := num (1 / 2) * (Fu_p + Fu_m) - num (1 / 2) * a * (u_p - u_m)
    let Hv := num (1 / 2) * (Fv_p + Fv_m) - num (1 / 2) * a * (v_p - v_m)
    ![Hh, Hu, Hv, dz_f]
  else if h_m.le (num 0) && h_p.le (num 0) then
    ![num 0, num 0, num 0, dz_f]
  else if z_m.gt z_p then
    let spd := u_m * xdir + v_m * ydir
    let Fh := h_m * spd
    let Fu := u_m * (num (1 / 2) * spd) + num (981 / 100) * h_m * xdir
    let Fv := v_m * (num (1 / 2) * spd) + num (981 / 100) * h_m * ydir
    let a := (spd + spd.sign * c_m).fabs
    let Hh := Fh - num (1 / 2) * a * -h_m
    let Hu := Fu - num (1 / 2) * a * -u_m
    let Hv := Fv - num (1 / 2) * a * -v_m
    ![Hh, Hu, Hv, dz_f]
  else
    let spd := u_p * xdir + v_p * ydir
    let Fh := h_p * spd
    let Fu := u_p * (num (1 / 2) * spd) + num (981 / 100) * h_p * xdir
    let Fv := v_p * (num (1 / 2) * spd) + num (981 / 100) * h_p * ydir
    let a := (spd + spd.sign * c_p).fabs
    let Hh := Fh - num (1 / 2) * a * h_p
    let Hu := Fu - num (1 / 2) * a * u_p
    let Hv := Fv - num (1 / 2) * a * v_p
    ![Hh, Hu, Hv, dz_f]

/-- The `int` factor `(cond ? 0 : 1)` of the flux kernel. -/
def zeroIf (cond : Bool) : ValueType := if cond then num 0 else num 1

/-- Lines 73-91 of the flux kernel: the ids of the cells on the two sides of face
`fid` and the mesh-edge flag `edge` (`-1` if the left cell is absent, `1` if the
right cell is absent, in which case both ids are those of the one real cell). -/
def faceSides (mesh_ : Cartesian2DMesh) (fid : Nat) : Nat × Nat × Int :=
  let adjacent_cells := mesh_.get_cells_around_face fid
  if adjacent_cells.1 < mesh_.cell_count then
    if adjacent_cells.2 < mesh_.cell_count then (adjacent_cells.1, adjacent_cells.2, 0)
    else (adjacent_cells.1, adjacent_cells.1, 1)
  else (adjacent_cells.2, adjacent_cells.2, -1)

/-- Lines 125-329 of the flux kernel, after the ids and the edge flag are settled:
gather the two cell states (a fake side is zeroed), raise the ghost bed of a fake
side, project to the face and evaluate `faceFlux`.  `zb_L`, `zb_R` are the bed
levels read before the activity check. -/
def fluxFromSides (B : Builtins) (mesh_ : Cartesian2DMesh) (U_ro_ zb_ro_ : FieldVector 3)
    (dUdx_ro_ dUdy_ro_ : FieldVector 3) (xd : Bool) (lhs_id rhs_id : Nat) (edge : Int)
    (zb_L zb_R : ValueType) : Fin 4 → ValueType :=
  let dx := num mesh_.cell_size_0
  let dy := num mesh_.cell_size_1
  let yd : Bool := !xd
  let xdir : ValueType := if xd then num 1 else num 0
  let ydir : ValueType := if xd then num 0 else num 1
  let h_L := U_ro_ 0 lhs_id * zeroIf (decide (edge < 0))
  let h_R := U_ro_ 0 rhs_id * zeroIf (decide (edge > 0))
  let u_L := U_ro_ 1 lhs_id * zeroIf (decide (edge < 0) && xd)
  let u_R := U_ro_ 1 rhs_id * zeroIf (decide (edge > 0) && xd)
  let v_L := U_ro_ 2 lhs_id * zeroIf (decide (edge < 0) && yd)
  let v_R := U_ro_ 2 rhs_id * zeroIf (decide (edge > 0) && yd)
  let dhdx_L := dUdx_ro_ 0 lhs_id * zeroIf (decide (edge < 0))
  let dhdx_R := dUdx_ro_ 0 rhs_id * zeroIf (decide (edge > 0))
  let dhdy_L := dUdy_ro_ 0 lhs_id * zeroIf (decide (edge < 0))
  let dhdy_R := dUdy_ro_ 0 rhs_id * zeroIf (decide (edge > 0))
  let dudx_L := dUdx_ro_ 1 lhs_id * zeroIf (decide (edge < 0) && xd)
  let dudx_R := dUdx_ro_ 1 rhs_id * zeroIf (decide (edge > 0) && xd)
  let dudy_L := dUdy_ro_ 1 lhs_id * zeroIf (decide (edge < 0) && xd)
  let dudy_R := dUdy_ro_ 1 rhs_id * zeroIf (decide (edge > 0) && xd)
  let dvdx_L := dUdx_ro_ 2 lhs_id * zeroIf (decide (edge < 0) && yd)
  let dvdx_R := dUdx_ro_ 2 rhs_id * zeroIf (decide (edge > 0) && yd)
  let dvdy_L := dUdy_ro_ 2 lhs_id * zeroIf (decide (edge < 0) && yd)
  let dvdy_R := dUdy_ro_ 2 rhs_id * zeroIf (decide (edge > 0) && yd)
  let dzdx_L := zb_ro_ 1 lhs_id * zeroIf (decide (edge < 0))
  let dzdx_R := zb_ro_ 1 rhs_id * zeroIf (decide (edge > 0))
  let dzdy_L := zb_ro_ 2 lhs_id * zeroIf (decide (edge < 0))
  let dzdy_R := zb_ro_ 2 rhs_id * zeroIf (decide (edge > 0))
  let zb_L := if edge < 0 then zb_R + h_R * num (11 / 10) else zb_L
  let zb_R := if edge > 0 then zb_L + h_L * num (11 / 10) else zb_R
  let z_m := zb_L + num (1 / 2) * dx * dzdx_L * xdir + num (1 / 2) * dy * dzdy_L * ydir
  let z_p := zb_R + num (-1 / 2) * dx * dzdx_R * xdir + num (-1 / 2) * dy * dzdy_R * ydir
  let h_m := h_L + num (1 / 2) * dx * dhdx_L * xdir + num (1 / 2) * dy * dhdy_L * ydir
  let h_p := h_R + num (-1 / 2) * dx * dhdx_R * xdir + num (-1 / 2) * dy * dhdy_R * ydir
  let u_m := u_L + num (1 / 2) * dx * dudx_L * xdir + num (1 / 2) * dy * dudy_L * ydir
  let u_p := u_R + num (-1 / 2) * dx * dudx_R * xdir + num (-1 / 2) * dy * dudy_R * ydir
  let v_m := v_L + num (1 / 2) * dx * dvdx_L * xdir + num (1 / 2) * dy * dvdy_L * ydir
  let v_p := v_R + num (-1 / 2) * dx * dvdx_R * xdir + num (-1 / 2) * dy * dvdy_R * ydir
  faceFlux B xdir ydir z_m z_p h_m h_p u_m u_p v_m v_p

/-- The kernel `SVCartesian2DMeshCell2FaceFluxFunctionKernel::operator()` at face
`fid`: the four values written to `F[0..3][fid]`.  A face is vertical (flow in
the x-direction) when `fid < (nx + 1) * ny`.  When both bed levels are `nan` the
flux is zero; when one is, the face is set up like a mesh edge on that side. -/
def FluxKernel (B : Builtins) (mesh_ : Cartesian2DMesh) (U_ro_ zb_ro_ : FieldVector 3)
    (dUdx_ro_ dUdy_ro_ : FieldVector 3) (fid : Nat) : Fin 4 → ValueType :=
  let ids := faceSides mesh_ fid
  let lhs_id := ids.1
  let rhs_id := ids.2.1
  let edge := ids.2.2
  let xd : Bool := decide (fid < (mesh_.ncells_0 + 1) * mesh_.ncells_1)
  let zb_L := zb_ro_ 0 lhs_id
  let zb_R := zb_ro_ 0 rhs_id
  if zb_L.ne zb_L && zb_R.ne zb_R then
    ![num 0, num 0, num 0, num 0]
  else if zb_L.ne zb_L then
    fluxFromSides B mesh_ U_ro_ zb_ro_ dUdx_ro_ dUdy_ro_ xd rhs_id rhs_id (-1) zb_L zb_R
  else if zb_R.ne zb_R then
    fluxFromSides B mesh_ U_ro_ zb_ro_ dUdx_ro_ dUdy_ro_ xd lhs_id lhs_id 1 zb_L zb_R
  else
    fluxFromSides B mesh_ U_ro_ zb_ro_ dUdx_ro_ dUdy_ro_ xd lhs_id rhs_id edge zb_L zb_R

/-! ## Temporal derivative
(`TemporalDerivatives/SV/Kernels/Cartesian2DMeshCellKernel.hpp`) -/

/-- The builtin `clamp(x, minval, maxval) = fmin(fmax(x, minval), maxval)`. -/
def clamp (x minval maxval : ValueType) : ValueType :=
  ValueType.fmin (ValueType.fmax x minval) maxval

/-- The builtin `mix(x, y, a) = x + (y - x) * a`. -/
def mix (x y a : ValueType) : ValueType := x + (y - x) * a

/-- The builtin `smoothstep(edge0, edge1, x)`. -/
def smoothstep (edge0 edge1 x : ValueType) : ValueType :=
  let t := clamp ((x - edge0) / (edge1 - edge0)) (num 0) (num 1)
  t * t * (num 3 - num 2 * t)

/-- The friction limiter applied to `dudt_f` (and to `dvdt_f`): the estimate when
the friction term has its sign and exceeds it, zero when it has its sign and
does not exceed it, the term itself otherwise. -/
def limitFriction (dudt_f u_estimate : ValueType) : ValueType :=
  if dudt_f.sign.eq u_estimate.sign && dudt_f.fabs.gt u_estimate.fabs then u_estimate
  else if dudt_f.sign.eq u_estimate.sign then num 0
  else dudt_f

/-- Lines 170-184 of the temporal-derivative kernel: Manning's `n` blended between
the two configured values by a smoothstep in depth, and the friction slope `sf`
(zero unless `h > 1e-6`). -/
def frictionSlope (B : Builtins) (U_ro_ : FieldVector 3) (n_ro_ : FieldVector 4)
    (cell_c : Nat) : ValueType :=
  let manning_n := mix (n_ro_ 0 cell_c) (n_ro_ 2 cell_c)
    (smoothstep (n_ro_ 1 cell_c) (n_ro_ 3 cell_c) (U_ro_ 0 cell_c))
  if (U_ro_ 0 cell_c).gt (num (1 / 1000000)) then
    let inv_h := U_ro_ 0 cell_c / (U_ro_ 0 cell_c * U_ro_ 0 cell_c + num (1 / 1000))
    manning_n * manning_n
      * ValueType.liftSqrt B.sqrt
          (U_ro_ 1 cell_c * U_ro_ 1 cell_c + U_ro_ 2 cell_c * U_ro_ 2 cell_c)
      * ValueType.lift2 B.pow inv_h (num (1333333 / 1000000))
  else num 0

/-- Lines 103-128 of the temporal-derivative kernel for one axis (the code for
`dudt_bed` and `dvdt_bed` is the same with `x, W, E` replaced by `y, S, N`): the
bed slope `dzd`, limited in magnitude by `h / d`, gives the force `-9.81 dzd`; a
wall datum `F3lo < 0` at the lower face adds `-9.81 fmax(F3lo, -h) / d` and a
wall datum `F3hi > 0` at the upper face adds `-9.81 fmin(F3hi, h) / d`. -/
def bedAndWallSource (dzd F3lo F3hi h d : ValueType) : ValueType :=
  let dzd := if dzd.fabs.gt (h / d) then dzd.sign * h / d else dzd
  let bed := num (-981 / 100) * dzd
  let bed := if F3lo.lt (num 0) then
    bed + num (-981 / 100) * ValueType.fmax F3lo (-h) / d else bed
  let bed := if F3hi.gt (num 0) then
    bed + num (-981 / 100) * ValueType.fmin F3hi h / d else bed
  bed

/-- Lines 186-207 of the temporal-derivative kernel for one velocity component
(the code for `u` and `v` is the same): the friction term `9.81 sf u` is limited
against the half-step estimate and subtracted from the rate. -/
def applyFriction (u dudt sf timestep_ : ValueType) : ValueType :=
  let u_estimate := u + dudt * num (1 / 2) * timestep_
  let dudt_f := limitFriction (num (981 / 100) * sf * u) u_estimate
  dudt - dudt_f

/-- The kernel `SVCartesian2DMeshCellTemporalDerivativeKernel::operator()` at cell
`cell_c`: the three values written to `dUdt[0..2][cell_c]`. -/
def TemporalDerivativeKernel (B : Builtins) (mesh_ : Cartesian2DMesh)
    (U_ro_ zb_ro_ : FieldVector 3) (n_ro_ : FieldVector 4) (Q_in_ro_ h_in_ro_ : FieldVector 2)
    (F_ro_ : FieldVector 4) (time_now_ timestep_ bdy_t0_ bdy_t1_ : ValueType)
    (cell_c : Nat) : Fin 3 → ValueType :=
  let cell_index := mesh_.get_cell_index cell_c
  let face_list := mesh_.get_faces_around_cell cell_index
  let fid_W := face_list.1
  let fid_E := face_list.2.1
  let fid_S := face_list.2.2.1
  let fid_N := face_list.2.2.2
  let dx := num mesh_.cell_size_0
  let dy := num mesh_.cell_size_1
  let dhdt := (F_ro_ 0 fid_W - F_ro_ 0 fid_E) / dx + (F_ro_ 0 fid_S - F_ro_ 0 fid_N) / dy
  let dudt := (F_ro_ 1 fid_W - F_ro_ 1 fid_E) / dx + (F_ro_ 1 fid_S - F_ro_ 1 fid_N) / dy
  let dvdt := (F_ro_ 2 fid_W - F_ro_ 2 fid_E) / dx + (F_ro_ 2 fid_S - F_ro_ 2 fid_N) / dy
  -- bed slope and wall sources
  let dudt_bed := bedAndWallSource (zb_ro_ 1 cell_c) (F_ro_ 3 fid_W) (F_ro_ 3 fid_E)
    (U_ro_ 0 cell_c) dx
  let dvdt_bed := bedAndWallSource (zb_ro_ 2 cell_c) (F_ro_ 3 fid_S) (F_ro_ 3 fid_N)
    (U_ro_ 0 cell_c) dy
  let dudt := dudt + dudt_bed
  let dvdt := dvdt + dvdt_bed
  -- inflow boundary
  let Q_0 := Q_in_ro_ 0 cell_c
  let Q_1 := Q_in_ro_ 1 cell_c
  let dQ_dt := (Q_1 - Q_0) / (bdy_t1_ - bdy_t0_)
  let Q_now := Q_0 + (time_now_ - bdy_t0_) * dQ_dt
  let Q_next := Q_now + timestep_ * dQ_dt
  let dhdt_source := num (1 / 2) * (Q_now + Q_next) / (dx * dy)
  -- stage boundary
  let h_0 := h_in_ro_ 0 cell_c
  let h_boundary :=
    if h_0.lt (num 0) then num (-1)
    else
      let h_1 := h_in_ro_ 1 cell_c
      let dh_dt := (h_1 - h_0) / (bdy_t1_ - bdy_t0_)
      let h_now := h_0 + (time_now_ - bdy_t0_) * dh_dt
      let h_next := h_now + timestep_ * dh_dt
      num (1 / 2) * (h_now + h_next)
  let dhdt := if h_boundary.ge (num 0) then h_boundary - U_ro_ 0 cell_c else dhdt + dhdt_source
  -- friction
  let sf := frictionSlope B U_ro_ n_ro_ cell_c
  let dudt := applyFriction (U_ro_ 1 cell_c) dudt sf timestep_
  let dvdt := applyFriction (U_ro_ 2 cell_c) dvdt sf timestep_
  ![dhdt, dudt, dvdt]

/-! ## Control number (`ControlNumbers/SV/Cartesian2DMeshCell.hpp`) -/

/-- The per-cell value combined by the reduction in `SVControlNumber::calculate`. -/
def controlNumberAt (B : Builtins) (mesh_ : Cartesian2DMesh) (U_ro : SolutionState)
    (timestep : ValueType) (id : Nat) : ValueType :=
  let dx := num mesh_.cell_size_0
  let dy := num mesh_.cell_size_1
  let h := ValueType.fmax (U_ro 0 id) (num 0)
  let u := (U_ro 1 id).fabs
  let v := (U_ro 2 id).fabs
  let c := ValueType.liftSqrt B.sqrt (num (981 / 100) * h)
  timestep * (((u + c) / dx) + ((v + c) / dy))

/-- The combiner `sycl::maximum<T>`: the larger value, the first when neither
compares larger. -/
def maximum (x y : ValueType) : ValueType := if x.lt y then y else x

/-- The method `SVControlNumber::calculate`: the `maximum` reduction over all
cells, started from `mcn = 0` and combined in cell order. -/
def SVControlNumber.calculate (B : Builtins) (mesh_ : Cartesian2DMesh) (U : SolutionState)
    (timestep : ValueType) : ValueType :=
  (List.range mesh_.cell_count).foldl
    (fun acc id => maximum acc (controlNumberAt B mesh_ U timestep id)) (num 0)

/-! ## Solver (`SVSolver.hpp`) -/

/-- The data members of `SVSolver`: the mesh, the constants `zbed_ = (zb, dzb/dx,
dzb/dy)` and `manning_n_`, the temporaries `dUdx_`, `dUdy_`, `flux_` and the
boundary field vectors `Q_in_`, `h_in_`. -/
structure SVSolver where
  mesh_ : Cartesian2DMesh
  zbed_ : FieldVector 3
  manning_n_ : FieldVector 4
  dUdx_ : FieldVector 3
  dUdy_ : FieldVector 3
  flux_ : FieldVector 4
  Q_in_ : FieldVector 2
  h_in_ : FieldVector 2

/-- `MinmodSpatialDerivative::calculate` with `theta_ = 2`: the kernel over all
cells, giving the new `(dUdx, dUdy)`. -/
def MinmodSpatialDerivative.calculate (mesh_ : Cartesian2DMesh) (U dUdx dUdy : FieldVector 3) :
    FieldVector 3 × FieldVector 3 :=
  (parallel_for mesh_.cell_count (fun c i => (MinmodKernel mesh_ (num 2) U c i).1) dUdx,
   parallel_for mesh_.cell_count (fun c i => (MinmodKernel mesh_ (num 2) U c i).2) dUdy)

/-- `SVFluxFunction::calculate`: the flux kernel over all faces. -/
def SVFluxFunction.calculate (B : Builtins) (mesh_ : Cartesian2DMesh) (U zb dUdx dUdy : FieldVector 3)
    (F : FieldVector 4) : FieldVector 4 :=
  parallel_for mesh_.face_count (FluxKernel B mesh_ U zb dUdx dUdy) F

/-- `SVTemporalDerivative::calculate`: the temporal-derivative kernel over all
cells. -/
def SVTemporalDerivative.calculate (B : Builtins) (mesh_ : Cartesian2DMesh)
    (U zb : FieldVector 3) (n : FieldVector 4) (Q_in h_in : FieldVector 2) (flux : FieldVector 4)
    (dUdt : FieldVector 3) (time_now timestep bdy_t0 bdy_t1 : ValueType) : FieldVector 3 :=
  parallel_for mesh_.cell_count
    (TemporalDerivativeKernel B mesh_ U zb n Q_in h_in flux time_now timestep bdy_t0 bdy_t1) dUdt

/-- The method `SVSolver::update_ddt`: reconstruction, fluxes, temporal
derivative.  The temporaries of the solver are overwritten; the new derivative
field vector is returned with the solver. -/
def SVSolver.update_ddt (B : Builtins) (sv : SVSolver) (U dUdt : SolutionState)
    (time_now timestep bdy_t0 bdy_t1 : ValueType) : SVSolver × SolutionState :=
  let d := MinmodSpatialDerivative.calculate sv.mesh_ U sv.dUdx_ sv.dUdy_
  let flux := SVFluxFunction.calculate B sv.mesh_ U sv.zbed_ d.1 d.2 sv.flux_
  let dUdt := SVTemporalDerivative.calculate B sv.mesh_ U sv.zbed_ sv.manning_n_ sv.Q_in_
    sv.h_in_ flux dUdt time_now timestep bdy_t0 bdy_t1
  ({ sv with dUdx_ := d.1, dUdy_ := d.2, flux_ := flux }, dUdt)

/-- The method `SVSolver::get_control_number`. -/
def SVSolver.get_control_number (B : Builtins) (sv : SVSolver) (U : SolutionState)
    (timestep : ValueType) : ValueType :=
  SVControlNumber.calculate B sv.mesh_ U timestep

/-! ## Runge-Kutta integrator (`TemporalSchemes/RungeKutta.hpp`) -/

/-- The Butcher tableau of an `S`-stage scheme: `a_` has `S+1` rows of `S`
entries, `c_` has `S` entries (`RungeKuttaCoefficientSet<S>`). -/
structure RungeKuttaCoefficientSet where
  S : Nat
  a_ : List (List ℚ)
  c_ : List ℚ

/-- Accessor `a(i, j)`. -/
def RungeKuttaCoefficientSet.a (cs : RungeKuttaCoefficientSet) (i j : Nat) : ValueType :=
  num ((cs.a_.getD i []).getD j 0)

/-- Accessor `c(i)`. -/
def RungeKuttaCoefficientSet.c (cs : RungeKuttaCoefficientSet) (i : Nat) : ValueType :=
  num (cs.c_.getD i 0)

/-- The accumulation loop of `RungeKuttaStep::operator()` for one component:
starting from `U[vec_id][item]`, add `timestep * a(step, i) * dUdt[i][vec_id][item]`
for `i = 0 .. step-1` in this order. -/
def rkAccumulate (cs : RungeKuttaCoefficientSet) (step : Nat) (timestep : ValueType)
    (U : SolutionState) (dUdt : Nat → SolutionState) (vec_id : Fin 3) (item : Nat) :
    ValueType :=
  (List.range step).foldl
    (fun acc i => acc + timestep * cs.a step i * dUdt i vec_id item) (U vec_id item)

/-- The kernel `RungeKuttaStep::operator()` at one cell: the three components of
`Ustar` after the accumulation loop and the non-negativity clamp. -/
def RungeKuttaStep (cs : RungeKuttaCoefficientSet) (step : Nat) (timestep : ValueType)
    (U : SolutionState) (dUdt : Nat → SolutionState) (item : Nat) : Fin 3 → ValueType :=
  let Ustar : Fin 3 → ValueType := fun vec_id => rkAccumulate cs step timestep U dUdt vec_id item
  if (Ustar 0).lt (num 0) then
    fun _ => num 0
  else if (Ustar 0).lt (num (1 / 10000)) then
    fun vec_id => if vec_id = 0 then Ustar 0 else num 0
  else
    Ustar

/-- The data members of `RungeKuttaTemporalScheme<SVSolver, S>`: the solver and
the state `U_` (inherited from `TemporalScheme`), the coefficients, the
candidate `Ustar_` and the stage derivatives `dUdt_`. -/
structure RungeKuttaTemporalScheme where
  solver_ : SVSolver
  U_ : SolutionState
  coeffs_ : RungeKuttaCoefficientSet
  Ustar_ : SolutionState
  dUdt_ : Nat → SolutionState

/-- The constructor: `U_` is the initial state, `Ustar_` and every `dUdt_[i]` are
duplicates of it. -/
def RungeKuttaTemporalScheme.create (solver : SVSolver) (initial_state : SolutionState)
    (coeffs : RungeKuttaCoefficientSet) : RungeKuttaTemporalScheme :=
  { solver_ := solver, U_ := initial_state, coeffs_ := coeffs, Ustar_ := initial_state,
    dUdt_ := fun _ => initial_state }

/-- The method `update_Ustar(step, ...)`: run the `RungeKuttaStep` kernel over all
cells, then, for `step < S`, store `update_ddt(Ustar_, t + c(step) * dt, ...)`
in `dUdt_[step]`. -/
def RungeKuttaTemporalScheme.update_Ustar (B : Builtins) (s : RungeKuttaTemporalScheme)
    (step : Nat) (time_now timestep bdy_t0 bdy_t1 : ValueType) : RungeKuttaTemporalScheme :=
  let Ustar := parallel_for s.solver_.mesh_.cell_count
    (RungeKuttaStep s.coeffs_ step timestep s.U_ s.dUdt_) s.Ustar_
  let s1 := { s with Ustar_ := Ustar }
  if step < s.coeffs_.S then
    let r := s.solver_.update_ddt B Ustar (s.dUdt_ step)
      (time_now + s.coeffs_.c step * timestep) timestep bdy_t0 bdy_t1
    { s1 with solver_ := r.1, dUdt_ := fun i => if i = step then r.2 else s.dUdt_ i }
  else s1

/-- The method `step`: `update_Ustar(st, ...)` for `st = 0 .. S`. -/
def RungeKuttaTemporalScheme.step (B : Builtins) (s : RungeKuttaTemporalScheme)
    (time_now timestep bdy_t0 bdy_t1 : ValueType) : RungeKuttaTemporalScheme :=
  (List.range (s.coeffs_.S + 1)).foldl
    (fun acc st => acc.update_Ustar B st time_now timestep bdy_t0 bdy_t1) s

/-- The method `accept_step`: swap `U_` and `Ustar_`. -/
def RungeKuttaTemporalScheme.accept_step (s : RungeKuttaTemporalScheme) :
    RungeKuttaTemporalScheme :=
  { s with U_ := s.Ustar_, Ustar_ := s.U_ }

/-! ## Time-step controller (`TemporalScheme.hpp`) -/

/-- The local variables of `TemporalScheme::inner_loop` that live across
iterations of its `while (true)` loop, with the scheme object and the step size
`dt` (a reference parameter).  Console output is not modelled. -/
structure InnerLoopState where
  scheme : RungeKuttaTemporalScheme
  dt : ValueType
  repeated_step_count : Nat
  local_repeat_count : Nat
  inner_steps : Nat
  t_local : ValueType

/-- How one iteration of the loop ends: the loop goes on with a new state, the
function returns (interval consumed), or `Too many repeated steps` is thrown. -/
inductive Outcome where
  | running : InnerLoopState → Outcome
  | returned : InnerLoopState → Outcome
  | too_many_repeated_steps : Outcome

/-- The control number `comax` computed in one iteration of the loop: `step`
is run with the proposed `dt`, then `get_control_number(U_, dt)` is read. -/
def proposedControlNumber (B : Builtins) (t_start t_end : ValueType) (st : InnerLoopState) :
    ValueType :=
  let t_now := t_start + st.t_local
  let scheme := st.scheme.step B t_now st.dt t_start t_end
  scheme.solver_.get_control_number B scheme.U_ st.dt

/-- One iteration of the `while (true)` loop of `TemporalScheme::inner_loop`. -/
def inner_loop_body (B : Builtins) (max_dt courant_target t_start t_end : ValueType)
    (st : InnerLoopState) : Outcome :=
  let t_local_end := t_end - t_start
  let dt := st.dt
  let t_now := t_start + st.t_local
  let scheme := st.scheme.step B t_now dt t_start t_end
  let comax := scheme.solver_.get_control_number B scheme.U_ dt
  let target_dt := dt
  if comax.gt courant_target then
    let local_repeat_count := st.local_repeat_count + 1
    let repeated_step_count := st.repeated_step_count + 1
    if repeated_step_count ≥ 1000 then Outcome.too_many_repeated_steps
    else
      let target_dt := dt * ValueType.fmax (num (1 / 10))
        (ValueType.fmin (num (9 / 10)) (comax / courant_target))
      Outcome.running
        { st with scheme := scheme, dt := target_dt, repeated_step_count := repeated_step_count,
                  local_repeat_count := local_repeat_count }
  else
    let scheme := scheme.accept_step
    let t_local := st.t_local + dt
    let inner_steps := st.inner_steps + 1
    let target_dt := if comax.lt (num (9 / 10) * courant_target) then
      ValueType.fmin max_dt (dt * num (11 / 10)) else target_dt
    if t_local.ge t_local_end then
      Outcome.returned
        { st with scheme := scheme, local_repeat_count := 0, inner_steps := inner_steps,
                  t_local := t_local }
    else
      let target_dt :=
        if (t_local + target_dt).gt t_local_end then
          let target_dt := t_local_end - t_local
          if inner_steps % 2 = 0 then target_dt * num (6 / 10) else target_dt
        else if (t_local + num (3 / 2) * target_dt).ge t_local_end then
          if inner_steps % 2 = 0 then num (6 / 10) * (t_local_end - t_local)
          else num (35 / 100) * (t_local_end - t_local)
        else target_dt
      Outcome.running
        { st with scheme := scheme, dt := target_dt, local_repeat_count := 0,
                  inner_steps := inner_steps, t_local := t_local }

/-! ## Properties named by the theorems -/

/-- The depth invariant at cell `c` of a state: a depth that is a number is
non-negative, and below the dry threshold `1e-4` both velocities are zero. -/
def DepthInvariant (U : SolutionState) (c : Nat) : Prop :=
  ∀ h : ℚ, U 0 c = num h → 0 ≤ h ∧ (h < 1 / 10000 → U 1 c = num 0 ∧ U 2 c = num 0)

/-- A call made on the scheme by the time-step controller: `step` with its four
arguments (a proposed step) or `accept_step`.  A rejected step is a `propose`
not followed by `accept`. -/
inductive Call where
  | propose : ValueType → ValueType → ValueType → ValueType → Call
  | accept : Call

/-- The scheme after a sequence of calls. -/
def RungeKuttaTemporalScheme.applyCalls (B : Builtins) :
    List Call → RungeKuttaTemporalScheme → RungeKuttaTemporalScheme
  | [], s => s
  | Call.propose time_now timestep bdy_t0 bdy_t1 :: cs, s =>
      applyCalls B cs (s.step B time_now timestep bdy_t0 bdy_t1)
  | Call.accept :: cs, s => applyCalls B cs s.accept_step

/-- A one-cell mesh with unit cells, used to instantiate theorems. -/
def unitMesh : Cartesian2DMesh :=
  { ncells_0 := 1, ncells_1 := 1, origin_0 := 0, origin_1 := 0, cell_size_0 := 1, cell_size_1 := 1 }

/-- A field vector with the same value everywhere. -/
def constFV (N : Nat) (x : ValueType) : FieldVector N := fun _ _ => x

/-- A solver on a mesh with the bed `zb` (zero bed slopes), zero roughness, zero
temporaries, no inflow (`Q_in = 0`) and no stage boundary (`h_in = -1`), as the
constructor and `clear_boundary_conditions` leave them. -/
def closedSolver (mesh : Cartesian2DMesh) (zb : MeshField) : SVSolver :=
  { mesh_ := mesh, zbed_ := fun k => if k = 0 then zb else fun _ => num 0,
    manning_n_ := constFV 4 (num 0), dUdx_ := constFV 3 (num 0), dUdy_ := constFV 3 (num 0),
    flux_ := constFV 4 (num 0), Q_in_ := constFV 2 (num 0), h_in_ := constFV 2 (num (-1)) }

/-- The Euler scheme of `create`: `a = {{0}, {1}}`, `c = {0}`. -/
def eulerCoeffs : RungeKuttaCoefficientSet := { S := 1, a_ := [[0], [1]], c_ := [0] }

/-- Newton's iteration for the integer square root of `n` from `guess`, at most
`fuel` times: the next guess is `(guess + n / guess) / 2`, until it stops
decreasing. -/
def isqrtIter : Nat → Nat → Nat → Nat
  | 0, _, guess => guess
  | fuel + 1, n, guess =>
    let next := (guess + n / guess) / 2
    if next < guess then isqrtIter fuel n next else guess

/-- The integer square root (the iteration started at `n`, which takes fewer than
`n` steps). -/
def isqrt (n : Nat) : Nat := if n ≤ 1 then n else isqrtIter n n n

/-- A model of `sqrt` on the rationals, exact on squares of rationals: the
integer square root of `num * den` over `den`. -/
def ratSqrt (x : ℚ) : ℚ := (isqrt (x.num.toNat * x.den) : ℚ) / x.den

/-- Library functions used to instantiate theorems: `ratSqrt`, and a `pow` that
is exact at exponent one. -/
def sampleBuiltins : Builtins := { sqrt := ratSqrt, pow := fun x _ => x }

/-- The state `(h, u, v)` from its three fields. -/
def mkState (h u v : MeshField) : SolutionState
  | 0 => h
  | 1 => u
  | 2 => v

/-- The loop state at the start of an interval: the counters and the local time
are zero. -/
def InnerLoopState.start (scheme : RungeKuttaTemporalScheme) (dt : ValueType) : InnerLoopState :=
  { scheme := scheme, dt := dt, repeated_step_count := 0, local_repeat_count := 0,
    inner_steps := 0, t_local := num 0 }

/-- A dry one-cell basin with unit cells and a constant inflow of `100/981` into
its cell, at the start of an interval with step size `1` (Euler scheme).  One
step fills the cell to the depth `100/981`, where the wave speed is `1`. -/
def fillingBasin : InnerLoopState :=
  InnerLoopState.start
    (RungeKuttaTemporalScheme.create
      { closedSolver unitMesh (fun _ => num 0) with Q_in_ := constFV 2 (num (100 / 981)) }
      (mkState (fun _ => num 0) (fun _ => num 0) (fun _ => num 0)) eulerCoeffs)
    (num 1)

/-- A closed one-cell basin with unit cells holding still water of depth
`100/981` (wave speed `1`), at the start of an interval with step size `1`
(Euler scheme): its control number is `2`. -/
def stillBasin : InnerLoopState :=
  InnerLoopState.start
    (RungeKuttaTemporalScheme.create (closedSolver unitMesh (fun _ => num 0))
      (mkState (fun _ => num (100 / 981)) (fun _ => num 0) (fun _ => num 0)) eulerCoeffs)
    (num 1)

/-- The limiter `minmod3` on rationals. -/
def minmod3Rat (a b c : ℚ) : ℚ :=
  let mm := 1 / 2 * (ValueType.signRat a + ValueType.signRat b) * min (abs a) (abs b)
  1 / 2 * (ValueType.signRat mm + ValueType.signRat c) * min (abs mm) (abs c)

/-- A 3 x 1 mesh with cells of size `1/2 x 1`, used to instantiate theorems. -/
def rowMesh : Cartesian2DMesh :=
  { ncells_0 := 3, ncells_1 := 1, origin_0 := 0, origin_1 := 0, cell_size_0 := 1 / 2,
    cell_size_1 := 1 }

/-- A state on `rowMesh`: depths `1, 3, nan`, velocities zero. -/
def rowState : SolutionState :=
  mkState (fun c => if c = 0 then num 1 else if c = 1 then num 3 else nan)
    (fun _ => num 0) (fun _ => num 0)

/-- The face outputs `(Hh, Hu, Hv, dz_f)` of `faceFlux` on rational arguments. -/
def faceFluxRat (sqrt : ℚ → ℚ) (xdir ydir z_m z_p h_m h_p u_m u_p v_m v_p : ℚ) : Fin 4 → ℚ :=
  let z_f := max z_m z_p
  let h_m := max h_m 0
  let h_p := max h_p 0
  let c_m := sqrt (981 / 100 * h_m)
  let c_p := sqrt (981 / 100 * h_p)
  if z_f < z_m + h_m ∨ z_f < z_p + h_p then
    let spd_p := u_p * xdir + v_p * ydir
    let spd_m := u_m * xdir + v_m * ydir
    let a := max (abs (spd_p + ValueType.signRat spd_p * c_p)) (abs (spd_m + ValueType.signRat spd_m * c_m))
    ![1 / 2 * (h_p * spd_p + h_m * spd_m) - 1 / 2 * a * (h_p - h_m),
      1 / 2 * ((u_p * ((1 - 1 / 2 * xdir) * spd_p) + 981 / 100 * h_p * xdir)
        + (u_m * ((1 - 1 / 2 * xdir) * spd_m) + 981 / 100 * h_m * xdir)) - 1 / 2 * a * (u_p - u_m),
      1 / 2 * ((v_p * ((1 - 1 / 2 * ydir) * spd_p) + 981 / 100 * h_p * ydir)
        + (v_m * ((1 - 1 / 2 * ydir) * spd_m) + 981 / 100 * h_m * ydir)) - 1 / 2 * a * (v_p - v_m),
      z_p - z_m]
  else if h_m ≤ 0 ∧ h_p ≤ 0 then
    ![0, 0, 0, z_p - z_m]
  else if z_p < z_m then
    let spd := u_m * xdir + v_m * ydir
    let a := abs (spd + ValueType.signRat spd * c_m)
    ![h_m * spd - 1 / 2 * a * -h_m,
      u_m * (1 / 2 * spd) + 981 / 100 * h_m * xdir - 1 / 2 * a * -u_m,
      v_m * (1 / 2 * spd) + 981 / 100 * h_m * ydir - 1 / 2 * a * -v_m,
      z_p - z_m]
  else
    let spd := u_p * xdir + v_p * ydir
    let a := abs (spd + ValueType.signRat spd * c_p)
    ![h_p * spd - 1 / 2 * a * h_p,
      u_p * (1 / 2 * spd) + 981 / 100 * h_p * xdir - 1 / 2 * a * u_p,
      v_p * (1 / 2 * spd) + 981 / 100 * h_p * ydir - 1 / 2 * a * v_p,
      z_p - z_m]

/-- Cell `c` is inactive: its bed level and its state are `nan`. -/
def CellInactive (zbed : FieldVector 3) (U : SolutionState) (c : Nat) : Prop :=
  zbed 0 c = nan ∧ ∀ k, U k c = nan

/-- Cell `c` is active: its bed level and its state are numbers. -/
def CellActive (zbed : FieldVector 3) (U : SolutionState) (c : Nat) : Prop :=
  (∃ z : ℚ, zbed 0 c = num z) ∧ ∀ k, ∃ q : ℚ, U k c = num q

/-- The bed and the state agree on the active subdomain: every cell of the mesh
is inactive in both or a number in both (as `SVSolver` and `initial_state` leave
them, both deactivating the same selections). -/
def Consistent (m : Cartesian2DMesh) (zbed : FieldVector 3) (U : SolutionState) : Prop :=
  ∀ c, c < m.cell_count → CellInactive zbed U c ∨ CellActive zbed U c

/-- No cell of the mesh has a negative depth. -/
def NonNegDepth (m : Cartesian2DMesh) (U : SolutionState) : Prop :=
  ∀ c, c < m.cell_count → ∀ h : ℚ, U 0 c = num h → 0 ≤ h

/-- A lake at rest over a flat bed: the bed-slope fields are zero, and every cell
of the mesh is either inactive (bed and state `nan`) or has bed level `z`, depth
`h` and zero velocity. -/
def FlatLake (m : Cartesian2DMesh) (zbed : FieldVector 3) (U : SolutionState) (z h : ℚ) : Prop :=
  ∀ c, c < m.cell_count →
    (zbed 1 c = num 0 ∧ zbed 2 c = num 0) ∧
    ((zbed 0 c = nan ∧ ∀ k, U k c = nan) ∨
     (zbed 0 c = num z ∧ U 0 c = num h ∧ U 1 c = num 0 ∧ U 2 c = num 0))

/-- The value of the accumulation loop of stage `step` when the state is `x` and
every stage derivative read by the loop is `q`:
`x + dt * a(step, 0) * q + ... + dt * a(step, step - 1) * q`, added in this order. -/
def stageValue (cs : RungeKuttaCoefficientSet) (step : Nat) (dt x q : ℚ) : ℚ :=
  (List.range step).foldl (fun acc i => acc + dt * ((cs.a_.getD step []).getD i 0) * q) x

/-- What the time-step controller does for each entry `(time_now, timestep)` of a
list when every step is accepted: `step` followed by `accept_step`, all within
the interval `[bdy_t0, bdy_t1]`. -/
def RungeKuttaTemporalScheme.acceptedSteps (B : Builtins) (bdy_t0 bdy_t1 : ValueType) :
    List (ValueType × ValueType) → RungeKuttaTemporalScheme → RungeKuttaTemporalScheme
  | [], s => s
  | (time_now, timestep) :: rest, s =>
      acceptedSteps B bdy_t0 bdy_t1 rest (s.step B time_now timestep bdy_t0 bdy_t1).accept_step

/-- The boundary data of a solver with positive cell sizes, the same inflow `Q` at
both ends of the interval in every cell, and no stage boundary (`h_in = -1`, as
`clear_boundary_conditions` leaves it). -/
structure UniformInflow (sv : SVSolver) (Q : ℚ) : Prop where
  dx_pos : 0 < sv.mesh_.cell_size_0
  dy_pos : 0 < sv.mesh_.cell_size_1
  inflow : ∀ c, c < sv.mesh_.cell_count → sv.Q_in_ 0 c = num Q ∧ sv.Q_in_ 1 c = num Q
  no_stage : ∀ c, c < sv.mesh_.cell_count → sv.h_in_ 0 c = num (-1)

/-- A dry one-cell basin with unit cells, flat bed and the constant rate `Q = -1`
in its cell (a source boundary with a negative value, which the clamp range of
`SVSourceBoundaryCondition` lets through), with the Euler scheme. -/
def drainingBasin : RungeKuttaTemporalScheme :=
  RungeKuttaTemporalScheme.create
    { closedSolver unitMesh (fun _ => num 0) with Q_in_ := constFV 2 (num (-1)) }
    (mkState (fun _ => num 0) (fun _ => num 0) (fun _ => num 0)) eulerCoeffs

/-- The mesh of scenario S3: `nx = ny = 10`, `dx = dy = 10`. -/
def s3Mesh : Cartesian2DMesh :=
  { ncells_0 := 10, ncells_1 := 10, origin_0 := 0, origin_1 := 0, cell_size_0 := 10,
    cell_size_1 := 10 }

/-- Scenario S3: flat bed `zb = 0`, closed walls, no initial water, the constant
rate `Q = 0.01` in every cell, Euler scheme. -/
def s3Scheme : RungeKuttaTemporalScheme :=
  RungeKuttaTemporalScheme.create
    { closedSolver s3Mesh (fun _ => num 0) with Q_in_ := constFV 2 (num (1 / 100)) }
    (mkState (fun _ => num 0) (fun _ => num 0) (fun _ => num 0)) eulerCoeffs

/-- A call whose arguments are numbers, over an interval with `bdy_t0 ≠ bdy_t1`
(the inflow is interpolated by dividing by `bdy_t1 - bdy_t0`). -/
def Call.Numeric : Call → Prop
  | Call.propose (num _) (num _) (num b0) (num b1) => b1 - b0 ≠ 0
  | Call.propose _ _ _ _ => False
  | Call.accept => True

/-- Still water of depth `0.5` over the flat bed `zb = 0` on the mesh of scenario
S3, closed walls, no inflow, Euler scheme. -/
def flatPond : RungeKuttaTemporalScheme :=
  RungeKuttaTemporalScheme.create (closedSolver s3Mesh (fun _ => num 0))
    (mkState (fun _ => num (1 / 2)) (fun _ => num 0) (fun _ => num 0)) eulerCoeffs

/-- The value is a number, not `nan`. -/
def ValueType.IsNum (x : ValueType) : Prop := ∃ q : ℚ, x = num q

/-- A closed basin: positive cell sizes, no inflow (`Q_in = 0`), no stage boundary
(`h_in = -1`), zero bed-slope fields (as the constructor of `SVSolver` leaves
them) and Manning values that are numbers. -/
structure ClosedBasin (sv : SVSolver) : Prop where
  inflow : UniformInflow sv 0
  slopes : ∀ c, c < sv.mesh_.cell_count → sv.zbed_ 1 c = num 0 ∧ sv.zbed_ 2 c = num 0
  roughness : ∀ c, c < sv.mesh_.cell_count →
    (sv.manning_n_ 0 c).IsNum ∧ (sv.manning_n_ 2 c).IsNum

/-- The mass flux that `update_ddt` computes for the state `U` at face `fid`, as a
rational (`0` where it is `nan`). -/
def SVSolver.massFlux (B : Builtins) (sv : SVSolver) (U : SolutionState) (fid : Nat) : ℚ :=
  (FluxKernel B sv.mesh_ U sv.zbed_
    (MinmodSpatialDerivative.calculate sv.mesh_ U sv.dUdx_ sv.dUdy_).1
    (MinmodSpatialDerivative.calculate sv.mesh_ U sv.dUdx_ sv.dUdy_).2 fid 0).toRat

/-- The sum of a cell field over the active cells of the mesh. -/
def activeSum (m : Cartesian2DMesh) (zbed : FieldVector 3) (D : MeshField) : ℚ :=
  ∑ c ∈ Finset.range m.cell_count, if (zbed 0 c).isNan then 0 else (D c).toRat

/-- The total volume of water: the sum over the active cells of `h * dx * dy`. -/
def totalVolume (m : Cartesian2DMesh) (zbed : FieldVector 3) (U : SolutionState) : ℚ :=
  ∑ c ∈ Finset.range m.cell_count,
    if (zbed 0 c).isNan then 0 else (U 0 c).toRat * m.cell_size_0 * m.cell_size_1

/-- A derivative field whose values at the active cells are numbers and whose
mass component sums to zero over the active cells. -/
def Balanced (m : Cartesian2DMesh) (zbed : FieldVector 3) (D : SolutionState) : Prop :=
  (∀ c, c < m.cell_count → zbed 0 c ≠ nan → ∀ k, (D k c).IsNum) ∧
  activeSum m zbed (D 0) = 0

/-- The depth accumulated at cell `c` by the last stage of `step`, before the
kernel resets a negative value to zero. -/
def RungeKuttaTemporalScheme.accumulatedDepth (B : Builtins) (s : RungeKuttaTemporalScheme)
    (time_now timestep bdy_t0 bdy_t1 : ValueType) (c : Nat) : ValueType :=
  rkAccumulate s.coeffs_ s.coeffs_.S timestep s.U_
    ((List.range s.coeffs_.S).foldl
      (fun acc st => acc.update_Ustar B st time_now timestep bdy_t0 bdy_t1) s).dUdt_ 0 c

/-- The volume of negative depth that the last stage of `step` resets to zero:
the sum over the active cells of `max(0, -h) * dx * dy`, `h` being the depth
accumulated by the last stage. -/
def RungeKuttaTemporalScheme.clampedVolume (B : Builtins) (s : RungeKuttaTemporalScheme)
    (time_now timestep bdy_t0 bdy_t1 : ValueType) : ℚ :=
  ∑ c ∈ Finset.range s.solver_.mesh_.cell_count,
    if (s.solver_.zbed_ 0 c).isNan then 0
    else max 0 (-(s.accumulatedDepth B time_now timestep bdy_t0 bdy_t1 c).toRat)
      * s.solver_.mesh_.cell_size_0 * s.solver_.mesh_.cell_size_1

/-- A row of three unit cells. -/
def tripleMesh : Cartesian2DMesh :=
  { ncells_0 := 3, ncells_1 := 1, origin_0 := 0, origin_1 := 0, cell_size_0 := 1,
    cell_size_1 := 1 }

/-- A thin layer of water flowing apart in a closed row of three cells over a
flat bed: depth `0.001` everywhere, `u = (-1, 0, 1)`, `v = 0`, Manning's `n = 0`
(blended between the depths `0` and `1`), Euler scheme. -/
def divergingRow : RungeKuttaTemporalScheme :=
  RungeKuttaTemporalScheme.create
    { closedSolver tripleMesh (fun _ => num 0) with
      manning_n_ := fun k => if k = 3 then fun _ => num 1 else fun _ => num 0 }
    (mkState (fun _ => num (1 / 1000))
      (fun c => if c = 0 then num (-1) else if c = 1 then num 0 else num 1)
      (fun _ => num 0)) eulerCoeffs

/-! ## The loops of `TemporalScheme.hpp` -/

/-- The `while (true)` loop of `inner_loop`, run for at most `fuel` iterations:
`running st` says that the loop is still going after `fuel` iterations. -/
def inner_loop_iterate (B : Builtins) (max_dt courant_target t_start t_end : ValueType) :
    Nat → InnerLoopState → Outcome
  | 0, st => Outcome.running st
  | fuel + 1, st =>
    match inner_loop_body B max_dt courant_target t_start t_end st with
    | Outcome.running st1 => inner_loop_iterate B max_dt courant_target t_start t_end fuel st1
    | Outcome.returned st1 => Outcome.returned st1
    | Outcome.too_many_repeated_steps => Outcome.too_many_repeated_steps

/-- The method `inner_loop(dt, max_dt, courant_target, t_start, t_end, ...)`.  Its
head clears the boundary fields of the solver and lets every boundary condition
write them for the interval; `boundaries t_start t_end` is the joint effect on
the solver (the boundary conditions are a parameter).  Then the counters and
the local time start from zero and the loop runs. -/
def inner_loop (B : Builtins) (boundaries : ValueType → ValueType → SVSolver → SVSolver)
    (fuel : Nat) (scheme : RungeKuttaTemporalScheme)
    (dt max_dt courant_target t_start t_end : ValueType) : Outcome :=
  inner_loop_iterate B max_dt courant_target t_start t_end fuel
    (InnerLoopState.start { scheme with solver_ := boundaries t_start t_end scheme.solver_ } dt)

/-- The test `comax > courant_target` of the iteration that starts in `st`: the
proposed step is rejected. -/
def rejects (B : Builtins) (courant_target t_start t_end : ValueType) (st : InnerLoopState) :
    Bool :=
  (proposedControlNumber B t_start t_end st).gt courant_target

/-- The number of rejected steps among the first `fuel` iterations of the loop
from `st` (fewer iterations when the loop ends before). -/
def rejectedSteps (B : Builtins) (max_dt courant_target t_start t_end : ValueType) :
    Nat → InnerLoopState → Nat
  | 0, _ => 0
  | fuel + 1, st =>
    (if rejects B courant_target t_start t_end st then 1 else 0) +
      match inner_loop_body B max_dt courant_target t_start t_end st with
      | Outcome.running st1 => rejectedSteps B max_dt courant_target t_start t_end fuel st1
      | _ => 0

/-- The loop state is on course for the end of an interval of length `L`: the
local time is below `L`, the proposed step does not pass `L`, and a proposed
step that reaches `L` exactly comes after an odd number of accepted steps. -/
def OnCourse (L : ℚ) (st : InnerLoopState) : Prop :=
  ∃ tl d : ℚ, st.t_local = num tl ∧ st.dt = num d ∧ tl < L ∧ tl + d ≤ L ∧
    (tl + d = L → st.inner_steps % 2 = 1)

/-- The conversion `(size_t) x` of a `double`: the value is truncated toward
zero; the conversion is not defined (`none`) for `nan`, for `x <= -1` and for
`x >= 2^64`. -/
def toSizeT : ValueType → Option Nat
  | num q => if -1 < q ∧ q < 2 ^ 64 then some (Int.toNat ⌊q⌋) else none
  | nan => none

/-- The number of iterations of `outer_loop`,
`size_t nsteps = ((size_t) (0.001 + end_time - start_time) / step_size);`:
the cast binds tighter than the division, so the sum is truncated first, the
quotient of the truncated value by `step_size` is taken in `double`, and the
initialisation truncates again. -/
def outer_loop_nsteps (start_time end_time step_size : ValueType) : Option Nat :=
  match toSizeT (num (1 / 1000) + end_time - start_time) with
  | none => none
  | some n => toSizeT (num (n : ℚ) / step_size)

/-- The intervals `[t_step_start, t_step_end]` of the iterations `i = 0 ..
nsteps - 1` of `outer_loop`: `t_step_start = start_time + i * step_size` and
`t_step_end = t_step_start + step_size`. -/
def outer_loop_intervals (start_time step_size : ValueType) (nsteps : Nat) :
    List (ValueType × ValueType) :=
  (List.range nsteps).map fun i =>
    (start_time + num (i : ℚ) * step_size, start_time + num (i : ℚ) * step_size + step_size)

/-- How `outer_loop` ends: all intervals are done (with the scheme and the step
size `dt` as the last `inner_loop` left them), `inner_loop` threw, an
`inner_loop` was still running when the fuel ran out, or the number of
iterations is not defined. -/
inductive RunResult where
  | finished : RungeKuttaTemporalScheme → ValueType → RunResult
  | too_many_repeated_steps : RunResult
  | still_running : RunResult
  | undefined : RunResult

/-- The `for` loop of `outer_loop` over a list of intervals: `inner_loop` on each
interval in turn, `dt` being passed by reference from one call to the next. -/
def outer_loop_run (B : Builtins) (boundaries : ValueType → ValueType → SVSolver → SVSolver)
    (fuel : Nat) (max_dt courant_target : ValueType) :
    List (ValueType × ValueType) → RungeKuttaTemporalScheme → ValueType → RunResult
  | [], scheme, dt => RunResult.finished scheme dt
  | (t_step_start, t_step_end) :: rest, scheme, dt =>
    match inner_loop B boundaries fuel scheme dt max_dt courant_target t_step_start
        t_step_end with
    | Outcome.returned st =>
        outer_loop_run B boundaries fuel max_dt courant_target rest st.scheme st.dt
    | Outcome.running _ => RunResult.still_running
    | Outcome.too_many_repeated_steps => RunResult.too_many_repeated_steps

/-- The method `outer_loop(start_time, end_time, step_size, display_every)`, with
the time-step parameters `dt`, `max_dt`, `courant_target` of the configuration
as arguments (output is not modelled). -/
def outer_loop (B : Builtins) (boundaries : ValueType → ValueType → SVSolver → SVSolver)
    (fuel : Nat) (scheme : RungeKuttaTemporalScheme)
    (dt max_dt courant_target start_time end_time step_size : ValueType) : RunResult :=
  match outer_loop_nsteps start_time end_time step_size with
  | none => RunResult.undefined
  | some nsteps =>
    outer_loop_run B boundaries fuel max_dt courant_target
      (outer_loop_intervals start_time step_size nsteps) scheme dt

/-- The temporal derivative as the function `f(U*, time, Δt, t⁰_bdy, t¹_bdy)` of
the state: the field vector returned by `update_ddt` of the solver, called on a
derivative buffer holding zeros. -/
def SVSolver.temporalDerivative (B : Builtins) (sv : SVSolver) (timestep bdy_t0 bdy_t1 : ValueType)
    (Ustar : SolutionState) (time_now : ValueType) : SolutionState :=
  (sv.update_ddt B Ustar (fun _ _ => num 0) time_now timestep bdy_t0 bdy_t1).2

/-! ## The stages of a step in the words of the specification (section 4.10) -/

/-- The clamp of the specification at one cell: if `U*_h < 0` set
`(h, u, v) := 0`, else if `U*_h < εdry` set `u = v = 0`, with `εdry = 10⁻⁴`. -/
def specClamp (x : Fin 3 → ValueType) : Fin 3 → ValueType :=
  if (x 0).lt (num 0) then fun _ => num 0
  else if (x 0).lt (num (1 / 10000)) then fun vec_id => if vec_id = 0 then x 0 else num 0
  else x

/-- The sum `Σ_{j<i} a[i][j] · k_j` of the specification, at one component of one
cell. -/
def specWeightedSum (cs : RungeKuttaCoefficientSet) (i : Nat) (k : Nat → SolutionState)
    (vec_id : Fin 3) (item : Nat) : ValueType :=
  (List.range i).foldl (fun acc j => acc + cs.a i j * k j vec_id item) (num 0)

/-- The stage state of the specification:
`U*_i = clamp(U + Δt · Σ_{j<i} a[i][j] · k_j)`. -/
def specStageState (cs : RungeKuttaCoefficientSet) (i : Nat) (dt : ValueType)
    (U : SolutionState) (k : Nat → SolutionState) : SolutionState :=
  fun vec_id item => specClamp (fun w => U w item + dt * specWeightedSum cs i k w item) vec_id

/-- The stage derivatives of the specification, as the table filled by the first
`n` stages: `k_i = f(U*_i, t + c[i]·Δt)` for `i < n`, where `U*_i` is formed from
the entries before `i`.  The entries from `n` on are not set (they read `0`). -/
def specStageDerivatives (f : SolutionState → ValueType → SolutionState)
    (cs : RungeKuttaCoefficientSet) (t dt : ValueType) (U : SolutionState) :
    Nat → Nat → SolutionState
  | 0 => fun _ _ _ => num 0
  | n + 1 => fun i =>
    if i = n then
      f (specStageState cs n dt U (specStageDerivatives f cs t dt U n)) (t + cs.c n * dt)
    else specStageDerivatives f cs t dt U n i

/-- The stage derivatives `k_0 .. k_{S-1}` of the specification for a scheme
object: `f` is the temporal derivative of its solver, `U` its state. -/
def RungeKuttaTemporalScheme.specDerivatives (B : Builtins) (s : RungeKuttaTemporalScheme)
    (time_now timestep bdy_t0 bdy_t1 : ValueType) : Nat → SolutionState :=
  specStageDerivatives (s.solver_.temporalDerivative B timestep bdy_t0 bdy_t1) s.coeffs_ time_now
    timestep s.U_ s.coeffs_.S

/-- The stage state `U*_i` of the specification for a scheme object. -/
def RungeKuttaTemporalScheme.specStage (B : Builtins) (s : RungeKuttaTemporalScheme)
    (time_now timestep bdy_t0 bdy_t1 : ValueType) (i : Nat) : SolutionState :=
  specStageState s.coeffs_ i timestep s.U_ (s.specDerivatives B time_now timestep bdy_t0 bdy_t1)

/-! ## The control number in the words of the specification (section 4.9) -/

/-- The bracket of the specification at one cell: `(|u|+c)/dx + (|v|+c)/dy` with
`c = √(g·max(h,0))`, `g = 9.81`. -/
def specCellRate (B : Builtins) (mesh_ : Cartesian2DMesh) (U : SolutionState) (id : Nat) :
    ValueType :=
  let c := ValueType.liftSqrt B.sqrt (num (981 / 100) * ValueType.fmax (U 0 id) (num 0))
  ((U 1 id).fabs + c) / num mesh_.cell_size_0 + ((U 2 id).fabs + c) / num mesh_.cell_size_1

/-- The maximum of a list of values: the largest of its numbers, `nan` when it
holds no number. -/
def specMaxOver (xs : List ValueType) : ValueType := xs.foldl ValueType.fmax nan

/-- The control number of the specification:
`Co = Δt · max over cells [(|u|+c)/dx + (|v|+c)/dy]`. -/
def specControlNumber (B : Builtins) (mesh_ : Cartesian2DMesh) (U : SolutionState)
    (timestep : ValueType) : ValueType :=
  timestep * specMaxOver ((List.range mesh_.cell_count).map (specCellRate B mesh_ U))

/-- A wet cell at rest on the unit mesh, with depth `100/981`: its wave speed is `1`. -/
def wetCellAtRest : SolutionState :=
  mkState (fun _ => num (100 / 981)) (fun _ => num 0) (fun _ => num 0)

/-- A one-cell basin with a stage boundary: bed at `0`, dry and at rest, with the
two samples of `h_in` at `1/2`, for the Euler scheme. -/
def stageBasin : RungeKuttaTemporalScheme :=
  RungeKuttaTemporalScheme.create
    { closedSolver unitMesh (fun _ => num 0) with h_in_ := constFV 2 (num (1 / 2)) }
    (mkState (fun _ => num 0) (fun _ => num 0) (fun _ => num 0)) eulerCoeffs

/-- A one-cell closed basin with roughness, bed at `0`: the four Manning fields
are `manning_n0 = 1/10`, `manning_h0 = 0`, `manning_n1 = 1/10`, `manning_h1 = 1`,
that is Manning's `n = 1/10` at every depth. -/
def roughSolver : SVSolver :=
  { closedSolver unitMesh (fun _ => num 0) with
    manning_n_ := fun k =>
      if k = 0 then fun _ => num (1 / 10) else if k = 1 then fun _ => num 0
      else if k = 2 then fun _ => num (1 / 10) else fun _ => num 1 }

/-- Water of depth `1` moving with `u = 1`, `v = 0`. -/
def movingWater : SolutionState :=
  mkState (fun _ => num 1) (fun _ => num 1) (fun _ => num 0)

/-! ## Cells within a polygon (`Meshes/Cartesian2DMesh.cpp`) -/

/-- A point: its coordinates `[0]` and `[1]` (`Point`). -/
abbrev Point := ValueType × ValueType

/-- A ring: the points of a `LineString`. -/
abbrev LineString := List Point

/-- A polygon: its rings (`Polygon`, a vector of `LineString`). -/
abbrev Polygon := List LineString

/-- The pairs `(pt_i, pt_j)` visited by a loop over the items of a list in which
`j` is the index before `i`: `prev` is the item at `j` for the first `i`. -/
def pairsFrom {α : Type} (prev : α) : List α → List (α × α)
  | [] => []
  | p :: rest => (p, prev) :: pairsFrom p rest

/-- The pairs `(ls.at(i), ls.at(j))` visited by the scanline loop
`for (i = 0; i < ls.size(); ++i)`: `j` starts at `ls.size() - 1` and is set to
`i` at the end of every iteration. -/
def visitedPairs {α : Type} (d : α) (ls : List α) : List (α × α) :=
  pairsFrom (ls.getLastD d) ls

/-- The test of the scanline loop for the row `yi` on the pair `(pti, ptj)`:
`(viy < yi && vjy >= yi) || (vjy < yi && viy >= yi)` with
`viy = (pti[1] - origin_[1]) / cell_size_[1]` and `vjy` likewise. -/
def crossesRow (mesh_ : Cartesian2DMesh) (yi : Nat) (pti ptj : Point) : Bool :=
  let viy := (pti.2 - num mesh_.origin_1) / num mesh_.cell_size_1
  let vjy := (ptj.2 - num mesh_.origin_1) / num mesh_.cell_size_1
  (viy.lt (num (yi : ℚ)) && vjy.ge (num (yi : ℚ))) ||
    (vjy.lt (num (yi : ℚ)) && viy.ge (num (yi : ℚ)))

/-- The node pushed for a crossing pair:
`(size_t) (vix + (yi - viy) / (vjy - viy) * (vjx - vix))`; `none` when the
conversion is not defined. -/
def crossingNode (mesh_ : Cartesian2DMesh) (yi : Nat) (pti ptj : Point) : Option Nat :=
  let viy := (pti.2 - num mesh_.origin_1) / num mesh_.cell_size_1
  let vjy := (ptj.2 - num mesh_.origin_1) / num mesh_.cell_size_1
  let vix := (pti.1 - num mesh_.origin_0) / num mesh_.cell_size_0
  let vjx := (ptj.1 - num mesh_.origin_0) / num mesh_.cell_size_0
  toSizeT (vix + (num (yi : ℚ) - viy) / (vjy - viy) * (vjx - vix))

/-- The scanline loop for the row `yi`: the vector `nodes_xi`, or `none` when a
conversion is not defined. -/
def scanRow (mesh_ : Cartesian2DMesh) (ls : LineString) (yi : Nat) : Option (List Nat) :=
  (visitedPairs (num 0, num 0) ls).foldl
    (fun acc pr =>
      match acc with
      | none => none
      | some nodes =>
        if crossesRow mesh_ yi pr.1 pr.2 then
          match crossingNode mesh_ yi pr.1 pr.2 with
          | none => none
          | some n => some (nodes ++ [n])
        else some nodes)
    (some [])

/-- The exchange loop from the position `i` on, `a` being the item at `i` and the
argument list the items after it: when `a` is larger than the next item the two
are exchanged and `i` stays (the next comparison, of the same two items, then
steps on), otherwise `i` steps on. -/
def exchangeFrom : Nat → List Nat → List Nat
  | a, [] => [a]
  | a, b :: rest => if a > b then b :: exchangeFrom a rest else a :: exchangeFrom b rest

/-- The loop `i = 0; while (i < nodes_xi.size() - 1) { if (nodes_xi.at(i) >
nodes_xi.at(i+1)) swap else ++i; }` on a vector that is not empty. -/
def exchangePass : List Nat → List Nat
  | [] => []
  | a :: rest => exchangeFrom a rest

/-- The inner loop of the inverted branch for the cell `xi`,
`for (i = 0; i < nodes_xi.size(); i += 2)`: whether
`xi >= nodes_xi.at(i) && xi < nodes_xi.at(i+1)` holds for some `i`; `none` when
`at(i+1)` is evaluated past the end (it throws). -/
def withinSpans (xi : Nat) : List Nat → Option Bool
  | [] => some false
  | [a] => if xi ≥ a then none else some false
  | a :: b :: rest => if xi ≥ a ∧ xi < b then some true else withinSpans xi rest

/-- The inverted branch for the row `yi`: the ids passed to `fn`, in order. -/
def emitOutside (ncells_0 yi : Nat) (nodes : List Nat) : Option (List Nat) :=
  (List.range ncells_0).foldl
    (fun acc xi =>
      match acc with
      | none => none
      | some out =>
        match withinSpans xi nodes with
        | none => none
        | some true => some out
        | some false => some (out ++ [yi * ncells_0 + xi]))
    (some [])

/-- The branch for `inverted = false` for the row `yi`,
`for (i = 0; i < nodes_xi.size(); i += 2)`: the loop ends at a node
`>= ncells_[0]`; a span whose second node is `< ncells_[0]` has its cells
passed to `fn` (after the two adjustments of its ends); `none` when `at(i+1)`
is evaluated past the end. -/
def emitSpans (ncells_0 yi : Nat) : List Nat → Option (List Nat)
  | [] => some []
  | [a] => if a ≥ ncells_0 then some [] else none
  | a :: b :: rest =>
    if a ≥ ncells_0 then some []
    else if b < ncells_0 then
      let a1 := if a > ncells_0 then 0 else a
      let b1 := if b ≥ ncells_0 then ncells_0 else b
      match emitSpans ncells_0 yi rest with
      | none => none
      | some out => some ((List.range' a1 (b1 - a1)).map (fun xi => yi * ncells_0 + xi) ++ out)
    else emitSpans ncells_0 yi rest

/-- The body of the loop over the rows for the row `yi`: the ids passed to `fn`. -/
def emitRow (mesh_ : Cartesian2DMesh) (ls : LineString) (inverted : Bool) (yi : Nat) :
    Option (List Nat) :=
  match scanRow mesh_ ls yi with
  | none => none
  | some [] =>
    if inverted then some ((List.range mesh_.ncells_0).map (fun xi => yi * mesh_.ncells_0 + xi))
    else some []
  | some (a :: rest) =>
    if inverted then emitOutside mesh_.ncells_0 yi (exchangePass (a :: rest))
    else emitSpans mesh_.ncells_0 yi (exchangePass (a :: rest))

/-- The method `for_each_object_within<FieldMapping::Cell>(poly, fn, inverted)`:
the ids passed to `fn`, in order; `none` when the method throws (a polygon that
does not have exactly one ring, an access past the end of `nodes_xi`) or a
conversion is not defined.  A ring of fewer than three points selects nothing. -/
def for_each_object_within (mesh_ : Cartesian2DMesh) (poly : Polygon) (inverted : Bool) :
    Option (List Nat) :=
  match poly with
  | [ls] =>
    if ls.length < 3 then some []
    else
      (List.range mesh_.ncells_1).foldl
        (fun acc yi =>
          match acc with
          | none => none
          | some out =>
            match emitRow mesh_ ls inverted yi with
            | none => none
            | some row => some (out ++ row))
        (some [])
  | _ => none

/-! ## Point in polygon, in the words of the specification -/

/-- The half-open rule of the scanline: the edge from `a` to `b` crosses the
horizontal line at `y` when one end is below `y` and the other is not. -/
def specCrosses (a b : ℚ × ℚ) (y : ℚ) : Bool :=
  decide ((a.2 < y ∧ y ≤ b.2) ∨ (b.2 < y ∧ y ≤ a.2))

/-- The abscissa at which the line through `a` and `b` meets the horizontal line
at `y`. -/
def specCrossingX (a b : ℚ × ℚ) (y : ℚ) : ℚ :=
  a.1 + (y - a.2) / (b.2 - a.2) * (b.1 - a.1)

/-- The edges of the ring through the points `ls`, the edge from the last point
back to the first included. -/
def specEdges (ls : List (ℚ × ℚ)) : List ((ℚ × ℚ) × (ℚ × ℚ)) :=
  visitedPairs (0, 0) ls

/-- Inside the ring by the even-odd rule: an odd number of edges cross the
horizontal line through `p` to the left of `p`. -/
def specInside (ls : List (ℚ × ℚ)) (p : ℚ × ℚ) : Bool :=
  decide (((specEdges ls).countP
    (fun e => specCrosses e.1 e.2 p.2 && decide (specCrossingX e.1 e.2 p.2 < p.1))) % 2 = 1)

/-- The centre of the cell `(ix, iy)`:
`(x0 + (ix + 0.5) dx, y0 + (iy + 0.5) dy)`. -/
def specCellCentre (mesh_ : Cartesian2DMesh) (ix iy : Nat) : ℚ × ℚ :=
  (mesh_.origin_0 + ((ix : ℚ) + 1 / 2) * mesh_.cell_size_0,
   mesh_.origin_1 + ((iy : ℚ) + 1 / 2) * mesh_.cell_size_1)

/-- The corner of the cell `(ix, iy)` sampled by the scanline:
`(x0 + (ix + 1) dx, y0 + iy dy)`. -/
def sampledCorner (mesh_ : Cartesian2DMesh) (ix iy : Nat) : ℚ × ℚ :=
  (mesh_.origin_0 + ((ix : ℚ) + 1) * mesh_.cell_size_0,
   mesh_.origin_1 + (iy : ℚ) * mesh_.cell_size_1)

/-- The columns `⌊(X - x0) / dx⌋` of the crossings of the row line `yi`, in the
order of the edges. -/
def specRowColumns (mesh_ : Cartesian2DMesh) (ls : List (ℚ × ℚ)) (yi : Nat) : List Nat :=
  ((specEdges ls).filter
      (fun e => specCrosses e.1 e.2 (mesh_.origin_1 + (yi : ℚ) * mesh_.cell_size_1))).map
    (fun e => Int.toNat ⌊(specCrossingX e.1 e.2 (mesh_.origin_1 + (yi : ℚ) * mesh_.cell_size_1)
      - mesh_.origin_0) / mesh_.cell_size_0⌋)

/-- A ring of points with numeric coordinates, as a `LineString`. -/
def toLineString (ls : List (ℚ × ℚ)) : LineString := ls.map (fun p => (num p.1, num p.2))

/-- A mesh of one row of two unit cells at the origin. -/
def twoCellMesh : Cartesian2DMesh :=
  { ncells_0 := 2, ncells_1 := 1, origin_0 := 0, origin_1 := 0, cell_size_0 := 1, cell_size_1 := 1 }

/-- The square `[1/4, 3/4] x [1/4, 3/4]` around the centre of the unit cell, as
a closed ring. -/
def centreSquare : List (ℚ × ℚ) :=
  [(1 / 4, 1 / 4), (3 / 4, 1 / 4), (3 / 4, 3 / 4), (1 / 4, 3 / 4), (1 / 4, 1 / 4)]

/-- The square `[3/4, 5/4] x [-1/4, 1/4]` around the lower right corner of the
unit cell at the origin, as a closed ring. -/
def cornerSquare : List (ℚ × ℚ) :=
  [(3 / 4, -1 / 4), (5 / 4, -1 / 4), (5 / 4, 1 / 4), (3 / 4, 1 / 4), (3 / 4, -1 / 4)]

/-- The rectangle `[0, 5] x [-1, 1]`, as a closed ring: it covers the two cells
of `twoCellMesh` and extends beyond the mesh to the right. -/
def wideRectangle : List (ℚ × ℚ) :=
  [(0, -1), (5, -1), (5, 1), (0, 1), (0, -1)]

/-- A ring of two points, the segment from `(0, -1)` to `(2, 1)`. -/
def sliverRing : List (ℚ × ℚ) := [(0, -1), (2, 1)]

/-! ## Nearest cell and mesh selections (`Meshes/Cartesian2DMesh.cpp`,
`MeshSelection.hpp`) -/

/-- One component of the index computed by `get_nearest_object<Cell>`:
`idx_d < 0.0 ? 0 : idx_d < ncells * cell_size ? size_t(idx_d) : ncells - 1`;
`none` when the conversion is not defined.  (`ncells - 1` is `0` here for
`ncells = 0` where the source wraps; both are `>= ncells`.) -/
def nearestIndex (idx_d : ValueType) (ncells : Nat) (cell_size : ℚ) : Option Nat :=
  if idx_d.lt (num 0) then some 0
  else if idx_d.lt (num ((ncells : ℚ) * cell_size)) then toSizeT idx_d
  else some (ncells - 1)

/-- The method `get_nearest_object<FieldMapping::Cell>(loc)`: the linear id of
the cell at the index found, or `object_count<Cell>()` when an index is not
below the cell count of its axis. -/
def get_nearest_object (m : Cartesian2DMesh) (loc : Point) : Option Nat :=
  let idx_d0 := (loc.1 - num m.origin_0) / num m.cell_size_0
  let idx_d1 := (loc.2 - num m.origin_1) / num m.cell_size_1
  match nearestIndex idx_d0 m.ncells_0 m.cell_size_0,
      nearestIndex idx_d1 m.ncells_1 m.cell_size_1 with
  | some i0, some i1 =>
    if i0 ≥ m.ncells_0 ∨ i1 ≥ m.ncells_1 then some m.cell_count
    else some (m.get_cell_linear_id (i0, i1))
  | _, _ => none

/-- The method `MeshSelection::id_at_location`: the nearest object when its id is
below the object count; `none` when it throws. -/
def id_at_location (m : Cartesian2DMesh) (loc : Point) : Option Nat :=
  match get_nearest_object m loc with
  | some id => if id < m.cell_count then some id else none
  | none => none

/-- A geometry of a `GeometryCollection`, by its `Geometry::Type`; line strings,
multi line strings and collections carry no data here (no selection is made
from them). -/
inductive Geometry where
  | point (pt : Point)
  | multipoint (mpt : List Point)
  | linestring
  | multilinestring
  | polygon (poly : Polygon)
  | multipolygon (mpoly : List Polygon)
  | collection

/-- The configuration of a selection as the constructor of `MeshSelection` reads
it: the selection type (`"global"` or the empty string, `"id list"`,
`"location list"`, `"gis"`, anything else) with the parsed ids of the `id`
entries, the parsed locations of the `at` entries, or the geometry collection
and the flag `inverted`. -/
inductive SelectionConfig where
  | global
  | id_list (ids : List Nat)
  | location_list (locs : List Point)
  | gis (gc : List Geometry) (inverted : Bool)
  | unknown

/-- The loop over the ids of an `id list`: every id below `idmax` is pushed; an id
that is not makes the constructor throw. -/
def pushIds (idmax : Nat) : List Nat → Option (List Nat)
  | [] => some []
  | id :: rest =>
    if id < idmax then
      match pushIds idmax rest with
      | none => none
      | some l => some (id :: l)
    else none

/-- The loop pushing `id_at_location` of every location of a list. -/
def pushLocations (m : Cartesian2DMesh) : List Point → Option (List Nat)
  | [] => some []
  | loc :: rest =>
    match id_at_location m loc with
    | none => none
    | some id =>
      match pushLocations m rest with
      | none => none
      | some l => some (id :: l)

/-- The loop over the polygons of a multipolygon, `inverted = false`. -/
def pushPolygons (m : Cartesian2DMesh) : List Polygon → Option (List Nat)
  | [] => some []
  | poly :: rest =>
    match for_each_object_within m poly false with
    | none => none
    | some ids =>
      match pushPolygons m rest with
      | none => none
      | some l => some (ids ++ l)

/-- The `switch` on the type of one geometry of a selection that is not
inverted: the ids pushed, or `none` when it throws. -/
def pushGeometry (m : Cartesian2DMesh) : Geometry → Option (List Nat)
  | Geometry.point pt =>
    match id_at_location m pt with
    | none => none
    | some id => some [id]
  | Geometry.multipoint mpt => pushLocations m mpt
  | Geometry.polygon poly => for_each_object_within m poly false
  | Geometry.multipolygon mpoly => pushPolygons m mpoly
  | _ => none

/-- The loop over the geometries of a collection, `inverted = false`. -/
def pushGeometries (m : Cartesian2DMesh) : List Geometry → Option (List Nat)
  | [] => some []
  | g :: rest =>
    match pushGeometry m g with
    | none => none
    | some ids =>
      match pushGeometries m rest with
      | none => none
      | some l => some (ids ++ l)

/-- The branch `if (inverted)` of a `gis` selection: one polygon, or one
multipolygon of one polygon; everything else throws. -/
def pushInverted (m : Cartesian2DMesh) : List Geometry → Option (List Nat)
  | [Geometry.polygon poly] => for_each_object_within m poly true
  | [Geometry.multipolygon mpoly] =>
    match mpoly with
    | [poly] => for_each_object_within m poly true
    | _ => none
  | _ => none

/-- The vector `id_list` at the call of `allocate_list`, for a selection that is
not global; `none` when the constructor throws. -/
def collectIds (m : Cartesian2DMesh) : SelectionConfig → Option (List Nat)
  | SelectionConfig.global => none
  | SelectionConfig.id_list ids => pushIds m.cell_count ids
  | SelectionConfig.location_list locs => pushLocations m locs
  | SelectionConfig.gis gc inverted => if inverted then pushInverted m gc else pushGeometries m gc
  | SelectionConfig.unknown => none

/-- The algorithm `std::unique` with `erase`: of every run of equal neighbours
the first is kept. -/
def uniqueErase : List Nat → List Nat
  | [] => []
  | [a] => [a]
  | a :: b :: rest => if a = b then uniqueErase (b :: rest) else a :: uniqueErase (b :: rest)

/-- The method `allocate_list`: `std::sort`, then `std::unique` and `erase`. -/
def allocate_list (id_list : List Nat) : List Nat :=
  uniqueErase (id_list.insertionSort (· ≤ ·))

/-- The data member `list_` of `MeshSelection<Cartesian2DMesh, Cell>` (the mapping
of every selection in the repository): `none` is the uninitialised pointer of a
global selection. -/
structure MeshSelection where
  list_ : Option (List Nat)

/-- The constructor of `MeshSelection`; `none` when it throws. -/
def MeshSelection.create (m : Cartesian2DMesh) (conf : SelectionConfig) : Option MeshSelection :=
  match conf with
  | SelectionConfig.global => some { list_ := none }
  | _ =>
    match collectIds m conf with
    | none => none
    | some id_list => some { list_ := some (allocate_list id_list) }

/-- The method `is_global`. -/
def MeshSelection.is_global (sel : MeshSelection) : Bool := sel.list_.isNone

/-- The method `size`. -/
def MeshSelection.size (sel : MeshSelection) (m : Cartesian2DMesh) : Nat :=
  match sel.list_ with
  | some l => l.length
  | none => m.cell_count

/-- A mesh of four cells of size `1/4` in one row at the origin. -/
def quarterMesh : Cartesian2DMesh :=
  { ncells_0 := 4, ncells_1 := 1, origin_0 := 0, origin_1 := 0,
    cell_size_0 := 1 / 4, cell_size_1 := 1 / 4 }

/-- A mesh of two cells of size `2` in one row at the origin. -/
def coarseMesh : Cartesian2DMesh :=
  { ncells_0 := 2, ncells_1 := 1, origin_0 := 0, origin_1 := 0,
    cell_size_0 := 2, cell_size_1 := 2 }

/-! ## Field modifiers (`FieldModifier.hpp`) -/

/-- The method `cell_centre(cell_id)`, that is `get_object_coordinate<Cell>`. -/
def Cartesian2DMesh.cell_centre (m : Cartesian2DMesh) (cell_id : Nat) : Point :=
  let i := m.get_cell_index cell_id
  (num m.origin_0 + (num (i.1 : ℚ) + num (1 / 2)) * num m.cell_size_0,
   num m.origin_1 + (num (i.2 : ℚ) + num (1 / 2)) * num m.cell_size_1)

/-- The enumeration `FieldModifier::IntegrationType`. -/
inductive IntegrationType where
  | centroid
  | box

/-- A field functor by its two call operators: `operator()(time, coord, nodata)`
and `operator()(time, coord, box_size, nodata)`. -/
structure FieldFunctor where
  at_point : ValueType → Point → ValueType → ValueType
  at_box : ValueType → Point → Point → ValueType → ValueType

/-- The class `FixedValueFieldFunctor`: both operators return `value_`. -/
def FixedValueFieldFunctor (value_ : ValueType) : FieldFunctor :=
  { at_point := fun _ _ _ => value_, at_box := fun _ _ _ _ => value_ }

/-- The data members of `FieldModifier` that `modify_field` reads. -/
structure FieldModifier where
  sel_ : MeshSelection
  offset_ : ValueType
  factor_ : ValueType
  min_ : ValueType
  max_ : ValueType
  nodata_ : ValueType
  integration_type_ : IntegrationType
  box_size_ : Point

/-- The operation classes `SetOperation`, `OffsetOperation`, `FactorOperation`. -/
inductive Operation where
  | set
  | offset
  | factor

/-- The call operator `op(existing, value)` of an operation. -/
def Operation.apply : Operation → ValueType → ValueType → ValueType
  | Operation.set, _, value => value
  | Operation.offset, existing, value => existing + value
  | Operation.factor, existing, value => existing * value

/-- The value of the functor at the object `i`, as `get_value` obtains it. -/
def ValueCalculator.functorValue (fm_ : FieldModifier) (func_ : FieldFunctor)
    (mesh_ : Cartesian2DMesh) (time_ : ValueType) (i : Nat) : ValueType :=
  match fm_.integration_type_ with
  | IntegrationType.centroid => func_.at_point time_ (mesh_.cell_centre i) fm_.nodata_
  | IntegrationType.box => func_.at_box time_ (mesh_.cell_centre i) fm_.box_size_ fm_.nodata_

/-- The method `ValueCalculator::get_value(i)`. -/
def ValueCalculator.get_value (fm_ : FieldModifier) (func_ : FieldFunctor)
    (mesh_ : Cartesian2DMesh) (time_ : ValueType) (i : Nat) : ValueType :=
  let value := ValueCalculator.functorValue fm_ func_ mesh_ time_ i
  if !value.isNan && value.ne fm_.nodata_ then
    clamp (fm_.offset_ + fm_.factor_ * value) fm_.min_ fm_.max_
  else nan

/-- The body shared by the two kernels and the two host loops for the object `i`:
`value = get_value(i); if (!isnan(value)) field[i] = op(field[i], value);`. -/
def modifyAt (op : Operation) (fm_ : FieldModifier) (func_ : FieldFunctor)
    (mesh_ : Cartesian2DMesh) (time_ : ValueType) (field : MeshField) (i : Nat) : MeshField :=
  let value := ValueCalculator.get_value fm_ func_ mesh_ time_ i
  if value.isNan then field else Function.update field i (op.apply (field i) value)

/-- The function `modify_field`: for a global selection the kernel (or host loop)
over all objects of the mapping, otherwise the kernel (or host loop) over the
items `sel_i` of the selection with `i = sel[sel_i]`. -/
def modify_field (op : Operation) (modifier : FieldModifier) (func : FieldFunctor)
    (mesh_ : Cartesian2DMesh) (time : ValueType) (field : MeshField) : MeshField :=
  match modifier.sel_.list_ with
  | none => (List.range mesh_.cell_count).foldl (modifyAt op modifier func mesh_ time) field
  | some l => l.foldl (modifyAt op modifier func mesh_ time) field

/-- The modifier `fm` of `clear_boundary_conditions`:
`("clear boundaries", global, 0.0f, 1.0f, -2.0f, 2.0f, 1.0f)`, integration at the
centroid (the box size is not set and not read). -/
def clearBoundariesModifier : FieldModifier :=
  { sel_ := { list_ := none }, offset_ := num 0, factor_ := num 1, min_ := num (-2),
    max_ := num 2, nodata_ := num 1, integration_type_ := IntegrationType.centroid,
    box_size_ := (num 0, num 0) }

/-- The method `SVSolver::clear_boundary_conditions`: the four calls of
`modify_field<SetOperation>` with the modifier `fm` at time `0.0`, with the
fixed value `0` for `Q_in_.at(0)`, `Q_in_.at(1)` and the fixed value `-1` for
`h_in_.at(0)`, `h_in_.at(1)`. -/
def SVSolver.clear_boundary_conditions (sv : SVSolver) : SVSolver :=
  let fm := clearBoundariesModifier
  let qfunc := FixedValueFieldFunctor (num 0)
  let hfunc := FixedValueFieldFunctor (num (-1))
  { sv with
    Q_in_ := fun k => modify_field Operation.set fm qfunc sv.mesh_ (num 0) (sv.Q_in_ k),
    h_in_ := fun k => modify_field Operation.set fm hfunc sv.mesh_ (num 0) (sv.h_in_ k) }

/-- A solver on the row of two unit cells whose boundary fields hold `nan` at the
cell `0` and other values at the cell `1`. -/
def staleSolver : SVSolver :=
  { closedSolver twoCellMesh (fun _ => num 0) with
    Q_in_ := fun _ i => if i = 0 then nan else num 3,
    h_in_ := fun _ i => if i = 0 then nan else num (1 / 2) }

/-- A modifier on the cell `1` of the row of two unit cells: offset `1`, factor
`2`, range `[0, 4]`, nodata `-9999`. -/
def sampleModifier : FieldModifier :=
  { sel_ := { list_ := some [1] }, offset_ := num 1, factor_ := num 2, min_ := num 0,
    max_ := num 4, nodata_ := num (-9999), integration_type_ := IntegrationType.centroid,
    box_size_ := (num 1, num 1) }

/-- The objects a selection holds: every object of the mapping for a global
selection, otherwise the members of the list. -/
def MeshSelection.selects (sel : MeshSelection) (m : Cartesian2DMesh) (i : Nat) : Prop :=
  match sel.list_ with
  | none => i < m.cell_count
  | some l => i ∈ l

/-! ## Time series (`TimeSeries.hpp`) -/

/-- The loop `for (; i1 < count; ++i1) if (time_ro_[i1] > time) break;` of the
accessor, on the entries of `time_ro_` from the index `i1` on: the value of
`i1` after the loop. -/
def TimeSeriesAccessor.scan : List ℚ → ℚ → Nat → Nat
  | [], _, i1 => i1
  | t :: rest, time, i1 => if t > time then i1 else TimeSeriesAccessor.scan rest time (i1 + 1)

/-- The call operator `TimeSeriesAccessor::operator()(time, nodata)` on the
arrays `time_ro_` and `values_ro_`; `none` when an index read is not an index
of its array. -/
def TimeSeriesAccessor.call (time_ro_ values_ro_ : List ℚ) (time : ℚ) : Option ValueType :=
  let i1 := TimeSeriesAccessor.scan (time_ro_.drop 1) time 1
  let i0 := i1 - 1
  match time_ro_[i0]?, time_ro_[i1]?, values_ro_[i0]?, values_ro_[i1]? with
  | some t0, some t1, some v0, some v1 =>
    let dvdt := (num v1 - num v0) / (num t1 - num t0)
    let dt := num time - num t0
    some (num v0 + dvdt * dt)
  | _, _, _, _ => none

/-- The configuration values read by `scale_and_offset`. -/
structure TimeSeriesScaling where
  time_factor : ℚ
  time_offset : ℚ
  value_factor : ℚ
  value_offset : ℚ

/-- The method `scale_and_offset`: the offset is added, then the factor applied. -/
def scale_and_offset (conf : TimeSeriesScaling) (times values : List ℚ) : List ℚ × List ℚ :=
  (times.map (fun t => (t + conf.time_offset) * conf.time_factor),
   values.map (fun v => (v + conf.value_offset) * conf.value_factor))

/-- The loop of `load_inline` over the entries (parsed time, value) that are left,
with the vectors `times` and `values` so far: `none` at the `throw`. -/
def load_inline_loop : List (ℚ × ℚ) → List ℚ → List ℚ → Option (List ℚ × List ℚ)
  | [], times, values => some (times, values)
  | (time, v) :: rest, times, values =>
    if times.length > 0 ∧ time ≤ times.getLastD 0 then none
    else load_inline_loop rest (times ++ [time]) (values ++ [v])

/-- The method `load_inline` on the entries of the configuration that are not
reserved keys, with their parsed times: the arrays of the series, or `none` when
it throws. -/
def load_inline (conf : TimeSeriesScaling) (entries : List (ℚ × ℚ)) :
    Option (List ℚ × List ℚ) :=
  match load_inline_loop entries [] [] with
  | none => none
  | some (times, values) => some (scale_and_offset conf times values)

/-- The method `load_csv` on the time column (parsed) and the value column of
the document: the arrays of the series. -/
def load_csv (conf : TimeSeriesScaling) (time_column value_column : List ℚ) :
    Option (List ℚ × List ℚ) :=
  some (scale_and_offset conf time_column value_column)

/-- No scaling: factors `1`, offsets `0` (the defaults). -/
def defaultScaling : TimeSeriesScaling :=
  { time_factor := 1, time_offset := 0, value_factor := 1, value_offset := 0 }

/-- The interpolant of the segment `i` of a series at the time `t`, in the words
of the specification: `v_i + (v_{i+1} - v_i) * (t - t_i) / (t_{i+1} - t_i)`. -/
def specSegment (times values : List ℚ) (i : Nat) (t : ℚ) : ℚ :=
  values.getD i 0 + (values.getD (i + 1) 0 - values.getD i 0) * (t - times.getD i 0)
    / (times.getD (i + 1) 0 - times.getD i 0)

/-! ## Rasters (`RasterField.hpp`) -/

/-- The arrays a `RasterFieldAccessor` reads: `values_ro_` (the pixels by rows and
the nodata value of the raster after them), `ncells_ro_` and `geotrans_ro_`. -/
structure RasterFieldAccessor where
  values_ro_ : List ValueType
  ncells_0 : Nat
  ncells_1 : Nat
  geotrans_ro_ : List ValueType

/-- The constructor of `RasterField` (and of the accessor on it): the nodata value
is appended to the values, and the entries `6: 1/b`, `7: 1/f`, `8: 1/(b f)`,
`9: 1 - (c e) * [8]` to the six entries of the geotransform. -/
def RasterField.create (values : List ValueType) (nxcells nycells : Nat)
    (geo_transform : List ℚ) (nodata_value : ValueType) : RasterFieldAccessor :=
  let gt := (geo_transform.take 6).map num
  let g6 := num 1 / gt.getD 1 nan
  let g7 := num 1 / gt.getD 5 nan
  let g8 := num 1 / (gt.getD 1 nan * gt.getD 5 nan)
  let g9 := num 1 - (gt.getD 2 nan * gt.getD 4 nan) * g8
  { values_ro_ := values ++ [nodata_value], ncells_0 := nxcells, ncells_1 := nycells,
    geotrans_ro_ := gt ++ [g6, g7, g8, g9] }

namespace RasterFieldAccessor

/-- The method `nodata_value`: the entry `ncells[0] * ncells[1]` of the values. -/
def nodata_value (r : RasterFieldAccessor) : ValueType :=
  r.values_ro_.getD (r.ncells_0 * r.ncells_1) nan

/-- The method `x_tl`. -/
def x_tl (r : RasterFieldAccessor) : ValueType := r.geotrans_ro_.getD 0 nan
/-- The method `x_size`. -/
def x_size (r : RasterFieldAccessor) : ValueType := r.geotrans_ro_.getD 1 nan
/-- The method `x_rot`. -/
def x_rot (r : RasterFieldAccessor) : ValueType := r.geotrans_ro_.getD 2 nan
/-- The method `y_tl`. -/
def y_tl (r : RasterFieldAccessor) : ValueType := r.geotrans_ro_.getD 3 nan
/-- The method `y_rot`. -/
def y_rot (r : RasterFieldAccessor) : ValueType := r.geotrans_ro_.getD 4 nan
/-- The method `y_size`. -/
def y_size (r : RasterFieldAccessor) : ValueType := r.geotrans_ro_.getD 5 nan
/-- The method `inv_x_size`. -/
def inv_x_size (r : RasterFieldAccessor) : ValueType := r.geotrans_ro_.getD 6 nan
/-- The method `inv_y_size`. -/
def inv_y_size (r : RasterFieldAccessor) : ValueType := r.geotrans_ro_.getD 7 nan
/-- The method `inv_xy_size`. -/
def inv_xy_size (r : RasterFieldAccessor) : ValueType := r.geotrans_ro_.getD 8 nan
/-- The method `inv_denom`. -/
def inv_denom (r : RasterFieldAccessor) : ValueType := r.geotrans_ro_.getD 9 nan

/-- The method `get_fractional_xi`. -/
def get_fractional_xi (r : RasterFieldAccessor) (loc : Point) : ValueType :=
  ((loc.1 - r.x_tl) * r.inv_x_size - (loc.2 - r.y_tl) * r.x_rot * r.inv_xy_size) * r.inv_denom

/-- The method `get_xi`: the conversion `size_t(get_fractional_xi(loc))`. -/
def get_xi (r : RasterFieldAccessor) (loc : Point) : Option Nat :=
  toSizeT (r.get_fractional_xi loc)

/-- The method `get_fractional_yi`. -/
def get_fractional_yi (r : RasterFieldAccessor) (loc : Point) : ValueType :=
  ((loc.2 - r.y_tl) * r.inv_y_size - (loc.1 - r.x_tl) * r.y_rot * r.inv_xy_size) * r.inv_denom

/-- The method `get_yi`: the conversion `size_t(get_fractional_yi(loc))`. -/
def get_yi (r : RasterFieldAccessor) (loc : Point) : Option Nat :=
  toSizeT (r.get_fractional_yi loc)

/-- The method `inspect_point`; `none` when a conversion to `size_t` is not
defined. -/
def inspect_point (r : RasterFieldAccessor) (loc : Point) (nodata : ValueType) :
    Option ValueType :=
  match r.get_xi loc, r.get_yi loc with
  | some xi, some yi =>
    if xi < r.ncells_0 ∧ yi < r.ncells_1 then
      match r.values_ro_[yi * r.ncells_0 + xi]? with
      | some value =>
        if value.isNan || value.eq r.nodata_value then some nodata else some value
      | none => none
    else some nodata
  | _, _ => none

/-- A loop `for (i = first; i < last; ++i) { if (i == n) break; if (i > n + 100)
continue; body }` of `inspect_box`, on the indices that are left. -/
def guardedLoop {σ : Type} (n : Nat) (body : σ → Nat → σ) : List Nat → σ → σ
  | [], s => s
  | i :: rest, s =>
    if i = n then s
    else if i > n + 100 then guardedLoop n body rest s
    else guardedLoop n body rest (body s i)

/-- The state of `FieldFunctorMeanOperation` during the loops: `accumulator_` and
`count_`; `none` after a read outside `values_ro_`. -/
abbrev MeanState := Option (ValueType × Nat)

/-- The body of the inner loop, `function_operation.append(values_ro_[yi *
ncells[0] + xi])`. -/
def appendPixel (r : RasterFieldAccessor) (xi : Nat) (s : MeanState) (yi : Nat) : MeanState :=
  match s with
  | none => none
  | some (accumulator_, count_) =>
    match r.values_ro_[yi * r.ncells_0 + xi]? with
    | some value => some (accumulator_ + value, count_ + 1)
    | none => none

/-- The method `inspect_box<FieldFunctorMeanOperation>`: one pass of the two loops
(the operation has one iteration), then `get()`: the accumulator divided by the
count when the count is positive, otherwise `nodata`; `none` when a conversion
is not defined or an entry outside `values_ro_` is read. -/
def inspect_box (r : RasterFieldAccessor) (coord box_size : Point) (nodata : ValueType) :
    Option ValueType :=
  let c0 : Point := (coord.1 - num (1 / 2) * box_size.1, coord.2 - num (1 / 2) * box_size.2)
  let c1 : Point := (coord.1 + num (1 / 2) * box_size.1, coord.2 + num (1 / 2) * box_size.2)
  match r.get_xi c0, r.get_yi c0, r.get_xi c1, r.get_yi c1 with
  | some xi0, some yi1, some xi1, some yi0 =>
    match guardedLoop r.ncells_0
        (fun s xi => guardedLoop r.ncells_1 (appendPixel r xi) (List.range' yi0 (yi1 - yi0)) s)
        (List.range' xi0 (xi1 - xi0)) (some (num 0, 0)) with
    | some (accumulator_, count_) =>
      if count_ > 0 then some (accumulator_ / num (count_ : ℚ)) else some nodata
    | none => none
  | _, _, _, _ => none

end RasterFieldAccessor

/-- A raster of one pixel of value `5` over the unit square, north up: origin
`(0, 1)`, pixel size `(1, -1)`, nodata value `-9999`. -/
def unitRaster : RasterFieldAccessor :=
  RasterField.create [num 5] 1 1 [0, 1, 0, 1, 0, -1] (num (-9999))

/-- A raster of `2 x 2` pixels of values `1, 2` (upper row) and `3, 4` over the
square `[0, 2] x [0, 2]`, north up, nodata value `-9999`. -/
def squareRaster : RasterFieldAccessor :=
  RasterField.create [num 1, num 2, num 3, num 4] 2 2 [0, 1, 0, 2, 0, -1] (num (-9999))

/-- A raster with a rotated geotransform: `a = 0, b = 1, c = 1/2, d = 0, e = 1,
f = 1`, so that `b f = 1` and `c e = 1/2`. -/
def skewRaster : RasterFieldAccessor :=
  RasterField.create [num 1, num 2, num 3, num 4] 2 2 [0, 1, 1 / 2, 0, 1, 1] (num (-9999))

/-! ## Initial conditions (`SVSolver.hpp`, `FieldGenerator.hpp`) -/

/-- The keys of the global configuration that the initial conditions read. -/
inductive ConfigKey where
  | h
  | stage
  | u
  | v
  | qx
  | qy
  | q
  | theta
deriving DecidableEq

/-- The global configuration, as far as the initial conditions read it: for a key
that is present (`count(key) > 0`) the effect of the modifiers configured under
it on a field, in the order of the file. -/
abbrev GlobalConfig := ConfigKey → Option (MeshField → MeshField)

/-- The function `generate_field(queue, name, mesh, default_value)`: a field filled
with the default value, then modified by the configuration under `name` (not at
all when the key is absent). -/
def generate_field (gconf : GlobalConfig) (name : ConfigKey) (default_value : ValueType) :
    MeshField :=
  match gconf name with
  | some modify => modify (fun _ => default_value)
  | none => fun _ => default_value

/-- The function `generate_field(field)`: the field modified by the configuration
under its name. -/
def generate_field_in (gconf : GlobalConfig) (name : ConfigKey) (field : MeshField) :
    MeshField :=
  match gconf name with
  | some modify => modify field
  | none => field

/-- The function `field_division(name, a, b)`. -/
def field_division (a b : MeshField) : MeshField := fun i => a i / b i

/-- The function `field_difference_to(a, b, c)`: the new content of `c`. -/
def field_difference (a b : MeshField) : MeshField := fun i => a i - b i

/-- The function `set_field_nan(selection, field)` for the list of a selection. -/
def set_field_nan (sel : List Nat) (field : MeshField) : MeshField :=
  sel.foldl (fun f i => Function.update f i nan) field

/-- The method `SVSolver::initial_velocity(h)`: the fields `(u, v)`, or `none`
when it throws. -/
def SVSolver.initial_velocity (gconf : GlobalConfig) (h : MeshField) :
    Option (FieldVector 2) :=
  let uv_specified := (gconf ConfigKey.u).isSome
  if uv_specified && (gconf ConfigKey.v).isNone then none
  else if (gconf ConfigKey.v).isSome && !uv_specified then none
  else
    let qxy_specified := (gconf ConfigKey.qx).isSome
    if qxy_specified && (gconf ConfigKey.qy).isNone then none
    else if (gconf ConfigKey.qy).isSome && !qxy_specified then none
    else
      let qth_specified := (gconf ConfigKey.q).isSome
      if qth_specified && (gconf ConfigKey.theta).isNone then none
      else if (gconf ConfigKey.theta).isSome && !qth_specified then none
      else if uv_specified then
        if qxy_specified then none
        else if qth_specified then none
        else
          some (fun k => if k = 0 then generate_field gconf ConfigKey.u (num 0)
            else generate_field gconf ConfigKey.v (num 0))
      else if qxy_specified then
        if qth_specified then none
        else
          let qx := generate_field gconf ConfigKey.qx (num 0)
          let qy := generate_field gconf ConfigKey.qy (num 0)
          some (fun k => if k = 0 then field_division qx h else field_division qy h)
      else if qth_specified then none
      else some (fun _ _ => num 0)

/-- The method `SVSolver::initial_state()`: the state `(h, u, v)` filled with `0`,
the depth generated from the key `h` or from the key `stage` and the bed, then
the three fields set to `nan` on every deactivated selection; `none` when it
throws.  The call of `initial_velocity` is inside a comment in the source. -/
def SVSolver.initial_state (sv : SVSolver) (gconf : GlobalConfig) (deactivate : List (List Nat)) :
    Option SolutionState :=
  let init : SolutionState := fun _ _ => num 0
  let depth_specified := (gconf ConfigKey.h).isSome
  let stage_specified := (gconf ConfigKey.stage).isSome
  if depth_specified && stage_specified then none
  else
    let h :=
      if depth_specified then generate_field_in gconf ConfigKey.h (init 0)
      else if stage_specified then
        field_difference (generate_field_in gconf ConfigKey.stage (fun _ => num 0)) (sv.zbed_ 0)
      else init 0
    let init : SolutionState := mkState h (init 1) (init 2)
    some (deactivate.foldl
      (fun U sel => mkState (set_field_nan sel (U 0)) (set_field_nan sel (U 1))
        (set_field_nan sel (U 2)))
      init)

/-- A configuration with the depth set to `1` and the velocity set to `(1, 2)`
everywhere. -/
def velocityConfig : GlobalConfig
  | ConfigKey.h => some (fun _ _ => num 1)
  | ConfigKey.u => some (fun _ _ => num 1)
  | ConfigKey.v => some (fun _ _ => num 2)
  | _ => none

/-- A configuration with the depth set to `2` and the unit flow set to `(1, 4)`
everywhere. -/
def unitFlowConfig : GlobalConfig
  | ConfigKey.h => some (fun _ _ => num 2)
  | ConfigKey.qx => some (fun _ _ => num 1)
  | ConfigKey.qy => some (fun _ _ => num 4)
  | _ => none

/-- A configuration with both a velocity `(u, v)` and a unit flow `(qx, qy)`. -/
def conflictingConfig : GlobalConfig
  | ConfigKey.h => some (fun _ _ => num 1)
  | ConfigKey.u => some (fun _ _ => num 1)
  | ConfigKey.v => some (fun _ _ => num 2)
  | ConfigKey.qx => some (fun _ _ => num 1)
  | ConfigKey.qy => some (fun _ _ => num 4)
  | _ => none

/-! ## NIMROD rasters (`RasterFormats/NIMROD.hpp`) -/

/-- The difference `a - b` of two `size_t`. -/
def sizeSub (a b : Nat) : Nat := (a + 2 ^ 64 - b) % 2 ^ 64

/-- The data members of `NIMRODRasterFormat` behind `values`, `ncols`, `nrows` and
`value`. -/
structure NIMRODRasterFormat where
  buffer_ : List ValueType
  nxpx_ : Nat
  nypx_ : Nat
  ulc_xpx_ : Nat
  ulc_ypx_ : Nat
  lrc_xpx_ : Nat
  lrc_ypx_ : Nat
  values_ : List ValueType

namespace NIMRODRasterFormat

/-- The method `ncols`: `1 + lrc_xpx_ - ulc_xpx_`. -/
def ncols (r : NIMRODRasterFormat) : Nat := sizeSub ((1 + r.lrc_xpx_) % 2 ^ 64) r.ulc_xpx_

/-- The method `nrows`: `1 + lrc_ypx_ - ulc_ypx_`. -/
def nrows (r : NIMRODRasterFormat) : Nat := sizeSub ((1 + r.lrc_ypx_) % 2 ^ 64) r.ulc_ypx_

/-- The method `values`. -/
def values (r : NIMRODRasterFormat) : List ValueType := r.values_

/-- The method `value(col, row)`: `buffer_.at((row + ulc_ypx_) * nxpx_ + (col +
ulc_xpx_))`; `none` when `at` throws. -/
def value (r : NIMRODRasterFormat) (col row : Nat) : Option ValueType :=
  r.buffer_[(row + r.ulc_ypx_) * r.nxpx_ + (col + r.ulc_xpx_)]?

/-- All entries of a list of optional values, or `none`. -/
def allSome : List (Option ValueType) → Option (List ValueType)
  | [] => some []
  | none :: _ => none
  | some a :: rest =>
    match allSome rest with
    | none => none
    | some l => some (a :: l)

/-- The end of the constructor, after the data block of `nxpx_ * nypx_` values is
read into `buffer_` and the geotransform `(g0, g1, 0, llc_y, 0, g5)` and `urc_y`
are known: the corners of the crop and `values_`.  The argument `bbox` is the
configured bounding box `(xmin, ymin, xmax, ymax)`, if there is one; `none` is
returned when the constructor throws or a conversion is not defined. -/
def create (buffer_ : List ValueType) (nxpx_ nypx_ : Nat) (g0 g1 g5 urc_y : ℚ)
    (bbox : Option (ℚ × ℚ × ℚ × ℚ)) : Option NIMRODRasterFormat :=
  match bbox with
  | none =>
    some { buffer_ := buffer_, nxpx_ := nxpx_, nypx_ := nypx_, ulc_xpx_ := 0, ulc_ypx_ := 0,
           lrc_xpx_ := sizeSub nxpx_ 1, lrc_ypx_ := sizeSub nypx_ 1, values_ := [] }
  | some (b0, b1, b2, b3) =>
    if b2 ≤ b0 then none
    else if b3 ≤ b1 then none
    else
      match toSizeT ((num b0 - num g0) / num g1), toSizeT ((num urc_y - num b3) / num g5),
          toSizeT ((num b2 - num g0) / num g1), toSizeT ((num urc_y - num b1) / num g5) with
      | some ulc_x, some ulc_y, some lrc_x, some lrc_y =>
        let r : NIMRODRasterFormat :=
          { buffer_ := buffer_, nxpx_ := nxpx_, nypx_ := nypx_,
            ulc_xpx_ := if ulc_x ≥ nxpx_ then 0 else ulc_x,
            ulc_ypx_ := if ulc_y ≥ nypx_ then sizeSub nypx_ 1 else ulc_y,
            lrc_xpx_ := if lrc_x ≥ nxpx_ then sizeSub nxpx_ 1 else lrc_x,
            lrc_ypx_ := if lrc_y ≥ nypx_ then 0 else lrc_y,
            values_ := [] }
        match allSome ((List.range r.nrows).flatMap
            (fun i => (List.range r.ncols).map (fun j => r.value j i))) with
        | some vals => some { r with values_ := vals }
        | none => none
      | _, _, _, _ => none

end NIMRODRasterFormat

/-- The data block of a file of `2 x 2` pixels: `1, 2` in the upper row, `3, 4`
in the lower. -/
def sampleBlock : List ValueType := [num 1, num 2, num 3, num 4]

/-! ## Hemisphere (`FieldFunctors/HemisphereFieldFunctor.hpp`) -/

/-- The class `HemisphereFieldFunctor`: the call operator at a point, and the call
operator for a box, which returns `nodata`. -/
def HemisphereFieldFunctor (B : Builtins) (origin_ : Point) (centre_z_ radius_ : ValueType)
    (convex_ : Bool) : FieldFunctor :=
  { at_point := fun _ coord nodata =>
      let dx := coord.1 - origin_.1
      let dy := coord.2 - origin_.2
      let distance2 := radius_ * radius_ - dx * dx - dy * dy
      if distance2.ge (num 0) then
        (ValueType.liftSqrt B.sqrt distance2 + centre_z_) * (if convex_ then num 1 else num (-1))
      else nodata,
    at_box := fun _ _ _ nodata => nodata }

/-- A row of four unit cells at the origin. -/
def combMesh : Cartesian2DMesh :=
  { ncells_0 := 4, ncells_1 := 1, origin_0 := 0, origin_1 := 0, cell_size_0 := 1,
    cell_size_1 := 1 }

/-- A comb with two teeth: the bar `[1/2, 7/2] x [-2, -1]` with the tooth
`[11/5, 7/2] x [-1, 1]` and the tooth `[1/2, 3/2] x [-1, 1]`, as a closed ring
starting at the foot of the first tooth. -/
def combRing : List (ℚ × ℚ) :=
  [(11 / 5, -1), (11 / 5, 1), (7 / 2, 1), (7 / 2, -1), (7 / 2, -2), (1 / 2, -2), (1 / 2, 1),
   (3 / 2, 1), (3 / 2, -1), (11 / 5, -1)]

/-! ## Named Runge-Kutta schemes (`TemporalSchemes/RungeKutta.hpp`, `create`) -/

/-- The values of `method` that `create` knows. -/
inductive RKMethod where
  | Euler
  | midpoint
  | Heun
  | Ralston
  | generic2
  | Kutta3
  | Heun3
  | Ralston3
  | SSPRK3
  | generic3
  | classic
  | Ralston4
  | threeEighths
deriving DecidableEq

/-- The string of the configuration for each method; any other string makes
`create` throw. -/
def RKMethod.ofString (method : String) : Option RKMethod :=
  if method = "Euler" then some RKMethod.Euler
  else if method = "midpoint" then some RKMethod.midpoint
  else if method = "Heun" then some RKMethod.Heun
  else if method = "Ralston" then some RKMethod.Ralston
  else if method = "generic2" then some RKMethod.generic2
  else if method = "Kutta3" then some RKMethod.Kutta3
  else if method = "Heun3" then some RKMethod.Heun3
  else if method = "Ralston3" then some RKMethod.Ralston3
  else if method = "SSPRK3" then some RKMethod.SSPRK3
  else if method = "generic3" then some RKMethod.generic3
  else if method = "classic" then some RKMethod.classic
  else if method = "Ralston4" then some RKMethod.Ralston4
  else if method = "3/8" then some RKMethod.threeEighths
  else none

/-- The coefficient set that `create` builds for a method, the literals read as
exact rationals; `alpha` is the configured value for `generic2` and
`generic3`. -/
def RKMethod.coeffs (method : RKMethod) (alpha : ℚ) : RungeKuttaCoefficientSet :=
  match method with
  | RKMethod.Euler => { S := 1, a_ := [[0], [1]], c_ := [0] }
  | RKMethod.midpoint => { S := 2, a_ := [[0, 0], [1 / 2, 0], [0, 1]], c_ := [0, 1 / 2] }
  | RKMethod.Heun => { S := 2, a_ := [[0, 0], [1, 0], [1 / 2, 1 / 2]], c_ := [0, 1] }
  | RKMethod.Ralston =>
    { S := 2, a_ := [[0, 0], [2 / 3, 0], [1 / 4, 3 / 4]], c_ := [0, 2 / 3] }
  | RKMethod.generic2 =>
    { S := 2, a_ := [[0, 0], [alpha, 0], [1 - 1 / (2 * alpha), 1 / (2 * alpha)]],
      c_ := [0, alpha] }
  | RKMethod.Kutta3 =>
    { S := 3, a_ := [[0, 0, 0], [1 / 2, 0, 0], [-1, 2, 0], [1 / 6, 2 / 3, 1 / 6]],
      c_ := [0, 1 / 2, 1] }
  | RKMethod.Heun3 =>
    { S := 3, a_ := [[0, 0, 0], [1 / 3, 0, 0], [0, 2 / 3, 0], [1 / 4, 0, 3 / 4]],
      c_ := [0, 1 / 3, 2 / 3] }
  | RKMethod.Ralston3 =>
    { S := 3, a_ := [[0, 0, 0], [1 / 2, 0, 0], [0, 3 / 4, 0], [2 / 9, 1 / 3, 4 / 9]],
      c_ := [0, 1 / 2, 3 / 4] }
  | RKMethod.SSPRK3 =>
    { S := 3, a_ := [[0, 0, 0], [1, 0, 0], [1 / 4, 1 / 4, 0], [1 / 6, 1 / 6, 2 / 3]],
      c_ := [0, 1, 1 / 2] }
  | RKMethod.generic3 =>
    { S := 3,
      a_ := [[0, 0, 0], [alpha, 0, 0],
        [1 + (1 - alpha) / (alpha * (3 * alpha - 2)),
         -(1 - alpha) / (alpha * (3 * alpha - 2)), 0],
        [1 / 2 - 1 / (6 * alpha), 1 / (6 * alpha * (1 - alpha)),
         (2 - 3 * alpha) / (6 * (1 - alpha))]],
      c_ := [0, alpha, 1] }
  | RKMethod.classic =>
    { S := 4,
      a_ := [[0, 0, 0, 0], [1 / 2, 0, 0, 0], [0, 1 / 2, 0, 0], [0, 0, 1, 0],
        [1 / 6, 1 / 3, 1 / 3, 1 / 6]],
      c_ := [0, 1 / 2, 1 / 2, 1] }
  | RKMethod.Ralston4 =>
    { S := 4,
      a_ := [[0, 0, 0, 0], [4 / 10, 0, 0, 0],
        [29697761 / 100000000, 15875964 / 100000000, 0, 0],
        [21810040 / 100000000, -305096516 / 100000000, 383286476 / 100000000, 0],
        [17476028 / 100000000, -55148066 / 100000000, 120553560 / 100000000,
         17118478 / 100000000]],
      c_ := [0, 4 / 10, 45573725 / 100000000, 1] }
  | RKMethod.threeEighths =>
    { S := 4,
      a_ := [[0, 0, 0, 0], [1 / 3, 0, 0, 0], [-1 / 3, 1, 0, 0], [1, -1, 1, 0],
        [1 / 8, 3 / 8, 3 / 8, 1 / 8]],
      c_ := [0, 1 / 3, 2 / 3, 1] }

/-! ## The flux divergence of the temporal-derivative kernel -/

/-- Lines 82-96 of the temporal-derivative kernel: the raw change of the depth at
the cell `cell_c` from the mass fluxes at its four faces,
`(F[0][W] - F[0][E]) / dx + (F[0][S] - F[0][N]) / dy`. -/
def fluxDivergence (mesh_ : Cartesian2DMesh) (F_ro_ : FieldVector 4) (cell_c : Nat) :
    ValueType :=
  let cell_index := mesh_.get_cell_index cell_c
  let face_list := mesh_.get_faces_around_cell cell_index
  let fid_W := face_list.1
  let fid_E := face_list.2.1
  let fid_S := face_list.2.2.1
  let fid_N := face_list.2.2.2
  let dx := num mesh_.cell_size_0
  let dy := num mesh_.cell_size_1
  (F_ro_ 0 fid_W - F_ro_ 0 fid_E) / dx + (F_ro_ 0 fid_S - F_ro_ 0 fid_N) / dy

/-- The single-sided flux `(Hh, Hu, Hv)` of the partial regime for the projected
state `(h, u, v)` of one side with its wave speed `c`, as lines 283-310 of the
flux kernel compute it: `side = -1` for the upstream side (`- 0.5 a * -h`),
`side = 1` for the downstream side (`- 0.5 a * h`). -/
def singleSidedFlux (xdir ydir h u v c side : ℚ) : Fin 3 → ℚ :=
  let spd := u * xdir + v * ydir
  let a := |spd + ValueType.signRat spd * c|
  ![h * spd - 1 / 2 * a * (side * h),
    u * (1 / 2 * spd) + 981 / 100 * h * xdir - 1 / 2 * a * (side * u),
    v * (1 / 2 * spd) + 981 / 100 * h * ydir - 1 / 2 * a * (side * v)]

/-- A flux field whose four components hold the square of the face id at every
face. -/
def squareFluxes : FieldVector 4 := fun _ fid => num ((fid * fid : ℕ) : ℚ)

/-! # Theorems -/

/-! ## Scalars -/

namespace ValueType

@[simp] theorem num_add (a b : ℚ) : num a + num b = num (a + b) := rfl
@[simp] theorem num_sub (a b : ℚ) : num a - num b = num (a - b) := rfl
@[simp] theorem num_mul (a b : ℚ) : num a * num b = num (a * b) := rfl
@[simp] theorem neg_num (a : ℚ) : -(num a) = num (-a) := rfl
@[simp] theorem nan_add (x : ValueType) : nan + x = nan := rfl
@[simp] theorem add_nan (x : ValueType) : x + nan = nan := by cases x <;> rfl
@[simp] theorem nan_sub (x : ValueType) : nan - x = nan := rfl
@[simp] theorem sub_nan (x : ValueType) : x - nan = nan := by cases x <;> rfl
@[simp] theorem nan_mul (x : ValueType) : nan * x = nan := rfl
@[simp] theorem mul_nan (x : ValueType) : x * nan = nan := by cases x <;> rfl
@[simp] theorem nan_div (x : ValueType) : nan / x = nan := rfl
@[simp] theorem div_nan (x : ValueType) : x / nan = nan := by cases x <;> rfl
@[simp] theorem neg_nan : -(nan : ValueType) = nan := rfl
theorem num_div (a b : ℚ) : num a / num b = if b = 0 then nan else num (a / b) := rfl
@[simp] theorem num_div_of_ne (a : ℚ) {b : ℚ} (hb : b ≠ 0) : num a / num b = num (a / b) := by
  rw [num_div, if_neg hb]
@[simp] theorem lt_num (a b : ℚ) : (num a).lt (num b) = decide (a < b) := rfl
@[simp] theorem le_num (a b : ℚ) : (num a).le (num b) = decide (a ≤ b) := rfl
@[simp] theorem gt_num (a b : ℚ) : (num a).gt (num b) = decide (b < a) := rfl
@[simp] theorem ge_num (a b : ℚ) : (num a).ge (num b) = decide (b ≤ a) := rfl
@[simp] theorem eq_num (a b : ℚ) : (num a).eq (num b) = decide (a = b) := rfl
@[simp] theorem nan_lt (x : ValueType) : (nan : ValueType).lt x = false := rfl
@[simp] theorem lt_nan (x : ValueType) : x.lt nan = false := by cases x <;> rfl
@[simp] theorem nan_le (x : ValueType) : (nan : ValueType).le x = false := rfl
@[simp] theorem le_nan (x : ValueType) : x.le nan = false := by cases x <;> rfl
@[simp] theorem nan_gt (x : ValueType) : (nan : ValueType).gt x = false := by cases x <;> rfl
@[simp] theorem gt_nan (x : ValueType) : x.gt nan = false := rfl
@[simp] theorem nan_ge (x : ValueType) : (nan : ValueType).ge x = false := by cases x <;> rfl
@[simp] theorem ge_nan (x : ValueType) : x.ge nan = false := rfl
@[simp] theorem ne_self_num (a : ℚ) : (num a).ne (num a) = false := by simp [ne]
@[simp] theorem ne_self_nan : (nan : ValueType).ne nan = true := rfl
@[simp] theorem fmax_num (a b : ℚ) : fmax (num a) (num b) = num (Max.max a b) := by
  unfold fmax
  by_cases h : a < b
  · simp [h, max_eq_right h.le]
  · simp [h, max_eq_left (not_lt.mp h)]
@[simp] theorem fmin_num (a b : ℚ) : fmin (num a) (num b) = num (Min.min a b) := by
  unfold fmin
  by_cases h : b < a
  · simp [h, min_eq_right h.le]
  · simp [h, min_eq_left (not_lt.mp h)]
@[simp] theorem fmax_nan_left (x : ValueType) : fmax nan x = x := by cases x <;> rfl
@[simp] theorem fmax_nan_right (x : ValueType) : fmax x nan = x := by cases x <;> rfl
@[simp] theorem fmin_nan_left (x : ValueType) : fmin nan x = x := by cases x <;> rfl
@[simp] theorem fmin_nan_right (x : ValueType) : fmin x nan = x := by cases x <;> rfl
@[simp] theorem min_num (a b : ℚ) : ValueType.min (num a) (num b) = num (Min.min a b) := by
  unfold ValueType.min
  by_cases h : b < a
  · simp [h, min_eq_right h.le]
  · simp [h, min_eq_left (not_lt.mp h)]
@[simp] theorem fabs_num (a : ℚ) : (num a).fabs = num |a| := rfl
@[simp] theorem fabs_nan : (nan : ValueType).fabs = nan := rfl
@[simp] theorem sign_num (a : ℚ) : (num a).sign = num (signRat a) := rfl
@[simp] theorem sign_nan : (nan : ValueType).sign = num 0 := rfl
@[simp] theorem liftSqrt_num (f : ℚ → ℚ) {a : ℚ} (ha : 0 ≤ a) : liftSqrt f (num a) = num (f a) := by
  simp [liftSqrt, not_lt.mpr ha]
@[simp] theorem liftSqrt_nan (f : ℚ → ℚ) : liftSqrt f nan = nan := rfl

theorem signRat_neg (a : ℚ) : signRat (-a) = -signRat a := by
  unfold signRat
  rcases lt_trichotomy a 0 with h | h | h
  · simp [h, not_lt.mpr h.le]
  · simp [h]
  · simp [h, not_lt.mpr h.le]

@[simp] theorem signRat_zero : signRat 0 = 0 := by simp [signRat]

theorem signRat_mul_self (a : ℚ) : signRat a * a = |a| := by
  unfold signRat
  rcases lt_trichotomy a 0 with h | h | h
  · simp [h, not_lt.mpr h.le, abs_of_neg h]
  · simp [h]
  · simp [h, abs_of_pos h]

theorem abs_signRat_le (a : ℚ) : |signRat a| ≤ 1 := by
  unfold signRat
  split_ifs <;> simp

end ValueType

/-! ## Runge-Kutta integrator -/

theorem rkAccumulate_nan (cs : RungeKuttaCoefficientSet) (step : Nat) (timestep : ValueType)
    (U : SolutionState) (dUdt : Nat → SolutionState) (vec_id : Fin 3) (item : Nat)
    (h : U vec_id item = nan) : rkAccumulate cs step timestep U dUdt vec_id item = nan := by
  unfold rkAccumulate
  rw [h]
  generalize List.range step = l
  induction l with
  | nil => rfl
  | cons i l ih => simpa using ih

theorem RungeKuttaStep_nan (cs : RungeKuttaCoefficientSet) (step : Nat) (timestep : ValueType)
    (U : SolutionState) (dUdt : Nat → SolutionState) (item : Nat)
    (h : ∀ k, U k item = nan) (k : Fin 3) :
    RungeKuttaStep cs step timestep U dUdt item k = nan := by
  simp [RungeKuttaStep, rkAccumulate_nan cs step timestep U dUdt _ item (h _)]

theorem RungeKuttaStep_invariant (cs : RungeKuttaCoefficientSet) (step : Nat)
    (timestep : ValueType) (U : SolutionState) (dUdt : Nat → SolutionState) (item : Nat) (h : ℚ)
    (hh : RungeKuttaStep cs step timestep U dUdt item 0 = num h) :
    0 ≤ h ∧ (h < 1 / 10000 →
      RungeKuttaStep cs step timestep U dUdt item 1 = num 0 ∧
      RungeKuttaStep cs step timestep U dUdt item 2 = num 0) := by
  unfold RungeKuttaStep at hh ⊢
  simp only at hh ⊢
  split_ifs at hh ⊢ with h0 h1
  · have h00 : h = 0 := by
      have := hh
      simp only [ValueType.num.injEq] at this
      exact this.symm
    subst h00
    exact ⟨le_refl _, fun _ => ⟨rfl, rfl⟩⟩
  · simp only [if_true] at hh
    rw [hh] at h0
    simp only [ValueType.lt_num, decide_eq_true_eq] at h0
    exact ⟨not_lt.mp h0, fun _ => ⟨rfl, rfl⟩⟩
  · simp only at hh
    rw [hh] at h0 h1
    simp only [ValueType.lt_num, decide_eq_true_eq] at h0 h1
    exact ⟨not_lt.mp h0, fun hlt => absurd hlt h1⟩

theorem update_Ustar_Ustar (B : Builtins) (s : RungeKuttaTemporalScheme) (step : Nat)
    (time_now timestep bdy_t0 bdy_t1 : ValueType) :
    (s.update_Ustar B step time_now timestep bdy_t0 bdy_t1).Ustar_ =
      parallel_for s.solver_.mesh_.cell_count
        (RungeKuttaStep s.coeffs_ step timestep s.U_ s.dUdt_) s.Ustar_ := by
  unfold RungeKuttaTemporalScheme.update_Ustar
  split_ifs <;> rfl

theorem update_Ustar_U (B : Builtins) (s : RungeKuttaTemporalScheme) (step : Nat)
    (time_now timestep bdy_t0 bdy_t1 : ValueType) :
    (s.update_Ustar B step time_now timestep bdy_t0 bdy_t1).U_ = s.U_ := by
  unfold RungeKuttaTemporalScheme.update_Ustar
  split_ifs <;> rfl

theorem update_Ustar_coeffs (B : Builtins) (s : RungeKuttaTemporalScheme) (step : Nat)
    (time_now timestep bdy_t0 bdy_t1 : ValueType) :
    (s.update_Ustar B step time_now timestep bdy_t0 bdy_t1).coeffs_ = s.coeffs_ := by
  unfold RungeKuttaTemporalScheme.update_Ustar
  split_ifs <;> rfl

theorem update_ddt_const (B : Builtins) (sv : SVSolver) (U dUdt : SolutionState)
    (time_now timestep bdy_t0 bdy_t1 : ValueType) :
    (sv.update_ddt B U dUdt time_now timestep bdy_t0 bdy_t1).1.mesh_ = sv.mesh_ ∧
    (sv.update_ddt B U dUdt time_now timestep bdy_t0 bdy_t1).1.zbed_ = sv.zbed_ ∧
    (sv.update_ddt B U dUdt time_now timestep bdy_t0 bdy_t1).1.manning_n_ = sv.manning_n_ ∧
    (sv.update_ddt B U dUdt time_now timestep bdy_t0 bdy_t1).1.Q_in_ = sv.Q_in_ ∧
    (sv.update_ddt B U dUdt time_now timestep bdy_t0 bdy_t1).1.h_in_ = sv.h_in_ :=
  ⟨rfl, rfl, rfl, rfl, rfl⟩

theorem update_Ustar_solver_const (B : Builtins) (s : RungeKuttaTemporalScheme) (step : Nat)
    (time_now timestep bdy_t0 bdy_t1 : ValueType) :
    (s.update_Ustar B step time_now timestep bdy_t0 bdy_t1).solver_.mesh_ = s.solver_.mesh_ ∧
    (s.update_Ustar B step time_now timestep bdy_t0 bdy_t1).solver_.zbed_ = s.solver_.zbed_ ∧
    (s.update_Ustar B step time_now timestep bdy_t0 bdy_t1).solver_.manning_n_
      = s.solver_.manning_n_ ∧
    (s.update_Ustar B step time_now timestep bdy_t0 bdy_t1).solver_.Q_in_ = s.solver_.Q_in_ ∧
    (s.update_Ustar B step time_now timestep bdy_t0 bdy_t1).solver_.h_in_ = s.solver_.h_in_ := by
  unfold RungeKuttaTemporalScheme.update_Ustar
  split_ifs
  · exact ⟨rfl, rfl, rfl, rfl, rfl⟩
  · exact ⟨rfl, rfl, rfl, rfl, rfl⟩

/-- What a fold of `update_Ustar` over any list of stages leaves unchanged. -/
theorem foldl_update_Ustar_const (B : Builtins) (time_now timestep bdy_t0 bdy_t1 : ValueType)
    (l : List Nat) (s : RungeKuttaTemporalScheme) :
    let r := l.foldl (fun acc st => acc.update_Ustar B st time_now timestep bdy_t0 bdy_t1) s
    r.U_ = s.U_ ∧ r.coeffs_ = s.coeffs_ ∧ r.solver_.mesh_ = s.solver_.mesh_ ∧
    r.solver_.zbed_ = s.solver_.zbed_ ∧ r.solver_.manning_n_ = s.solver_.manning_n_ ∧
    r.solver_.Q_in_ = s.solver_.Q_in_ ∧ r.solver_.h_in_ = s.solver_.h_in_ := by
  induction l generalizing s with
  | nil => exact ⟨rfl, rfl, rfl, rfl, rfl, rfl, rfl⟩
  | cons st l ih =>
    have h := ih (s.update_Ustar B st time_now timestep bdy_t0 bdy_t1)
    have hs := update_Ustar_solver_const B s st time_now timestep bdy_t0 bdy_t1
    simp only [List.foldl_cons] at h ⊢
    rw [update_Ustar_U, update_Ustar_coeffs, hs.1, hs.2.1, hs.2.2.1, hs.2.2.2.1, hs.2.2.2.2] at h
    exact h

theorem step_const (B : Builtins) (s : RungeKuttaTemporalScheme)
    (time_now timestep bdy_t0 bdy_t1 : ValueType) :
    (s.step B time_now timestep bdy_t0 bdy_t1).U_ = s.U_ ∧
    (s.step B time_now timestep bdy_t0 bdy_t1).coeffs_ = s.coeffs_ ∧
    (s.step B time_now timestep bdy_t0 bdy_t1).solver_.mesh_ = s.solver_.mesh_ ∧
    (s.step B time_now timestep bdy_t0 bdy_t1).solver_.zbed_ = s.solver_.zbed_ ∧
    (s.step B time_now timestep bdy_t0 bdy_t1).solver_.manning_n_ = s.solver_.manning_n_ ∧
    (s.step B time_now timestep bdy_t0 bdy_t1).solver_.Q_in_ = s.solver_.Q_in_ ∧
    (s.step B time_now timestep bdy_t0 bdy_t1).solver_.h_in_ = s.solver_.h_in_ :=
  foldl_update_Ustar_const B time_now timestep bdy_t0 bdy_t1 _ s

/-- The method `step` ends with the stage `S`: its result is `update_Ustar(S, ...)`
applied to the scheme after the stages `0 .. S-1`. -/
theorem step_eq_last (B : Builtins) (s : RungeKuttaTemporalScheme)
    (time_now timestep bdy_t0 bdy_t1 : ValueType) :
    s.step B time_now timestep bdy_t0 bdy_t1 =
      ((List.range s.coeffs_.S).foldl
        (fun acc st => acc.update_Ustar B st time_now timestep bdy_t0 bdy_t1) s).update_Ustar B
        s.coeffs_.S time_now timestep bdy_t0 bdy_t1 := by
  unfold RungeKuttaTemporalScheme.step
  rw [List.range_succ, List.foldl_append]
  rfl

theorem DepthInvariant_update_Ustar (B : Builtins) (s : RungeKuttaTemporalScheme) (st : Nat)
    (time_now timestep bdy_t0 bdy_t1 : ValueType) (c : Nat)
    (hc : c < s.solver_.mesh_.cell_count) :
    DepthInvariant (s.update_Ustar B st time_now timestep bdy_t0 bdy_t1).Ustar_ c := by
  intro h hh
  rw [update_Ustar_Ustar] at hh ⊢
  simp only [parallel_for, hc, if_true] at hh ⊢
  exact RungeKuttaStep_invariant _ _ _ _ _ _ h hh

/-- C1. Non-negative depth: for every stage `st` of `step` (run on any scheme
state, with any previous state, stage derivatives and step size), for the
candidate left by `step`, and for the state `U_` after `accept_step`, at every
cell of the mesh whose depth is a number: `h >= 0`, and `h < 1e-4` implies
`u = v = 0`. -/
theorem C1_depth_nonnegative (B : Builtins) (s : RungeKuttaTemporalScheme)
    (time_now timestep bdy_t0 bdy_t1 : ValueType) (c : Nat)
    (hc : c < s.solver_.mesh_.cell_count) :
    (∀ st, DepthInvariant (s.update_Ustar B st time_now timestep bdy_t0 bdy_t1).Ustar_ c) ∧
    DepthInvariant (s.step B time_now timestep bdy_t0 bdy_t1).Ustar_ c ∧
    DepthInvariant (s.step B time_now timestep bdy_t0 bdy_t1).accept_step.U_ c := by
  have hstep : DepthInvariant (s.step B time_now timestep bdy_t0 bdy_t1).Ustar_ c := by
    rw [step_eq_last]
    apply DepthInvariant_update_Ustar
    rw [(foldl_update_Ustar_const B time_now timestep bdy_t0 bdy_t1 _ s).2.2.1]
    exact hc
  exact ⟨fun st => DepthInvariant_update_Ustar B s st _ _ _ _ c hc, hstep, hstep⟩

/-- C1, instantiated: an Euler scheme on the one-cell mesh, from the state
`(1, 2, 3)` with step size `5`. -/
theorem C1_depth_nonnegative_witness :
    (0 < (RungeKuttaTemporalScheme.create (closedSolver unitMesh (fun _ => num 0))
        ![fun _ => num 1, fun _ => num 2, fun _ => num 3]
        eulerCoeffs).solver_.mesh_.cell_count) ∧
    ((∀ st, DepthInvariant ((RungeKuttaTemporalScheme.create
        (closedSolver unitMesh (fun _ => num 0))
        ![fun _ => num 1, fun _ => num 2, fun _ => num 3] eulerCoeffs).update_Ustar
          sampleBuiltins st (num 0) (num 5) (num 0) (num 10)).Ustar_ 0) ∧
     DepthInvariant ((RungeKuttaTemporalScheme.create (closedSolver unitMesh (fun _ => num 0))
        ![fun _ => num 1, fun _ => num 2, fun _ => num 3] eulerCoeffs).step
          sampleBuiltins (num 0) (num 5) (num 0) (num 10)).Ustar_ 0 ∧
     DepthInvariant ((RungeKuttaTemporalScheme.create (closedSolver unitMesh (fun _ => num 0))
        ![fun _ => num 1, fun _ => num 2, fun _ => num 3] eulerCoeffs).step
          sampleBuiltins (num 0) (num 5) (num 0) (num 10)).accept_step.U_ 0) :=
  ⟨by decide, C1_depth_nonnegative sampleBuiltins _ (num 0) (num 5) (num 0) (num 10) 0
    (by decide)⟩

/-! ## Inactive cells -/

theorem update_Ustar_inactive (B : Builtins) (s : RungeKuttaTemporalScheme) (st : Nat)
    (time_now timestep bdy_t0 bdy_t1 : ValueType) (c : Nat)
    (hU : ∀ k, s.U_ k c = nan) (hUs : ∀ k, s.Ustar_ k c = nan) (k : Fin 3) :
    (s.update_Ustar B st time_now timestep bdy_t0 bdy_t1).Ustar_ k c = nan := by
  rw [update_Ustar_Ustar]
  unfold parallel_for
  split_ifs
  · exact RungeKuttaStep_nan _ _ _ _ _ _ hU k
  · exact hUs k

theorem foldl_update_Ustar_inactive (B : Builtins) (time_now timestep bdy_t0 bdy_t1 : ValueType)
    (c : Nat) (l : List Nat) (s : RungeKuttaTemporalScheme)
    (hU : ∀ k, s.U_ k c = nan) (hUs : ∀ k, s.Ustar_ k c = nan) (k : Fin 3) :
    (l.foldl (fun acc st => acc.update_Ustar B st time_now timestep bdy_t0 bdy_t1) s).Ustar_ k c
      = nan := by
  induction l generalizing s with
  | nil => exact hUs k
  | cons st l ih =>
    simp only [List.foldl_cons]
    apply ih
    · rw [update_Ustar_U]
      exact hU
    · exact fun k => update_Ustar_inactive B s st _ _ _ _ c hU hUs k

/-- C2. Inactive preservation: at a cell deactivated at construction (`zb = nan`
and `h = u = v = nan`), after any sequence of proposed steps (with any
arguments) and accepted steps, with any Runge-Kutta coefficient set, `zb`, `h`,
`u` and `v` at the cell are still `nan`, in the state `U_` and in the candidate
`Ustar_` alike. -/
theorem C2_inactive_cells_stay_nan (B : Builtins) (solver : SVSolver)
    (initial_state : SolutionState) (coeffs : RungeKuttaCoefficientSet) (c : Nat)
    (hzb : solver.zbed_ 0 c = nan) (hU : ∀ k, initial_state k c = nan) (calls : List Call) :
    ((RungeKuttaTemporalScheme.create solver initial_state coeffs).applyCalls B calls).solver_.zbed_
        0 c = nan ∧
    ∀ k, ((RungeKuttaTemporalScheme.create solver initial_state coeffs).applyCalls B calls).U_ k c
        = nan ∧
      ((RungeKuttaTemporalScheme.create solver initial_state coeffs).applyCalls B calls).Ustar_ k c
        = nan := by
  have key : ∀ (calls : List Call) (s : RungeKuttaTemporalScheme),
      s.solver_.zbed_ 0 c = nan → (∀ k, s.U_ k c = nan) → (∀ k, s.Ustar_ k c = nan) →
      (s.applyCalls B calls).solver_.zbed_ 0 c = nan ∧
      ∀ k, (s.applyCalls B calls).U_ k c = nan ∧ (s.applyCalls B calls).Ustar_ k c = nan := by
    intro calls
    induction calls with
    | nil => exact fun s hz h1 h2 => ⟨hz, fun k => ⟨h1 k, h2 k⟩⟩
    | cons call calls ih =>
      intro s hz h1 h2
      cases call with
      | propose t dt b0 b1 =>
        have hc := step_const B s t dt b0 b1
        apply ih (s.step B t dt b0 b1)
        · rw [hc.2.2.2.1]
          exact hz
        · rw [hc.1]
          exact h1
        · exact fun k => foldl_update_Ustar_inactive B t dt b0 b1 c _ s h1 h2 k
      | accept => exact ih s.accept_step hz h2 h1
  exact key calls _ hzb hU hU

/-- C2, instantiated: the one-cell mesh with its cell deactivated, a proposed
step that is rejected, a second one that is accepted. -/
theorem C2_inactive_cells_stay_nan_witness :
    (closedSolver unitMesh (fun _ => nan)).zbed_ 0 0 = nan ∧
    (∀ k, (fun (_ : Fin 3) (_ : Nat) => nan) k 0 = nan) ∧
    (((RungeKuttaTemporalScheme.create (closedSolver unitMesh (fun _ => nan))
        (fun _ _ => nan) eulerCoeffs).applyCalls sampleBuiltins
        [Call.propose (num 0) (num 1) (num 0) (num 10),
         Call.propose (num 0) (num (1 / 2)) (num 0) (num 10), Call.accept]).solver_.zbed_ 0 0
          = nan ∧
     ∀ k, ((RungeKuttaTemporalScheme.create (closedSolver unitMesh (fun _ => nan))
        (fun _ _ => nan) eulerCoeffs).applyCalls sampleBuiltins
        [Call.propose (num 0) (num 1) (num 0) (num 10),
         Call.propose (num 0) (num (1 / 2)) (num 0) (num 10), Call.accept]).U_ k 0 = nan ∧
      ((RungeKuttaTemporalScheme.create (closedSolver unitMesh (fun _ => nan))
        (fun _ _ => nan) eulerCoeffs).applyCalls sampleBuiltins
        [Call.propose (num 0) (num 1) (num 0) (num 10),
         Call.propose (num 0) (num (1 / 2)) (num 0) (num 10), Call.accept]).Ustar_ k 0 = nan) :=
  ⟨rfl, fun _ => rfl,
    C2_inactive_cells_stay_nan sampleBuiltins _ _ eulerCoeffs 0 rfl (fun _ => rfl) _⟩

/-! ## Time-step controller -/

/-- The control number read in an iteration is that of the state `U_` held
before the proposed step. -/
theorem proposedControlNumber_eq (B : Builtins) (t_start t_end : ValueType)
    (st : InnerLoopState) :
    proposedControlNumber B t_start t_end st =
      st.scheme.solver_.get_control_number B st.scheme.U_ st.dt := by
  unfold proposedControlNumber SVSolver.get_control_number
  have hc := step_const B st.scheme (t_start + st.t_local) st.dt t_start t_end
  simp only [hc.1, hc.2.2.1]

/-- The rejecting branch of the loop body. -/
theorem inner_loop_body_rejected (B : Builtins) (max_dt courant_target t_start t_end : ValueType)
    (st : InnerLoopState)
    (h : (proposedControlNumber B t_start t_end st).gt courant_target = true)
    (hcount : st.repeated_step_count + 1 < 1000) :
    inner_loop_body B max_dt courant_target t_start t_end st =
      Outcome.running
        { st with
          scheme := st.scheme.step B (t_start + st.t_local) st.dt t_start t_end,
          dt := st.dt * ValueType.fmax (num (1 / 10))
            (ValueType.fmin (num (9 / 10))
              (proposedControlNumber B t_start t_end st / courant_target)),
          repeated_step_count := st.repeated_step_count + 1,
          local_repeat_count := st.local_repeat_count + 1 } := by
  unfold proposedControlNumber at h ⊢
  unfold inner_loop_body
  simp only [h, if_true, if_neg (show ¬ st.repeated_step_count + 1 ≥ 1000 from not_le.mpr hcount)]

/-- C8, refuted as stated: in the filling basin the loop compares `comax = 0` with
the target, while the control number of the candidate `U*` that the proposed
step produced (with the same step size) is `2`. -/
theorem C8_control_number_not_from_candidate :
    proposedControlNumber sampleBuiltins (num 0) (num 10) fillingBasin = num 0 ∧
    (fillingBasin.scheme.step sampleBuiltins (num 0 + fillingBasin.t_local) fillingBasin.dt
        (num 0) (num 10)).solver_.get_control_number sampleBuiltins
      (fillingBasin.scheme.step sampleBuiltins (num 0 + fillingBasin.t_local) fillingBasin.dt
        (num 0) (num 10)).Ustar_ fillingBasin.dt = num 2 := by
  constructor
  · decide!
  · decide!

/-- C8, amended: the control number compared with `Co_target` after a proposed
step is `get_control_number(U_, dt)` for the state `U_` held before the step
(which `step` leaves unchanged) and the proposed step size `dt`, and the
iteration rejects or accepts according to it. -/
theorem C8_control_number_from_held_state (B : Builtins)
    (max_dt courant_target t_start t_end : ValueType) (st : InnerLoopState) :
    proposedControlNumber B t_start t_end st =
      st.scheme.solver_.get_control_number B st.scheme.U_ st.dt ∧
    (st.scheme.step B (t_start + st.t_local) st.dt t_start t_end).U_ = st.scheme.U_ ∧
    (((st.scheme.solver_.get_control_number B st.scheme.U_ st.dt).gt courant_target = true →
        (inner_loop_body B max_dt courant_target t_start t_end st = Outcome.too_many_repeated_steps
          ∨ ∃ st', inner_loop_body B max_dt courant_target t_start t_end st = Outcome.running st'
              ∧ st'.scheme.U_ = st.scheme.U_ ∧ st'.inner_steps = st.inner_steps)) ∧
     ((st.scheme.solver_.get_control_number B st.scheme.U_ st.dt).gt courant_target = false →
        ∃ st', (inner_loop_body B max_dt courant_target t_start t_end st = Outcome.running st'
            ∨ inner_loop_body B max_dt courant_target t_start t_end st = Outcome.returned st')
          ∧ st'.scheme.U_ = (st.scheme.step B (t_start + st.t_local) st.dt t_start t_end).Ustar_
          ∧ st'.inner_steps = st.inner_steps + 1)) := by
  have hc := step_const B st.scheme (t_start + st.t_local) st.dt t_start t_end
  have hp := proposedControlNumber_eq B t_start t_end st
  refine ⟨hp, hc.1, ?_, ?_⟩
  · intro h
    by_cases hcount : st.repeated_step_count + 1 < 1000
    · right
      rw [← hp] at h
      exact ⟨_, inner_loop_body_rejected B max_dt courant_target t_start t_end st h hcount,
        hc.1, rfl⟩
    · left
      rw [← hp] at h
      unfold proposedControlNumber at h
      unfold inner_loop_body
      simp only [h, if_true, if_pos (show st.repeated_step_count + 1 ≥ 1000 from not_lt.mp hcount)]
  · intro h
    rw [← hp] at h
    unfold proposedControlNumber at h
    unfold inner_loop_body
    simp only [h, Bool.false_eq_true, if_false]
    split_ifs <;>
      first
        | exact ⟨_, Or.inr rfl, rfl, rfl⟩
        | exact ⟨_, Or.inl rfl, rfl, rfl⟩

/-- C9, evaluated at the failing input: in the still basin (`dt = 1`, control
number `2`) with `Co_target = 1` the step is rejected (the state `U_` and the
local time are unchanged), and the next proposed step size is `0.9`, although
`dt * clamp(Co_target/Co, 0.1, 0.9) = 1 * clamp(1/2, 0.1, 0.9) = 0.5`. -/
theorem C9_rejected_step_size_at_failing_input :
    proposedControlNumber sampleBuiltins (num 0) (num 10) stillBasin = num 2 ∧
    (∃ st', inner_loop_body sampleBuiltins (num 5) (num 1) (num 0) (num 10) stillBasin
        = Outcome.running st' ∧
      st'.scheme.U_ = stillBasin.scheme.U_ ∧ st'.t_local = stillBasin.t_local ∧
      st'.inner_steps = stillBasin.inner_steps ∧ st'.dt = num (9 / 10)) ∧
    stillBasin.dt * clamp (num 1 / num 2) (num (1 / 10)) (num (9 / 10)) = num (1 / 2) := by
  have hco : proposedControlNumber sampleBuiltins (num 0) (num 10) stillBasin = num 2 := by
    decide!
  refine ⟨hco, ⟨_, inner_loop_body_rejected sampleBuiltins (num 5) (num 1) (num 0) (num 10)
    stillBasin (by rw [hco]; decide!) (by decide), ?_, rfl, rfl, ?_⟩, by decide!⟩
  · exact (step_const sampleBuiltins stillBasin.scheme _ _ _ _).1
  · show stillBasin.dt * ValueType.fmax (num (1 / 10)) (ValueType.fmin (num (9 / 10))
      (proposedControlNumber sampleBuiltins (num 0) (num 10) stillBasin / num 1)) = num (9 / 10)
    rw [hco]
    decide!

/-- C10. Step acceptance monotonicity: after a rejected step (control number
`Co` above `Co_target > 0`, the loop going on) the next proposed step size lies
in `[0.1 * dt_prev, 0.9 * dt_prev]`, for every `dt_prev > 0`. -/
theorem C10_rejected_step_size_bounds (B : Builtins) (max_dt t_start t_end : ValueType)
    (st st' : InnerLoopState) (dt_prev Co Co_target : ℚ)
    (hdt : st.dt = num dt_prev) (hdt_pos : 0 < dt_prev)
    (hCo : proposedControlNumber B t_start t_end st = num Co)
    (htarget : 0 < Co_target) (hreject : Co_target < Co)
    (hnext : inner_loop_body B max_dt (num Co_target) t_start t_end st = Outcome.running st') :
    ∃ dt_next : ℚ, st'.dt = num dt_next ∧
      1 / 10 * dt_prev ≤ dt_next ∧ dt_next ≤ 9 / 10 * dt_prev := by
  have hgt : (proposedControlNumber B t_start t_end st).gt (num Co_target) = true := by
    rw [hCo]
    simpa using hreject
  have hcount : st.repeated_step_count + 1 < 1000 := by
    by_contra hge
    unfold proposedControlNumber at hgt
    unfold inner_loop_body at hnext
    simp only [hgt, if_true,
      if_pos (show st.repeated_step_count + 1 ≥ 1000 from not_lt.mp hge)] at hnext
    cases hnext
  rw [inner_loop_body_rejected B max_dt (num Co_target) t_start t_end st hgt hcount] at hnext
  injection hnext with hst
  subst hst
  have hne : Co_target ≠ 0 := ne_of_gt htarget
  refine ⟨dt_prev * max (1 / 10) (min (9 / 10) (Co / Co_target)), ?_, ?_, ?_⟩
  · simp only [hdt, hCo, ValueType.num_div_of_ne _ hne, ValueType.fmin_num, ValueType.fmax_num,
      ValueType.num_mul]
  · have : (1 : ℚ) / 10 ≤ max (1 / 10) (min (9 / 10) (Co / Co_target)) := le_max_left _ _
    nlinarith
  · have : max (1 / 10) (min (9 / 10) (Co / Co_target)) ≤ (9 : ℚ) / 10 :=
      max_le (by norm_num) (min_le_left _ _)
    nlinarith

/-- C10, instantiated: the still basin with `dt_prev = 1`, `Co = 2` and
`Co_target = 1`. -/
theorem C10_rejected_step_size_bounds_witness :
    ∃ st', inner_loop_body sampleBuiltins (num 5) (num 1) (num 0) (num 10) stillBasin
        = Outcome.running st' ∧
      ∃ dt_next : ℚ, st'.dt = num dt_next ∧ 1 / 10 * 1 ≤ dt_next ∧ dt_next ≤ 9 / 10 * 1 := by
  have hco : proposedControlNumber sampleBuiltins (num 0) (num 10) stillBasin = num 2 := by
    decide!
  have hrun := inner_loop_body_rejected sampleBuiltins (num 5) (num 1) (num 0) (num 10)
    stillBasin (by rw [hco]; decide!) (by decide)
  exact ⟨_, hrun, C10_rejected_step_size_bounds sampleBuiltins (num 5) (num 0) (num 10)
    stillBasin _ 1 2 1 rfl (by norm_num) hco (by norm_num) (by norm_num) hrun⟩

/-! ## Minmod reconstruction -/

theorem minmod3_num (a b c : ℚ) : minmod3 (num a) (num b) (num c) = num (minmod3Rat a b c) := by
  simp [minmod3, minmod3Rat]

theorem half_sign_sum_abs_le (a b : ℚ) :
    |1 / 2 * (ValueType.signRat a + ValueType.signRat b)| ≤ 1 := by
  have ha := ValueType.abs_signRat_le a
  have hb := ValueType.abs_signRat_le b
  rw [abs_le] at ha hb ⊢
  constructor <;> linarith [ha.1, ha.2, hb.1, hb.2]

theorem abs_minmod3Rat_le (a b c : ℚ) : |minmod3Rat a b c| ≤ min |a| |b| := by
  unfold minmod3Rat
  simp only
  set mm := 1 / 2 * (ValueType.signRat a + ValueType.signRat b) * min |a| |b| with hmm
  have h1 : |mm| ≤ min |a| |b| := by
    rw [hmm, abs_mul]
    have hnn : 0 ≤ min |a| |b| := le_min (abs_nonneg a) (abs_nonneg b)
    rw [abs_of_nonneg hnn]
    calc |1 / 2 * (ValueType.signRat a + ValueType.signRat b)| * min |a| |b|
        ≤ 1 * min |a| |b| := mul_le_mul_of_nonneg_right (half_sign_sum_abs_le a b) hnn
      _ = min |a| |b| := one_mul _
  have hnn2 : 0 ≤ min |mm| |c| := le_min (abs_nonneg mm) (abs_nonneg c)
  rw [abs_mul, abs_of_nonneg hnn2]
  calc |1 / 2 * (ValueType.signRat mm + ValueType.signRat c)| * min |mm| |c|
      ≤ 1 * min |mm| |c| := mul_le_mul_of_nonneg_right (half_sign_sum_abs_le mm c) hnn2
    _ = min |mm| |c| := one_mul _
    _ ≤ |mm| := min_le_left _ _
    _ ≤ min |a| |b| := h1

theorem minmod3Rat_eq_zero (a b c : ℚ) (h : a * b ≤ 0) : minmod3Rat a b c = 0 := by
  have hmm : 1 / 2 * (ValueType.signRat a + ValueType.signRat b) * min |a| |b| = 0 := by
    rcases lt_trichotomy a 0 with ha | ha | ha
    · rcases lt_trichotomy b 0 with hb | hb | hb
      · exact absurd (mul_pos_of_neg_of_neg ha hb) (not_lt.mpr h)
      · simp [hb]
      · simp [ValueType.signRat, ha, hb, not_lt.mpr ha.le, not_lt.mpr hb.le]
    · simp [ha]
    · rcases lt_trichotomy b 0 with hb | hb | hb
      · simp [ValueType.signRat, ha, hb, not_lt.mpr ha.le, not_lt.mpr hb.le]
      · simp [hb]
      · exact absurd (mul_pos ha hb) (not_lt.mpr h)
  unfold minmod3Rat
  simp only [hmm]
  simp

theorem orCentre_num (Un : ValueType) (uc : ℚ) : ∃ un : ℚ, orCentre Un (num uc) = num un := by
  cases Un with
  | nan => exact ⟨uc, rfl⟩
  | num x => exact ⟨x, by simp [orCentre]⟩

/-- The bound of one limited slope: for a centre value `uc`, neighbour values `um`,
`up` (after substitution), limiter parameter `2` and cell size `d > 0`. -/
theorem limited_slope_bound (uc um up d : ℚ) (hd : 0 < d) :
    ∃ s : ℚ, minmod3 (num 2 * (num uc - num um) / num d) (num 2 * (num up - num uc) / num d)
        (num (1 / 2) * (num up - num um) / num d) = num s ∧
      |s| ≤ 2 * max |uc - um| |up - uc| / d ∧
      ((uc - um = 0 ∨ up - uc = 0 ∨ (uc - um < 0 ∧ 0 < up - uc) ∨ (0 < uc - um ∧ up - uc < 0)) →
        s = 0) := by
  have hne : d ≠ 0 := ne_of_gt hd
  refine ⟨minmod3Rat (2 * (uc - um) / d) (2 * (up - uc) / d) (1 / 2 * (up - um) / d), ?_, ?_, ?_⟩
  · simp only [ValueType.num_sub, ValueType.num_mul, ValueType.num_div_of_ne _ hne, minmod3_num]
  · refine le_trans (abs_minmod3Rat_le _ _ _) (le_trans (min_le_left _ _) ?_)
    rw [abs_div, abs_mul, abs_of_pos hd, abs_of_pos (show (0 : ℚ) < 2 by norm_num)]
    apply div_le_div_of_nonneg_right _ hd.le
    exact mul_le_mul_of_nonneg_left (le_max_left _ _) (by norm_num)
  · intro h
    apply minmod3Rat_eq_zero
    have hprod : (uc - um) * (up - uc) ≤ 0 := by
      rcases h with h | h | ⟨h1, h2⟩ | ⟨h1, h2⟩
      · simp [h]
      · simp [h]
      · exact (mul_neg_of_neg_of_pos h1 h2).le
      · exact (mul_neg_of_pos_of_neg h1 h2).le
    have hd2 : 0 < d * d := mul_pos hd hd
    have : 2 * (uc - um) / d * (2 * (up - uc) / d) = 4 * ((uc - um) * (up - uc)) / (d * d) := by
      field_simp
      ring
    rw [this]
    apply div_nonpos_of_nonpos_of_nonneg _ hd2.le
    linarith

/-- C7. Minmod bound: at every cell whose centre value `Uc` is a number, for every
component and all neighbour values `Uw, Ue, Us, Un` (an absent or `nan` neighbour
being replaced by the centre value), with `theta = 2` and positive cell sizes the
limited slopes are numbers with `|dU/dx| <= 2 * max(|Uc-Uw|, |Ue-Uc|) / dx` and
`|dU/dy| <= 2 * max(|Uc-Us|, |Un-Uc|) / dy`, and a slope is `0` whenever its two
one-sided differences have opposite signs or one of them is `0`. -/
theorem C7_minmod_bound {N : Nat} (mesh_ : Cartesian2DMesh) (U : FieldVector N) (cid_c : Nat)
    (i : Fin N) (Uc : ℚ) (hdx : 0 < mesh_.cell_size_0) (hdy : 0 < mesh_.cell_size_1)
    (hUc : U i cid_c = num Uc) :
    ∃ Uw Ue Us Un dUdx dUdy : ℚ,
      orCentre (U i (minmodNeighbours mesh_ cid_c).1) (U i cid_c) = num Uw ∧
      orCentre (U i (minmodNeighbours mesh_ cid_c).2.1) (U i cid_c) = num Ue ∧
      orCentre (U i (minmodNeighbours mesh_ cid_c).2.2.1) (U i cid_c) = num Us ∧
      orCentre (U i (minmodNeighbours mesh_ cid_c).2.2.2) (U i cid_c) = num Un ∧
      MinmodKernel mesh_ (num 2) U cid_c i = (num dUdx, num dUdy) ∧
      |dUdx| ≤ 2 * max |Uc - Uw| |Ue - Uc| / mesh_.cell_size_0 ∧
      |dUdy| ≤ 2 * max |Uc - Us| |Un - Uc| / mesh_.cell_size_1 ∧
      ((Uc - Uw = 0 ∨ Ue - Uc = 0 ∨ (Uc - Uw < 0 ∧ 0 < Ue - Uc) ∨ (0 < Uc - Uw ∧ Ue - Uc < 0)) →
        dUdx = 0) ∧
      ((Uc - Us = 0 ∨ Un - Uc = 0 ∨ (Uc - Us < 0 ∧ 0 < Un - Uc) ∨ (0 < Uc - Us ∧ Un - Uc < 0)) →
        dUdy = 0) := by
  rw [hUc]
  obtain ⟨Uw, hw⟩ := orCentre_num (U i (minmodNeighbours mesh_ cid_c).1) Uc
  obtain ⟨Ue, he⟩ := orCentre_num (U i (minmodNeighbours mesh_ cid_c).2.1) Uc
  obtain ⟨Us, hs⟩ := orCentre_num (U i (minmodNeighbours mesh_ cid_c).2.2.1) Uc
  obtain ⟨Un, hn⟩ := orCentre_num (U i (minmodNeighbours mesh_ cid_c).2.2.2) Uc
  obtain ⟨sx, hsx, hbx, hzx⟩ := limited_slope_bound Uc Uw Ue _ hdx
  obtain ⟨sy, hsy, hby, hzy⟩ := limited_slope_bound Uc Us Un _ hdy
  refine ⟨Uw, Ue, Us, Un, sx, sy, hw, he, hs, hn, ?_, hbx, hby, hzx, hzy⟩
  unfold MinmodKernel
  simp only [hUc, hw, he, hs, hn, hsx, hsy]

/-- C7, instantiated: the middle cell of `rowMesh` with `rowState` (depths `1, 3,
nan`): the east neighbour is replaced by the centre and the slope is `0`. -/
theorem C7_minmod_bound_witness :
    (0 < rowMesh.cell_size_0 ∧ 0 < rowMesh.cell_size_1 ∧ rowState 0 1 = num 3) ∧
    MinmodKernel rowMesh (num 2) rowState 1 0 = (num 0, num 0) ∧
    ∃ Uw Ue Us Un dUdx dUdy : ℚ,
      orCentre (rowState 0 (minmodNeighbours rowMesh 1).1) (rowState 0 1) = num Uw ∧
      orCentre (rowState 0 (minmodNeighbours rowMesh 1).2.1) (rowState 0 1) = num Ue ∧
      orCentre (rowState 0 (minmodNeighbours rowMesh 1).2.2.1) (rowState 0 1) = num Us ∧
      orCentre (rowState 0 (minmodNeighbours rowMesh 1).2.2.2) (rowState 0 1) = num Un ∧
      MinmodKernel rowMesh (num 2) rowState 1 0 = (num dUdx, num dUdy) ∧
      |dUdx| ≤ 2 * max |3 - Uw| |Ue - 3| / rowMesh.cell_size_0 ∧
      |dUdy| ≤ 2 * max |3 - Us| |Un - 3| / rowMesh.cell_size_1 ∧
      ((3 - Uw = 0 ∨ Ue - 3 = 0 ∨ (3 - Uw < 0 ∧ 0 < Ue - 3) ∨ (0 < 3 - Uw ∧ Ue - 3 < 0)) →
        dUdx = 0) ∧
      ((3 - Us = 0 ∨ Un - 3 = 0 ∨ (3 - Us < 0 ∧ 0 < Un - 3) ∨ (0 < 3 - Us ∧ Un - 3 < 0)) →
        dUdy = 0) :=
  ⟨⟨by decide!, by decide!, rfl⟩, by decide!,
    C7_minmod_bound rowMesh rowState 1 0 3 (by decide!) (by decide!) rfl⟩

/-! ## Flux solver -/

theorem faceFlux_num (B : Builtins) (xdir ydir z_m z_p h_m h_p u_m u_p v_m v_p : ℚ) (k : Fin 4) :
    faceFlux B (num xdir) (num ydir) (num z_m) (num z_p) (num h_m) (num h_p) (num u_m) (num u_p)
      (num v_m) (num v_p) k
    = num (faceFluxRat B.sqrt xdir ydir z_m z_p h_m h_p u_m u_p v_m v_p k) := by
  have hcm : ValueType.liftSqrt B.sqrt (num (981 / 100 * max h_m 0)) = num (B.sqrt (981 / 100 * max h_m 0)) :=
    ValueType.liftSqrt_num _ (by positivity)
  have hcp : ValueType.liftSqrt B.sqrt (num (981 / 100 * max h_p 0)) = num (B.sqrt (981 / 100 * max h_p 0)) :=
    ValueType.liftSqrt_num _ (by positivity)
  unfold faceFlux faceFluxRat
  simp only [ValueType.fmax_num, ValueType.num_add, ValueType.num_mul, ValueType.num_sub, hcm, hcp,
    ValueType.gt_num, ValueType.le_num, ValueType.sign_num, ValueType.fabs_num, ValueType.neg_num,
    Bool.or_eq_true, Bool.and_eq_true, decide_eq_true_eq]
  split_ifs <;> fin_cases k <;> rfl

theorem abs_speed_neg (spd c : ℚ) :
    |(-spd) + ValueType.signRat (-spd) * c| = |spd + ValueType.signRat spd * c| := by
  rw [ValueType.signRat_neg, ← abs_neg (spd + ValueType.signRat spd * c)]
  congr 1
  ring

theorem faceFluxRat_swap (sqrt : ℚ → ℚ) (xdir ydir z_m z_p h_m h_p u_m u_p v_m v_p : ℚ) :
    faceFluxRat sqrt xdir ydir z_p z_m h_p h_m (-u_p) (-u_m) (-v_p) (-v_m) 0
      = -(faceFluxRat sqrt xdir ydir z_m z_p h_m h_p u_m u_p v_m v_p 0) := by
  have hs1 : -u_p * xdir + -v_p * ydir = -(u_p * xdir + v_p * ydir) := by ring
  have hs2 : -u_m * xdir + -v_m * ydir = -(u_m * xdir + v_m * ydir) := by ring
  unfold faceFluxRat
  simp only [hs1, hs2, abs_speed_neg, max_comm z_p z_m]
  by_cases hwet : max z_m z_p < z_m + max h_m 0 ∨ max z_m z_p < z_p + max h_p 0
  · rw [if_pos hwet, if_pos (Or.symm hwet)]
    simp only [Matrix.cons_val_zero]
    rw [max_comm (|u_m * xdir + v_m * ydir + ValueType.signRat (u_m * xdir + v_m * ydir) * sqrt (981 / 100 * max h_m 0)|)]
    ring
  · rw [if_neg hwet, if_neg (fun h => hwet (Or.symm h))]
    by_cases hdry : max h_m 0 ≤ 0 ∧ max h_p 0 ≤ 0
    · rw [if_pos hdry, if_pos (And.symm hdry)]
      simp
    · rw [if_neg hdry, if_neg (fun h => hdry (And.symm h))]
      push_neg at hwet
      rcases lt_trichotomy z_m z_p with hz | hz | hz
      · rw [if_pos hz, if_neg (not_lt.mpr hz.le)]
        simp only [Matrix.cons_val_zero]
        ring
      · exfalso
        apply hdry
        have h1 := hwet.1
        have h2 := hwet.2
        rw [hz, max_self] at h1 h2
        constructor <;> linarith
      · rw [if_neg (not_lt.mpr hz.le), if_pos hz]
        simp only [Matrix.cons_val_zero]
        ring

/-- C6. Face symmetry of the mass flux: for every pair of projected face states
`(z, h, u, v)` (numbers) and every face orientation, exchanging the left and
right states and negating the velocities negates the mass flux `Hh`, whichever of
the wet, dry and one-sided branches is taken. -/
theorem C6_mass_flux_antisymmetric (B : Builtins)
    (xdir ydir z_L z_R h_L h_R u_L u_R v_L v_R : ℚ) :
    faceFlux B (num xdir) (num ydir) (num z_R) (num z_L) (num h_R) (num h_L)
        (num (-u_R)) (num (-u_L)) (num (-v_R)) (num (-v_L)) 0
      = -(faceFlux B (num xdir) (num ydir) (num z_L) (num z_R) (num h_L) (num h_R)
        (num u_L) (num u_R) (num v_L) (num v_R) 0) := by
  rw [faceFlux_num, faceFlux_num, faceFluxRat_swap]
  rfl

/-! ## Mesh -/

namespace Cartesian2DMesh

theorem cell_count_le_face_count (m : Cartesian2DMesh) : m.cell_count ≤ m.face_count := by
  unfold cell_count face_count
  nlinarith [Nat.zero_le m.ncells_0, Nat.zero_le m.ncells_1]

theorem index_of_lt (m : Cartesian2DMesh) {c : Nat} (hc : c < m.cell_count) :
    0 < m.ncells_0 ∧ c % m.ncells_0 < m.ncells_0 ∧ c / m.ncells_0 < m.ncells_1 ∧
      c / m.ncells_0 * m.ncells_0 + c % m.ncells_0 = c := by
  unfold cell_count at hc
  have hnx : 0 < m.ncells_0 := by
    rcases Nat.eq_zero_or_pos m.ncells_0 with h | h
    · rw [h] at hc
      simp at hc
    · exact h
  refine ⟨hnx, Nat.mod_lt _ hnx, ?_, ?_⟩
  · exact Nat.div_lt_of_lt_mul hc
  · rw [mul_comm]
    exact Nat.div_add_mod c m.ncells_0

theorem linear_id_lt (m : Cartesian2DMesh) {ix iy : Nat} (hx : ix < m.ncells_0)
    (hy : iy < m.ncells_1) : iy * m.ncells_0 + ix < m.cell_count := by
  unfold cell_count
  calc iy * m.ncells_0 + ix < iy * m.ncells_0 + m.ncells_0 := by omega
    _ = (iy + 1) * m.ncells_0 := by ring
    _ ≤ m.ncells_1 * m.ncells_0 := Nat.mul_le_mul_right _ hy
    _ = m.ncells_0 * m.ncells_1 := by ring

theorem get_cell_index_linear (m : Cartesian2DMesh) {ix iy : Nat} (hx : ix < m.ncells_0) :
    m.get_cell_index (iy * m.ncells_0 + ix) = (ix, iy) := by
  unfold get_cell_index
  have h0 : 0 < m.ncells_0 := by omega
  rw [Nat.mul_comm, Nat.mul_add_mod, Nat.mod_eq_of_lt hx, Nat.mul_add_div h0,
    Nat.div_eq_of_lt hx]
  simp

/-- The west face of cell `(ix, iy)`: its sides. -/
theorem faceSides_W (m : Cartesian2DMesh) {ix iy : Nat} (hx : ix < m.ncells_0)
    (hy : iy < m.ncells_1) :
    faceSides m (iy * (m.ncells_0 + 1) + ix) =
      if 0 < ix then (iy * m.ncells_0 + (ix - 1), iy * m.ncells_0 + ix, 0)
      else (iy * m.ncells_0 + ix, iy * m.ncells_0 + ix, -1) := by
  have hv : iy * (m.ncells_0 + 1) + ix < (m.ncells_0 + 1) * m.ncells_1 := by
    calc iy * (m.ncells_0 + 1) + ix < iy * (m.ncells_0 + 1) + (m.ncells_0 + 1) := by omega
      _ = (iy + 1) * (m.ncells_0 + 1) := by ring
      _ ≤ m.ncells_1 * (m.ncells_0 + 1) := Nat.mul_le_mul_right _ hy
      _ = (m.ncells_0 + 1) * m.ncells_1 := by ring
  have hdiv : (iy * (m.ncells_0 + 1) + ix) / (m.ncells_0 + 1) = iy := by
    rw [Nat.mul_comm, Nat.mul_add_div (by omega), Nat.div_eq_of_lt (by omega)]
    simp
  have hmod : (iy * (m.ncells_0 + 1) + ix) % (m.ncells_0 + 1) = ix := by
    rw [Nat.mul_comm, Nat.mul_add_mod, Nat.mod_eq_of_lt (by omega)]
  have hfc := m.cell_count_le_face_count
  have hc := m.linear_id_lt hx hy
  unfold faceSides get_cells_around_face get_cell_linear_id
  simp only [hv, if_true, hdiv, hmod, hx]
  by_cases h0 : 0 < ix
  · have hc1 : iy * m.ncells_0 + (ix - 1) < m.cell_count := m.linear_id_lt (by omega) hy
    simp [h0, hc, hc1]
  · simp [h0, hc, not_lt.mpr hfc]

end Cartesian2DMesh
namespace Cartesian2DMesh

theorem vertical_face_lt (m : Cartesian2DMesh) {j iy : Nat} (hj : j ≤ m.ncells_0)
    (hy : iy < m.ncells_1) : iy * (m.ncells_0 + 1) + j < (m.ncells_0 + 1) * m.ncells_1 := by
  calc iy * (m.ncells_0 + 1) + j < iy * (m.ncells_0 + 1) + (m.ncells_0 + 1) := by omega
    _ = (iy + 1) * (m.ncells_0 + 1) := by ring
    _ ≤ m.ncells_1 * (m.ncells_0 + 1) := Nat.mul_le_mul_right _ hy
    _ = (m.ncells_0 + 1) * m.ncells_1 := by ring

/-- The east face of cell `(ix, iy)`: its sides. -/
theorem faceSides_E (m : Cartesian2DMesh) {ix iy : Nat} (hx : ix < m.ncells_0)
    (hy : iy < m.ncells_1) :
    faceSides m (iy * (m.ncells_0 + 1) + ix + 1) =
      if ix + 1 < m.ncells_0 then (iy * m.ncells_0 + ix, iy * m.ncells_0 + (ix + 1), 0)
      else (iy * m.ncells_0 + ix, iy * m.ncells_0 + ix, 1) := by
  have hv : iy * (m.ncells_0 + 1) + ix + 1 < (m.ncells_0 + 1) * m.ncells_1 := by
    have := m.vertical_face_lt (j := ix + 1) (by omega) hy
    omega
  have hdiv : (iy * (m.ncells_0 + 1) + ix + 1) / (m.ncells_0 + 1) = iy := by
    rw [Nat.add_assoc, Nat.mul_comm, Nat.mul_add_div (by omega), Nat.div_eq_of_lt (by omega)]
    simp
  have hmod : (iy * (m.ncells_0 + 1) + ix + 1) % (m.ncells_0 + 1) = ix + 1 := by
    rw [Nat.add_assoc, Nat.mul_comm, Nat.mul_add_mod, Nat.mod_eq_of_lt (by omega)]
  have hfc := m.cell_count_le_face_count
  have hc := m.linear_id_lt hx hy
  unfold faceSides get_cells_around_face get_cell_linear_id
  simp only [hv, if_true, hdiv, hmod]
  by_cases h1 : ix + 1 < m.ncells_0
  · have hc1 : iy * m.ncells_0 + (ix + 1) < m.cell_count := m.linear_id_lt h1 hy
    simp [h1, hc, hc1]
  · simp [h1, hc, not_lt.mpr hfc]

/-- The south face of cell `(ix, iy)`: its sides. -/
theorem faceSides_S (m : Cartesian2DMesh) {ix iy : Nat} (hx : ix < m.ncells_0)
    (hy : iy < m.ncells_1) :
    faceSides m ((m.ncells_0 + 1) * m.ncells_1 + iy * m.ncells_0 + ix) =
      if 0 < iy then ((iy - 1) * m.ncells_0 + ix, iy * m.ncells_0 + ix, 0)
      else (iy * m.ncells_0 + ix, iy * m.ncells_0 + ix, -1) := by
  have hv : ¬ (m.ncells_0 + 1) * m.ncells_1 + iy * m.ncells_0 + ix
      < (m.ncells_0 + 1) * m.ncells_1 := by omega
  have hloc : (m.ncells_0 + 1) * m.ncells_1 + iy * m.ncells_0 + ix
      - (m.ncells_0 + 1) * m.ncells_1 = iy * m.ncells_0 + ix := by omega
  have h0 : 0 < m.ncells_0 := by omega
  have hdiv : (iy * m.ncells_0 + ix) / m.ncells_0 = iy := by
    rw [Nat.mul_comm, Nat.mul_add_div h0, Nat.div_eq_of_lt hx]
    simp
  have hmod : (iy * m.ncells_0 + ix) % m.ncells_0 = ix := by
    rw [Nat.mul_comm, Nat.mul_add_mod, Nat.mod_eq_of_lt hx]
  have hfc := m.cell_count_le_face_count
  have hc := m.linear_id_lt hx hy
  unfold faceSides get_cells_around_face get_cell_linear_id
  simp only [hv, if_false, hloc, hdiv, hmod, hy, if_true]
  by_cases h1 : 0 < iy
  · have hc1 : (iy - 1) * m.ncells_0 + ix < m.cell_count := m.linear_id_lt hx (by omega)
    simp [h1, hc, hc1]
  · simp [h1, hc, not_lt.mpr hfc]

/-- The north face of cell `(ix, iy)`: its sides. -/
theorem faceSides_N (m : Cartesian2DMesh) {ix iy : Nat} (hx : ix < m.ncells_0)
    (hy : iy < m.ncells_1) :
    faceSides m ((m.ncells_0 + 1) * m.ncells_1 + iy * m.ncells_0 + ix + m.ncells_0) =
      if iy + 1 < m.ncells_1 then (iy * m.ncells_0 + ix, (iy + 1) * m.ncells_0 + ix, 0)
      else (iy * m.ncells_0 + ix, iy * m.ncells_0 + ix, 1) := by
  have hv : ¬ (m.ncells_0 + 1) * m.ncells_1 + iy * m.ncells_0 + ix + m.ncells_0
      < (m.ncells_0 + 1) * m.ncells_1 := by omega
  have hloc : (m.ncells_0 + 1) * m.ncells_1 + iy * m.ncells_0 + ix + m.ncells_0
      - (m.ncells_0 + 1) * m.ncells_1 = (iy + 1) * m.ncells_0 + ix := by
    have : (iy + 1) * m.ncells_0 = iy * m.ncells_0 + m.ncells_0 := by ring
    omega
  have h0 : 0 < m.ncells_0 := by omega
  have hdiv : ((iy + 1) * m.ncells_0 + ix) / m.ncells_0 = iy + 1 := by
    rw [Nat.mul_comm, Nat.mul_add_div h0, Nat.div_eq_of_lt hx]
  have hmod : ((iy + 1) * m.ncells_0 + ix) % m.ncells_0 = ix := by
    rw [Nat.mul_comm, Nat.mul_add_mod, Nat.mod_eq_of_lt hx]
  have hfc := m.cell_count_le_face_count
  have hc := m.linear_id_lt hx hy
  unfold faceSides get_cells_around_face get_cell_linear_id
  simp only [hv, if_false, hloc, hdiv, hmod]
  by_cases h1 : iy + 1 < m.ncells_1
  · have hc1 : (iy + 1) * m.ncells_0 + ix < m.cell_count := m.linear_id_lt hx h1
    simp [h1, hc, hc1]
  · simp [h1, hc, not_lt.mpr hfc]

theorem horizontal_face_lt (m : Cartesian2DMesh) {ix j : Nat} (hx : ix < m.ncells_0)
    (hj : j ≤ m.ncells_1) :
    (m.ncells_0 + 1) * m.ncells_1 + j * m.ncells_0 + ix < m.face_count := by
  unfold face_count
  have : j * m.ncells_0 + ix < m.ncells_0 * (m.ncells_1 + 1) := by
    calc j * m.ncells_0 + ix < j * m.ncells_0 + m.ncells_0 := by omega
      _ = (j + 1) * m.ncells_0 := by ring
      _ ≤ (m.ncells_1 + 1) * m.ncells_0 := Nat.mul_le_mul_right _ (by omega)
      _ = m.ncells_0 * (m.ncells_1 + 1) := by ring
  omega

theorem vertical_face_lt_face_count (m : Cartesian2DMesh) {j iy : Nat} (hj : j ≤ m.ncells_0)
    (hy : iy < m.ncells_1) : iy * (m.ncells_0 + 1) + j < m.face_count := by
  have := m.vertical_face_lt hj hy
  unfold face_count
  omega

end Cartesian2DMesh

/-! ## Wall faces and uniform faces -/

/-- A face whose right side is a ghost cell over a live cell with depth `h >= 0`
(ghost bed `z + 1.1 h`, ghost depth `0`, no ghost speed through the face): the
fluxes vanish and the wall datum is `1.1 h`. -/
theorem faceFluxRat_wall_right (sqrt : ℚ → ℚ) (xdir ydir z h u_m u_p v_m v_p : ℚ)
    (hh : 0 ≤ h) (hspd : u_p * xdir + v_p * ydir = 0) :
    faceFluxRat sqrt xdir ydir z (z + h * (11 / 10)) h 0 u_m u_p v_m v_p
      = ![0, 0, 0, h * (11 / 10)] := by
  unfold faceFluxRat
  have hz : max z (z + h * (11 / 10)) = z + h * (11 / 10) := max_eq_right (by linarith)
  have hm : max h 0 = h := max_eq_left hh
  simp only [hz, hm, max_self, hspd, ValueType.signRat_zero, zero_mul, add_zero, abs_zero]
  have hwet : ¬ (z + h * (11 / 10) < z + h ∨ z + h * (11 / 10) < z + h * (11 / 10)) := by
    intro hcon
    rcases hcon with h1 | h1 <;> linarith
  rw [if_neg hwet]
  have hdz : z + h * (11 / 10) - z = h * (11 / 10) := by ring
  by_cases hdry : h ≤ 0 ∧ (0 : ℚ) ≤ 0
  · rw [if_pos hdry, hdz]
  · rw [if_neg hdry, if_neg (by linarith : ¬ z + h * (11 / 10) < z), hdz]
    simp

/-- A face whose left side is a ghost cell over a live cell with depth `h >= 0`:
the fluxes vanish and the wall datum is `-1.1 h`. -/
theorem faceFluxRat_wall_left (sqrt : ℚ → ℚ) (xdir ydir z h u_m u_p v_m v_p : ℚ)
    (hh : 0 ≤ h) (hspd : u_m * xdir + v_m * ydir = 0) :
    faceFluxRat sqrt xdir ydir (z + h * (11 / 10)) z 0 h u_m u_p v_m v_p
      = ![0, 0, 0, -(h * (11 / 10))] := by
  unfold faceFluxRat
  have hz : max (z + h * (11 / 10)) z = z + h * (11 / 10) := max_eq_left (by linarith)
  have hm : max h 0 = h := max_eq_left hh
  simp only [hz, hm, max_self, hspd, ValueType.signRat_zero, zero_mul, add_zero, abs_zero]
  have hwet : ¬ (z + h * (11 / 10) < z + h * (11 / 10) ∨ z + h * (11 / 10) < z + h) := by
    intro hcon
    rcases hcon with h1 | h1 <;> linarith
  rw [if_neg hwet]
  have hdz : z - (z + h * (11 / 10)) = -(h * (11 / 10)) := by ring
  by_cases hdry : (0 : ℚ) ≤ 0 ∧ h ≤ 0
  · rw [if_pos hdry, hdz]
  · rw [if_neg hdry, hdz]
    have hpos : 0 < h := by
      by_contra hcon
      exact hdry ⟨le_refl _, not_lt.mp hcon⟩
    rw [if_pos (by linarith : z < z + h * (11 / 10))]
    simp

/-- A face between two cells at rest with the same bed and the same depth
`h >= 0`: no mass flux, the hydrostatic term `9.81 h` in the momentum flux
normal to the face, no wall datum. -/
theorem faceFluxRat_uniform (sqrt : ℚ → ℚ) (xdir ydir z h : ℚ) (hh : 0 ≤ h) :
    faceFluxRat sqrt xdir ydir z z h h 0 0 0 0
      = ![0, 981 / 100 * h * xdir, 981 / 100 * h * ydir, 0] := by
  unfold faceFluxRat
  have hm : max h 0 = h := max_eq_left hh
  simp only [hm, max_self, zero_mul, add_zero, ValueType.signRat_zero, abs_zero, sub_self,
    mul_zero, sub_zero, zero_add]
  by_cases hwet : z < z + h ∨ z < z + h
  · rw [if_pos hwet]
    have e1 : (1 : ℚ) / 2 * (981 / 100 * h * xdir + 981 / 100 * h * xdir)
        = 981 / 100 * h * xdir := by ring
    have e2 : (1 : ℚ) / 2 * (981 / 100 * h * ydir + 981 / 100 * h * ydir)
        = 981 / 100 * h * ydir := by ring
    simp only [e1, e2]
  · rw [if_neg hwet]
    have h0 : h = 0 := by
      by_contra hne
      have : 0 < h := lt_of_le_of_ne hh (Ne.symm hne)
      exact hwet (Or.inl (by linarith))
    subst h0
    simp

@[simp] theorem zeroIf_true : zeroIf true = num 0 := rfl
@[simp] theorem zeroIf_false : zeroIf false = num 1 := rfl

theorem faceFlux_num_fun (B : Builtins) (xdir ydir z_m z_p h_m h_p u_m u_p v_m v_p : ℚ) :
    faceFlux B (num xdir) (num ydir) (num z_m) (num z_p) (num h_m) (num h_p) (num u_m) (num u_p)
      (num v_m) (num v_p)
    = fun k => num (faceFluxRat B.sqrt xdir ydir z_m z_p h_m h_p u_m u_p v_m v_p k) :=
  funext fun k => faceFlux_num B xdir ydir z_m z_p h_m h_p u_m u_p v_m v_p k

/-- The flux kernel at a wall edge whose right side is fake, over the live cell `c`. -/
theorem fluxFromSides_wall_right (B : Builtins) (m : Cartesian2DMesh) (U zb dUdx dUdy : FieldVector 3)
    (xd : Bool) (c : Nat) (zbL zbR : ValueType) (z h u v : ℚ) (sx sy : Fin 3 → ℚ)
    (hz : zbL = num z) (hU0 : U 0 c = num h) (hU1 : U 1 c = num u) (hU2 : U 2 c = num v)
    (hsx : ∀ k, dUdx k c = num (sx k)) (hsy : ∀ k, dUdy k c = num (sy k))
    (hb1 : zb 1 c = num 0) (hb2 : zb 2 c = num 0) (hh : 0 ≤ h)
    (hnormal : if xd = true then sx 0 = 0 else sy 0 = 0) :
    fluxFromSides B m U zb dUdx dUdy xd c c 1 zbL zbR
      = ![num 0, num 0, num 0, num (h * (11 / 10))] := by
  unfold fluxFromSides
  cases xd with
  | true =>
    simp only [if_true] at hnormal
    simp only [hz, hU0, hU1, hU2, hsx, hsy, hb1, hb2, hnormal, if_true, Bool.not_true,
      Bool.and_true, Bool.and_false, zeroIf_true, zeroIf_false, ValueType.num_mul,
      ValueType.num_add, show decide ((1 : Int) < 0) = false from rfl,
      show decide ((1 : Int) > 0) = true from rfl, show ¬ ((1 : Int) < 0) by decide,
      show ((1 : Int) > 0) by decide, if_false, faceFlux_num_fun, decide_True, decide_False,
      mul_zero, zero_mul, add_zero, mul_one, zero_add]
    rw [faceFluxRat_wall_right _ _ _ _ _ _ _ _ _ hh (by simp)]
    funext k
    fin_cases k <;> rfl
  | false =>
    simp only [Bool.false_eq_true, if_false] at hnormal
    simp only [hz, hU0, hU1, hU2, hsx, hsy, hb1, hb2, hnormal, Bool.false_eq_true, if_false,
      Bool.not_false,
      Bool.and_true, Bool.and_false, zeroIf_true, zeroIf_false, ValueType.num_mul,
      ValueType.num_add, show decide ((1 : Int) < 0) = false from rfl,
      show decide ((1 : Int) > 0) = true from rfl, show ¬ ((1 : Int) < 0) by decide,
      show ((1 : Int) > 0) by decide, if_true, faceFlux_num_fun, decide_True, decide_False,
      mul_zero, zero_mul, add_zero, mul_one, zero_add]
    rw [faceFluxRat_wall_right _ _ _ _ _ _ _ _ _ hh (by simp)]
    funext k
    fin_cases k <;> rfl
/-- The flux kernel at a wall edge whose left side is fake, over the live cell `c`. -/
theorem fluxFromSides_wall_left (B : Builtins) (m : Cartesian2DMesh) (U zb dUdx dUdy : FieldVector 3)
    (xd : Bool) (c : Nat) (zbL zbR : ValueType) (z h u v : ℚ) (sx sy : Fin 3 → ℚ)
    (hz : zbR = num z) (hU0 : U 0 c = num h) (hU1 : U 1 c = num u) (hU2 : U 2 c = num v)
    (hsx : ∀ k, dUdx k c = num (sx k)) (hsy : ∀ k, dUdy k c = num (sy k))
    (hb1 : zb 1 c = num 0) (hb2 : zb 2 c = num 0) (hh : 0 ≤ h)
    (hnormal : if xd = true then sx 0 = 0 else sy 0 = 0) :
    fluxFromSides B m U zb dUdx dUdy xd c c (-1) zbL zbR
      = ![num 0, num 0, num 0, num (-(h * (11 / 10)))] := by
  unfold fluxFromSides
  cases xd with
  | true =>
    simp only [if_true] at hnormal
    simp only [hz, hU0, hU1, hU2, hsx, hsy, hb1, hb2, hnormal, if_true, Bool.not_true,
      Bool.and_true, Bool.and_false, zeroIf_true, zeroIf_false, ValueType.num_mul,
      ValueType.num_add, show ((-1 : Int) < 0) by decide,
      show ¬ ((-1 : Int) > 0) by decide, if_false, faceFlux_num_fun, decide_True, decide_False,
      mul_zero, zero_mul, add_zero, mul_one, zero_add]
    rw [faceFluxRat_wall_left _ _ _ _ _ _ _ _ _ hh (by simp)]
    funext k
    fin_cases k <;> rfl
  | false =>
    simp only [Bool.false_eq_true, if_false] at hnormal
    simp only [hz, hU0, hU1, hU2, hsx, hsy, hb1, hb2, hnormal, Bool.false_eq_true, if_false,
      Bool.not_false,
      Bool.and_true, Bool.and_false, zeroIf_true, zeroIf_false, ValueType.num_mul,
      ValueType.num_add, show ((-1 : Int) < 0) by decide,
      show ¬ ((-1 : Int) > 0) by decide, if_true, faceFlux_num_fun, decide_True, decide_False,
      mul_zero, zero_mul, add_zero, mul_one, zero_add]
    rw [faceFluxRat_wall_left _ _ _ _ _ _ _ _ _ hh (by simp)]
    funext k
    fin_cases k <;> rfl

/-- The flux kernel at a face between two live cells: the flux of the projected
states, all numbers. -/
theorem fluxFromSides_interior (B : Builtins) (m : Cartesian2DMesh)
    (U zb dUdx dUdy : FieldVector 3) (xd : Bool) (l r : Nat) (zL zR : ℚ)
    (UL UR sxL sxR syL syR : Fin 3 → ℚ)
    (hUL : ∀ k, U k l = num (UL k)) (hUR : ∀ k, U k r = num (UR k))
    (hsxL : ∀ k, dUdx k l = num (sxL k)) (hsxR : ∀ k, dUdx k r = num (sxR k))
    (hsyL : ∀ k, dUdy k l = num (syL k)) (hsyR : ∀ k, dUdy k r = num (syR k))
    (hbL : zb 1 l = num 0 ∧ zb 2 l = num 0) (hbR : zb 1 r = num 0 ∧ zb 2 r = num 0) :
    ∃ F : Fin 4 → ℚ,
      fluxFromSides B m U zb dUdx dUdy xd l r 0 (num zL) (num zR) = fun k => num (F k) := by
  unfold fluxFromSides
  cases xd with
  | true =>
    simp only [hUL, hUR, hsxL, hsxR, hsyL, hsyR, hbL.1, hbL.2, hbR.1, hbR.2, if_true,
      Bool.not_true, Bool.and_true, Bool.and_false, zeroIf_true, zeroIf_false,
      ValueType.num_mul, ValueType.num_add, show ¬ ((0 : Int) < 0) by decide,
      show ¬ ((0 : Int) > 0) by decide, if_false, faceFlux_num_fun, decide_True, decide_False]
    exact ⟨_, rfl⟩
  | false =>
    simp only [hUL, hUR, hsxL, hsxR, hsyL, hsyR, hbL.1, hbL.2, hbR.1, hbR.2,
      Bool.false_eq_true, if_false, Bool.not_false, Bool.and_true, Bool.and_false,
      zeroIf_true, zeroIf_false,
      ValueType.num_mul, ValueType.num_add, show ¬ ((0 : Int) < 0) by decide,
      show ¬ ((0 : Int) > 0) by decide, faceFlux_num_fun, decide_True, decide_False]
    exact ⟨_, rfl⟩

/-- The flux kernel at a face between two live cells at rest with the same bed
level and the same depth, with zero slopes. -/
theorem fluxFromSides_uniform (B : Builtins) (m : Cartesian2DMesh)
    (U zb dUdx dUdy : FieldVector 3) (xd : Bool) (l r : Nat) (z h : ℚ) (hh : 0 ≤ h)
    (hUL : U 0 l = num h ∧ U 1 l = num 0 ∧ U 2 l = num 0)
    (hUR : U 0 r = num h ∧ U 1 r = num 0 ∧ U 2 r = num 0)
    (hsL : ∀ k, dUdx k l = num 0 ∧ dUdy k l = num 0)
    (hsR : ∀ k, dUdx k r = num 0 ∧ dUdy k r = num 0)
    (hbL : zb 1 l = num 0 ∧ zb 2 l = num 0) (hbR : zb 1 r = num 0 ∧ zb 2 r = num 0) :
    fluxFromSides B m U zb dUdx dUdy xd l r 0 (num z) (num z)
      = ![num 0, num (981 / 100 * h * (if xd = true then 1 else 0)),
          num (981 / 100 * h * (if xd = true then 0 else 1)), num 0] := by
  unfold fluxFromSides
  cases xd with
  | true =>
    simp only [hUL.1, hUL.2.1, hUL.2.2, hUR.1, hUR.2.1, hUR.2.2, (hsL _).1, (hsL _).2,
      (hsR _).1, (hsR _).2, hbL.1, hbL.2, hbR.1, hbR.2, if_true,
      Bool.not_true, Bool.and_true, Bool.and_false, zeroIf_true, zeroIf_false,
      ValueType.num_mul, ValueType.num_add, show ¬ ((0 : Int) < 0) by decide,
      show ¬ ((0 : Int) > 0) by decide, if_false, faceFlux_num_fun, decide_True, decide_False,
      mul_zero, zero_mul, add_zero, mul_one, zero_add]
    rw [faceFluxRat_uniform _ _ _ _ _ hh]
    funext k
    fin_cases k <;> simp
  | false =>
    simp only [hUL.1, hUL.2.1, hUL.2.2, hUR.1, hUR.2.1, hUR.2.2, (hsL _).1, (hsL _).2,
      (hsR _).1, (hsR _).2, hbL.1, hbL.2, hbR.1, hbR.2,
      Bool.false_eq_true, if_false, Bool.not_false, Bool.and_true, Bool.and_false,
      zeroIf_true, zeroIf_false,
      ValueType.num_mul, ValueType.num_add, show ¬ ((0 : Int) < 0) by decide,
      show ¬ ((0 : Int) > 0) by decide, faceFlux_num_fun, decide_True, decide_False,
      mul_zero, zero_mul, add_zero, mul_one, zero_add]
    rw [faceFluxRat_uniform _ _ _ _ _ hh]
    funext k
    fin_cases k <;> simp

/-! ## Temporal derivative -/

/-- The mass component of the temporal derivative at cell `(ix, iy)` without a
stage boundary and with the same inflow `Q` at both ends of the interval: the
flux divergence plus `Q / (dx dy)`. -/
theorem TemporalDerivativeKernel_mass (B : Builtins) (m : Cartesian2DMesh)
    (U zb : FieldVector 3) (n : FieldVector 4) (Q_in h_in : FieldVector 2) (F : FieldVector 4)
    (t dt b0 b1 : ℚ) (ix iy : Nat) (fW fE fS fN Q hin : ℚ)
    (hx : ix < m.ncells_0) (hdx : 0 < m.cell_size_0) (hdy : 0 < m.cell_size_1)
    (hb : b1 - b0 ≠ 0)
    (hFW : F 0 (iy * (m.ncells_0 + 1) + ix) = num fW)
    (hFE : F 0 (iy * (m.ncells_0 + 1) + ix + 1) = num fE)
    (hFS : F 0 ((m.ncells_0 + 1) * m.ncells_1 + iy * m.ncells_0 + ix) = num fS)
    (hFN : F 0 ((m.ncells_0 + 1) * m.ncells_1 + iy * m.ncells_0 + ix + m.ncells_0) = num fN)
    (hQ0 : Q_in 0 (iy * m.ncells_0 + ix) = num Q) (hQ1 : Q_in 1 (iy * m.ncells_0 + ix) = num Q)
    (hh : h_in 0 (iy * m.ncells_0 + ix) = num hin) (hneg : hin < 0) :
    TemporalDerivativeKernel B m U zb n Q_in h_in F (num t) (num dt) (num b0) (num b1)
        (iy * m.ncells_0 + ix) 0
      = num ((fW - fE) / m.cell_size_0 + (fS - fN) / m.cell_size_1
          + Q / (m.cell_size_0 * m.cell_size_1)) := by
  have hdx' : m.cell_size_0 ≠ 0 := ne_of_gt hdx
  have hdy' : m.cell_size_1 ≠ 0 := ne_of_gt hdy
  have hdxy : m.cell_size_0 * m.cell_size_1 ≠ 0 := mul_ne_zero hdx' hdy'
  unfold TemporalDerivativeKernel
  simp only [Cartesian2DMesh.get_cell_index_linear m hx, Cartesian2DMesh.get_faces_around_cell,
    hFW, hFE, hFS, hFN, hQ0, hQ1, hh, ValueType.num_sub, ValueType.num_add, ValueType.num_mul,
    ValueType.num_div_of_ne _ hdx', ValueType.num_div_of_ne _ hdy',
    ValueType.num_div_of_ne _ hb, ValueType.num_div_of_ne _ hdxy,
    ValueType.lt_num, hneg, decide_True, if_true, ValueType.ge_num,
    show ¬ (0 : ℚ) ≤ -1 by norm_num, decide_False, Bool.false_eq_true, if_false,
    Matrix.cons_val_zero]
  congr 1
  field_simp

theorem limitFriction_zero (sf : ValueType) :
    limitFriction (num (981 / 100) * sf * num 0) (num 0) = num 0 := by
  cases sf <;> simp [limitFriction]

theorem applyFriction_rest (sf : ValueType) (dt : ℚ) :
    applyFriction (num 0) (num 0) sf (num dt) = num 0 := by
  unfold applyFriction
  simp only [ValueType.num_mul, ValueType.num_add, zero_mul, add_zero, limitFriction_zero,
    ValueType.num_sub, sub_zero]

/-- The bed and wall source over a flat bed with depth `h >= 0`, when the wall
datum of each face is `0` (no wall) or that of a wall edge (`-1.1 h` at the
lower face, `1.1 h` at the upper face). -/
theorem bedAndWallSource_flat (h d : ℚ) (hh : 0 ≤ h) (hd : 0 < d) (wlo whi : Bool) :
    bedAndWallSource (num 0) (num (if wlo = true then -(h * (11 / 10)) else 0))
        (num (if whi = true then h * (11 / 10) else 0)) (num h) (num d)
      = num ((if wlo = true then 981 / 100 * h / d else 0)
          - (if whi = true then 981 / 100 * h / d else 0)) := by
  have hd' : d ≠ 0 := ne_of_gt hd
  have hq : ¬ h / d < 0 := not_lt.mpr (div_nonneg hh hd.le)
  have hmax : max (-(h * (11 / 10))) (-h) = -h := max_eq_right (by linarith)
  have hmin : min (h * (11 / 10)) h = h := min_eq_right (by linarith)
  unfold bedAndWallSource
  simp only [ValueType.fabs_num, abs_zero, ValueType.num_div_of_ne _ hd', ValueType.gt_num, hq,
    decide_False, Bool.false_eq_true, if_false, ValueType.num_mul, mul_zero, ValueType.lt_num,
    ValueType.neg_num]
  rcases lt_or_eq_of_le hh with hpos | hzero
  · have hlt1 : -(h * (11 / 10)) < 0 := by linarith
    have hlt2 : 0 < h * (11 / 10) := by linarith
    cases wlo <;> cases whi <;>
      simp only [if_true, Bool.false_eq_true, if_false, hlt1, hlt2, lt_irrefl, decide_True,
        decide_False, ValueType.fmax_num, ValueType.fmin_num, hmax, hmin, ValueType.num_mul,
        ValueType.num_div_of_ne _ hd', ValueType.num_add, ValueType.num.injEq] <;>
      ring
  · subst hzero
    cases wlo <;> cases whi <;> simp

/-- The temporal derivative at a cell at rest with depth `h >= 0` over a flat bed
whose four faces each carry either the flux of a uniform interior face or that
of a wall (`wW`, `wE`, `wS`, `wN` say which): `(Q / (dx dy), 0, 0)`. -/
theorem TemporalDerivativeKernel_uniform (B : Builtins) (m : Cartesian2DMesh)
    (U zb : FieldVector 3) (n : FieldVector 4) (Q_in h_in : FieldVector 2) (F : FieldVector 4)
    (t dt b0 b1 : ℚ) (ix iy : Nat) (h Q hin : ℚ) (wW wE wS wN : Bool)
    (hx : ix < m.ncells_0) (hdx : 0 < m.cell_size_0) (hdy : 0 < m.cell_size_1)
    (hb : b1 - b0 ≠ 0) (hh0 : 0 ≤ h)
    (hU : U 0 (iy * m.ncells_0 + ix) = num h ∧ U 1 (iy * m.ncells_0 + ix) = num 0 ∧
      U 2 (iy * m.ncells_0 + ix) = num 0)
    (hzb : zb 1 (iy * m.ncells_0 + ix) = num 0 ∧ zb 2 (iy * m.ncells_0 + ix) = num 0)
    (hFW : ∀ k, F k (iy * (m.ncells_0 + 1) + ix)
      = ![num 0, num (if wW = true then 0 else 981 / 100 * h), num 0,
          num (if wW = true then -(h * (11 / 10)) else 0)] k)
    (hFE : ∀ k, F k (iy * (m.ncells_0 + 1) + ix + 1)
      = ![num 0, num (if wE = true then 0 else 981 / 100 * h), num 0,
          num (if wE = true then h * (11 / 10) else 0)] k)
    (hFS : ∀ k, F k ((m.ncells_0 + 1) * m.ncells_1 + iy * m.ncells_0 + ix)
      = ![num 0, num 0, num (if wS = true then 0 else 981 / 100 * h),
          num (if wS = true then -(h * (11 / 10)) else 0)] k)
    (hFN : ∀ k, F k ((m.ncells_0 + 1) * m.ncells_1 + iy * m.ncells_0 + ix + m.ncells_0)
      = ![num 0, num 0, num (if wN = true then 0 else 981 / 100 * h),
          num (if wN = true then h * (11 / 10) else 0)] k)
    (hQ0 : Q_in 0 (iy * m.ncells_0 + ix) = num Q) (hQ1 : Q_in 1 (iy * m.ncells_0 + ix) = num Q)
    (hh : h_in 0 (iy * m.ncells_0 + ix) = num hin) (hneg : hin < 0) :
    TemporalDerivativeKernel B m U zb n Q_in h_in F (num t) (num dt) (num b0) (num b1)
        (iy * m.ncells_0 + ix)
      = ![num (Q / (m.cell_size_0 * m.cell_size_1)), num 0, num 0] := by
  have hdx' : m.cell_size_0 ≠ 0 := ne_of_gt hdx
  have hdy' : m.cell_size_1 ≠ 0 := ne_of_gt hdy
  have hmass := TemporalDerivativeKernel_mass B m U zb n Q_in h_in F t dt b0 b1 ix iy 0 0 0 0 Q
    hin hx hdx hdy hb (hFW 0) (hFE 0) (hFS 0) (hFN 0) hQ0 hQ1 hh hneg
  have hW1 := hFW 1
  have hW2 := hFW 2
  have hW3 := hFW 3
  have hE1 := hFE 1
  have hE2 := hFE 2
  have hE3 := hFE 3
  have hS1 := hFS 1
  have hS2 := hFS 2
  have hS3 := hFS 3
  have hN1 := hFN 1
  have hN2 := hFN 2
  have hN3 := hFN 3
  simp only [Matrix.cons_val_one, Matrix.head_cons, Matrix.cons_val_two, Matrix.tail_cons,
    Matrix.cons_val_three] at hW1 hW2 hW3 hE1 hE2 hE3 hS1 hS2 hS3 hN1 hN2 hN3
  funext k
  fin_cases k
  · simp only [Fin.zero_eta] at hmass ⊢
    rw [hmass]
    simp
  · unfold TemporalDerivativeKernel
    simp only [Cartesian2DMesh.get_cell_index_linear m hx,
      Cartesian2DMesh.get_faces_around_cell, hU.1, hU.2.1, hU.2.2, hzb.1, hzb.2,
      hW1, hW3, hE1, hE3, hS1, hN1, bedAndWallSource_flat h _ hh0 hdx,
      ValueType.num_sub, ValueType.num_add, ValueType.num_div_of_ne _ hdx',
      ValueType.num_div_of_ne _ hdy']
    have h0 : ((if wW = true then (0 : ℚ) else 981 / 100 * h)
          - (if wE = true then (0 : ℚ) else 981 / 100 * h)) / m.cell_size_0
        + (0 - 0) / m.cell_size_1
        + ((if wW = true then 981 / 100 * h / m.cell_size_0 else 0)
          - (if wE = true then 981 / 100 * h / m.cell_size_0 else 0)) = 0 := by
      cases wW <;> cases wE <;> simp
      all_goals ring
    simp only [h0, applyFriction_rest]
    rfl
  · unfold TemporalDerivativeKernel
    simp only [Cartesian2DMesh.get_cell_index_linear m hx,
      Cartesian2DMesh.get_faces_around_cell, hU.1, hU.2.1, hU.2.2, hzb.1, hzb.2,
      hS2, hS3, hN2, hN3, hW2, hE2, bedAndWallSource_flat h _ hh0 hdy,
      ValueType.num_sub, ValueType.num_add, ValueType.num_div_of_ne _ hdx',
      ValueType.num_div_of_ne _ hdy']
    have h0 : ((0 : ℚ) - 0) / m.cell_size_0
        + ((if wS = true then (0 : ℚ) else 981 / 100 * h)
          - (if wN = true then (0 : ℚ) else 981 / 100 * h)) / m.cell_size_1
        + ((if wS = true then 981 / 100 * h / m.cell_size_1 else 0)
          - (if wN = true then 981 / 100 * h / m.cell_size_1 else 0)) = 0 := by
      cases wS <;> cases wN <;> simp
      all_goals ring
    simp only [h0, applyFriction_rest]
    rfl

/-! ## The flux kernel at the four faces of a cell -/

theorem xd_vertical (m : Cartesian2DMesh) {j iy : Nat} (hj : j ≤ m.ncells_0)
    (hy : iy < m.ncells_1) :
    decide (iy * (m.ncells_0 + 1) + j < (m.ncells_0 + 1) * m.ncells_1) = true :=
  decide_eq_true (m.vertical_face_lt hj hy)

theorem xd_horizontal (m : Cartesian2DMesh) (k : Nat) :
    decide ((m.ncells_0 + 1) * m.ncells_1 + k < (m.ncells_0 + 1) * m.ncells_1) = false :=
  decide_eq_false (by omega)

/-- The west face of a live cell is a wall when the cell is in the first column
or its west neighbour is inactive. -/
theorem FluxKernel_W_wall (B : Builtins) (m : Cartesian2DMesh) (U zb dUdx dUdy : FieldVector 3)
    (ix iy : Nat) (hx : ix < m.ncells_0) (hy : iy < m.ncells_1) (z h u v : ℚ)
    (sx sy : Fin 3 → ℚ) (hz : zb 0 (iy * m.ncells_0 + ix) = num z)
    (hU0 : U 0 (iy * m.ncells_0 + ix) = num h) (hU1 : U 1 (iy * m.ncells_0 + ix) = num u)
    (hU2 : U 2 (iy * m.ncells_0 + ix) = num v)
    (hsx : ∀ k, dUdx k (iy * m.ncells_0 + ix) = num (sx k))
    (hsy : ∀ k, dUdy k (iy * m.ncells_0 + ix) = num (sy k))
    (hb : zb 1 (iy * m.ncells_0 + ix) = num 0 ∧ zb 2 (iy * m.ncells_0 + ix) = num 0)
    (hh : 0 ≤ h) (hn : sx 0 = 0)
    (hwall : ix = 0 ∨ zb 0 (iy * m.ncells_0 + (ix - 1)) = nan) :
    FluxKernel B m U zb dUdx dUdy (iy * (m.ncells_0 + 1) + ix)
      = ![num 0, num 0, num 0, num (-(h * (11 / 10)))] := by
  have hw := fun zbL => fluxFromSides_wall_left B m U zb dUdx dUdy true (iy * m.ncells_0 + ix)
    zbL (num z) z h u v sx sy rfl hU0 hU1 hU2 hsx hsy hb.1 hb.2 hh (by simpa using hn)
  unfold FluxKernel
  simp only [Cartesian2DMesh.faceSides_W m hx hy, xd_vertical m (le_of_lt hx) hy]
  by_cases h0 : 0 < ix
  · have hnan : zb 0 (iy * m.ncells_0 + (ix - 1)) = nan := by
      rcases hwall with h1 | h1
      · omega
      · exact h1
    simp only [h0, if_true, hnan, hz, ValueType.ne_self_nan, ValueType.ne_self_num,
      Bool.and_false, Bool.false_eq_true, if_false]
    exact hw nan
  · simp only [h0, if_false, hz, ValueType.ne_self_num, Bool.and_false, Bool.false_eq_true]
    exact hw (num z)

/-- The east face of a live cell is a wall when the cell is in the last column or
its east neighbour is inactive. -/
theorem FluxKernel_E_wall (B : Builtins) (m : Cartesian2DMesh) (U zb dUdx dUdy : FieldVector 3)
    (ix iy : Nat) (hx : ix < m.ncells_0) (hy : iy < m.ncells_1) (z h u v : ℚ)
    (sx sy : Fin 3 → ℚ) (hz : zb 0 (iy * m.ncells_0 + ix) = num z)
    (hU0 : U 0 (iy * m.ncells_0 + ix) = num h) (hU1 : U 1 (iy * m.ncells_0 + ix) = num u)
    (hU2 : U 2 (iy * m.ncells_0 + ix) = num v)
    (hsx : ∀ k, dUdx k (iy * m.ncells_0 + ix) = num (sx k))
    (hsy : ∀ k, dUdy k (iy * m.ncells_0 + ix) = num (sy k))
    (hb : zb 1 (iy * m.ncells_0 + ix) = num 0 ∧ zb 2 (iy * m.ncells_0 + ix) = num 0)
    (hh : 0 ≤ h) (hn : sx 0 = 0)
    (hwall : ix + 1 = m.ncells_0 ∨ zb 0 (iy * m.ncells_0 + (ix + 1)) = nan) :
    FluxKernel B m U zb dUdx dUdy (iy * (m.ncells_0 + 1) + ix + 1)
      = ![num 0, num 0, num 0, num (h * (11 / 10))] := by
  have hw := fun zbR => fluxFromSides_wall_right B m U zb dUdx dUdy true (iy * m.ncells_0 + ix)
    (num z) zbR z h u v sx sy rfl hU0 hU1 hU2 hsx hsy hb.1 hb.2 hh (by simpa using hn)
  have hxd : decide (iy * (m.ncells_0 + 1) + ix + 1 < (m.ncells_0 + 1) * m.ncells_1) = true := by
    have := xd_vertical m (j := ix + 1) (by omega) hy
    simpa [Nat.add_assoc] using this
  unfold FluxKernel
  simp only [Cartesian2DMesh.faceSides_E m hx hy, hxd]
  by_cases h0 : ix + 1 < m.ncells_0
  · have hnan : zb 0 (iy * m.ncells_0 + (ix + 1)) = nan := by
      rcases hwall with h1 | h1
      · omega
      · exact h1
    simp only [h0, if_true, hnan, hz, ValueType.ne_self_nan, ValueType.ne_self_num,
      Bool.false_and, Bool.false_eq_true, if_false]
    exact hw nan
  · simp only [h0, if_false, hz, ValueType.ne_self_num, Bool.and_false, Bool.false_eq_true]
    exact hw (num z)

/-- The south face of a live cell is a wall when the cell is in the first row or
its south neighbour is inactive. -/
theorem FluxKernel_S_wall (B : Builtins) (m : Cartesian2DMesh) (U zb dUdx dUdy : FieldVector 3)
    (ix iy : Nat) (hx : ix < m.ncells_0) (hy : iy < m.ncells_1) (z h u v : ℚ)
    (sx sy : Fin 3 → ℚ) (hz : zb 0 (iy * m.ncells_0 + ix) = num z)
    (hU0 : U 0 (iy * m.ncells_0 + ix) = num h) (hU1 : U 1 (iy * m.ncells_0 + ix) = num u)
    (hU2 : U 2 (iy * m.ncells_0 + ix) = num v)
    (hsx : ∀ k, dUdx k (iy * m.ncells_0 + ix) = num (sx k))
    (hsy : ∀ k, dUdy k (iy * m.ncells_0 + ix) = num (sy k))
    (hb : zb 1 (iy * m.ncells_0 + ix) = num 0 ∧ zb 2 (iy * m.ncells_0 + ix) = num 0)
    (hh : 0 ≤ h) (hn : sy 0 = 0)
    (hwall : iy = 0 ∨ zb 0 ((iy - 1) * m.ncells_0 + ix) = nan) :
    FluxKernel B m U zb dUdx dUdy ((m.ncells_0 + 1) * m.ncells_1 + iy * m.ncells_0 + ix)
      = ![num 0, num 0, num 0, num (-(h * (11 / 10)))] := by
  have hw := fun zbL => fluxFromSides_wall_left B m U zb dUdx dUdy false (iy * m.ncells_0 + ix)
    zbL (num z) z h u v sx sy rfl hU0 hU1 hU2 hsx hsy hb.1 hb.2 hh (by simpa using hn)
  have hxd : decide ((m.ncells_0 + 1) * m.ncells_1 + iy * m.ncells_0 + ix
      < (m.ncells_0 + 1) * m.ncells_1) = false := by
    exact decide_eq_false (by omega)
  unfold FluxKernel
  simp only [Cartesian2DMesh.faceSides_S m hx hy, hxd]
  by_cases h0 : 0 < iy
  · have hnan : zb 0 ((iy - 1) * m.ncells_0 + ix) = nan := by
      rcases hwall with h1 | h1
      · omega
      · exact h1
    simp only [h0, if_true, hnan, hz, ValueType.ne_self_nan, ValueType.ne_self_num,
      Bool.and_false, Bool.false_eq_true, if_false]
    exact hw nan
  · simp only [h0, if_false, hz, ValueType.ne_self_num, Bool.and_false, Bool.false_eq_true]
    exact hw (num z)

/-- The north face of a live cell is a wall when the cell is in the last row or
its north neighbour is inactive. -/
theorem FluxKernel_N_wall (B : Builtins) (m : Cartesian2DMesh) (U zb dUdx dUdy : FieldVector 3)
    (ix iy : Nat) (hx : ix < m.ncells_0) (hy : iy < m.ncells_1) (z h u v : ℚ)
    (sx sy : Fin 3 → ℚ) (hz : zb 0 (iy * m.ncells_0 + ix) = num z)
    (hU0 : U 0 (iy * m.ncells_0 + ix) = num h) (hU1 : U 1 (iy * m.ncells_0 + ix) = num u)
    (hU2 : U 2 (iy * m.ncells_0 + ix) = num v)
    (hsx : ∀ k, dUdx k (iy * m.ncells_0 + ix) = num (sx k))
    (hsy : ∀ k, dUdy k (iy * m.ncells_0 + ix) = num (sy k))
    (hb : zb 1 (iy * m.ncells_0 + ix) = num 0 ∧ zb 2 (iy * m.ncells_0 + ix) = num 0)
    (hh : 0 ≤ h) (hn : sy 0 = 0)
    (hwall : iy + 1 = m.ncells_1 ∨ zb 0 ((iy + 1) * m.ncells_0 + ix) = nan) :
    FluxKernel B m U zb dUdx dUdy
        ((m.ncells_0 + 1) * m.ncells_1 + iy * m.ncells_0 + ix + m.ncells_0)
      = ![num 0, num 0, num 0, num (h * (11 / 10))] := by
  have hw := fun zbR => fluxFromSides_wall_right B m U zb dUdx dUdy false (iy * m.ncells_0 + ix)
    (num z) zbR z h u v sx sy rfl hU0 hU1 hU2 hsx hsy hb.1 hb.2 hh (by simpa using hn)
  have hxd : decide ((m.ncells_0 + 1) * m.ncells_1 + iy * m.ncells_0 + ix + m.ncells_0
      < (m.ncells_0 + 1) * m.ncells_1) = false := by
    exact decide_eq_false (by omega)
  unfold FluxKernel
  simp only [Cartesian2DMesh.faceSides_N m hx hy, hxd]
  by_cases h0 : iy + 1 < m.ncells_1
  · have hnan : zb 0 ((iy + 1) * m.ncells_0 + ix) = nan := by
      rcases hwall with h1 | h1
      · omega
      · exact h1
    simp only [h0, if_true, hnan, hz, ValueType.ne_self_nan, ValueType.ne_self_num,
      Bool.false_and, Bool.false_eq_true, if_false]
    exact hw nan
  · simp only [h0, if_false, hz, ValueType.ne_self_num, Bool.and_false, Bool.false_eq_true]
    exact hw (num z)

/-! ## Reconstruction in a consistent state -/

theorem minmodNeighbours_linear (m : Cartesian2DMesh) {ix iy : Nat} (hx : ix < m.ncells_0) :
    minmodNeighbours m (iy * m.ncells_0 + ix) =
      (if 0 < ix then iy * m.ncells_0 + (ix - 1) else iy * m.ncells_0 + ix,
       if ix < m.ncells_0 - 1 then iy * m.ncells_0 + (ix + 1) else iy * m.ncells_0 + ix,
       if 0 < iy then (iy - 1) * m.ncells_0 + ix else iy * m.ncells_0 + ix,
       if iy < m.ncells_1 - 1 then (iy + 1) * m.ncells_0 + ix else iy * m.ncells_0 + ix) := by
  unfold minmodNeighbours
  simp only [Cartesian2DMesh.get_cell_index_linear m hx, Cartesian2DMesh.get_cell_linear_id,
    gt_iff_lt]

theorem minmodNeighbours_lt (m : Cartesian2DMesh) {ix iy : Nat} (hx : ix < m.ncells_0)
    (hy : iy < m.ncells_1) :
    (minmodNeighbours m (iy * m.ncells_0 + ix)).1 < m.cell_count ∧
    (minmodNeighbours m (iy * m.ncells_0 + ix)).2.1 < m.cell_count ∧
    (minmodNeighbours m (iy * m.ncells_0 + ix)).2.2.1 < m.cell_count ∧
    (minmodNeighbours m (iy * m.ncells_0 + ix)).2.2.2 < m.cell_count := by
  rw [minmodNeighbours_linear m hx]
  have hc := m.linear_id_lt hx hy
  refine ⟨?_, ?_, ?_, ?_⟩
  · show (if 0 < ix then _ else _) < _
    split_ifs with h
    · exact m.linear_id_lt (by omega) hy
    · exact hc
  · show (if ix < m.ncells_0 - 1 then _ else _) < _
    split_ifs with h
    · exact m.linear_id_lt (by omega) hy
    · exact hc
  · show (if 0 < iy then _ else _) < _
    split_ifs with h
    · exact m.linear_id_lt hx (by omega)
    · exact hc
  · show (if iy < m.ncells_1 - 1 then _ else _) < _
    split_ifs with h
    · exact m.linear_id_lt hx (by omega)
    · exact hc

theorem orCentre_nan (x : ValueType) : orCentre nan x = x := rfl

theorem orCentre_self (x : ValueType) : orCentre x x = x := by
  unfold orCentre
  split_ifs <;> rfl

theorem minmod3_zero (d : ℚ) (hd : d ≠ 0) (x : ℚ) :
    minmod3 (num 2 * (num x - num x) / num d) (num 2 * (num x - num x) / num d)
      (num (1 / 2) * (num x - num x) / num d) = num 0 := by
  simp only [ValueType.num_sub, ValueType.num_mul, ValueType.num_div_of_ne _ hd, minmod3_num,
    sub_self, mul_zero, zero_div]
  rw [minmod3Rat_eq_zero 0 0 0 (by norm_num)]

/-- The slopes of a component whose value at the cell is a number and whose four
neighbour values are that number or `nan`: both are zero. -/
theorem MinmodKernel_flat {N : Nat} (m : Cartesian2DMesh) (U : FieldVector N) (c : Nat)
    (k : Fin N) (x : ℚ) (hdx : m.cell_size_0 ≠ 0) (hdy : m.cell_size_1 ≠ 0)
    (hc : U k c = num x)
    (hn : ∀ j, j = (minmodNeighbours m c).1 ∨ j = (minmodNeighbours m c).2.1 ∨
      j = (minmodNeighbours m c).2.2.1 ∨ j = (minmodNeighbours m c).2.2.2 →
      U k j = nan ∨ U k j = num x) :
    MinmodKernel m (num 2) U c k = (num 0, num 0) := by
  have key : ∀ j, (U k j = nan ∨ U k j = num x) → orCentre (U k j) (num x) = num x := by
    intro j hj
    rcases hj with h | h
    · rw [h, orCentre_nan]
    · rw [h, orCentre_self]
  unfold MinmodKernel
  simp only [hc, key _ (hn _ (Or.inl rfl)), key _ (hn _ (Or.inr (Or.inl rfl))),
    key _ (hn _ (Or.inr (Or.inr (Or.inl rfl)))), key _ (hn _ (Or.inr (Or.inr (Or.inr rfl)))),
    minmod3_zero _ hdx, minmod3_zero _ hdy]

/-- The west face of a cell that has a live west neighbour. -/
theorem FluxKernel_W_interior (B : Builtins) (m : Cartesian2DMesh)
    (U zb dUdx dUdy : FieldVector 3) (ix iy : Nat) (hx : ix < m.ncells_0)
    (hy : iy < m.ncells_1) (h0 : 0 < ix) (zl zr : ℚ)
    (hzl : zb 0 (iy * m.ncells_0 + (ix - 1)) = num zl)
    (hzr : zb 0 (iy * m.ncells_0 + ix) = num zr) :
    FluxKernel B m U zb dUdx dUdy (iy * (m.ncells_0 + 1) + ix)
      = fluxFromSides B m U zb dUdx dUdy true (iy * m.ncells_0 + (ix - 1))
          (iy * m.ncells_0 + ix) 0 (num zl) (num zr) := by
  unfold FluxKernel
  simp only [Cartesian2DMesh.faceSides_W m hx hy, xd_vertical m (le_of_lt hx) hy, h0, if_true,
    hzl, hzr, ValueType.ne_self_num, Bool.and_false, Bool.false_eq_true, if_false]

/-- The south face of a cell that has a live south neighbour. -/
theorem FluxKernel_S_interior (B : Builtins) (m : Cartesian2DMesh)
    (U zb dUdx dUdy : FieldVector 3) (ix iy : Nat) (hx : ix < m.ncells_0)
    (hy : iy < m.ncells_1) (h0 : 0 < iy) (zl zr : ℚ)
    (hzl : zb 0 ((iy - 1) * m.ncells_0 + ix) = num zl)
    (hzr : zb 0 (iy * m.ncells_0 + ix) = num zr) :
    FluxKernel B m U zb dUdx dUdy ((m.ncells_0 + 1) * m.ncells_1 + iy * m.ncells_0 + ix)
      = fluxFromSides B m U zb dUdx dUdy false ((iy - 1) * m.ncells_0 + ix)
          (iy * m.ncells_0 + ix) 0 (num zl) (num zr) := by
  have hxd : decide ((m.ncells_0 + 1) * m.ncells_1 + iy * m.ncells_0 + ix
      < (m.ncells_0 + 1) * m.ncells_1) = false := decide_eq_false (by omega)
  unfold FluxKernel
  simp only [Cartesian2DMesh.faceSides_S m hx hy, hxd, h0, if_true,
    hzl, hzr, ValueType.ne_self_num, Bool.and_false, Bool.false_eq_true, if_false]

/-! ## A lake at rest over a flat bed -/

theorem FlatLake.value {m : Cartesian2DMesh} {zbed : FieldVector 3} {U : SolutionState}
    {z h : ℚ} (hl : FlatLake m zbed U z h) {c : Nat} (hc : c < m.cell_count) (k : Fin 3) :
    U k c = nan ∨ U k c = num (![h, 0, 0] k) := by
  rcases (hl c hc).2 with ⟨-, hn⟩ | ⟨-, h0, h1, h2⟩
  · exact Or.inl (hn k)
  · right
    fin_cases k
    · exact h0
    · exact h1
    · exact h2

/-- In a lake at rest over a flat bed every reconstructed slope of an active cell
is zero. -/
theorem FlatLake.slopes {m : Cartesian2DMesh} {zbed : FieldVector 3} {U : SolutionState}
    {z h : ℚ} (hl : FlatLake m zbed U z h) (hdx : m.cell_size_0 ≠ 0) (hdy : m.cell_size_1 ≠ 0)
    (oldx oldy : FieldVector 3) {c : Nat} (hc : c < m.cell_count) (hact : zbed 0 c = num z)
    (k : Fin 3) :
    (MinmodSpatialDerivative.calculate m U oldx oldy).1 k c = num 0 ∧
    (MinmodSpatialDerivative.calculate m U oldx oldy).2 k c = num 0 := by
  obtain ⟨_, hix, hiy, hci⟩ := m.index_of_lt hc
  have hUc : U k c = num (![h, 0, 0] k) := by
    rcases (hl c hc).2 with ⟨hz, -⟩ | ⟨-, h0, h1, h2⟩
    · rw [hz] at hact
      cases hact
    · fin_cases k
      · exact h0
      · exact h1
      · exact h2
  have hlt := minmodNeighbours_lt m hix hiy
  rw [hci] at hlt
  have hflat := MinmodKernel_flat m U c k _ hdx hdy hUc (by
    intro j hj
    rcases hj with hj | hj | hj | hj
    · rw [hj]
      exact hl.value hlt.1 k
    · rw [hj]
      exact hl.value hlt.2.1 k
    · rw [hj]
      exact hl.value hlt.2.2.1 k
    · rw [hj]
      exact hl.value hlt.2.2.2 k)
  unfold MinmodSpatialDerivative.calculate parallel_for
  simp only [hc, if_true, hflat, and_self]
theorem FlatLake.active {m : Cartesian2DMesh} {zbed : FieldVector 3} {U : SolutionState}
    {z h : ℚ} (hl : FlatLake m zbed U z h) {c : Nat} (hc : c < m.cell_count)
    (hne : zbed 0 c ≠ nan) :
    zbed 0 c = num z ∧ U 0 c = num h ∧ U 1 c = num 0 ∧ U 2 c = num 0 := by
  rcases (hl c hc).2 with ⟨hz, -⟩ | hact
  · exact absurd hz hne
  · exact hact

/-- The flux at the west face of an active cell of a lake at rest over a flat bed:
that of a wall (`w = true`) or of a uniform interior face. -/
theorem FlatLake.flux_W {m : Cartesian2DMesh} {zbed : FieldVector 3} {U : SolutionState}
    {z h : ℚ} (hl : FlatLake m zbed U z h) (hh : 0 ≤ h) (B : Builtins)
    (dUdx dUdy : FieldVector 3)
    (hs : ∀ c, c < m.cell_count → zbed 0 c = num z →
      ∀ k, dUdx k c = num 0 ∧ dUdy k c = num 0)
    {ix iy : Nat} (hx : ix < m.ncells_0) (hy : iy < m.ncells_1)
    (hact : zbed 0 (iy * m.ncells_0 + ix) = num z) :
    ∃ w : Bool, ∀ k, FluxKernel B m U zbed dUdx dUdy (iy * (m.ncells_0 + 1) + ix) k
      = ![num 0, num (if w = true then 0 else 981 / 100 * h), num 0,
          num (if w = true then -(h * (11 / 10)) else 0)] k := by
  have hc := m.linear_id_lt hx hy
  have hU := hl.active hc (by rw [hact]; exact fun hcon => by cases hcon)
  have hb := (hl _ hc).1
  by_cases hwall : ix = 0 ∨ zbed 0 (iy * m.ncells_0 + (ix - 1)) = nan
  · refine ⟨true, fun k => ?_⟩
    rw [FluxKernel_W_wall B m U zbed dUdx dUdy ix iy hx hy z h 0 0 (fun _ => 0) (fun _ => 0)
      hact hU.2.1 hU.2.2.1 hU.2.2.2 (fun k => (hs _ hc hact k).1) (fun k => (hs _ hc hact k).2)
      hb hh rfl hwall]
    simp
  · push_neg at hwall
    have h0 : 0 < ix := Nat.pos_of_ne_zero hwall.1
    have hc1 : iy * m.ncells_0 + (ix - 1) < m.cell_count := m.linear_id_lt (by omega) hy
    have hU1 := hl.active hc1 hwall.2
    refine ⟨false, fun k => ?_⟩
    rw [FluxKernel_W_interior B m U zbed dUdx dUdy ix iy hx hy h0 z z hU1.1 hact,
      fluxFromSides_uniform B m U zbed dUdx dUdy true _ _ z h hh hU1.2 hU.2
        (hs _ hc1 hU1.1) (hs _ hc hact) (hl _ hc1).1 hb]
    fin_cases k <;> simp

/-- The flux at the east face of an active cell of a lake at rest over a flat bed. -/
theorem FlatLake.flux_E {m : Cartesian2DMesh} {zbed : FieldVector 3} {U : SolutionState}
    {z h : ℚ} (hl : FlatLake m zbed U z h) (hh : 0 ≤ h) (B : Builtins)
    (dUdx dUdy : FieldVector 3)
    (hs : ∀ c, c < m.cell_count → zbed 0 c = num z →
      ∀ k, dUdx k c = num 0 ∧ dUdy k c = num 0)
    {ix iy : Nat} (hx : ix < m.ncells_0) (hy : iy < m.ncells_1)
    (hact : zbed 0 (iy * m.ncells_0 + ix) = num z) :
    ∃ w : Bool, ∀ k, FluxKernel B m U zbed dUdx dUdy (iy * (m.ncells_0 + 1) + ix + 1) k
      = ![num 0, num (if w = true then 0 else 981 / 100 * h), num 0,
          num (if w = true then h * (11 / 10) else 0)] k := by
  have hc := m.linear_id_lt hx hy
  have hU := hl.active hc (by rw [hact]; exact fun hcon => by cases hcon)
  have hb := (hl _ hc).1
  by_cases hwall : ix + 1 = m.ncells_0 ∨ zbed 0 (iy * m.ncells_0 + (ix + 1)) = nan
  · refine ⟨true, fun k => ?_⟩
    rw [FluxKernel_E_wall B m U zbed dUdx dUdy ix iy hx hy z h 0 0 (fun _ => 0) (fun _ => 0)
      hact hU.2.1 hU.2.2.1 hU.2.2.2 (fun k => (hs _ hc hact k).1) (fun k => (hs _ hc hact k).2)
      hb hh rfl hwall]
    simp
  · push_neg at hwall
    have h1 : ix + 1 < m.ncells_0 := by omega
    have hc1 : iy * m.ncells_0 + (ix + 1) < m.cell_count := m.linear_id_lt h1 hy
    have hU1 := hl.active hc1 hwall.2
    refine ⟨false, fun k => ?_⟩
    have hface : iy * (m.ncells_0 + 1) + ix + 1 = iy * (m.ncells_0 + 1) + (ix + 1) := by ring
    rw [hface, FluxKernel_W_interior B m U zbed dUdx dUdy (ix + 1) iy h1 hy (by omega) z z
        (by simpa using hact) hU1.1]
    simp only [Nat.add_sub_cancel]
    rw [fluxFromSides_uniform B m U zbed dUdx dUdy true _ _ z h hh hU.2 hU1.2
        (hs _ hc hact) (hs _ hc1 hU1.1) hb (hl _ hc1).1]
    fin_cases k <;> simp

/-- The flux at the south face of an active cell of a lake at rest over a flat bed. -/
theorem FlatLake.flux_S {m : Cartesian2DMesh} {zbed : FieldVector 3} {U : SolutionState}
    {z h : ℚ} (hl : FlatLake m zbed U z h) (hh : 0 ≤ h) (B : Builtins)
    (dUdx dUdy : FieldVector 3)
    (hs : ∀ c, c < m.cell_count → zbed 0 c = num z →
      ∀ k, dUdx k c = num 0 ∧ dUdy k c = num 0)
    {ix iy : Nat} (hx : ix < m.ncells_0) (hy : iy < m.ncells_1)
    (hact : zbed 0 (iy * m.ncells_0 + ix) = num z) :
    ∃ w : Bool, ∀ k, FluxKernel B m U zbed dUdx dUdy
        ((m.ncells_0 + 1) * m.ncells_1 + iy * m.ncells_0 + ix) k
      = ![num 0, num 0, num (if w = true then 0 else 981 / 100 * h),
          num (if w = true then -(h * (11 / 10)) else 0)] k := by
  have hc := m.linear_id_lt hx hy
  have hU := hl.active hc (by rw [hact]; exact fun hcon => by cases hcon)
  have hb := (hl _ hc).1
  by_cases hwall : iy = 0 ∨ zbed 0 ((iy - 1) * m.ncells_0 + ix) = nan
  · refine ⟨true, fun k => ?_⟩
    rw [FluxKernel_S_wall B m U zbed dUdx dUdy ix iy hx hy z h 0 0 (fun _ => 0) (fun _ => 0)
      hact hU.2.1 hU.2.2.1 hU.2.2.2 (fun k => (hs _ hc hact k).1) (fun k => (hs _ hc hact k).2)
      hb hh rfl hwall]
    simp
  · push_neg at hwall
    have h0 : 0 < iy := Nat.pos_of_ne_zero hwall.1
    have hc1 : (iy - 1) * m.ncells_0 + ix < m.cell_count := m.linear_id_lt hx (by omega)
    have hU1 := hl.active hc1 hwall.2
    refine ⟨false, fun k => ?_⟩
    rw [FluxKernel_S_interior B m U zbed dUdx dUdy ix iy hx hy h0 z z hU1.1 hact,
      fluxFromSides_uniform B m U zbed dUdx dUdy false _ _ z h hh hU1.2 hU.2
        (hs _ hc1 hU1.1) (hs _ hc hact) (hl _ hc1).1 hb]
    fin_cases k <;> simp

/-- The flux at the north face of an active cell of a lake at rest over a flat bed. -/
theorem FlatLake.flux_N {m : Cartesian2DMesh} {zbed : FieldVector 3} {U : SolutionState}
    {z h : ℚ} (hl : FlatLake m zbed U z h) (hh : 0 ≤ h) (B : Builtins)
    (dUdx dUdy : FieldVector 3)
    (hs : ∀ c, c < m.cell_count → zbed 0 c = num z →
      ∀ k, dUdx k c = num 0 ∧ dUdy k c = num 0)
    {ix iy : Nat} (hx : ix < m.ncells_0) (hy : iy < m.ncells_1)
    (hact : zbed 0 (iy * m.ncells_0 + ix) = num z) :
    ∃ w : Bool, ∀ k, FluxKernel B m U zbed dUdx dUdy
        ((m.ncells_0 + 1) * m.ncells_1 + iy * m.ncells_0 + ix + m.ncells_0) k
      = ![num 0, num 0, num (if w = true then 0 else 981 / 100 * h),
          num (if w = true then h * (11 / 10) else 0)] k := by
  have hc := m.linear_id_lt hx hy
  have hU := hl.active hc (by rw [hact]; exact fun hcon => by cases hcon)
  have hb := (hl _ hc).1
  by_cases hwall : iy + 1 = m.ncells_1 ∨ zbed 0 ((iy + 1) * m.ncells_0 + ix) = nan
  · refine ⟨true, fun k => ?_⟩
    rw [FluxKernel_N_wall B m U zbed dUdx dUdy ix iy hx hy z h 0 0 (fun _ => 0) (fun _ => 0)
      hact hU.2.1 hU.2.2.1 hU.2.2.2 (fun k => (hs _ hc hact k).1) (fun k => (hs _ hc hact k).2)
      hb hh rfl hwall]
    simp
  · push_neg at hwall
    have h1 : iy + 1 < m.ncells_1 := by omega
    have hc1 : (iy + 1) * m.ncells_0 + ix < m.cell_count := m.linear_id_lt hx h1
    have hU1 := hl.active hc1 hwall.2
    refine ⟨false, fun k => ?_⟩
    have hface : (m.ncells_0 + 1) * m.ncells_1 + iy * m.ncells_0 + ix + m.ncells_0
        = (m.ncells_0 + 1) * m.ncells_1 + (iy + 1) * m.ncells_0 + ix := by ring
    rw [hface, FluxKernel_S_interior B m U zbed dUdx dUdy ix (iy + 1) hx h1 (by omega) z z
        (by simpa using hact) hU1.1]
    simp only [Nat.add_sub_cancel]
    rw [fluxFromSides_uniform B m U zbed dUdx dUdy false _ _ z h hh hU.2 hU1.2
        (hs _ hc hact) (hs _ hc1 hU1.1) hb (hl _ hc1).1]
    fin_cases k <;> simp

/-- The temporal derivative of a lake at rest over a flat bed, with the same
inflow `Q` at both ends of the interval and no stage boundary, is
`(Q / (dx dy), 0, 0)` at every active cell. -/
theorem update_ddt_flat (B : Builtins) (sv : SVSolver) (U old : SolutionState)
    (t dt b0 b1 z h Q hin : ℚ) (hdx : 0 < sv.mesh_.cell_size_0) (hdy : 0 < sv.mesh_.cell_size_1)
    (hb : b1 - b0 ≠ 0) (hh : 0 ≤ h) (hl : FlatLake sv.mesh_ sv.zbed_ U z h)
    (hQ : ∀ c, c < sv.mesh_.cell_count → sv.Q_in_ 0 c = num Q ∧ sv.Q_in_ 1 c = num Q)
    (hstage : ∀ c, c < sv.mesh_.cell_count → sv.h_in_ 0 c = num hin) (hneg : hin < 0)
    (c : Nat) (hc : c < sv.mesh_.cell_count) (hact : sv.zbed_ 0 c = num z) :
    ∀ k, (sv.update_ddt B U old (num t) (num dt) (num b0) (num b1)).2 k c
      = ![num (Q / (sv.mesh_.cell_size_0 * sv.mesh_.cell_size_1)), num 0, num 0] k := by
  obtain ⟨_, hix, hiy, hci⟩ := sv.mesh_.index_of_lt hc
  have hs : ∀ c', c' < sv.mesh_.cell_count → sv.zbed_ 0 c' = num z → ∀ k,
      (MinmodSpatialDerivative.calculate sv.mesh_ U sv.dUdx_ sv.dUdy_).1 k c' = num 0 ∧
      (MinmodSpatialDerivative.calculate sv.mesh_ U sv.dUdx_ sv.dUdy_).2 k c' = num 0 :=
    fun c' hc' ha k => hl.slopes (ne_of_gt hdx) (ne_of_gt hdy) _ _ hc' ha k
  rw [← hci] at hact
  obtain ⟨wW, hW⟩ := hl.flux_W hh B _ _ hs hix hiy hact
  obtain ⟨wE, hE⟩ := hl.flux_E hh B _ _ hs hix hiy hact
  obtain ⟨wS, hS⟩ := hl.flux_S hh B _ _ hs hix hiy hact
  obtain ⟨wN, hN⟩ := hl.flux_N hh B _ _ hs hix hiy hact
  have hcl := sv.mesh_.linear_id_lt hix hiy
  have hU := hl.active hcl (by rw [hact]; exact fun hcon => by cases hcon)
  have hfW := sv.mesh_.vertical_face_lt_face_count (j := c % sv.mesh_.ncells_0) (le_of_lt hix) hiy
  have hfE : c / sv.mesh_.ncells_0 * (sv.mesh_.ncells_0 + 1) + c % sv.mesh_.ncells_0 + 1
      < sv.mesh_.face_count := by
    have := sv.mesh_.vertical_face_lt_face_count (j := c % sv.mesh_.ncells_0 + 1) (by omega) hiy
    omega
  have hfS := sv.mesh_.horizontal_face_lt hix (j := c / sv.mesh_.ncells_0) (le_of_lt hiy)
  have hfN : (sv.mesh_.ncells_0 + 1) * sv.mesh_.ncells_1 + c / sv.mesh_.ncells_0 * sv.mesh_.ncells_0
      + c % sv.mesh_.ncells_0 + sv.mesh_.ncells_0 < sv.mesh_.face_count := by
    have := sv.mesh_.horizontal_face_lt hix (j := c / sv.mesh_.ncells_0 + 1) (by omega)
    have e : (c / sv.mesh_.ncells_0 + 1) * sv.mesh_.ncells_0
        = c / sv.mesh_.ncells_0 * sv.mesh_.ncells_0 + sv.mesh_.ncells_0 := by ring
    omega
  intro k
  have hkern := TemporalDerivativeKernel_uniform B sv.mesh_ U sv.zbed_ sv.manning_n_ sv.Q_in_
    sv.h_in_ (SVFluxFunction.calculate B sv.mesh_ U sv.zbed_
      (MinmodSpatialDerivative.calculate sv.mesh_ U sv.dUdx_ sv.dUdy_).1
      (MinmodSpatialDerivative.calculate sv.mesh_ U sv.dUdx_ sv.dUdy_).2 sv.flux_)
    t dt b0 b1 _ _ h Q hin wW wE wS wN hix hdx hdy hb hh hU.2 (hl _ hcl).1
    (by intro k; unfold SVFluxFunction.calculate parallel_for; rw [if_pos hfW]; exact hW k)
    (by intro k; unfold SVFluxFunction.calculate parallel_for; rw [if_pos hfE]; exact hE k)
    (by intro k; unfold SVFluxFunction.calculate parallel_for; rw [if_pos hfS]; exact hS k)
    (by intro k; unfold SVFluxFunction.calculate parallel_for; rw [if_pos hfN]; exact hN k)
    (hQ _ hcl).1 (hQ _ hcl).2 (hstage _ hcl) hneg
  unfold SVSolver.update_ddt SVTemporalDerivative.calculate parallel_for
  simp only [hc, if_true]
  rw [← hci, hkern]

/-! ## Runge-Kutta stages of a lake at rest over a flat bed -/

theorem foldl_accumulate_num (cs : RungeKuttaCoefficientSet) (step : Nat) (dt q : ℚ)
    (dUdt : Nat → SolutionState) (vec_id : Fin 3) (item : Nat) (l : List Nat)
    (hk : ∀ i, i ∈ l → dUdt i vec_id item = num q) (x : ℚ) :
    l.foldl (fun acc i => acc + num dt * cs.a step i * dUdt i vec_id item) (num x)
      = num (l.foldl (fun acc i => acc + dt * ((cs.a_.getD step []).getD i 0) * q) x) := by
  induction l generalizing x with
  | nil => rfl
  | cons i l ih =>
    simp only [List.foldl_cons]
    rw [hk i (List.mem_cons_self _ _)]
    have : num x + num dt * cs.a step i * num q
        = num (x + dt * ((cs.a_.getD step []).getD i 0) * q) := rfl
    rw [this]
    exact ih (fun j hj => hk j (List.mem_cons_of_mem _ hj)) _

theorem rkAccumulate_num (cs : RungeKuttaCoefficientSet) (step : Nat) (dt x q : ℚ)
    (U : SolutionState) (dUdt : Nat → SolutionState) (vec_id : Fin 3) (item : Nat)
    (hU : U vec_id item = num x) (hk : ∀ i, i < step → dUdt i vec_id item = num q) :
    rkAccumulate cs step (num dt) U dUdt vec_id item = num (stageValue cs step dt x q) := by
  unfold rkAccumulate stageValue
  rw [hU]
  exact foldl_accumulate_num cs step dt q dUdt vec_id item _
    (fun i hi => hk i (List.mem_range.mp hi)) x

theorem stageValue_zero (cs : RungeKuttaCoefficientSet) (step : Nat) (dt x : ℚ) :
    stageValue cs step dt x 0 = x := by
  unfold stageValue
  generalize List.range step = l
  induction l generalizing x with
  | nil => rfl
  | cons i l ih =>
    simp only [List.foldl_cons]
    rw [show x + dt * ((cs.a_.getD step []).getD i 0) * 0 = x by ring]
    exact ih x

/-- The kernel `RungeKuttaStep` at a cell at rest with depth `x`, when every stage
derivative read is `(q, 0, 0)` and the accumulated depth is not negative. -/
theorem RungeKuttaStep_rest (cs : RungeKuttaCoefficientSet) (step : Nat) (dt x q : ℚ)
    (U : SolutionState) (dUdt : Nat → SolutionState) (item : Nat)
    (hU : U 0 item = num x ∧ U 1 item = num 0 ∧ U 2 item = num 0)
    (hk : ∀ i, i < step → ∀ k, dUdt i k item = ![num q, num 0, num 0] k)
    (hnn : 0 ≤ stageValue cs step dt x q) :
    RungeKuttaStep cs step (num dt) U dUdt item 0 = num (stageValue cs step dt x q) ∧
    RungeKuttaStep cs step (num dt) U dUdt item 1 = num 0 ∧
    RungeKuttaStep cs step (num dt) U dUdt item 2 = num 0 := by
  have h0 := rkAccumulate_num cs step dt x q U dUdt 0 item hU.1 (fun i hi => hk i hi 0)
  have h1 := rkAccumulate_num cs step dt 0 0 U dUdt 1 item hU.2.1 (fun i hi => hk i hi 1)
  have h2 := rkAccumulate_num cs step dt 0 0 U dUdt 2 item hU.2.2 (fun i hi => hk i hi 2)
  rw [stageValue_zero] at h1 h2
  unfold RungeKuttaStep
  simp only [h0, h1, h2, ValueType.lt_num, not_lt.mpr hnn, decide_False, Bool.false_eq_true,
    if_false]
  by_cases hsmall : stageValue cs step dt x q < 1 / 10000
  · simp only [hsmall, decide_True, if_true]
    exact ⟨trivial, rfl, rfl⟩
  · simp only [hsmall, decide_False, Bool.false_eq_true, if_false, h0, h1, h2, and_self]

/-- The stages `0 .. n-1` of `step` on a lake at rest over a flat bed with uniform
inflow `Q`, as long as no stage depth is negative: the stage derivatives are
`(Q / (dx dy), 0, 0)` at every active cell, and the candidate is again a lake at
rest, with the depth accumulated by the last stage run. -/
theorem stages_flat (B : Builtins) (s : RungeKuttaTemporalScheme) (t dt b0 b1 z h Q : ℚ)
    (hb : b1 - b0 ≠ 0) (hl : FlatLake s.solver_.mesh_ s.solver_.zbed_ s.U_ z h)
    (hu : UniformInflow s.solver_ Q)
    (hst : ∀ st, st ≤ s.coeffs_.S → 0 ≤ stageValue s.coeffs_ st dt h
      (Q / (s.solver_.mesh_.cell_size_0 * s.solver_.mesh_.cell_size_1)))
    (n : Nat) (hn : n ≤ s.coeffs_.S + 1) :
    (∀ i, i < n → i < s.coeffs_.S → ∀ c, c < s.solver_.mesh_.cell_count →
      s.solver_.zbed_ 0 c = num z → ∀ k,
      ((List.range n).foldl (fun acc st => acc.update_Ustar B st (num t) (num dt) (num b0)
        (num b1)) s).dUdt_ i k c
        = ![num (Q / (s.solver_.mesh_.cell_size_0 * s.solver_.mesh_.cell_size_1)), num 0,
            num 0] k) ∧
    (0 < n → FlatLake s.solver_.mesh_ s.solver_.zbed_
      ((List.range n).foldl (fun acc st => acc.update_Ustar B st (num t) (num dt) (num b0)
        (num b1)) s).Ustar_ z
      (stageValue s.coeffs_ (n - 1) dt h
        (Q / (s.solver_.mesh_.cell_size_0 * s.solver_.mesh_.cell_size_1)))) := by
  induction n with
  | zero => exact ⟨fun i hi => absurd hi (Nat.not_lt_zero _), fun h0 => absurd h0 (lt_irrefl _)⟩
  | succ n ih =>
    obtain ⟨ihk, -⟩ := ih (by omega)
    have hconst := foldl_update_Ustar_const B (num t) (num dt) (num b0) (num b1) (List.range n) s
    rw [List.range_succ, List.foldl_append]
    simp only [List.foldl_cons, List.foldl_nil]
    generalize hacc : (List.range n).foldl (fun acc st => acc.update_Ustar B st (num t) (num dt)
      (num b0) (num b1)) s = acc at ihk hconst
    simp only at hconst
    obtain ⟨hcU, hcc, hcm, hcz, -, hcQ, hch⟩ := hconst
    have hnS : n ≤ s.coeffs_.S := by omega
    -- the candidate written by stage `n`
    have hlake : FlatLake s.solver_.mesh_ s.solver_.zbed_
        (acc.update_Ustar B n (num t) (num dt) (num b0) (num b1)).Ustar_ z
        (stageValue s.coeffs_ n dt h
          (Q / (s.solver_.mesh_.cell_size_0 * s.solver_.mesh_.cell_size_1))) := by
      intro c hc
      refine ⟨(hl c hc).1, ?_⟩
      rw [update_Ustar_Ustar, hcm, hcc, hcU]
      unfold parallel_for
      simp only [hc, if_true]
      rcases (hl c hc).2 with ⟨hz, hnan⟩ | ⟨hz, hU⟩
      · exact Or.inl ⟨hz, fun k => RungeKuttaStep_nan _ _ _ _ _ _ hnan k⟩
      · exact Or.inr ⟨hz, RungeKuttaStep_rest s.coeffs_ n dt h _ s.U_ acc.dUdt_ c hU
          (fun i hi k => ihk i hi (by omega) c hc hz k) (hst n hnS)⟩
    refine ⟨?_, fun _ => by simpa using hlake⟩
    intro i hi hiS c hc hz k
    by_cases hin : i = n
    · subst hin
      have hdd : (acc.update_Ustar B i (num t) (num dt) (num b0) (num b1)).dUdt_ i
          = (acc.solver_.update_ddt B
              (parallel_for acc.solver_.mesh_.cell_count
                (RungeKuttaStep acc.coeffs_ i (num dt) acc.U_ acc.dUdt_) acc.Ustar_)
              (acc.dUdt_ i) (num (t + (acc.coeffs_.c_.getD i 0) * dt)) (num dt) (num b0)
              (num b1)).2 := by
        unfold RungeKuttaTemporalScheme.update_Ustar
        rw [hcc]
        simp only [hiS, if_true]
        rfl
      rw [hdd]
      have hlake' := hlake
      rw [update_Ustar_Ustar] at hlake'
      have hu' : UniformInflow acc.solver_ Q :=
        ⟨by rw [hcm]; exact hu.dx_pos, by rw [hcm]; exact hu.dy_pos,
          by rw [hcm, hcQ]; exact hu.inflow, by rw [hcm, hch]; exact hu.no_stage⟩
      have := update_ddt_flat B acc.solver_ _ (acc.dUdt_ i)
        (t + (acc.coeffs_.c_.getD i 0) * dt) dt b0 b1 z _ Q (-1) hu'.dx_pos hu'.dy_pos hb
        (hst i hnS) (by rw [hcm, hcz]; exact hlake') hu'.inflow hu'.no_stage (by norm_num) c
        (by rw [hcm]; exact hc) (by rw [hcz]; exact hz) k
      rw [hcm] at this ⊢
      exact this
    · have hlt : i < n := by omega
      have hsame : (acc.update_Ustar B n (num t) (num dt) (num b0) (num b1)).dUdt_ i
          = acc.dUdt_ i := by
        unfold RungeKuttaTemporalScheme.update_Ustar
        split_ifs
        · simp only [hin, if_false]
        · rfl
      rw [hsame]
      exact ihk i hlt hiS c hc hz k

/-- One `step` on a lake at rest over a flat bed with uniform inflow `Q`, when no
stage depth is negative: the candidate is a lake at rest with the depth
accumulated by the last stage. -/
theorem step_flat (B : Builtins) (s : RungeKuttaTemporalScheme) (t dt b0 b1 z h Q : ℚ)
    (hb : b1 - b0 ≠ 0) (hl : FlatLake s.solver_.mesh_ s.solver_.zbed_ s.U_ z h)
    (hu : UniformInflow s.solver_ Q)
    (hst : ∀ st, st ≤ s.coeffs_.S → 0 ≤ stageValue s.coeffs_ st dt h
      (Q / (s.solver_.mesh_.cell_size_0 * s.solver_.mesh_.cell_size_1))) :
    FlatLake s.solver_.mesh_ s.solver_.zbed_
      (s.step B (num t) (num dt) (num b0) (num b1)).Ustar_ z
      (stageValue s.coeffs_ s.coeffs_.S dt h
        (Q / (s.solver_.mesh_.cell_size_0 * s.solver_.mesh_.cell_size_1))) := by
  have := (stages_flat B s t dt b0 b1 z h Q hb hl hu hst (s.coeffs_.S + 1) le_rfl).2
    (Nat.succ_pos _)
  simpa [RungeKuttaTemporalScheme.step] using this

theorem UniformInflow.of_eq {sv sv1 : SVSolver} {Q : ℚ} (hu : UniformInflow sv Q)
    (hm : sv1.mesh_ = sv.mesh_) (hQ : sv1.Q_in_ = sv.Q_in_) (hh : sv1.h_in_ = sv.h_in_) :
    UniformInflow sv1 Q :=
  ⟨by rw [hm]; exact hu.dx_pos, by rw [hm]; exact hu.dy_pos,
    by rw [hm, hQ]; exact hu.inflow, by rw [hm, hh]; exact hu.no_stage⟩

theorem stageValue_euler (dt x q : ℚ) :
    stageValue eulerCoeffs 0 dt x q = x ∧ stageValue eulerCoeffs 1 dt x q = x + dt * q := by
  constructor
  · rfl
  · simp [stageValue, eulerCoeffs, List.range_succ]

/-- Accepted Euler steps with non-negative sizes on a lake at rest over a flat
bed with a uniform inflow `Q ≥ 0`: the depth grows by `Q / (dx dy)` times the
total of the step sizes. -/
theorem acceptedSteps_flat (B : Builtins) (b0 b1 z Q : ℚ) (hb : b1 - b0 ≠ 0) (hQ : 0 ≤ Q)
    (steps : List (ℚ × ℚ)) (hdt : ∀ p, p ∈ steps → 0 ≤ p.2) (s : RungeKuttaTemporalScheme)
    (h : ℚ) (hE : s.coeffs_ = eulerCoeffs) (hh : 0 ≤ h)
    (hl : FlatLake s.solver_.mesh_ s.solver_.zbed_ s.U_ z h) (hu : UniformInflow s.solver_ Q) :
    FlatLake s.solver_.mesh_ s.solver_.zbed_
      (s.acceptedSteps B (num b0) (num b1) (steps.map fun p => (num p.1, num p.2))).U_ z
      (h + Q / (s.solver_.mesh_.cell_size_0 * s.solver_.mesh_.cell_size_1)
        * (steps.map Prod.snd).sum) := by
  induction steps generalizing s h with
  | nil => simpa [RungeKuttaTemporalScheme.acceptedSteps] using hl
  | cons p rest ih =>
    obtain ⟨t, dt⟩ := p
    have hdt0 : 0 ≤ dt := hdt (t, dt) (List.mem_cons_self _ _)
    have hq : 0 ≤ Q / (s.solver_.mesh_.cell_size_0 * s.solver_.mesh_.cell_size_1) :=
      div_nonneg hQ (le_of_lt (mul_pos hu.dx_pos hu.dy_pos))
    have hst : ∀ st, st ≤ s.coeffs_.S → 0 ≤ stageValue s.coeffs_ st dt h
        (Q / (s.solver_.mesh_.cell_size_0 * s.solver_.mesh_.cell_size_1)) := by
      intro st hs
      rw [hE] at hs ⊢
      have hs1 : st = 0 ∨ st = 1 := by
        have : st ≤ 1 := hs
        omega
      rcases hs1 with rfl | rfl
      · rw [(stageValue_euler _ _ _).1]; exact hh
      · rw [(stageValue_euler _ _ _).2]; exact add_nonneg hh (mul_nonneg hdt0 hq)
    have hstep := step_flat B s t dt b0 b1 z h Q hb hl hu hst
    obtain ⟨-, hcc, hcm, hcz, -, hcQ, hch⟩ := step_const B s (num t) (num dt) (num b0) (num b1)
    rw [hE, show eulerCoeffs.S = 1 from rfl, (stageValue_euler _ _ _).2] at hstep
    have := ih (fun p hp => hdt p (List.mem_cons_of_mem _ hp))
      (s.step B (num t) (num dt) (num b0) (num b1)).accept_step
      (h + dt * (Q / (s.solver_.mesh_.cell_size_0 * s.solver_.mesh_.cell_size_1)))
      (by show (s.step B (num t) (num dt) (num b0) (num b1)).coeffs_ = eulerCoeffs
          rw [hcc, hE])
      (add_nonneg hh (mul_nonneg hdt0 hq))
      (by show FlatLake (s.step B (num t) (num dt) (num b0) (num b1)).solver_.mesh_
            (s.step B (num t) (num dt) (num b0) (num b1)).solver_.zbed_
            (s.step B (num t) (num dt) (num b0) (num b1)).Ustar_ z _
          rw [hcm, hcz]; exact hstep)
      (hu.of_eq hcm hcQ hch)
    have hm : (s.step B (num t) (num dt) (num b0) (num b1)).accept_step.solver_.mesh_
        = s.solver_.mesh_ := hcm
    have hz : (s.step B (num t) (num dt) (num b0) (num b1)).accept_step.solver_.zbed_
        = s.solver_.zbed_ := hcz
    rw [hm, hz] at this
    simp only [List.map_cons, List.sum_cons, RungeKuttaTemporalScheme.acceptedSteps]
    rw [show h + Q / (s.solver_.mesh_.cell_size_0 * s.solver_.mesh_.cell_size_1)
          * (dt + (rest.map Prod.snd).sum)
        = h + dt * (Q / (s.solver_.mesh_.cell_size_0 * s.solver_.mesh_.cell_size_1))
          + Q / (s.solver_.mesh_.cell_size_0 * s.solver_.mesh_.cell_size_1)
            * (rest.map Prod.snd).sum by ring]
    exact this

/-! ## Uniform source over a flat closed mesh -/

/-- A sink on a dry cell: in the dry one-cell closed basin with the constant rate
`Q = -1`, the temporal derivative is `(Q / (dx dy), 0, 0) = (-1, 0, 0)`, and one
accepted Euler step of size `1` leaves the depth `0`: the accumulated depth is
negative and the stage kernel resets it. -/
theorem sink_keeps_dry_cell_dry :
    (drainingBasin.solver_.update_ddt sampleBuiltins drainingBasin.U_ drainingBasin.U_
      (num 0) (num 1) (num 0) (num 1)).2 0 0 = num (-1) ∧
    (drainingBasin.acceptedSteps sampleBuiltins (num 0) (num 1) [(num 0, num 1)]).U_ 0 0
      = num 0 ∧
    (drainingBasin.acceptedSteps sampleBuiltins (num 0) (num 1) [(num 0, num 1)]).U_ 0 0
      ≠ num ((-1) * 1 / (unitMesh.cell_size_0 * unitMesh.cell_size_1)) := by
  decide!

/-- C5: on a flat closed mesh with uniform depth `h ≥ 0`, zero velocity and the
same constant rate `Q` in every cell (no stage boundary), the temporal
derivative is `(Q / (dx dy), 0, 0)` at every active cell, wall cells and
interior cells alike; and for a source, `Q ≥ 0`, from a dry start accepted
Euler steps with non-negative sizes leave every active cell at rest with the
depth `Q t / (dx dy)`, `t` being the total of the step sizes. -/
theorem C5_uniform_source (B : Builtins) (s : RungeKuttaTemporalScheme) (z Q b0 b1 : ℚ)
    (hb : b1 - b0 ≠ 0) (hu : UniformInflow s.solver_ Q) :
    (∀ (U old : SolutionState) (h t dt : ℚ), 0 ≤ h →
      FlatLake s.solver_.mesh_ s.solver_.zbed_ U z h →
      ∀ c, c < s.solver_.mesh_.cell_count → s.solver_.zbed_ 0 c = num z → ∀ k,
      (s.solver_.update_ddt B U old (num t) (num dt) (num b0) (num b1)).2 k c
        = ![num (Q / (s.solver_.mesh_.cell_size_0 * s.solver_.mesh_.cell_size_1)), num 0,
            num 0] k) ∧
    (∀ steps : List (ℚ × ℚ), s.coeffs_ = eulerCoeffs → 0 ≤ Q →
      FlatLake s.solver_.mesh_ s.solver_.zbed_ s.U_ z 0 →
      (∀ p, p ∈ steps → 0 ≤ p.2) →
      FlatLake s.solver_.mesh_ s.solver_.zbed_
        (s.acceptedSteps B (num b0) (num b1) (steps.map fun p => (num p.1, num p.2))).U_ z
        (Q * (steps.map Prod.snd).sum
          / (s.solver_.mesh_.cell_size_0 * s.solver_.mesh_.cell_size_1))) := by
  refine ⟨fun U old h t dt hh hl c hc hz k =>
    update_ddt_flat B s.solver_ U old t dt b0 b1 z h Q (-1) hu.dx_pos hu.dy_pos hb hh hl
      hu.inflow hu.no_stage (by norm_num) c hc hz k, ?_⟩
  intro steps hE hQ hl hdt
  have := acceptedSteps_flat B b0 b1 z Q hb hQ steps hdt s 0 hE le_rfl hl hu
  rw [show Q * (steps.map Prod.snd).sum
        / (s.solver_.mesh_.cell_size_0 * s.solver_.mesh_.cell_size_1)
      = 0 + Q / (s.solver_.mesh_.cell_size_0 * s.solver_.mesh_.cell_size_1)
        * (steps.map Prod.snd).sum by ring]
  exact this

theorem s3Scheme_flat : FlatLake s3Scheme.solver_.mesh_ s3Scheme.solver_.zbed_ s3Scheme.U_ 0 0 := by
  intro c _
  exact ⟨⟨rfl, rfl⟩, Or.inr ⟨rfl, rfl, rfl, rfl⟩⟩

theorem s3Scheme_inflow : UniformInflow s3Scheme.solver_ (1 / 100) :=
  ⟨by decide!, by decide!, fun _ _ => ⟨rfl, rfl⟩, fun _ _ => rfl⟩

/-- C5 (witness): scenario S3 (`10 x 10` cells of size `10`, `Q = 0.01`): the
temporal derivative of the dry start is `(0.0001, 0, 0)` in every cell, and two
accepted Euler steps of `50 s` leave the depth `0.01 * 100 / 100 = 0.01`. -/
theorem C5_uniform_source_witness :
    (∀ c, c < 100 → ∀ k,
      (s3Scheme.solver_.update_ddt sampleBuiltins s3Scheme.U_ s3Scheme.U_ (num 0) (num 50)
        (num 0) (num 100)).2 k c = ![num (1 / 100 / (10 * 10)), num 0, num 0] k) ∧
    FlatLake s3Mesh s3Scheme.solver_.zbed_
      (s3Scheme.acceptedSteps sampleBuiltins (num 0) (num 100)
        [(num 0, num 50), (num 50, num 50)]).U_ 0 (1 / 100 * (50 + (50 + 0)) / (10 * 10)) :=
  ⟨fun c hc k => (C5_uniform_source sampleBuiltins s3Scheme 0 (1 / 100) 0 100 (by norm_num)
      s3Scheme_inflow).1 s3Scheme.U_ s3Scheme.U_ 0 0 50 le_rfl s3Scheme_flat c hc rfl k,
    (C5_uniform_source sampleBuiltins s3Scheme 0 (1 / 100) 0 100 (by norm_num)
      s3Scheme_inflow).2 [(0, 50), (50, 50)] rfl (by norm_num) s3Scheme_flat
      (by intro p hp; simp at hp; rcases hp with rfl | rfl <;> norm_num)⟩

/-! ## Lake at rest -/

/-- Any sequence of `step` and `accept_step` calls on a lake at rest over a flat
bed without inflow keeps the state and the candidate at rest with the same
depth, and the constants of the solver unchanged. -/
theorem applyCalls_flat (B : Builtins) (z h : ℚ) (hh : 0 ≤ h) (calls : List Call)
    (hcalls : ∀ c, c ∈ calls → c.Numeric) (s : RungeKuttaTemporalScheme)
    (hl : FlatLake s.solver_.mesh_ s.solver_.zbed_ s.U_ z h)
    (hls : FlatLake s.solver_.mesh_ s.solver_.zbed_ s.Ustar_ z h)
    (hu : UniformInflow s.solver_ 0) :
    FlatLake s.solver_.mesh_ s.solver_.zbed_ (s.applyCalls B calls).U_ z h := by
  induction calls generalizing s with
  | nil => exact hl
  | cons c rest ih =>
    have hrest : ∀ c, c ∈ rest → c.Numeric := fun c hc => hcalls c (List.mem_cons_of_mem _ hc)
    have hc := hcalls c (List.mem_cons_self _ _)
    cases c with
    | accept =>
      exact ih hrest s.accept_step hls hl hu
    | propose t dt b0 b1 =>
      cases t with
      | nan => exact absurd hc (by simp [Call.Numeric])
      | num t =>
      cases dt with
      | nan => exact absurd hc (by simp [Call.Numeric])
      | num dt =>
      cases b0 with
      | nan => exact absurd hc (by simp [Call.Numeric])
      | num b0 =>
      cases b1 with
      | nan => exact absurd hc (by simp [Call.Numeric])
      | num b1 =>
      have hb : b1 - b0 ≠ 0 := hc
      have hst : ∀ st, st ≤ s.coeffs_.S → 0 ≤ stageValue s.coeffs_ st dt h
          (0 / (s.solver_.mesh_.cell_size_0 * s.solver_.mesh_.cell_size_1)) := by
        intro st _
        rw [zero_div, stageValue_zero]
        exact hh
      have hstep := step_flat B s t dt b0 b1 z h 0 hb hl hu hst
      rw [zero_div, stageValue_zero] at hstep
      obtain ⟨hcU, -, hcm, hcz, -, hcQ, hch⟩ :=
        step_const B s (num t) (num dt) (num b0) (num b1)
      have := ih hrest (s.step B (num t) (num dt) (num b0) (num b1))
        (by rw [hcm, hcz, hcU]; exact hl) (by rw [hcm, hcz]; exact hstep)
        (hu.of_eq hcm hcQ hch)
      rw [hcm, hcz] at this
      exact this

/-- The lake at rest over a flat bed (the bed level is the same number `z` at
every active cell and the bed-slope fields are zero), with no inflow and no
stage boundary: a uniform depth `h ≥ 0` at rest is preserved exactly by any
sequence of proposed and accepted steps of any Runge-Kutta scheme: afterwards
every active cell still has depth `h` (so `h + zb = h + z`) and `u = v = 0`. -/
theorem flat_lake_at_rest (B : Builtins) (s : RungeKuttaTemporalScheme) (z h : ℚ)
    (hh : 0 ≤ h) (hl : FlatLake s.solver_.mesh_ s.solver_.zbed_ s.U_ z h)
    (hls : FlatLake s.solver_.mesh_ s.solver_.zbed_ s.Ustar_ z h)
    (hu : UniformInflow s.solver_ 0) (calls : List Call)
    (hcalls : ∀ c, c ∈ calls → c.Numeric) :
    FlatLake s.solver_.mesh_ s.solver_.zbed_ (s.applyCalls B calls).U_ z h :=
  applyCalls_flat B z h hh calls hcalls s hl hls hu

theorem flatPond_flat :
    FlatLake flatPond.solver_.mesh_ flatPond.solver_.zbed_ flatPond.U_ 0 (1 / 2) := by
  intro c _
  exact ⟨⟨rfl, rfl⟩, Or.inr ⟨rfl, rfl, rfl, rfl⟩⟩

theorem flatPond_inflow : UniformInflow flatPond.solver_ 0 :=
  ⟨by decide!, by decide!, fun _ _ => ⟨rfl, rfl⟩, fun _ _ => rfl⟩

/-- Still water of depth `0.5` on the flat `10 x 10` mesh stays at rest through a
rejected step, an accepted step and another accepted step. -/
theorem flat_lake_at_rest_example :
    FlatLake s3Mesh flatPond.solver_.zbed_
      (flatPond.applyCalls sampleBuiltins
        [Call.propose (num 0) (num 1) (num 0) (num 10),
         Call.propose (num 0) (num (1 / 2)) (num 0) (num 10), Call.accept,
         Call.propose (num (1 / 2)) (num (1 / 2)) (num 0) (num 10), Call.accept]).U_
      0 (1 / 2) :=
  flat_lake_at_rest sampleBuiltins flatPond 0 (1 / 2) (by norm_num) flatPond_flat
    flatPond_flat flatPond_inflow _
    (by
      intro c hc
      simp only [List.mem_cons, List.mem_singleton, List.not_mem_nil, or_false] at hc
      rcases hc with rfl | rfl | rfl | rfl | rfl <;> simp [Call.Numeric])

/-! ## Mass balance of the temporal derivative in a closed basin -/

theorem ValueType.IsNum.eq_toRat {x : ValueType} (h : x.IsNum) : x = num x.toRat := by
  obtain ⟨q, rfl⟩ := h
  rfl

theorem ValueType.isNum_num (q : ℚ) : (num q).IsNum := ⟨q, rfl⟩

/-- The limited slopes of a component whose centre value is a number are numbers,
and a slope is zero when the neighbour on one side is replaced by the centre or
carries the centre value. -/
theorem MinmodKernel_num {N : Nat} (m : Cartesian2DMesh) (U : FieldVector N) (c : Nat)
    (k : Fin N) (x : ℚ) (hdx : 0 < m.cell_size_0) (hdy : 0 < m.cell_size_1)
    (hc : U k c = num x) :
    ∃ sx sy : ℚ, MinmodKernel m (num 2) U c k = (num sx, num sy) ∧
      ((orCentre (U k (minmodNeighbours m c).1) (num x) = num x ∨
        orCentre (U k (minmodNeighbours m c).2.1) (num x) = num x) → sx = 0) ∧
      ((orCentre (U k (minmodNeighbours m c).2.2.1) (num x) = num x ∨
        orCentre (U k (minmodNeighbours m c).2.2.2) (num x) = num x) → sy = 0) := by
  obtain ⟨Uw, hw⟩ := orCentre_num (U k (minmodNeighbours m c).1) x
  obtain ⟨Ue, he⟩ := orCentre_num (U k (minmodNeighbours m c).2.1) x
  obtain ⟨Us, hs⟩ := orCentre_num (U k (minmodNeighbours m c).2.2.1) x
  obtain ⟨Un, hn⟩ := orCentre_num (U k (minmodNeighbours m c).2.2.2) x
  obtain ⟨sx, hsx, -, hzx⟩ := limited_slope_bound x Uw Ue _ hdx
  obtain ⟨sy, hsy, -, hzy⟩ := limited_slope_bound x Us Un _ hdy
  refine ⟨sx, sy, ?_, ?_, ?_⟩
  · unfold MinmodKernel
    simp only [hc, hw, he, hs, hn, hsx, hsy]
  · intro h
    apply hzx
    rcases h with h | h
    · rw [hw] at h
      have := ValueType.num.inj h
      left
      linarith
    · rw [he] at h
      have := ValueType.num.inj h
      right
      left
      linarith
  · intro h
    apply hzy
    rcases h with h | h
    · rw [hs] at h
      have := ValueType.num.inj h
      left
      linarith
    · rw [hn] at h
      have := ValueType.num.inj h
      right
      left
      linarith

theorem Consistent.activeCell {m : Cartesian2DMesh} {zbed : FieldVector 3} {U : SolutionState}
    (hcons : Consistent m zbed U) {c : Nat} (hc : c < m.cell_count) (hact : zbed 0 c ≠ nan) :
    CellActive zbed U c := by
  rcases hcons c hc with h | h
  · exact absurd h.1 hact
  · exact h

theorem Consistent.inactive {m : Cartesian2DMesh} {zbed : FieldVector 3} {U : SolutionState}
    (hcons : Consistent m zbed U) {c : Nat} (hc : c < m.cell_count) (hin : zbed 0 c = nan)
    (k : Fin 3) : U k c = nan := by
  rcases hcons c hc with h | h
  · exact h.2 k
  · obtain ⟨z, hz⟩ := h.1
    rw [hz] at hin
    cases hin

/-- In a consistent state the reconstructed slopes of an active cell are numbers,
and the slope of each component normal to a wall (a mesh edge or an inactive
neighbour) is zero. -/
theorem Consistent.limitedSlopes {m : Cartesian2DMesh} {zbed : FieldVector 3} {U : SolutionState}
    (hcons : Consistent m zbed U) (hdx : 0 < m.cell_size_0) (hdy : 0 < m.cell_size_1)
    (oldx oldy : FieldVector 3) {ix iy : Nat} (hx : ix < m.ncells_0) (hy : iy < m.ncells_1)
    (hact : zbed 0 (iy * m.ncells_0 + ix) ≠ nan) :
    ∃ sx sy : Fin 3 → ℚ,
      (∀ k, (MinmodSpatialDerivative.calculate m U oldx oldy).1 k (iy * m.ncells_0 + ix)
        = num (sx k)) ∧
      (∀ k, (MinmodSpatialDerivative.calculate m U oldx oldy).2 k (iy * m.ncells_0 + ix)
        = num (sy k)) ∧
      ((ix = 0 ∨ zbed 0 (iy * m.ncells_0 + (ix - 1)) = nan ∨ ix + 1 = m.ncells_0 ∨
        zbed 0 (iy * m.ncells_0 + (ix + 1)) = nan) → ∀ k, sx k = 0) ∧
      ((iy = 0 ∨ zbed 0 ((iy - 1) * m.ncells_0 + ix) = nan ∨ iy + 1 = m.ncells_1 ∨
        zbed 0 ((iy + 1) * m.ncells_0 + ix) = nan) → ∀ k, sy k = 0) := by
  have hc := m.linear_id_lt hx hy
  have hU := (hcons.activeCell hc hact).2
  have hker : ∀ k, ∃ sx sy : ℚ,
      MinmodKernel m (num 2) U (iy * m.ncells_0 + ix) k = (num sx, num sy) ∧
      ((ix = 0 ∨ zbed 0 (iy * m.ncells_0 + (ix - 1)) = nan ∨ ix + 1 = m.ncells_0 ∨
        zbed 0 (iy * m.ncells_0 + (ix + 1)) = nan) → sx = 0) ∧
      ((iy = 0 ∨ zbed 0 ((iy - 1) * m.ncells_0 + ix) = nan ∨ iy + 1 = m.ncells_1 ∨
        zbed 0 ((iy + 1) * m.ncells_0 + ix) = nan) → sy = 0) := by
    intro k
    obtain ⟨x, hxk⟩ := hU k
    obtain ⟨sx, sy, hk, hzx, hzy⟩ := MinmodKernel_num m U _ k x hdx hdy hxk
    rw [minmodNeighbours_linear m hx] at hzx hzy
    refine ⟨sx, sy, hk, ?_, ?_⟩
    · intro hw
      apply hzx
      rcases hw with h | h | h | h
      · left
        simp only [h, lt_irrefl, if_false]
        rw [← h, hxk, orCentre_self]
      · left
        by_cases h0 : 0 < ix
        · simp only [h0, if_true]
          rw [hcons.inactive (m.linear_id_lt (by omega) hy) h k, orCentre_nan]
        · simp only [h0, if_false]
          rw [hxk, orCentre_self]
      · right
        have : ¬ ix < m.ncells_0 - 1 := by omega
        simp only [this, if_false]
        rw [hxk, orCentre_self]
      · right
        by_cases h0 : ix < m.ncells_0 - 1
        · simp only [h0, if_true]
          rw [hcons.inactive (m.linear_id_lt (by omega) hy) h k, orCentre_nan]
        · simp only [h0, if_false]
          rw [hxk, orCentre_self]
    · intro hw
      apply hzy
      rcases hw with h | h | h | h
      · left
        simp only [h, lt_irrefl, if_false]
        rw [← h, hxk, orCentre_self]
      · left
        by_cases h0 : 0 < iy
        · simp only [h0, if_true]
          rw [hcons.inactive (m.linear_id_lt hx (by omega)) h k, orCentre_nan]
        · simp only [h0, if_false]
          rw [hxk, orCentre_self]
      · right
        have : ¬ iy < m.ncells_1 - 1 := by omega
        simp only [this, if_false]
        rw [hxk, orCentre_self]
      · right
        by_cases h0 : iy < m.ncells_1 - 1
        · simp only [h0, if_true]
          rw [hcons.inactive (m.linear_id_lt hx (by omega)) h k, orCentre_nan]
        · simp only [h0, if_false]
          rw [hxk, orCentre_self]
  choose sx sy hk hzx hzy using hker
  refine ⟨sx, sy, ?_, ?_, fun hw k => hzx k hw, fun hw k => hzy k hw⟩
  · intro k
    unfold MinmodSpatialDerivative.calculate parallel_for
    simp only [hc, if_true, hk k]
  · intro k
    unfold MinmodSpatialDerivative.calculate parallel_for
    simp only [hc, if_true, hk k]
/-- The data of an active cell in a consistent state with non-negative depths:
bed level, state and reconstructed slopes are numbers, the depth is not
negative, and the slopes normal to a wall are zero. -/
theorem Consistent.cell {m : Cartesian2DMesh} {zbed : FieldVector 3} {U : SolutionState}
    (hcons : Consistent m zbed U) (hnn : NonNegDepth m U) (hdx : 0 < m.cell_size_0)
    (hdy : 0 < m.cell_size_1) (oldx oldy : FieldVector 3) {ix iy : Nat}
    (hx : ix < m.ncells_0) (hy : iy < m.ncells_1)
    (hact : zbed 0 (iy * m.ncells_0 + ix) ≠ nan) :
    ∃ (z : ℚ) (Uc sx sy : Fin 3 → ℚ),
      zbed 0 (iy * m.ncells_0 + ix) = num z ∧
      (∀ k, U k (iy * m.ncells_0 + ix) = num (Uc k)) ∧ 0 ≤ Uc 0 ∧
      (∀ k, (MinmodSpatialDerivative.calculate m U oldx oldy).1 k (iy * m.ncells_0 + ix)
        = num (sx k)) ∧
      (∀ k, (MinmodSpatialDerivative.calculate m U oldx oldy).2 k (iy * m.ncells_0 + ix)
        = num (sy k)) ∧
      ((ix = 0 ∨ zbed 0 (iy * m.ncells_0 + (ix - 1)) = nan ∨ ix + 1 = m.ncells_0 ∨
        zbed 0 (iy * m.ncells_0 + (ix + 1)) = nan) → ∀ k, sx k = 0) ∧
      ((iy = 0 ∨ zbed 0 ((iy - 1) * m.ncells_0 + ix) = nan ∨ iy + 1 = m.ncells_1 ∨
        zbed 0 ((iy + 1) * m.ncells_0 + ix) = nan) → ∀ k, sy k = 0) := by
  have hc := m.linear_id_lt hx hy
  obtain ⟨⟨z, hz⟩, hU⟩ := hcons.activeCell hc hact
  choose Uc hUc using hU
  obtain ⟨sx, sy, hsx, hsy, hzx, hzy⟩ := hcons.limitedSlopes hdx hdy oldx oldy hx hy hact
  exact ⟨z, Uc, sx, sy, hz, hUc, hnn _ hc _ (hUc 0), hsx, hsy, hzx, hzy⟩

theorem isNum_vec4 (a b c d : ℚ) (k : Fin 4) : (![num a, num b, num c, num d] k).IsNum := by
  fin_cases k <;> exact ⟨_, rfl⟩

/-- The flux at the west face of an active cell: four numbers, with no mass
flux when the face is a wall. -/
theorem Consistent.faceFlux_W {m : Cartesian2DMesh} {zbed : FieldVector 3} {U : SolutionState}
    (hcons : Consistent m zbed U) (hnn : NonNegDepth m U)
    (hslope : ∀ c, c < m.cell_count → zbed 1 c = num 0 ∧ zbed 2 c = num 0)
    (hdx : 0 < m.cell_size_0) (hdy : 0 < m.cell_size_1) (B : Builtins)
    (oldx oldy : FieldVector 3) {ix iy : Nat} (hx : ix < m.ncells_0) (hy : iy < m.ncells_1)
    (hact : zbed 0 (iy * m.ncells_0 + ix) ≠ nan) :
    (∀ k, (FluxKernel B m U zbed (MinmodSpatialDerivative.calculate m U oldx oldy).1
      (MinmodSpatialDerivative.calculate m U oldx oldy).2
      (iy * (m.ncells_0 + 1) + ix) k).IsNum) ∧
    ((ix = 0 ∨ zbed 0 (iy * m.ncells_0 + (ix - 1)) = nan) →
      FluxKernel B m U zbed (MinmodSpatialDerivative.calculate m U oldx oldy).1
        (MinmodSpatialDerivative.calculate m U oldx oldy).2
        (iy * (m.ncells_0 + 1) + ix) 0 = num 0) := by
  have hc := m.linear_id_lt hx hy
  obtain ⟨z, Uc, sx, sy, hz, hUc, hh, hsx, hsy, hzx, -⟩ :=
    hcons.cell hnn hdx hdy oldx oldy hx hy hact
  have hwallcase : (ix = 0 ∨ zbed 0 (iy * m.ncells_0 + (ix - 1)) = nan) →
      FluxKernel B m U zbed (MinmodSpatialDerivative.calculate m U oldx oldy).1
        (MinmodSpatialDerivative.calculate m U oldx oldy).2 (iy * (m.ncells_0 + 1) + ix)
        = ![num 0, num 0, num 0, num (-(Uc 0 * (11 / 10)))] := fun hwall =>
    FluxKernel_W_wall B m U zbed _ _ ix iy hx hy z (Uc 0) (Uc 1) (Uc 2) sx sy hz (hUc 0)
      (hUc 1) (hUc 2) hsx hsy (hslope _ hc) hh
      (hzx (hwall.elim Or.inl (fun h => Or.inr (Or.inl h))) 0) hwall
  refine ⟨fun k => ?_, fun hwall => by rw [hwallcase hwall]; rfl⟩
  by_cases hwall : ix = 0 ∨ zbed 0 (iy * m.ncells_0 + (ix - 1)) = nan
  · rw [hwallcase hwall]
    exact isNum_vec4 _ _ _ _ k
  · push_neg at hwall
    have h0 : 0 < ix := Nat.pos_of_ne_zero hwall.1
    have hx1 : ix - 1 < m.ncells_0 := by omega
    have hc1 := m.linear_id_lt hx1 hy
    obtain ⟨z1, Uc1, sx1, sy1, hz1, hUc1, -, hsx1, hsy1, -, -⟩ :=
      hcons.cell hnn hdx hdy oldx oldy hx1 hy hwall.2
    rw [FluxKernel_W_interior B m U zbed _ _ ix iy hx hy h0 z1 z hz1 hz]
    obtain ⟨F, hF⟩ := fluxFromSides_interior B m U zbed
      (MinmodSpatialDerivative.calculate m U oldx oldy).1
      (MinmodSpatialDerivative.calculate m U oldx oldy).2 true _ _ z1 z Uc1 Uc sx1 sx sy1 sy
      hUc1 hUc hsx1 hsx hsy1 hsy (hslope _ hc1) (hslope _ hc)
    rw [hF]
    exact ⟨_, rfl⟩

/-- The flux at the east face of an active cell. -/
theorem Consistent.faceFlux_E {m : Cartesian2DMesh} {zbed : FieldVector 3} {U : SolutionState}
    (hcons : Consistent m zbed U) (hnn : NonNegDepth m U)
    (hslope : ∀ c, c < m.cell_count → zbed 1 c = num 0 ∧ zbed 2 c = num 0)
    (hdx : 0 < m.cell_size_0) (hdy : 0 < m.cell_size_1) (B : Builtins)
    (oldx oldy : FieldVector 3) {ix iy : Nat} (hx : ix < m.ncells_0) (hy : iy < m.ncells_1)
    (hact : zbed 0 (iy * m.ncells_0 + ix) ≠ nan) :
    (∀ k, (FluxKernel B m U zbed (MinmodSpatialDerivative.calculate m U oldx oldy).1
      (MinmodSpatialDerivative.calculate m U oldx oldy).2
      (iy * (m.ncells_0 + 1) + ix + 1) k).IsNum) ∧
    ((ix + 1 = m.ncells_0 ∨ zbed 0 (iy * m.ncells_0 + (ix + 1)) = nan) →
      FluxKernel B m U zbed (MinmodSpatialDerivative.calculate m U oldx oldy).1
        (MinmodSpatialDerivative.calculate m U oldx oldy).2
        (iy * (m.ncells_0 + 1) + ix + 1) 0 = num 0) := by
  have hc := m.linear_id_lt hx hy
  obtain ⟨z, Uc, sx, sy, hz, hUc, hh, hsx, hsy, hzx, -⟩ :=
    hcons.cell hnn hdx hdy oldx oldy hx hy hact
  have hwallcase : (ix + 1 = m.ncells_0 ∨ zbed 0 (iy * m.ncells_0 + (ix + 1)) = nan) →
      FluxKernel B m U zbed (MinmodSpatialDerivative.calculate m U oldx oldy).1
        (MinmodSpatialDerivative.calculate m U oldx oldy).2 (iy * (m.ncells_0 + 1) + ix + 1)
        = ![num 0, num 0, num 0, num (Uc 0 * (11 / 10))] := fun hwall =>
    FluxKernel_E_wall B m U zbed _ _ ix iy hx hy z (Uc 0) (Uc 1) (Uc 2) sx sy hz (hUc 0)
      (hUc 1) (hUc 2) hsx hsy (hslope _ hc) hh
      (hzx (hwall.elim (fun h => Or.inr (Or.inr (Or.inl h)))
        (fun h => Or.inr (Or.inr (Or.inr h)))) 0) hwall
  refine ⟨fun k => ?_, fun hwall => by rw [hwallcase hwall]; rfl⟩
  by_cases hwall : ix + 1 = m.ncells_0 ∨ zbed 0 (iy * m.ncells_0 + (ix + 1)) = nan
  · rw [hwallcase hwall]
    exact isNum_vec4 _ _ _ _ k
  · push_neg at hwall
    have hx1 : ix + 1 < m.ncells_0 := by omega
    have hc1 := m.linear_id_lt hx1 hy
    obtain ⟨z1, Uc1, sx1, sy1, hz1, hUc1, -, hsx1, hsy1, -, -⟩ :=
      hcons.cell hnn hdx hdy oldx oldy hx1 hy hwall.2
    have hface : iy * (m.ncells_0 + 1) + ix + 1 = iy * (m.ncells_0 + 1) + (ix + 1) := by ring
    rw [hface, FluxKernel_W_interior B m U zbed _ _ (ix + 1) iy hx1 hy (by omega) z z1
        (by simpa using hz) hz1]
    simp only [Nat.add_sub_cancel]
    obtain ⟨F, hF⟩ := fluxFromSides_interior B m U zbed
      (MinmodSpatialDerivative.calculate m U oldx oldy).1
      (MinmodSpatialDerivative.calculate m U oldx oldy).2 true _ _ z z1 Uc Uc1 sx sx1 sy sy1
      hUc hUc1 hsx hsx1 hsy hsy1 (hslope _ hc) (hslope _ hc1)
    rw [hF]
    exact ⟨_, rfl⟩

/-- The flux at the south face of an active cell. -/
theorem Consistent.faceFlux_S {m : Cartesian2DMesh} {zbed : FieldVector 3} {U : SolutionState}
    (hcons : Consistent m zbed U) (hnn : NonNegDepth m U)
    (hslope : ∀ c, c < m.cell_count → zbed 1 c = num 0 ∧ zbed 2 c = num 0)
    (hdx : 0 < m.cell_size_0) (hdy : 0 < m.cell_size_1) (B : Builtins)
    (oldx oldy : FieldVector 3) {ix iy : Nat} (hx : ix < m.ncells_0) (hy : iy < m.ncells_1)
    (hact : zbed 0 (iy * m.ncells_0 + ix) ≠ nan) :
    (∀ k, (FluxKernel B m U zbed (MinmodSpatialDerivative.calculate m U oldx oldy).1
      (MinmodSpatialDerivative.calculate m U oldx oldy).2
      ((m.ncells_0 + 1) * m.ncells_1 + iy * m.ncells_0 + ix) k).IsNum) ∧
    ((iy = 0 ∨ zbed 0 ((iy - 1) * m.ncells_0 + ix) = nan) →
      FluxKernel B m U zbed (MinmodSpatialDerivative.calculate m U oldx oldy).1
        (MinmodSpatialDerivative.calculate m U oldx oldy).2
        ((m.ncells_0 + 1) * m.ncells_1 + iy * m.ncells_0 + ix) 0 = num 0) := by
  have hc := m.linear_id_lt hx hy
  obtain ⟨z, Uc, sx, sy, hz, hUc, hh, hsx, hsy, -, hzy⟩ :=
    hcons.cell hnn hdx hdy oldx oldy hx hy hact
  have hwallcase : (iy = 0 ∨ zbed 0 ((iy - 1) * m.ncells_0 + ix) = nan) →
      FluxKernel B m U zbed (MinmodSpatialDerivative.calculate m U oldx oldy).1
        (MinmodSpatialDerivative.calculate m U oldx oldy).2
        ((m.ncells_0 + 1) * m.ncells_1 + iy * m.ncells_0 + ix)
        = ![num 0, num 0, num 0, num (-(Uc 0 * (11 / 10)))] := fun hwall =>
    FluxKernel_S_wall B m U zbed _ _ ix iy hx hy z (Uc 0) (Uc 1) (Uc 2) sx sy hz (hUc 0)
      (hUc 1) (hUc 2) hsx hsy (hslope _ hc) hh
      (hzy (hwall.elim Or.inl (fun h => Or.inr (Or.inl h))) 0) hwall
  refine ⟨fun k => ?_, fun hwall => by rw [hwallcase hwall]; rfl⟩
  by_cases hwall : iy = 0 ∨ zbed 0 ((iy - 1) * m.ncells_0 + ix) = nan
  · rw [hwallcase hwall]
    exact isNum_vec4 _ _ _ _ k
  · push_neg at hwall
    have h0 : 0 < iy := Nat.pos_of_ne_zero hwall.1
    have hy1 : iy - 1 < m.ncells_1 := by omega
    have hc1 := m.linear_id_lt hx hy1
    obtain ⟨z1, Uc1, sx1, sy1, hz1, hUc1, -, hsx1, hsy1, -, -⟩ :=
      hcons.cell hnn hdx hdy oldx oldy hx hy1 hwall.2
    rw [FluxKernel_S_interior B m U zbed _ _ ix iy hx hy h0 z1 z hz1 hz]
    obtain ⟨F, hF⟩ := fluxFromSides_interior B m U zbed
      (MinmodSpatialDerivative.calculate m U oldx oldy).1
      (MinmodSpatialDerivative.calculate m U oldx oldy).2 false _ _ z1 z Uc1 Uc sx1 sx sy1 sy
      hUc1 hUc hsx1 hsx hsy1 hsy (hslope _ hc1) (hslope _ hc)
    rw [hF]
    exact ⟨_, rfl⟩

/-- The flux at the north face of an active cell. -/
theorem Consistent.faceFlux_N {m : Cartesian2DMesh} {zbed : FieldVector 3} {U : SolutionState}
    (hcons : Consistent m zbed U) (hnn : NonNegDepth m U)
    (hslope : ∀ c, c < m.cell_count → zbed 1 c = num 0 ∧ zbed 2 c = num 0)
    (hdx : 0 < m.cell_size_0) (hdy : 0 < m.cell_size_1) (B : Builtins)
    (oldx oldy : FieldVector 3) {ix iy : Nat} (hx : ix < m.ncells_0) (hy : iy < m.ncells_1)
    (hact : zbed 0 (iy * m.ncells_0 + ix) ≠ nan) :
    (∀ k, (FluxKernel B m U zbed (MinmodSpatialDerivative.calculate m U oldx oldy).1
      (MinmodSpatialDerivative.calculate m U oldx oldy).2
      ((m.ncells_0 + 1) * m.ncells_1 + iy * m.ncells_0 + ix + m.ncells_0) k).IsNum) ∧
    ((iy + 1 = m.ncells_1 ∨ zbed 0 ((iy + 1) * m.ncells_0 + ix) = nan) →
      FluxKernel B m U zbed (MinmodSpatialDerivative.calculate m U oldx oldy).1
        (MinmodSpatialDerivative.calculate m U oldx oldy).2
        ((m.ncells_0 + 1) * m.ncells_1 + iy * m.ncells_0 + ix + m.ncells_0) 0 = num 0) := by
  have hc := m.linear_id_lt hx hy
  obtain ⟨z, Uc, sx, sy, hz, hUc, hh, hsx, hsy, -, hzy⟩ :=
    hcons.cell hnn hdx hdy oldx oldy hx hy hact
  have hwallcase : (iy + 1 = m.ncells_1 ∨ zbed 0 ((iy + 1) * m.ncells_0 + ix) = nan) →
      FluxKernel B m U zbed (MinmodSpatialDerivative.calculate m U oldx oldy).1
        (MinmodSpatialDerivative.calculate m U oldx oldy).2
        ((m.ncells_0 + 1) * m.ncells_1 + iy * m.ncells_0 + ix + m.ncells_0)
        = ![num 0, num 0, num 0, num (Uc 0 * (11 / 10))] := fun hwall =>
    FluxKernel_N_wall B m U zbed _ _ ix iy hx hy z (Uc 0) (Uc 1) (Uc 2) sx sy hz (hUc 0)
      (hUc 1) (hUc 2) hsx hsy (hslope _ hc) hh
      (hzy (hwall.elim (fun h => Or.inr (Or.inr (Or.inl h)))
        (fun h => Or.inr (Or.inr (Or.inr h)))) 0) hwall
  refine ⟨fun k => ?_, fun hwall => by rw [hwallcase hwall]; rfl⟩
  by_cases hwall : iy + 1 = m.ncells_1 ∨ zbed 0 ((iy + 1) * m.ncells_0 + ix) = nan
  · rw [hwallcase hwall]
    exact isNum_vec4 _ _ _ _ k
  · push_neg at hwall
    have hy1 : iy + 1 < m.ncells_1 := by omega
    have hc1 := m.linear_id_lt hx hy1
    obtain ⟨z1, Uc1, sx1, sy1, hz1, hUc1, -, hsx1, hsy1, -, -⟩ :=
      hcons.cell hnn hdx hdy oldx oldy hx hy1 hwall.2
    have hface : (m.ncells_0 + 1) * m.ncells_1 + iy * m.ncells_0 + ix + m.ncells_0
        = (m.ncells_0 + 1) * m.ncells_1 + (iy + 1) * m.ncells_0 + ix := by ring
    rw [hface, FluxKernel_S_interior B m U zbed _ _ ix (iy + 1) hx hy1 (by omega) z z1
        (by simpa using hz) hz1]
    simp only [Nat.add_sub_cancel]
    obtain ⟨F, hF⟩ := fluxFromSides_interior B m U zbed
      (MinmodSpatialDerivative.calculate m U oldx oldy).1
      (MinmodSpatialDerivative.calculate m U oldx oldy).2 false _ _ z z1 Uc Uc1 sx sx1 sy sy1
      hUc hUc1 hsx hsx1 hsy hsy1 (hslope _ hc) (hslope _ hc1)
    rw [hF]
    exact ⟨_, rfl⟩

/-! ## Numbers are closed under the arithmetic of the kernels -/

namespace ValueType

theorem IsNum.add {a b : ValueType} (ha : a.IsNum) (hb : b.IsNum) : (a + b).IsNum := by
  obtain ⟨x, rfl⟩ := ha
  obtain ⟨y, rfl⟩ := hb
  exact ⟨_, rfl⟩

theorem IsNum.sub {a b : ValueType} (ha : a.IsNum) (hb : b.IsNum) : (a - b).IsNum := by
  obtain ⟨x, rfl⟩ := ha
  obtain ⟨y, rfl⟩ := hb
  exact ⟨_, rfl⟩

theorem IsNum.mul {a b : ValueType} (ha : a.IsNum) (hb : b.IsNum) : (a * b).IsNum := by
  obtain ⟨x, rfl⟩ := ha
  obtain ⟨y, rfl⟩ := hb
  exact ⟨_, rfl⟩

theorem IsNum.neg {a : ValueType} (ha : a.IsNum) : (-a).IsNum := by
  obtain ⟨x, rfl⟩ := ha
  exact ⟨_, rfl⟩

theorem IsNum.div {a : ValueType} (ha : a.IsNum) {y : ℚ} (hy : y ≠ 0) : (a / num y).IsNum := by
  obtain ⟨x, rfl⟩ := ha
  exact ⟨_, num_div_of_ne _ hy⟩

theorem IsNum.fmax_right (a : ValueType) {b : ValueType} (hb : b.IsNum) : (fmax a b).IsNum := by
  obtain ⟨y, rfl⟩ := hb
  cases a with
  | nan => exact ⟨_, rfl⟩
  | num x =>
    rw [fmax_num]
    exact ⟨_, rfl⟩

theorem IsNum.fmin_right (a : ValueType) {b : ValueType} (hb : b.IsNum) : (fmin a b).IsNum := by
  obtain ⟨y, rfl⟩ := hb
  cases a with
  | nan => exact ⟨_, rfl⟩
  | num x =>
    rw [fmin_num]
    exact ⟨_, rfl⟩

theorem IsNum.fabs {a : ValueType} (ha : a.IsNum) : a.fabs.IsNum := by
  obtain ⟨x, rfl⟩ := ha
  exact ⟨_, rfl⟩

theorem IsNum.sign (a : ValueType) : a.sign.IsNum := by
  cases a <;> exact ⟨_, rfl⟩

theorem IsNum.lift2 (f : ℚ → ℚ → ℚ) {a b : ValueType} (ha : a.IsNum) (hb : b.IsNum) :
    (ValueType.lift2 f a b).IsNum := by
  obtain ⟨x, rfl⟩ := ha
  obtain ⟨y, rfl⟩ := hb
  exact ⟨_, rfl⟩

theorem isNum_liftSqrt (f : ℚ → ℚ) {x : ℚ} (hx : 0 ≤ x) : (liftSqrt f (num x)).IsNum := by
  rw [liftSqrt_num f hx]
  exact ⟨_, rfl⟩

end ValueType

theorem smoothstep_isNum (edge0 edge1 x : ValueType) : (smoothstep edge0 edge1 x).IsNum := by
  have ht : (clamp ((x - edge0) / (edge1 - edge0)) (num 0) (num 1)).IsNum :=
    ValueType.IsNum.fmin_right _ (ValueType.isNum_num 1)
  unfold smoothstep
  exact (ht.mul ht).mul ((ValueType.isNum_num 3).sub ((ValueType.isNum_num 2).mul ht))

theorem frictionSlope_isNum (B : Builtins) (U : FieldVector 3) (n : FieldVector 4) (c : Nat)
    (hU : ∀ k, (U k c).IsNum) (hn0 : (n 0 c).IsNum) (hn2 : (n 2 c).IsNum) :
    (frictionSlope B U n c).IsNum := by
  have hm : (mix (n 0 c) (n 2 c) (smoothstep (n 1 c) (n 3 c) (U 0 c))).IsNum :=
    hn0.add ((hn2.sub hn0).mul (smoothstep_isNum _ _ _))
  obtain ⟨h, hh⟩ := hU 0
  obtain ⟨u, hu⟩ := hU 1
  obtain ⟨v, hv⟩ := hU 2
  unfold frictionSlope
  simp only
  split_ifs
  · refine ((hm.mul hm).mul ?_).mul (ValueType.IsNum.lift2 _ ?_ (ValueType.isNum_num _))
    · rw [hu, hv]
      exact ValueType.isNum_liftSqrt _ (add_nonneg (mul_self_nonneg u) (mul_self_nonneg v))
    · rw [hh]
      have hden : h * h + 1 / 1000 ≠ 0 := by
        have := mul_self_nonneg h
        linarith
      exact (ValueType.isNum_num h).div hden
  · exact ValueType.isNum_num 0

theorem bedAndWallSource_isNum {dzd F3lo F3hi h : ValueType} {d : ℚ} (hd : d ≠ 0)
    (h1 : dzd.IsNum) (h4 : h.IsNum) :
    (bedAndWallSource dzd F3lo F3hi h (num d)).IsNum := by
  have hs : (if (dzd.fabs.gt (h / num d)) = true then dzd.sign * h / num d else dzd).IsNum := by
    split_ifs
    · exact ((ValueType.IsNum.sign dzd).mul h4).div hd
    · exact h1
  have hbed := (ValueType.isNum_num (-981 / 100)).mul hs
  have hlo : (num (-981 / 100) * ValueType.fmax F3lo (-h) / num d).IsNum :=
    ((ValueType.isNum_num _).mul (ValueType.IsNum.fmax_right _ h4.neg)).div hd
  have hhi : (num (-981 / 100) * ValueType.fmin F3hi h / num d).IsNum :=
    ((ValueType.isNum_num _).mul (ValueType.IsNum.fmin_right _ h4)).div hd
  unfold bedAndWallSource
  simp only
  generalize (if (dzd.fabs.gt (h / num d)) = true then dzd.sign * h / num d else dzd) = g
    at hs hbed ⊢
  split_ifs
  · exact (hbed.add hlo).add hhi
  · exact hbed.add hhi
  · exact hbed.add hlo
  · exact hbed

theorem applyFriction_isNum {u dudt sf dt : ValueType} (h1 : u.IsNum) (h2 : dudt.IsNum)
    (h3 : sf.IsNum) (h4 : dt.IsNum) : (applyFriction u dudt sf dt).IsNum := by
  have he : (u + dudt * num (1 / 2) * dt).IsNum :=
    h1.add ((h2.mul (ValueType.isNum_num _)).mul h4)
  have hf : (num (981 / 100) * sf * u).IsNum := ((ValueType.isNum_num _).mul h3).mul h1
  unfold applyFriction limitFriction
  simp only
  split_ifs
  · exact h2.sub he
  · exact h2.sub (ValueType.isNum_num 0)
  · exact h2.sub hf

/-- The momentum components of the temporal derivative at cell `(ix, iy)` are
numbers when the fluxes at its four faces, its state, its bed slopes and its
roughness are. -/
theorem TemporalDerivativeKernel_isNum (B : Builtins) (m : Cartesian2DMesh)
    (U zb : FieldVector 3) (n : FieldVector 4) (Q_in h_in : FieldVector 2) (F : FieldVector 4)
    (t : ValueType) (dt : ℚ) (b0 b1 : ValueType) (ix iy : Nat)
    (hx : ix < m.ncells_0) (hdx : m.cell_size_0 ≠ 0) (hdy : m.cell_size_1 ≠ 0)
    (hFW : ∀ k, (F k (iy * (m.ncells_0 + 1) + ix)).IsNum)
    (hFE : ∀ k, (F k (iy * (m.ncells_0 + 1) + ix + 1)).IsNum)
    (hFS : ∀ k, (F k ((m.ncells_0 + 1) * m.ncells_1 + iy * m.ncells_0 + ix)).IsNum)
    (hFN : ∀ k, (F k ((m.ncells_0 + 1) * m.ncells_1 + iy * m.ncells_0 + ix
      + m.ncells_0)).IsNum)
    (hU : ∀ k, (U k (iy * m.ncells_0 + ix)).IsNum)
    (hzb : (zb 1 (iy * m.ncells_0 + ix)).IsNum ∧ (zb 2 (iy * m.ncells_0 + ix)).IsNum)
    (hn : (n 0 (iy * m.ncells_0 + ix)).IsNum ∧ (n 2 (iy * m.ncells_0 + ix)).IsNum) :
    (TemporalDerivativeKernel B m U zb n Q_in h_in F t (num dt) b0 b1
      (iy * m.ncells_0 + ix) 1).IsNum ∧
    (TemporalDerivativeKernel B m U zb n Q_in h_in F t (num dt) b0 b1
      (iy * m.ncells_0 + ix) 2).IsNum := by
  have hsf := frictionSlope_isNum B U n (iy * m.ncells_0 + ix) hU hn.1 hn.2
  have hdiv : ∀ k, ((F k (iy * (m.ncells_0 + 1) + ix) - F k (iy * (m.ncells_0 + 1) + ix + 1))
        / num m.cell_size_0
      + (F k ((m.ncells_0 + 1) * m.ncells_1 + iy * m.ncells_0 + ix)
        - F k ((m.ncells_0 + 1) * m.ncells_1 + iy * m.ncells_0 + ix + m.ncells_0))
        / num m.cell_size_1).IsNum :=
    fun k => (((hFW k).sub (hFE k)).div hdx).add (((hFS k).sub (hFN k)).div hdy)
  unfold TemporalDerivativeKernel
  simp only [Cartesian2DMesh.get_cell_index_linear m hx, Cartesian2DMesh.get_faces_around_cell,
    Matrix.cons_val_one, Matrix.head_cons, Matrix.cons_val_two, Matrix.tail_cons]
  exact ⟨applyFriction_isNum (hU 1)
      ((hdiv 1).add (bedAndWallSource_isNum hdx hzb.1 (hU 0))) hsf
      (ValueType.isNum_num dt),
    applyFriction_isNum (hU 2)
      ((hdiv 2).add (bedAndWallSource_isNum hdy hzb.2 (hU 0))) hsf
      (ValueType.isNum_num dt)⟩

/-! ## Sums over the cells of the mesh -/

/-- A weighted telescoping sum: the terms `w i * (g i - g (i + 1))` cancel when
the two weights next to each inner face agree on it and the end faces carry
nothing. -/
theorem sum_telescope_weighted (w g : Nat → ℚ) (n : Nat)
    (h0 : 0 < n → w 0 * g 0 = 0) (hn : 0 < n → w (n - 1) * g n = 0)
    (hmid : ∀ i, i + 1 < n → w (i + 1) * g (i + 1) = w i * g (i + 1)) :
    ∑ i ∈ Finset.range n, w i * (g i - g (i + 1)) = 0 := by
  have key : ∀ k, k + 1 ≤ n →
      ∑ i ∈ Finset.range (k + 1), w i * (g i - g (i + 1)) = w 0 * g 0 - w k * g (k + 1) := by
    intro k
    induction k with
    | zero =>
      intro _
      simp only [zero_add, Finset.range_one, Finset.sum_singleton]
      ring
    | succ k ih =>
      intro hk
      rw [Finset.sum_range_succ, ih (by omega)]
      have := hmid k (by omega)
      linear_combination this
  rcases Nat.eq_zero_or_pos n with hz | hpos
  · subst hz
    simp
  · obtain ⟨k, rfl⟩ : ∃ k, n = k + 1 := ⟨n - 1, by omega⟩
    have hn1 := hn hpos
    simp only [Nat.add_sub_cancel] at hn1
    rw [key k le_rfl, h0 hpos, hn1]
    ring

/-- The sum over the cells in linear order is the sum over the rows of the sums
over the cells of each row. -/
theorem sum_cells (f : Nat → ℚ) (nx ny : Nat) :
    ∑ c ∈ Finset.range (nx * ny), f c
      = ∑ iy ∈ Finset.range ny, ∑ ix ∈ Finset.range nx, f (iy * nx + ix) := by
  induction ny with
  | zero => simp
  | succ ny ih =>
    rw [Nat.mul_succ, Finset.sum_range_add, ih, Finset.sum_range_succ]
    congr 1
    apply Finset.sum_congr rfl
    intro ix _
    rw [mul_comm]

/-! ## The temporal derivative of a closed basin -/

theorem isNan_iff (x : ValueType) : x.isNan = true ↔ x = nan := by
  cases x with
  | nan => exact ⟨fun _ => rfl, fun _ => rfl⟩
  | num q => exact ⟨fun h => Bool.noConfusion h, fun h => ValueType.noConfusion h⟩

/-- The temporal derivative of a closed basin at the active cell `(ix, iy)`: three
numbers, the first being the difference of the mass fluxes at the faces of the
cell. -/
theorem update_ddt_cell (B : Builtins) (sv : SVSolver) (U old : SolutionState)
    (t dt b0 b1 : ℚ) (hb : b1 - b0 ≠ 0) (hcb : ClosedBasin sv)
    (hcons : Consistent sv.mesh_ sv.zbed_ U) (hnn : NonNegDepth sv.mesh_ U)
    {ix iy : Nat} (hx : ix < sv.mesh_.ncells_0) (hy : iy < sv.mesh_.ncells_1)
    (hact : sv.zbed_ 0 (iy * sv.mesh_.ncells_0 + ix) ≠ nan) :
    (∀ k, ((sv.update_ddt B U old (num t) (num dt) (num b0) (num b1)).2 k
      (iy * sv.mesh_.ncells_0 + ix)).IsNum) ∧
    (sv.update_ddt B U old (num t) (num dt) (num b0) (num b1)).2 0
      (iy * sv.mesh_.ncells_0 + ix)
      = num ((sv.massFlux B U (iy * (sv.mesh_.ncells_0 + 1) + ix)
            - sv.massFlux B U (iy * (sv.mesh_.ncells_0 + 1) + ix + 1)) / sv.mesh_.cell_size_0
          + (sv.massFlux B U ((sv.mesh_.ncells_0 + 1) * sv.mesh_.ncells_1
              + iy * sv.mesh_.ncells_0 + ix)
            - sv.massFlux B U ((sv.mesh_.ncells_0 + 1) * sv.mesh_.ncells_1
              + iy * sv.mesh_.ncells_0 + ix + sv.mesh_.ncells_0)) / sv.mesh_.cell_size_1) := by
  have hdx := hcb.inflow.dx_pos
  have hdy := hcb.inflow.dy_pos
  have hc := sv.mesh_.linear_id_lt hx hy
  have hW := (hcons.faceFlux_W hnn hcb.slopes hdx hdy B sv.dUdx_ sv.dUdy_ hx hy hact).1
  have hE := (hcons.faceFlux_E hnn hcb.slopes hdx hdy B sv.dUdx_ sv.dUdy_ hx hy hact).1
  have hS := (hcons.faceFlux_S hnn hcb.slopes hdx hdy B sv.dUdx_ sv.dUdy_ hx hy hact).1
  have hN := (hcons.faceFlux_N hnn hcb.slopes hdx hdy B sv.dUdx_ sv.dUdy_ hx hy hact).1
  have hfW := sv.mesh_.vertical_face_lt_face_count (j := ix) (le_of_lt hx) hy
  have hfE : iy * (sv.mesh_.ncells_0 + 1) + ix + 1 < sv.mesh_.face_count := by
    have := sv.mesh_.vertical_face_lt_face_count (j := ix + 1) (by omega) hy
    omega
  have hfS := sv.mesh_.horizontal_face_lt hx (j := iy) (le_of_lt hy)
  have hfN : (sv.mesh_.ncells_0 + 1) * sv.mesh_.ncells_1 + iy * sv.mesh_.ncells_0
      + ix + sv.mesh_.ncells_0 < sv.mesh_.face_count := by
    have := sv.mesh_.horizontal_face_lt hx (j := iy + 1) (by omega)
    have e : (iy + 1) * sv.mesh_.ncells_0 = iy * sv.mesh_.ncells_0 + sv.mesh_.ncells_0 := by
      ring
    omega
  have hcalc : ∀ fid, fid < sv.mesh_.face_count → ∀ k,
      SVFluxFunction.calculate B sv.mesh_ U sv.zbed_
        (MinmodSpatialDerivative.calculate sv.mesh_ U sv.dUdx_ sv.dUdy_).1
        (MinmodSpatialDerivative.calculate sv.mesh_ U sv.dUdx_ sv.dUdy_).2 sv.flux_ k fid
      = FluxKernel B sv.mesh_ U sv.zbed_
        (MinmodSpatialDerivative.calculate sv.mesh_ U sv.dUdx_ sv.dUdy_).1
        (MinmodSpatialDerivative.calculate sv.mesh_ U sv.dUdx_ sv.dUdy_).2 fid k := by
    intro fid hf k
    unfold SVFluxFunction.calculate parallel_for
    rw [if_pos hf]
  obtain ⟨-, hUc⟩ := hcons.activeCell hc hact
  have hmass := TemporalDerivativeKernel_mass B sv.mesh_ U sv.zbed_ sv.manning_n_ sv.Q_in_
    sv.h_in_ (SVFluxFunction.calculate B sv.mesh_ U sv.zbed_
      (MinmodSpatialDerivative.calculate sv.mesh_ U sv.dUdx_ sv.dUdy_).1
      (MinmodSpatialDerivative.calculate sv.mesh_ U sv.dUdx_ sv.dUdy_).2 sv.flux_)
    t dt b0 b1 ix iy _ _ _ _ 0 (-1) hx hdx hdy hb
    (by rw [hcalc _ hfW]; exact (hW 0).eq_toRat)
    (by rw [hcalc _ hfE]; exact (hE 0).eq_toRat)
    (by rw [hcalc _ hfS]; exact (hS 0).eq_toRat)
    (by rw [hcalc _ hfN]; exact (hN 0).eq_toRat)
    (hcb.inflow.inflow _ hc).1 (hcb.inflow.inflow _ hc).2 (hcb.inflow.no_stage _ hc)
    (by norm_num)
  have hmom := TemporalDerivativeKernel_isNum B sv.mesh_ U sv.zbed_ sv.manning_n_ sv.Q_in_
    sv.h_in_ (SVFluxFunction.calculate B sv.mesh_ U sv.zbed_
      (MinmodSpatialDerivative.calculate sv.mesh_ U sv.dUdx_ sv.dUdy_).1
      (MinmodSpatialDerivative.calculate sv.mesh_ U sv.dUdx_ sv.dUdy_).2 sv.flux_)
    (num t) dt (num b0) (num b1) ix iy hx (ne_of_gt hdx) (ne_of_gt hdy)
    (fun k => by rw [hcalc _ hfW]; exact hW k)
    (fun k => by rw [hcalc _ hfE]; exact hE k)
    (fun k => by rw [hcalc _ hfS]; exact hS k)
    (fun k => by rw [hcalc _ hfN]; exact hN k)
    hUc
    (by rw [(hcb.slopes _ hc).1, (hcb.slopes _ hc).2]
        exact ⟨ValueType.isNum_num 0, ValueType.isNum_num 0⟩)
    (hcb.roughness _ hc)
  have hD : ∀ k, (sv.update_ddt B U old (num t) (num dt) (num b0) (num b1)).2 k
      (iy * sv.mesh_.ncells_0 + ix)
      = TemporalDerivativeKernel B sv.mesh_ U sv.zbed_ sv.manning_n_ sv.Q_in_ sv.h_in_
        (SVFluxFunction.calculate B sv.mesh_ U sv.zbed_
          (MinmodSpatialDerivative.calculate sv.mesh_ U sv.dUdx_ sv.dUdy_).1
          (MinmodSpatialDerivative.calculate sv.mesh_ U sv.dUdx_ sv.dUdy_).2 sv.flux_)
        (num t) (num dt) (num b0) (num b1) (iy * sv.mesh_.ncells_0 + ix) k := by
    intro k
    unfold SVSolver.update_ddt SVTemporalDerivative.calculate parallel_for
    simp only [hc, if_true]
  refine ⟨fun k => ?_, ?_⟩
  · fin_cases k
    · exact ⟨_, (hD 0).trans hmass⟩
    · rw [hD]
      exact hmom.1
    · rw [hD]
      exact hmom.2
  · rw [hD 0, hmass]
    unfold SVSolver.massFlux
    simp only [zero_div, add_zero]
/-- The mass flux at a wall face of an active cell of a closed basin is zero. -/
theorem massFlux_walls (B : Builtins) (sv : SVSolver) (U : SolutionState)
    (hcb : ClosedBasin sv) (hcons : Consistent sv.mesh_ sv.zbed_ U)
    (hnn : NonNegDepth sv.mesh_ U) {ix iy : Nat} (hx : ix < sv.mesh_.ncells_0)
    (hy : iy < sv.mesh_.ncells_1) (hact : sv.zbed_ 0 (iy * sv.mesh_.ncells_0 + ix) ≠ nan) :
    ((ix = 0 ∨ sv.zbed_ 0 (iy * sv.mesh_.ncells_0 + (ix - 1)) = nan) →
      sv.massFlux B U (iy * (sv.mesh_.ncells_0 + 1) + ix) = 0) ∧
    ((ix + 1 = sv.mesh_.ncells_0 ∨ sv.zbed_ 0 (iy * sv.mesh_.ncells_0 + (ix + 1)) = nan) →
      sv.massFlux B U (iy * (sv.mesh_.ncells_0 + 1) + ix + 1) = 0) ∧
    ((iy = 0 ∨ sv.zbed_ 0 ((iy - 1) * sv.mesh_.ncells_0 + ix) = nan) →
      sv.massFlux B U ((sv.mesh_.ncells_0 + 1) * sv.mesh_.ncells_1
        + iy * sv.mesh_.ncells_0 + ix) = 0) ∧
    ((iy + 1 = sv.mesh_.ncells_1 ∨ sv.zbed_ 0 ((iy + 1) * sv.mesh_.ncells_0 + ix) = nan) →
      sv.massFlux B U ((sv.mesh_.ncells_0 + 1) * sv.mesh_.ncells_1
        + iy * sv.mesh_.ncells_0 + ix + sv.mesh_.ncells_0) = 0) := by
  have hdx := hcb.inflow.dx_pos
  have hdy := hcb.inflow.dy_pos
  unfold SVSolver.massFlux
  refine ⟨fun h => ?_, fun h => ?_, fun h => ?_, fun h => ?_⟩
  · rw [(hcons.faceFlux_W hnn hcb.slopes hdx hdy B sv.dUdx_ sv.dUdy_ hx hy hact).2 h]
    rfl
  · rw [(hcons.faceFlux_E hnn hcb.slopes hdx hdy B sv.dUdx_ sv.dUdy_ hx hy hact).2 h]
    rfl
  · rw [(hcons.faceFlux_S hnn hcb.slopes hdx hdy B sv.dUdx_ sv.dUdy_ hx hy hact).2 h]
    rfl
  · rw [(hcons.faceFlux_N hnn hcb.slopes hdx hdy B sv.dUdx_ sv.dUdy_ hx hy hact).2 h]
    rfl

theorem weight_inactive {x : ValueType} (h : x = nan) :
    (if x.isNan = true then (0 : ℚ) else 1) = 0 := by
  rw [h]
  rfl

theorem weight_active {x : ValueType} (h : x ≠ nan) :
    (if x.isNan = true then (0 : ℚ) else 1) = 1 := by
  rw [if_neg (fun hn => h ((isNan_iff x).mp hn))]

/-- The mass fluxes through the vertical faces of a row cancel over the active
cells of the row. -/
theorem row_mass_zero (B : Builtins) (sv : SVSolver) (U : SolutionState)
    (hcb : ClosedBasin sv) (hcons : Consistent sv.mesh_ sv.zbed_ U)
    (hnn : NonNegDepth sv.mesh_ U) {iy : Nat} (hy : iy < sv.mesh_.ncells_1) :
    ∑ ix ∈ Finset.range sv.mesh_.ncells_0,
      (if (sv.zbed_ 0 (iy * sv.mesh_.ncells_0 + ix)).isNan = true then (0 : ℚ) else 1)
        * (sv.massFlux B U (iy * (sv.mesh_.ncells_0 + 1) + ix)
          - sv.massFlux B U (iy * (sv.mesh_.ncells_0 + 1) + (ix + 1))) = 0 := by
  apply sum_telescope_weighted
    (fun ix => if (sv.zbed_ 0 (iy * sv.mesh_.ncells_0 + ix)).isNan = true then (0 : ℚ) else 1)
    (fun j => sv.massFlux B U (iy * (sv.mesh_.ncells_0 + 1) + j))
  · intro hpos
    by_cases hact : sv.zbed_ 0 (iy * sv.mesh_.ncells_0 + 0) = nan
    · simp only [weight_inactive hact, zero_mul]
    · simp only [(massFlux_walls B sv U hcb hcons hnn hpos hy hact).1 (Or.inl rfl), mul_zero]
  · intro hpos
    by_cases hact : sv.zbed_ 0 (iy * sv.mesh_.ncells_0 + (sv.mesh_.ncells_0 - 1)) = nan
    · simp only [weight_inactive hact, zero_mul]
    · have hx : sv.mesh_.ncells_0 - 1 < sv.mesh_.ncells_0 := by omega
      have h := (massFlux_walls B sv U hcb hcons hnn hx hy hact).2.1 (Or.inl (by omega))
      have e : iy * (sv.mesh_.ncells_0 + 1) + (sv.mesh_.ncells_0 - 1) + 1
          = iy * (sv.mesh_.ncells_0 + 1) + sv.mesh_.ncells_0 := by omega
      rw [e] at h
      simp only [h, mul_zero]
  · intro i hi
    have hx0 : i < sv.mesh_.ncells_0 := by omega
    by_cases ha : sv.zbed_ 0 (iy * sv.mesh_.ncells_0 + i) = nan
    · by_cases hb : sv.zbed_ 0 (iy * sv.mesh_.ncells_0 + (i + 1)) = nan
      · simp only [weight_inactive ha, weight_inactive hb]
      · have h := (massFlux_walls B sv U hcb hcons hnn hi hy hb).1
          (Or.inr (by simpa using ha))
        simp only [h, mul_zero]
    · by_cases hb : sv.zbed_ 0 (iy * sv.mesh_.ncells_0 + (i + 1)) = nan
      · have h := (massFlux_walls B sv U hcb hcons hnn hx0 hy ha).2.1 (Or.inr hb)
        rw [Nat.add_assoc] at h
        simp only [h, mul_zero]
      · simp only [weight_active ha, weight_active hb]

/-- The mass fluxes through the horizontal faces of a column cancel over the
active cells of the column. -/
theorem column_mass_zero (B : Builtins) (sv : SVSolver) (U : SolutionState)
    (hcb : ClosedBasin sv) (hcons : Consistent sv.mesh_ sv.zbed_ U)
    (hnn : NonNegDepth sv.mesh_ U) {ix : Nat} (hx : ix < sv.mesh_.ncells_0) :
    ∑ iy ∈ Finset.range sv.mesh_.ncells_1,
      (if (sv.zbed_ 0 (iy * sv.mesh_.ncells_0 + ix)).isNan = true then (0 : ℚ) else 1)
        * (sv.massFlux B U ((sv.mesh_.ncells_0 + 1) * sv.mesh_.ncells_1
            + iy * sv.mesh_.ncells_0 + ix)
          - sv.massFlux B U ((sv.mesh_.ncells_0 + 1) * sv.mesh_.ncells_1
            + (iy + 1) * sv.mesh_.ncells_0 + ix)) = 0 := by
  have hN : ∀ j, (sv.mesh_.ncells_0 + 1) * sv.mesh_.ncells_1 + j * sv.mesh_.ncells_0 + ix
      + sv.mesh_.ncells_0
      = (sv.mesh_.ncells_0 + 1) * sv.mesh_.ncells_1 + (j + 1) * sv.mesh_.ncells_0 + ix := by
    intro j
    ring
  apply sum_telescope_weighted
    (fun iy => if (sv.zbed_ 0 (iy * sv.mesh_.ncells_0 + ix)).isNan = true then (0 : ℚ) else 1)
    (fun j => sv.massFlux B U ((sv.mesh_.ncells_0 + 1) * sv.mesh_.ncells_1
      + j * sv.mesh_.ncells_0 + ix))
  · intro hpos
    by_cases hact : sv.zbed_ 0 (0 * sv.mesh_.ncells_0 + ix) = nan
    · beta_reduce
      rw [weight_inactive hact]
      exact zero_mul _
    · simp only [(massFlux_walls B sv U hcb hcons hnn hx hpos hact).2.2.1 (Or.inl rfl), mul_zero]
  · intro hpos
    by_cases hact : sv.zbed_ 0 ((sv.mesh_.ncells_1 - 1) * sv.mesh_.ncells_0 + ix) = nan
    · simp only [weight_inactive hact, zero_mul]
    · have hy : sv.mesh_.ncells_1 - 1 < sv.mesh_.ncells_1 := by omega
      have h := (massFlux_walls B sv U hcb hcons hnn hx hy hact).2.2.2 (Or.inl (by omega))
      rw [hN, show sv.mesh_.ncells_1 - 1 + 1 = sv.mesh_.ncells_1 by omega] at h
      simp only [h, mul_zero]
  · intro i hi
    have hy0 : i < sv.mesh_.ncells_1 := by omega
    by_cases ha : sv.zbed_ 0 (i * sv.mesh_.ncells_0 + ix) = nan
    · by_cases hb : sv.zbed_ 0 ((i + 1) * sv.mesh_.ncells_0 + ix) = nan
      · simp only [weight_inactive ha, weight_inactive hb]
      · have h := (massFlux_walls B sv U hcb hcons hnn hx hi hb).2.2.1
          (Or.inr (by simpa using ha))
        simp only [h, mul_zero]
    · by_cases hb : sv.zbed_ 0 ((i + 1) * sv.mesh_.ncells_0 + ix) = nan
      · have h := (massFlux_walls B sv U hcb hcons hnn hx hy0 ha).2.2.2 (Or.inr hb)
        rw [hN] at h
        simp only [h, mul_zero]
      · simp only [weight_active ha, weight_active hb]

/-- The temporal derivative of a closed basin is balanced: its values at the
active cells are numbers, and its mass component sums to zero over the active
cells. -/
theorem update_ddt_balanced (B : Builtins) (sv : SVSolver) (U old : SolutionState)
    (t dt b0 b1 : ℚ) (hb : b1 - b0 ≠ 0) (hcb : ClosedBasin sv)
    (hcons : Consistent sv.mesh_ sv.zbed_ U) (hnn : NonNegDepth sv.mesh_ U) :
    Balanced sv.mesh_ sv.zbed_ (sv.update_ddt B U old (num t) (num dt) (num b0) (num b1)).2 := by
  refine ⟨?_, ?_⟩
  · intro c hc hact k
    obtain ⟨_, hix, hiy, hci⟩ := sv.mesh_.index_of_lt hc
    rw [← hci] at hact ⊢
    exact (update_ddt_cell B sv U old t dt b0 b1 hb hcb hcons hnn hix hiy hact).1 k
  · have hterm : ∀ iy, iy ∈ Finset.range sv.mesh_.ncells_1 →
        ∀ ix, ix ∈ Finset.range sv.mesh_.ncells_0 →
        (if (sv.zbed_ 0 (iy * sv.mesh_.ncells_0 + ix)).isNan = true then (0 : ℚ)
          else ((sv.update_ddt B U old (num t) (num dt) (num b0) (num b1)).2 0
            (iy * sv.mesh_.ncells_0 + ix)).toRat)
        = (if (sv.zbed_ 0 (iy * sv.mesh_.ncells_0 + ix)).isNan = true then (0 : ℚ) else 1)
            * (sv.massFlux B U (iy * (sv.mesh_.ncells_0 + 1) + ix)
              - sv.massFlux B U (iy * (sv.mesh_.ncells_0 + 1) + (ix + 1)))
            / sv.mesh_.cell_size_0
          + (if (sv.zbed_ 0 (iy * sv.mesh_.ncells_0 + ix)).isNan = true then (0 : ℚ) else 1)
            * (sv.massFlux B U ((sv.mesh_.ncells_0 + 1) * sv.mesh_.ncells_1
                + iy * sv.mesh_.ncells_0 + ix)
              - sv.massFlux B U ((sv.mesh_.ncells_0 + 1) * sv.mesh_.ncells_1
                + (iy + 1) * sv.mesh_.ncells_0 + ix))
            / sv.mesh_.cell_size_1 := by
      intro iy hiy ix hix
      rw [Finset.mem_range] at hiy hix
      by_cases hact : sv.zbed_ 0 (iy * sv.mesh_.ncells_0 + ix) = nan
      · rw [weight_inactive hact, if_pos ((isNan_iff _).mpr hact)]
        simp
      · rw [weight_active hact, if_neg (fun hn => hact ((isNan_iff _).mp hn)),
          (update_ddt_cell B sv U old t dt b0 b1 hb hcb hcons hnn hix hiy hact).2]
        have e : (sv.mesh_.ncells_0 + 1) * sv.mesh_.ncells_1 + iy * sv.mesh_.ncells_0 + ix
            + sv.mesh_.ncells_0
            = (sv.mesh_.ncells_0 + 1) * sv.mesh_.ncells_1 + (iy + 1) * sv.mesh_.ncells_0 + ix := by
          ring
        rw [e, Nat.add_assoc (iy * (sv.mesh_.ncells_0 + 1)) ix 1]
        simp only [ValueType.toRat, one_mul]
    unfold activeSum
    rw [show sv.mesh_.cell_count = sv.mesh_.ncells_0 * sv.mesh_.ncells_1 from rfl, sum_cells,
      Finset.sum_congr rfl (fun iy hiy => Finset.sum_congr rfl (hterm iy hiy))]
    simp only [Finset.sum_add_distrib]
    have hX : ∑ iy ∈ Finset.range sv.mesh_.ncells_1, ∑ ix ∈ Finset.range sv.mesh_.ncells_0,
        (if (sv.zbed_ 0 (iy * sv.mesh_.ncells_0 + ix)).isNan = true then (0 : ℚ) else 1)
            * (sv.massFlux B U (iy * (sv.mesh_.ncells_0 + 1) + ix)
              - sv.massFlux B U (iy * (sv.mesh_.ncells_0 + 1) + (ix + 1)))
            / sv.mesh_.cell_size_0 = 0 := by
      apply Finset.sum_eq_zero
      intro iy hiy
      rw [← Finset.sum_div, row_mass_zero B sv U hcb hcons hnn (Finset.mem_range.mp hiy),
        zero_div]
    have hY : ∑ iy ∈ Finset.range sv.mesh_.ncells_1, ∑ ix ∈ Finset.range sv.mesh_.ncells_0,
        (if (sv.zbed_ 0 (iy * sv.mesh_.ncells_0 + ix)).isNan = true then (0 : ℚ) else 1)
            * (sv.massFlux B U ((sv.mesh_.ncells_0 + 1) * sv.mesh_.ncells_1
                + iy * sv.mesh_.ncells_0 + ix)
              - sv.massFlux B U ((sv.mesh_.ncells_0 + 1) * sv.mesh_.ncells_1
                + (iy + 1) * sv.mesh_.ncells_0 + ix))
            / sv.mesh_.cell_size_1 = 0 := by
      rw [Finset.sum_comm]
      apply Finset.sum_eq_zero
      intro ix hix
      rw [← Finset.sum_div, column_mass_zero B sv U hcb hcons hnn (Finset.mem_range.mp hix),
        zero_div]
    rw [hX, hY, add_zero]

/-! ## Runge-Kutta stages of a closed basin -/

theorem foldl_accumulate_toRat (cs : RungeKuttaCoefficientSet) (step : Nat) (dt : ℚ)
    (dUdt : Nat → SolutionState) (vec_id : Fin 3) (item : Nat) (l : List Nat)
    (hk : ∀ i, i ∈ l → (dUdt i vec_id item).IsNum) (x : ℚ) :
    l.foldl (fun acc i => acc + num dt * cs.a step i * dUdt i vec_id item) (num x)
      = num (l.foldl (fun acc i => acc + dt * ((cs.a_.getD step []).getD i 0)
          * (dUdt i vec_id item).toRat) x) := by
  induction l generalizing x with
  | nil => rfl
  | cons i l ih =>
    simp only [List.foldl_cons]
    obtain ⟨q, hq⟩ := hk i (List.mem_cons_self _ _)
    have : num x + num dt * cs.a step i * dUdt i vec_id item
        = num (x + dt * ((cs.a_.getD step []).getD i 0) * (dUdt i vec_id item).toRat) := by
      rw [hq]
      rfl
    rw [this]
    exact ih (fun j hj => hk j (List.mem_cons_of_mem _ hj)) _

/-- The accumulation loop at a cell where the state and the stage derivatives
read by it are numbers: the same loop on the rationals. -/
theorem rkAccumulate_toRat (cs : RungeKuttaCoefficientSet) (step : Nat) (dt : ℚ)
    (U : SolutionState) (dUdt : Nat → SolutionState) (vec_id : Fin 3) (item : Nat)
    (hU : (U vec_id item).IsNum) (hk : ∀ i, i < step → (dUdt i vec_id item).IsNum) :
    rkAccumulate cs step (num dt) U dUdt vec_id item
      = num ((List.range step).foldl (fun acc i => acc + dt * ((cs.a_.getD step []).getD i 0)
          * (dUdt i vec_id item).toRat) (U vec_id item).toRat) := by
  unfold rkAccumulate
  rw [hU.eq_toRat]
  exact foldl_accumulate_toRat cs step dt dUdt vec_id item _
    (fun i hi => hk i (List.mem_range.mp hi)) _

/-- The stage kernel at a cell where the accumulated values are numbers: three
numbers, the depth being the accumulated depth, or zero where that is negative. -/
theorem RungeKuttaStep_num (cs : RungeKuttaCoefficientSet) (step : Nat) (timestep : ValueType)
    (U : SolutionState) (dUdt : Nat → SolutionState) (item : Nat) (y : Fin 3 → ℚ)
    (hy : ∀ k, rkAccumulate cs step timestep U dUdt k item = num (y k)) :
    (∀ k, (RungeKuttaStep cs step timestep U dUdt item k).IsNum) ∧
    RungeKuttaStep cs step timestep U dUdt item 0 = num (y 0 + max 0 (-(y 0))) := by
  unfold RungeKuttaStep
  simp only [hy, ValueType.lt_num]
  by_cases h0 : y 0 < 0
  · simp only [h0, decide_True, if_true]
    refine ⟨fun _ => ⟨_, rfl⟩, ?_⟩
    rw [max_eq_right (by linarith)]
    simp
  · have hmax : y 0 + max 0 (-(y 0)) = y 0 := by
      rw [max_eq_left (by linarith)]
      simp
    simp only [h0, decide_False, Bool.false_eq_true, if_false, hmax]
    by_cases h1 : y 0 < 1 / 10000
    · simp only [h1, decide_True, if_true]
      refine ⟨fun k => ?_, trivial⟩
      split_ifs <;> exact ⟨_, rfl⟩
    · simp only [h1, decide_False, Bool.false_eq_true, if_false]
      exact ⟨fun k => ⟨_, rfl⟩, trivial⟩

/-- The candidate written by a stage whose state is consistent and whose stage
derivatives are numbers at the active cells: consistent, with non-negative
depths. -/
theorem stage_consistent (m : Cartesian2DMesh) (zbed : FieldVector 3)
    (cs : RungeKuttaCoefficientSet) (step : Nat) (dt : ℚ) (U old : SolutionState)
    (dUdt : Nat → SolutionState) (hcons : Consistent m zbed U)
    (hk : ∀ i, i < step → ∀ c, c < m.cell_count → zbed 0 c ≠ nan → ∀ k, (dUdt i k c).IsNum) :
    Consistent m zbed (parallel_for m.cell_count (RungeKuttaStep cs step (num dt) U dUdt) old) ∧
    NonNegDepth m (parallel_for m.cell_count (RungeKuttaStep cs step (num dt) U dUdt) old) := by
  constructor
  · intro c hc
    unfold CellInactive CellActive parallel_for
    simp only [hc, if_true]
    rcases hcons c hc with hin | hact
    · exact Or.inl ⟨hin.1, fun k => RungeKuttaStep_nan _ _ _ _ _ _ hin.2 k⟩
    · right
      refine ⟨hact.1, ?_⟩
      have hne : zbed 0 c ≠ nan := by
        obtain ⟨z, hz⟩ := hact.1
        rw [hz]
        exact fun hcon => ValueType.noConfusion hcon
      exact (RungeKuttaStep_num cs step (num dt) U dUdt c _
        (fun k => rkAccumulate_toRat cs step dt U dUdt k c (hact.2 k)
          (fun i hi => hk i hi c hc hne k))).1
  · intro c hc h hh
    unfold parallel_for at hh
    simp only [hc, if_true] at hh
    exact (RungeKuttaStep_invariant cs step (num dt) U dUdt c h hh).1

/-- Adding balanced increments cell by cell leaves the sum over the active cells
unchanged. -/
theorem sum_accumulate (m : Cartesian2DMesh) (zbed : FieldVector 3) (D : Nat → MeshField)
    (coef : Nat → ℚ) (l : List Nat) (hbal : ∀ i, i ∈ l → activeSum m zbed (D i) = 0)
    (x : Nat → ℚ) :
    ∑ c ∈ Finset.range m.cell_count, (if (zbed 0 c).isNan = true then (0 : ℚ)
        else l.foldl (fun acc i => acc + coef i * (D i c).toRat) (x c))
      = ∑ c ∈ Finset.range m.cell_count, (if (zbed 0 c).isNan = true then (0 : ℚ) else x c) := by
  induction l generalizing x with
  | nil => rfl
  | cons i l ih =>
    simp only [List.foldl_cons]
    rw [ih (fun j hj => hbal j (List.mem_cons_of_mem _ hj))
      (fun c => x c + coef i * (D i c).toRat)]
    have hi := hbal i (List.mem_cons_self _ _)
    unfold activeSum at hi
    have hsplit : ∀ c, (if (zbed 0 c).isNan = true then (0 : ℚ)
          else x c + coef i * (D i c).toRat)
        = (if (zbed 0 c).isNan = true then (0 : ℚ) else x c)
          + coef i * (if (zbed 0 c).isNan = true then (0 : ℚ) else (D i c).toRat) := by
      intro c
      split_ifs <;> simp
    simp only [hsplit, Finset.sum_add_distrib, ← Finset.mul_sum, hi, mul_zero, add_zero]

theorem ClosedBasin.congr {sv sv1 : SVSolver} (hcb : ClosedBasin sv)
    (hm : sv1.mesh_ = sv.mesh_) (hz : sv1.zbed_ = sv.zbed_)
    (hn : sv1.manning_n_ = sv.manning_n_) (hQ : sv1.Q_in_ = sv.Q_in_)
    (hh : sv1.h_in_ = sv.h_in_) : ClosedBasin sv1 :=
  ⟨hcb.inflow.of_eq hm hQ hh, by rw [hm, hz]; exact hcb.slopes,
    by rw [hm, hn]; exact hcb.roughness⟩

/-- The stage derivatives computed by the stages `0 .. n-1` of `step` in a closed
basin are balanced. -/
theorem stages_closed (B : Builtins) (s : RungeKuttaTemporalScheme) (t dt b0 b1 : ℚ)
    (hb : b1 - b0 ≠ 0) (hcb : ClosedBasin s.solver_)
    (hcons : Consistent s.solver_.mesh_ s.solver_.zbed_ s.U_)
    (n : Nat) (hn : n ≤ s.coeffs_.S + 1) :
    ∀ i, i < n → i < s.coeffs_.S → Balanced s.solver_.mesh_ s.solver_.zbed_
      (((List.range n).foldl (fun acc st => acc.update_Ustar B st (num t) (num dt) (num b0)
        (num b1)) s).dUdt_ i) := by
  induction n with
  | zero => exact fun i hi => absurd hi (Nat.not_lt_zero _)
  | succ n ih =>
    have ihk := ih (by omega)
    have hconst := foldl_update_Ustar_const B (num t) (num dt) (num b0) (num b1) (List.range n) s
    rw [List.range_succ, List.foldl_append]
    simp only [List.foldl_cons, List.foldl_nil]
    generalize hacc : (List.range n).foldl (fun acc st => acc.update_Ustar B st (num t) (num dt)
      (num b0) (num b1)) s = acc at ihk hconst
    simp only at hconst
    obtain ⟨hcU, hcc, hcm, hcz, hcn, hcQ, hch⟩ := hconst
    intro i hi hiS
    by_cases hin : i = n
    · subst hin
      have hdd : (acc.update_Ustar B i (num t) (num dt) (num b0) (num b1)).dUdt_ i
          = (acc.solver_.update_ddt B
              (parallel_for acc.solver_.mesh_.cell_count
                (RungeKuttaStep acc.coeffs_ i (num dt) acc.U_ acc.dUdt_) acc.Ustar_)
              (acc.dUdt_ i) (num (t + (acc.coeffs_.c_.getD i 0) * dt)) (num dt) (num b0)
              (num b1)).2 := by
        unfold RungeKuttaTemporalScheme.update_Ustar
        rw [hcc]
        simp only [hiS, if_true]
        rfl
      rw [hdd]
      have hstage := stage_consistent acc.solver_.mesh_ acc.solver_.zbed_ acc.coeffs_ i dt
        acc.U_ acc.Ustar_ acc.dUdt_ (by rw [hcm, hcz, hcU]; exact hcons)
        (by
          intro j hj c hc hact k
          rw [hcm] at hc
          rw [hcz] at hact
          exact (ihk j hj (by omega)).1 c hc hact k)
      have := update_ddt_balanced B acc.solver_ _ (acc.dUdt_ i)
        (t + (acc.coeffs_.c_.getD i 0) * dt) dt b0 b1 hb (hcb.congr hcm hcz hcn hcQ hch)
        hstage.1 hstage.2
      rw [hcm, hcz] at this
      rw [hcm]
      exact this
    · have hlt : i < n := by omega
      have hsame : (acc.update_Ustar B n (num t) (num dt) (num b0) (num b1)).dUdt_ i
          = acc.dUdt_ i := by
        unfold RungeKuttaTemporalScheme.update_Ustar
        split_ifs
        · simp only [hin, if_false]
        · rfl
      rw [hsame]
      exact ihk i hlt hiS

/-- The depth accumulated by the last stage of `step` at an active cell of a
closed basin is a number, and these depths have the same sum over the active
cells as the depths of the state. -/
theorem accumulatedDepth_closed (B : Builtins) (s : RungeKuttaTemporalScheme) (t dt b0 b1 : ℚ)
    (hb : b1 - b0 ≠ 0) (hcb : ClosedBasin s.solver_)
    (hcons : Consistent s.solver_.mesh_ s.solver_.zbed_ s.U_) :
    (∀ c, c < s.solver_.mesh_.cell_count → s.solver_.zbed_ 0 c ≠ nan →
      (s.accumulatedDepth B (num t) (num dt) (num b0) (num b1) c).IsNum) ∧
    activeSum s.solver_.mesh_ s.solver_.zbed_
        (s.accumulatedDepth B (num t) (num dt) (num b0) (num b1))
      = activeSum s.solver_.mesh_ s.solver_.zbed_ (s.U_ 0) := by
  have hbal := stages_closed B s t dt b0 b1 hb hcb hcons s.coeffs_.S (Nat.le_succ _)
  have hacc : ∀ c, c < s.solver_.mesh_.cell_count → s.solver_.zbed_ 0 c ≠ nan →
      s.accumulatedDepth B (num t) (num dt) (num b0) (num b1) c
        = num ((List.range s.coeffs_.S).foldl (fun acc i => acc
            + dt * ((s.coeffs_.a_.getD s.coeffs_.S []).getD i 0)
              * (((List.range s.coeffs_.S).foldl (fun acc st => acc.update_Ustar B st (num t)
                  (num dt) (num b0) (num b1)) s).dUdt_ i 0 c).toRat) (s.U_ 0 c).toRat) := by
    intro c hc hact
    unfold RungeKuttaTemporalScheme.accumulatedDepth
    exact rkAccumulate_toRat s.coeffs_ s.coeffs_.S dt s.U_ _ 0 c
      ((hcons.activeCell hc hact).2 0) (fun i hi => (hbal i hi hi).1 c hc hact 0)
  refine ⟨fun c hc hact => ⟨_, hacc c hc hact⟩, ?_⟩
  unfold activeSum
  rw [← sum_accumulate s.solver_.mesh_ s.solver_.zbed_
    (fun i => ((List.range s.coeffs_.S).foldl (fun acc st => acc.update_Ustar B st (num t)
      (num dt) (num b0) (num b1)) s).dUdt_ i 0)
    (fun i => dt * ((s.coeffs_.a_.getD s.coeffs_.S []).getD i 0)) (List.range s.coeffs_.S)
    (fun i hi => (hbal i (List.mem_range.mp hi) (List.mem_range.mp hi)).2)
    (fun c => (s.U_ 0 c).toRat)]
  apply Finset.sum_congr rfl
  intro c hc
  rw [Finset.mem_range] at hc
  by_cases hact : s.solver_.zbed_ 0 c = nan
  · rw [if_pos ((isNan_iff _).mpr hact), if_pos ((isNan_iff _).mpr hact)]
  · rw [if_neg (fun hn => hact ((isNan_iff _).mp hn)),
      if_neg (fun hn => hact ((isNan_iff _).mp hn)), hacc c hc hact]
    rfl

/-- The volume after one `step` in a closed basin: the volume before plus the
volume of negative depth reset to zero by the last stage. -/
theorem step_volume (B : Builtins) (s : RungeKuttaTemporalScheme) (t dt b0 b1 : ℚ)
    (hb : b1 - b0 ≠ 0) (hcb : ClosedBasin s.solver_)
    (hcons : Consistent s.solver_.mesh_ s.solver_.zbed_ s.U_) :
    totalVolume s.solver_.mesh_ s.solver_.zbed_
        (s.step B (num t) (num dt) (num b0) (num b1)).Ustar_
      = totalVolume s.solver_.mesh_ s.solver_.zbed_ s.U_
        + s.clampedVolume B (num t) (num dt) (num b0) (num b1) := by
  obtain ⟨hnum, hsum⟩ := accumulatedDepth_closed B s t dt b0 b1 hb hcb hcons
  have hbal := stages_closed B s t dt b0 b1 hb hcb hcons s.coeffs_.S (Nat.le_succ _)
  obtain ⟨hcU, hcc, hcm, -, -, -, -⟩ :=
    foldl_update_Ustar_const B (num t) (num dt) (num b0) (num b1) (List.range s.coeffs_.S) s
  have hcell : ∀ c, c < s.solver_.mesh_.cell_count → s.solver_.zbed_ 0 c ≠ nan →
      ((s.step B (num t) (num dt) (num b0) (num b1)).Ustar_ 0 c).toRat
        = (s.accumulatedDepth B (num t) (num dt) (num b0) (num b1) c).toRat
          + max 0 (-(s.accumulatedDepth B (num t) (num dt) (num b0) (num b1) c).toRat) := by
    intro c hc hact
    rw [step_eq_last, update_Ustar_Ustar, hcm, hcc, hcU]
    unfold parallel_for
    simp only [hc, if_true]
    have hy : ∀ k, rkAccumulate s.coeffs_ s.coeffs_.S (num dt) s.U_
        ((List.range s.coeffs_.S).foldl (fun acc st => acc.update_Ustar B st (num t) (num dt)
          (num b0) (num b1)) s).dUdt_ k c
        = num (rkAccumulate s.coeffs_ s.coeffs_.S (num dt) s.U_
          ((List.range s.coeffs_.S).foldl (fun acc st => acc.update_Ustar B st (num t) (num dt)
            (num b0) (num b1)) s).dUdt_ k c).toRat := by
      intro k
      rw [rkAccumulate_toRat s.coeffs_ s.coeffs_.S dt s.U_ _ k c
        ((hcons.activeCell hc hact).2 k) (fun i hi => (hbal i hi hi).1 c hc hact k)]
      rfl
    rw [(RungeKuttaStep_num s.coeffs_ s.coeffs_.S (num dt) s.U_ _ c _ hy).2]
    rfl
  unfold totalVolume RungeKuttaTemporalScheme.clampedVolume
  rw [← Finset.sum_add_distrib]
  have hterm : ∀ c, c ∈ Finset.range s.solver_.mesh_.cell_count →
      (if (s.solver_.zbed_ 0 c).isNan = true then (0 : ℚ)
        else ((s.step B (num t) (num dt) (num b0) (num b1)).Ustar_ 0 c).toRat
          * s.solver_.mesh_.cell_size_0 * s.solver_.mesh_.cell_size_1)
      = (if (s.solver_.zbed_ 0 c).isNan = true then (0 : ℚ)
          else (s.accumulatedDepth B (num t) (num dt) (num b0) (num b1) c).toRat)
          * (s.solver_.mesh_.cell_size_0 * s.solver_.mesh_.cell_size_1)
        + (if (s.solver_.zbed_ 0 c).isNan = true then (0 : ℚ)
          else max 0 (-(s.accumulatedDepth B (num t) (num dt) (num b0) (num b1) c).toRat)
            * s.solver_.mesh_.cell_size_0 * s.solver_.mesh_.cell_size_1) := by
    intro c hc
    rw [Finset.mem_range] at hc
    by_cases hact : s.solver_.zbed_ 0 c = nan
    · simp only [(isNan_iff _).mpr hact, if_true, zero_mul, add_zero]
    · have hnn : ¬ (s.solver_.zbed_ 0 c).isNan = true := fun hn => hact ((isNan_iff _).mp hn)
      rw [if_neg hnn, if_neg hnn, if_neg hnn, hcell c hc hact]
      ring
  have hterm0 : ∀ c, c ∈ Finset.range s.solver_.mesh_.cell_count →
      (if (s.solver_.zbed_ 0 c).isNan = true then (0 : ℚ)
        else (s.U_ 0 c).toRat * s.solver_.mesh_.cell_size_0 * s.solver_.mesh_.cell_size_1)
      = (if (s.solver_.zbed_ 0 c).isNan = true then (0 : ℚ) else (s.U_ 0 c).toRat)
          * (s.solver_.mesh_.cell_size_0 * s.solver_.mesh_.cell_size_1) := by
    intro c _
    split_ifs
    · simp
    · ring
  rw [Finset.sum_congr rfl hterm, Finset.sum_add_distrib, Finset.sum_add_distrib,
    Finset.sum_congr rfl hterm0, ← Finset.sum_mul, ← Finset.sum_mul]
  unfold activeSum at hsum
  rw [hsum]

/-! ## Mass conservation in a closed basin -/

/-- The clamped volume vanishes when the last stage accumulates no negative depth
at an active cell. -/
theorem clampedVolume_zero (B : Builtins) (s : RungeKuttaTemporalScheme)
    (time_now timestep bdy_t0 bdy_t1 : ValueType)
    (hnc : ∀ c, c < s.solver_.mesh_.cell_count → s.solver_.zbed_ 0 c ≠ nan →
      (s.accumulatedDepth B time_now timestep bdy_t0 bdy_t1 c).lt (num 0) = false) :
    s.clampedVolume B time_now timestep bdy_t0 bdy_t1 = 0 := by
  unfold RungeKuttaTemporalScheme.clampedVolume
  apply Finset.sum_eq_zero
  intro c hc
  rw [Finset.mem_range] at hc
  by_cases hact : s.solver_.zbed_ 0 c = nan
  · rw [if_pos ((isNan_iff _).mpr hact)]
  · rw [if_neg (fun hn => hact ((isNan_iff _).mp hn))]
    have h := hnc c hc hact
    have hle : -(s.accumulatedDepth B time_now timestep bdy_t0 bdy_t1 c).toRat ≤ 0 := by
      cases hval : s.accumulatedDepth B time_now timestep bdy_t0 bdy_t1 c with
      | nan => simp [ValueType.toRat]
      | num y =>
        rw [hval] at h
        simp only [ValueType.lt_num, decide_eq_false_iff_not, not_lt] at h
        simpa [ValueType.toRat] using h
    rw [max_eq_left hle]
    simp

/-- C3 (counterexample): in the closed row `divergingRow` the control number of
the step size `0.7` is `0.838656`, below a target of `0.9`, and the accepted
Euler step raises the total volume from `0.003` to `0.00305`, a relative
change of `1/60`: the middle cell accumulates the depth `-0.00005`, which the
stage kernel resets to zero while its neighbours keep what flowed out. -/
theorem C3_clamp_adds_volume :
    divergingRow.solver_.get_control_number sampleBuiltins divergingRow.U_ (num (7 / 10))
      = num (13104 / 15625) ∧
    divergingRow.accumulatedDepth sampleBuiltins (num 0) (num (7 / 10)) (num 0) (num 10) 1
      = num (-(1 / 20000)) ∧
    totalVolume tripleMesh divergingRow.solver_.zbed_ divergingRow.U_ = 3 / 1000 ∧
    totalVolume tripleMesh divergingRow.solver_.zbed_
      (divergingRow.step sampleBuiltins (num 0) (num (7 / 10)) (num 0)
        (num 10)).accept_step.U_ = 61 / 20000 ∧
    ¬ |(61 / 20000 : ℚ) - 3 / 1000| ≤ 1 / 10000 * |(3 / 1000 : ℚ)| := by
  have h0 : (divergingRow.step sampleBuiltins (num 0) (num (7 / 10)) (num 0)
      (num 10)).accept_step.U_ 0 0 = num (61 / 40000) := by decide!
  have h1 : (divergingRow.step sampleBuiltins (num 0) (num (7 / 10)) (num 0)
      (num 10)).accept_step.U_ 0 1 = num 0 := by decide!
  have h2 : (divergingRow.step sampleBuiltins (num 0) (num (7 / 10)) (num 0)
      (num 10)).accept_step.U_ 0 2 = num (61 / 40000) := by decide!
  have hz : ∀ c, divergingRow.solver_.zbed_ 0 c = num 0 := fun _ => rfl
  have hU : ∀ c, divergingRow.U_ 0 c = num (1 / 1000) := fun _ => rfl
  have hN : tripleMesh.cell_count = 3 := rfl
  have hd : tripleMesh.cell_size_0 = 1 ∧ tripleMesh.cell_size_1 = 1 := ⟨rfl, rfl⟩
  refine ⟨by decide!, by decide!, ?_, ?_, ?_⟩
  · unfold totalVolume
    simp only [hN, Finset.sum_range_succ, Finset.range_zero, Finset.sum_empty, hz, hU, hd.1,
      hd.2, ValueType.isNan, ValueType.toRat]
    norm_num
  · unfold totalVolume
    simp only [hN, Finset.sum_range_succ, Finset.range_zero, Finset.sum_empty, hz, h0, h1, h2,
      hd.1, hd.2, ValueType.isNan, ValueType.toRat]
    norm_num
  · rw [abs_of_pos (by norm_num), abs_of_pos (by norm_num)]
    norm_num

/-- C3 (amended): in a closed basin (`Q_in = 0`, no stage boundary, zero bed-slope
fields, every cell inactive or holding numbers), for every state and every step
size the total volume after an accepted step equals the volume before the step
plus the volume of negative depth that the last stage resets to zero; it equals
the volume before the step when the last stage accumulates no negative depth
at an active cell. -/
theorem C3_volume_balance (B : Builtins) (s : RungeKuttaTemporalScheme) (t dt b0 b1 : ℚ)
    (hb : b1 - b0 ≠ 0) (hcb : ClosedBasin s.solver_)
    (hcons : Consistent s.solver_.mesh_ s.solver_.zbed_ s.U_) :
    totalVolume s.solver_.mesh_ s.solver_.zbed_
        (s.step B (num t) (num dt) (num b0) (num b1)).accept_step.U_
      = totalVolume s.solver_.mesh_ s.solver_.zbed_ s.U_
        + s.clampedVolume B (num t) (num dt) (num b0) (num b1) ∧
    ((∀ c, c < s.solver_.mesh_.cell_count → s.solver_.zbed_ 0 c ≠ nan →
        (s.accumulatedDepth B (num t) (num dt) (num b0) (num b1) c).lt (num 0) = false) →
      totalVolume s.solver_.mesh_ s.solver_.zbed_
          (s.step B (num t) (num dt) (num b0) (num b1)).accept_step.U_
        = totalVolume s.solver_.mesh_ s.solver_.zbed_ s.U_) := by
  have h := step_volume B s t dt b0 b1 hb hcb hcons
  refine ⟨h, fun hnc => ?_⟩
  have hz := clampedVolume_zero B s (num t) (num dt) (num b0) (num b1) hnc
  rw [hz, add_zero] at h
  exact h

theorem divergingRow_closed : ClosedBasin divergingRow.solver_ :=
  ⟨⟨by decide!, by decide!, fun _ _ => ⟨rfl, rfl⟩, fun _ _ => rfl⟩, fun _ _ => ⟨rfl, rfl⟩,
    fun _ _ => ⟨⟨0, rfl⟩, ⟨0, rfl⟩⟩⟩

theorem divergingRow_consistent :
    Consistent divergingRow.solver_.mesh_ divergingRow.solver_.zbed_ divergingRow.U_ := by
  intro c _
  refine Or.inr ⟨⟨0, rfl⟩, fun k => ?_⟩
  fin_cases k
  · exact ⟨_, rfl⟩
  · show ∃ q, (if c = 0 then num (-1) else if c = 1 then num 0 else num 1) = num q
    split_ifs <;> exact ⟨_, rfl⟩
  · exact ⟨_, rfl⟩

/-- C3 (witness): the closed row `divergingRow` with the step size `0.1`, where
no depth is reset: the volume after the accepted step is the volume before. -/
theorem C3_volume_balance_witness :
    totalVolume tripleMesh divergingRow.solver_.zbed_
        (divergingRow.step sampleBuiltins (num 0) (num (1 / 10)) (num 0)
          (num 10)).accept_step.U_
      = totalVolume tripleMesh divergingRow.solver_.zbed_ divergingRow.U_
        + divergingRow.clampedVolume sampleBuiltins (num 0) (num (1 / 10)) (num 0) (num 10) ∧
    totalVolume tripleMesh divergingRow.solver_.zbed_
        (divergingRow.step sampleBuiltins (num 0) (num (1 / 10)) (num 0)
          (num 10)).accept_step.U_
      = totalVolume tripleMesh divergingRow.solver_.zbed_ divergingRow.U_ :=
  ⟨(C3_volume_balance sampleBuiltins divergingRow 0 (1 / 10) 0 10 (by norm_num)
      divergingRow_closed divergingRow_consistent).1,
    (C3_volume_balance sampleBuiltins divergingRow 0 (1 / 10) 0 10 (by norm_num)
      divergingRow_closed divergingRow_consistent).2 (by
        intro c hc _
        have hc3 : c < 3 := hc
        interval_cases c <;> decide!)⟩

/-! ## The inner loop -/

/-- One iteration of the loop and the counter of repeated steps: a rejected step
raises the counter by one and throws when it reaches 1000; an accepted step
leaves it as it is. -/
theorem inner_loop_body_count (B : Builtins) (max_dt courant_target t_start t_end : ValueType)
    (st : InnerLoopState) :
    (inner_loop_body B max_dt courant_target t_start t_end st = Outcome.too_many_repeated_steps ↔
      (rejects B courant_target t_start t_end st = true ∧ 1000 ≤ st.repeated_step_count + 1)) ∧
    (∀ st1, (inner_loop_body B max_dt courant_target t_start t_end st = Outcome.running st1 ∨
        inner_loop_body B max_dt courant_target t_start t_end st = Outcome.returned st1) →
      st1.repeated_step_count = st.repeated_step_count
        + (if rejects B courant_target t_start t_end st then 1 else 0) ∧
      (rejects B courant_target t_start t_end st = true → st.repeated_step_count + 1 < 1000)) := by
  unfold inner_loop_body rejects proposedControlNumber
  simp only
  by_cases hrej : ((st.scheme.step B (t_start + st.t_local) st.dt t_start
      t_end).solver_.get_control_number B (st.scheme.step B (t_start + st.t_local) st.dt t_start
      t_end).U_ st.dt).gt courant_target = true
  · rw [if_pos hrej, if_pos hrej]
    by_cases hmany : st.repeated_step_count + 1 ≥ 1000
    · rw [if_pos hmany]
      refine ⟨⟨fun _ => ⟨hrej, hmany⟩, fun _ => rfl⟩, fun st1 h => ?_⟩
      rcases h with h | h <;> cases h
    · rw [if_neg hmany]
      refine ⟨⟨fun h => Outcome.noConfusion h, fun h => absurd h.2 hmany⟩, fun st1 h => ?_⟩
      rcases h with h | h
      · cases h
        exact ⟨rfl, fun _ => by omega⟩
      · cases h
  · rw [if_neg hrej, if_neg hrej]
    refine ⟨⟨fun h => ?_, fun h => absurd h.1 hrej⟩, fun st1 h => ?_⟩
    · split_ifs at h
    · refine ⟨?_, fun h => absurd h hrej⟩
      rcases h with h | h
      · split_ifs at h
        all_goals cases h
        all_goals rfl
      · split_ifs at h
        all_goals cases h
        all_goals rfl

/-- The counter of repeated steps along the loop: while the loop runs, and when
it returns, the counter is its initial value plus the number of rejected steps
so far, below 1000; the loop throws when this number reaches 1000. -/
theorem inner_loop_iterate_count (B : Builtins)
    (max_dt courant_target t_start t_end : ValueType) (fuel : Nat) (st : InnerLoopState)
    (hst : st.repeated_step_count < 1000) :
    (inner_loop_iterate B max_dt courant_target t_start t_end fuel st
        = Outcome.too_many_repeated_steps →
      st.repeated_step_count + rejectedSteps B max_dt courant_target t_start t_end fuel st
        = 1000) ∧
    (∀ st1, (inner_loop_iterate B max_dt courant_target t_start t_end fuel st
          = Outcome.running st1 ∨
        inner_loop_iterate B max_dt courant_target t_start t_end fuel st
          = Outcome.returned st1) →
      st1.repeated_step_count
        = st.repeated_step_count + rejectedSteps B max_dt courant_target t_start t_end fuel st ∧
      st1.repeated_step_count < 1000) := by
  induction fuel generalizing st with
  | zero =>
    refine ⟨fun h => Outcome.noConfusion h, fun st1 h => ?_⟩
    rcases h with h | h
    · cases h
      exact ⟨rfl, hst⟩
    · cases h
  | succ fuel ih =>
    obtain ⟨hthrow, hgo⟩ := inner_loop_body_count B max_dt courant_target t_start t_end st
    unfold inner_loop_iterate rejectedSteps
    cases hb : inner_loop_body B max_dt courant_target t_start t_end st with
    | running st2 =>
      obtain ⟨hc, hlt⟩ := hgo st2 (Or.inl hb)
      have hst2 : st2.repeated_step_count < 1000 := by
        rw [hc]
        split_ifs with hr
        · exact hlt hr
        · simpa using hst
      obtain ⟨ih1, ih2⟩ := ih st2 hst2
      simp only
      refine ⟨fun h => ?_, fun st1 h => ?_⟩
      · have := ih1 h
        rw [hc] at this
        omega
      · obtain ⟨e, hl⟩ := ih2 st1 h
        rw [hc] at e
        exact ⟨by omega, hl⟩
    | returned st2 =>
      obtain ⟨hc, -⟩ := hgo st2 (Or.inr hb)
      have hnr : rejects B courant_target t_start t_end st = false := by
        by_contra hcon
        have hr : rejects B courant_target t_start t_end st = true := by
          simpa using hcon
        have : inner_loop_body B max_dt courant_target t_start t_end st ≠ Outcome.returned st2 := by
          unfold inner_loop_body
          unfold rejects proposedControlNumber at hr
          simp only at hr ⊢
          rw [if_pos hr]
          split_ifs <;> exact fun h => Outcome.noConfusion h
        exact this hb
      simp only [hnr]
      refine ⟨fun h => Outcome.noConfusion h, fun st1 h => ?_⟩
      rcases h with h | h
      · cases h
      · cases h
        rw [hnr] at hc
        exact ⟨by simpa using hc, by rw [hc]; simpa using hst⟩
    | too_many_repeated_steps =>
      obtain ⟨hr, hm⟩ := hthrow.mp hb
      simp only [hr, if_true]
      refine ⟨fun _ => by omega, fun st1 h => ?_⟩
      rcases h with h | h <;> cases h

/-- C11. Within one call of `inner_loop` the failure `Too many repeated steps` is
raised exactly when the number of rejected steps of that call reaches 1000:
while the loop runs, and when it returns, the counter of repeated steps equals
the number of steps rejected so far in the call (accepted steps do not reset
it) and is below 1000; and every call starts its counter from 0. -/
theorem C11_too_many_repeated_steps (B : Builtins)
    (boundaries : ValueType → ValueType → SVSolver → SVSolver) (fuel : Nat)
    (scheme : RungeKuttaTemporalScheme) (dt max_dt courant_target t_start t_end : ValueType) :
    (inner_loop B boundaries fuel scheme dt max_dt courant_target t_start t_end
        = Outcome.too_many_repeated_steps ↔
      rejectedSteps B max_dt courant_target t_start t_end fuel
        (InnerLoopState.start
          { scheme with solver_ := boundaries t_start t_end scheme.solver_ } dt) = 1000) ∧
    (∀ st, (inner_loop B boundaries fuel scheme dt max_dt courant_target t_start t_end
          = Outcome.running st ∨
        inner_loop B boundaries fuel scheme dt max_dt courant_target t_start t_end
          = Outcome.returned st) →
      st.repeated_step_count = rejectedSteps B max_dt courant_target t_start t_end fuel
        (InnerLoopState.start
          { scheme with solver_ := boundaries t_start t_end scheme.solver_ } dt) ∧
      st.repeated_step_count < 1000) ∧
    (InnerLoopState.start
      { scheme with solver_ := boundaries t_start t_end scheme.solver_ } dt).repeated_step_count
      = 0 := by
  obtain ⟨h1, h2⟩ := inner_loop_iterate_count B max_dt courant_target t_start t_end fuel
    (InnerLoopState.start { scheme with solver_ := boundaries t_start t_end scheme.solver_ } dt)
    (by show 0 < 1000; norm_num)
  have h0 : (InnerLoopState.start
      { scheme with solver_ := boundaries t_start t_end scheme.solver_ } dt).repeated_step_count
      = 0 := rfl
  rw [h0, zero_add] at h1
  simp only [h0, zero_add] at h2
  refine ⟨⟨h1, fun hcount => ?_⟩, h2, rfl⟩
  unfold inner_loop
  cases hout : inner_loop_iterate B max_dt courant_target t_start t_end fuel
      (InnerLoopState.start
        { scheme with solver_ := boundaries t_start t_end scheme.solver_ } dt) with
  | running st =>
    obtain ⟨e, hl⟩ := h2 st (Or.inl hout)
    omega
  | returned st =>
    obtain ⟨e, hl⟩ := h2 st (Or.inr hout)
    omega
  | too_many_repeated_steps => rfl

/-- C11 (witness): the still one-cell basin with `Co_target = 1` (its control
number is `2` at `dt = 1`): the first three steps are rejected, and the loop has
not failed. -/
theorem C11_too_many_repeated_steps_witness :
    rejectedSteps sampleBuiltins (num 5) (num 1) (num 0) (num 10) 3
      (InnerLoopState.start stillBasin.scheme (num 1)) = 3 ∧
    inner_loop sampleBuiltins (fun _ _ sv => sv) 3 stillBasin.scheme (num 1) (num 5) (num 1)
      (num 0) (num 10) ≠ Outcome.too_many_repeated_steps :=
  ⟨by decide!, fun h => absurd
    ((C11_too_many_repeated_steps sampleBuiltins (fun _ _ sv => sv) 3 stillBasin.scheme (num 1)
      (num 5) (num 1) (num 0) (num 10)).1.mp h) (by decide!)⟩

/-- The factor applied to a rejected step size is a number between `0.1` and
`0.9`, whatever the ratio. -/
theorem reject_factor (x : ValueType) :
    ∃ f : ℚ, ValueType.fmax (num (1 / 10)) (ValueType.fmin (num (9 / 10)) x) = num f ∧
      1 / 10 ≤ f ∧ f ≤ 9 / 10 := by
  cases x with
  | nan =>
    refine ⟨9 / 10, ?_, by norm_num, le_refl _⟩
    show ValueType.fmax (num (1 / 10)) (num (9 / 10)) = num (9 / 10)
    rw [ValueType.fmax_num, max_eq_right (by norm_num)]
  | num q =>
    rw [ValueType.fmin_num, ValueType.fmax_num]
    exact ⟨_, rfl, le_max_left _ _, max_le (by norm_num) (min_le_left _ _)⟩

/-- The step size proposed after an accepted step, before it is shaped to the end
of the interval, is a number. -/
theorem grown_step_num (c : Bool) (max_dt : ValueType) (d : ℚ) :
    ∃ tg : ℚ, (if c = true then ValueType.fmin max_dt (num d * num (11 / 10)) else num d)
      = num tg := by
  cases c with
  | false => exact ⟨d, rfl⟩
  | true =>
    cases max_dt with
    | nan => exact ⟨_, rfl⟩
    | num mx =>
      rw [if_pos rfl, ValueType.num_mul, ValueType.fmin_num]
      exact ⟨_, rfl⟩

/-- One iteration of the loop from a state whose local time is below the length
of the interval `[t_start, t_end]` and whose proposed step does not pass its
end: if the function returns, the accepted step reached the end exactly; if the
loop goes on, the new state is on course. -/
theorem inner_loop_body_lands (B : Builtins) (max_dt courant_target : ValueType)
    (ts te tl d : ℚ) (st : InnerLoopState) (htl : st.t_local = num tl) (hd : st.dt = num d)
    (hlt : tl < te - ts) (hle : tl + d ≤ te - ts) :
    (∀ st1, inner_loop_body B max_dt courant_target (num ts) (num te) st = Outcome.returned st1 →
      st1.t_local = num (te - ts) ∧ st1.inner_steps = st.inner_steps + 1 ∧ tl + d = te - ts) ∧
    (∀ st1, inner_loop_body B max_dt courant_target (num ts) (num te) st = Outcome.running st1 →
      OnCourse (te - ts) st1) := by
  unfold inner_loop_body
  simp only [htl, hd, ValueType.num_sub, ValueType.num_add]
  generalize ((st.scheme.step B (num (ts + tl)) (num d) (num ts) (num te)).solver_.get_control_number
    B (st.scheme.step B (num (ts + tl)) (num d) (num ts) (num te)).U_ (num d)) = co
  by_cases hrej : co.gt courant_target = true
  · rw [if_pos hrej]
    obtain ⟨f, hf, hf1, hf2⟩ := reject_factor (co / courant_target)
    rw [hf, ValueType.num_mul]
    refine ⟨fun st1 h => ?_, fun st1 h => ?_⟩
    · split_ifs at h
    · split_ifs at h
      cases h
      refine ⟨tl, d * f, rfl, rfl, hlt, ?_, ?_⟩
      · rcases le_or_lt 0 d with h0 | h0
        · nlinarith
        · nlinarith
      · intro he
        exfalso
        have hdpos : 0 < d * f := by linarith
        have hd0 : 0 < d := by
          by_contra hcon
          have : d * f ≤ 0 := mul_nonpos_of_nonpos_of_nonneg (not_lt.mp hcon) (by linarith)
          linarith
        nlinarith
  · rw [if_neg hrej]
    obtain ⟨tg, htg⟩ := grown_step_num (co.lt (num (9 / 10) * courant_target)) max_dt d
    rw [htg]
    simp only [ValueType.ge_num, ValueType.gt_num, ValueType.num_add, ValueType.num_mul,
      ValueType.num_sub, decide_eq_true_eq]
    by_cases hret : te - ts ≤ tl + d
    · rw [if_pos hret]
      refine ⟨fun st1 h => ?_, fun st1 h => Outcome.noConfusion h⟩
      cases h
      have heq : tl + d = te - ts := le_antisymm hle hret
      exact ⟨by show num (tl + d) = num (te - ts); rw [heq], rfl, heq⟩
    · rw [if_neg hret]
      refine ⟨fun st1 h => Outcome.noConfusion h, fun st1 h => ?_⟩
      cases h
      have hrem : 0 < te - ts - (tl + d) := by linarith [not_le.mp hret]
      unfold OnCourse
      by_cases hA : te - ts < tl + d + tg
      · by_cases hp : (st.inner_steps + 1) % 2 = 0
        · simp only [hA, hp, if_true]
          exact ⟨tl + d, _, rfl, rfl, not_le.mp hret, by linarith, fun he => by linarith⟩
        · simp only [hA, hp, if_true, if_false]
          exact ⟨tl + d, _, rfl, rfl, not_le.mp hret, by linarith, fun _ => by omega⟩
      · by_cases hB : te - ts ≤ tl + d + 3 / 2 * tg
        · by_cases hp : (st.inner_steps + 1) % 2 = 0
          · simp only [hA, hB, hp, if_true, if_false]
            exact ⟨tl + d, _, rfl, rfl, not_le.mp hret, by linarith, fun he => by linarith⟩
          · simp only [hA, hB, hp, if_true, if_false]
            exact ⟨tl + d, _, rfl, rfl, not_le.mp hret, by linarith, fun he => by linarith⟩
        · simp only [hA, hB, if_false]
          refine ⟨tl + d, _, rfl, rfl, not_le.mp hret, by linarith, fun he => ?_⟩
          exfalso
          have h1 : tg = te - ts - (tl + d) := by linarith
          have h2 : tl + d + 3 / 2 * tg < te - ts := not_le.mp hB
          linarith

/-- The loop from a state on course for the end of the interval: whenever the
function returns, the local time is the length of the interval and the number of
accepted steps is even. -/
theorem inner_loop_iterate_on_course (B : Builtins) (max_dt courant_target : ValueType)
    (ts te : ℚ) (fuel : Nat) (st : InnerLoopState) (hst : OnCourse (te - ts) st) (st1 : InnerLoopState)
    (h : inner_loop_iterate B max_dt courant_target (num ts) (num te) fuel st
      = Outcome.returned st1) :
    st1.t_local = num (te - ts) ∧ st1.inner_steps % 2 = 0 := by
  induction fuel generalizing st with
  | zero => exact Outcome.noConfusion h
  | succ fuel ih =>
    obtain ⟨tl, d, htl, hd, hlt, hle, hpar⟩ := hst
    obtain ⟨hret, hrun⟩ := inner_loop_body_lands B max_dt courant_target ts te tl d st htl hd
      hlt hle
    unfold inner_loop_iterate at h
    cases hb : inner_loop_body B max_dt courant_target (num ts) (num te) st with
    | running st2 =>
      rw [hb] at h
      exact ih st2 (hrun st2 hb) h
    | returned st2 =>
      rw [hb] at h
      obtain ⟨h1, h2, h3⟩ := hret st2 hb
      cases h
      refine ⟨h1, ?_⟩
      have := hpar h3
      omega
    | too_many_repeated_steps =>
      rw [hb] at h
      exact Outcome.noConfusion h

/-- When the step size carried into an interval of positive length does not
exceed the length, `inner_loop` returns only with the local time equal to the
length of the interval; when it is smaller than the length, also only with an
even number of accepted steps. -/
theorem inner_loop_lands (B : Builtins)
    (boundaries : ValueType → ValueType → SVSolver → SVSolver) (fuel : Nat)
    (scheme : RungeKuttaTemporalScheme) (max_dt courant_target : ValueType) (d ts te : ℚ)
    (hL : 0 < te - ts) (hd : d ≤ te - ts) (st1 : InnerLoopState)
    (h : inner_loop B boundaries fuel scheme (num d) max_dt courant_target (num ts) (num te)
      = Outcome.returned st1) :
    st1.t_local = num (te - ts) ∧ (d < te - ts → st1.inner_steps % 2 = 0) := by
  unfold inner_loop at h
  cases fuel with
  | zero => exact Outcome.noConfusion h
  | succ fuel =>
    obtain ⟨hret, hrun⟩ := inner_loop_body_lands B max_dt courant_target ts te 0 d
      (InnerLoopState.start
        { scheme with solver_ := boundaries (num ts) (num te) scheme.solver_ } (num d))
      rfl rfl hL (by linarith)
    unfold inner_loop_iterate at h
    cases hb : inner_loop_body B max_dt courant_target (num ts) (num te)
        (InnerLoopState.start
          { scheme with solver_ := boundaries (num ts) (num te) scheme.solver_ } (num d)) with
    | running st2 =>
      rw [hb] at h
      obtain ⟨h1, h2⟩ := inner_loop_iterate_on_course B max_dt courant_target ts te fuel st2
        (hrun st2 hb) st1 h
      exact ⟨h1, fun _ => h2⟩
    | returned st2 =>
      rw [hb] at h
      obtain ⟨h1, -, h3⟩ := hret st2 hb
      cases h
      exact ⟨h1, fun hlt => by linarith⟩
    | too_many_repeated_steps =>
      rw [hb] at h
      exact Outcome.noConfusion h
/-- An accepted step that reaches the end of the interval: the function returns
with the step accepted, the local time advanced and one more accepted step. -/
theorem inner_loop_body_returns (B : Builtins) (max_dt courant_target t_start t_end : ValueType)
    (st : InnerLoopState) (hacc : rejects B courant_target t_start t_end st = false)
    (hend : (st.t_local + st.dt).ge (t_end - t_start) = true) :
    inner_loop_body B max_dt courant_target t_start t_end st
      = Outcome.returned
          { st with
            scheme := (st.scheme.step B (t_start + st.t_local) st.dt t_start t_end).accept_step,
            local_repeat_count := 0, inner_steps := st.inner_steps + 1,
            t_local := st.t_local + st.dt } := by
  unfold rejects proposedControlNumber at hacc
  unfold inner_loop_body
  simp only at hacc ⊢
  rw [if_neg (by rw [hacc]; exact Bool.false_ne_true), if_pos hend]

theorem inner_loop_iterate_one (B : Builtins) (max_dt courant_target t_start t_end : ValueType)
    (st : InnerLoopState) :
    inner_loop_iterate B max_dt courant_target t_start t_end 1 st
      = inner_loop_body B max_dt courant_target t_start t_end st := by
  unfold inner_loop_iterate
  cases inner_loop_body B max_dt courant_target t_start t_end st <;> rfl

/-- C12 (failing input): the still one-cell basin (control number `2` at `dt = 1`)
with `Co_target = 5`, the step size `1` carried into the interval `[0, 0.5]`:
the first step is accepted as it stands and `inner_loop` returns with the local
time `1`, twice the length of the interval. -/
theorem C12_first_step_passes_the_interval_end :
    ∃ st, inner_loop sampleBuiltins (fun _ _ sv => sv) 1 stillBasin.scheme (num 1) (num 5)
        (num 5) (num 0) (num (1 / 2)) = Outcome.returned st ∧
      st.t_local = num 1 ∧ st.inner_steps = 1 ∧ num (1 : ℚ) ≠ num (1 / 2 - 0) :=
  ⟨_, (inner_loop_iterate_one sampleBuiltins (num 5) (num 5) (num 0) (num (1 / 2)) _).trans
      (inner_loop_body_returns sampleBuiltins (num 5) (num 5) (num 0) (num (1 / 2)) _
        (by decide!) (by decide!)),
    by decide!, rfl, by decide!⟩

/-- C13 (failing input): the still one-cell basin with `Co_target = 5`, the step
size `1` carried into the interval `[0, 1]`: the first step is accepted and
reaches the end of the interval, and `inner_loop` returns after one accepted
step, an odd number. -/
theorem C13_single_step_interval :
    ∃ st, inner_loop sampleBuiltins (fun _ _ sv => sv) 1 stillBasin.scheme (num 1) (num 5)
        (num 5) (num 0) (num 1) = Outcome.returned st ∧
      st.t_local = num 1 ∧ st.inner_steps = 1 ∧ st.inner_steps % 2 = 1 :=
  ⟨_, (inner_loop_iterate_one sampleBuiltins (num 5) (num 5) (num 0) (num 1) _).trans
      (inner_loop_body_returns sampleBuiltins (num 5) (num 5) (num 0) (num 1) _
        (by decide!) (by decide!)),
    by decide!, rfl, rfl⟩

/-! ## The outer loop -/

/-- When the run lasts a whole number `D >= 1` of seconds that is `n` sync steps
(both below `2^64`), `outer_loop` makes `n` iterations. -/
theorem outer_loop_nsteps_whole (s e step : ℚ) (D n : Nat) (hD : e - s = D) (hn : 0 < n)
    (hstep : (n : ℚ) * step = D) (hD1 : 0 < D) (hbig : (D : ℚ) + 1 < 2 ^ 64)
    (hn64 : (n : ℚ) < 2 ^ 64) :
    outer_loop_nsteps (num s) (num e) (num step) = some n := by
  have hsum : (1 : ℚ) / 1000 + e - s = D + 1 / 1000 := by linarith
  have hfl : ⌊(D : ℚ) + 1 / 1000⌋ = (D : ℤ) := by
    rw [Int.floor_eq_iff]
    constructor
    · push_cast
      linarith
    · push_cast
      linarith
  have hDq : (0 : ℚ) < D := by exact_mod_cast hD1
  have hnq : (0 : ℚ) < n := by exact_mod_cast hn
  have hstep0 : step ≠ 0 := by
    intro h
    rw [h, mul_zero] at hstep
    linarith
  have hquot : (D : ℚ) / step = n := by
    rw [← hstep]
    field_simp
  have h1 : toSizeT (num ((D : ℚ) + 1 / 1000)) = some D := by
    show (if -1 < (D : ℚ) + 1 / 1000 ∧ (D : ℚ) + 1 / 1000 < 2 ^ 64
      then some (Int.toNat ⌊(D : ℚ) + 1 / 1000⌋) else none) = some D
    rw [if_pos ⟨by linarith, by linarith⟩, hfl, Int.toNat_ofNat]
  have h2 : toSizeT (num ((n : ℚ))) = some n := by
    show (if -1 < (n : ℚ) ∧ (n : ℚ) < 2 ^ 64 then some (Int.toNat ⌊(n : ℚ)⌋) else none) = some n
    rw [if_pos ⟨by linarith, hn64⟩, Int.floor_natCast, Int.toNat_ofNat]
  unfold outer_loop_nsteps
  rw [ValueType.num_add, ValueType.num_sub, hsum, h1]
  show toSizeT (num (D : ℚ) / num step) = some n
  rw [ValueType.num_div_of_ne _ hstep0, hquot, h2]

/-- C14 (failing input): a run from `0` to `0.5` with the sync step `0.25` (two
sync steps) makes no iteration, so `inner_loop` is never run; a run from `0` to
`4.5` with the sync step `1.5` (three sync steps) makes two iterations, on
`[0, 1.5]` and `[1.5, 3]`, and leaves `[3, 4.5]` out. -/
theorem C14_sync_steps_lost :
    (1 / 2 - 0 = 2 * (1 / 4 : ℚ) ∧
      outer_loop_nsteps (num 0) (num (1 / 2)) (num (1 / 4)) = some 0 ∧
      outer_loop_intervals (num 0) (num (1 / 4)) 0 = [] ∧
      ∀ (B : Builtins) (boundaries : ValueType → ValueType → SVSolver → SVSolver) (fuel : Nat)
        (scheme : RungeKuttaTemporalScheme) (dt max_dt courant_target : ValueType),
        outer_loop B boundaries fuel scheme dt max_dt courant_target (num 0) (num (1 / 2))
          (num (1 / 4)) = RunResult.finished scheme dt) ∧
    (9 / 2 - 0 = 3 * (3 / 2 : ℚ) ∧
      outer_loop_nsteps (num 0) (num (9 / 2)) (num (3 / 2)) = some 2 ∧
      outer_loop_intervals (num 0) (num (3 / 2)) 2
        = [(num 0, num (3 / 2)), (num (3 / 2), num 3)]) := by
  have h1 : outer_loop_nsteps (num 0) (num (1 / 2)) (num (1 / 4)) = some 0 := by decide!
  refine ⟨⟨by norm_num, h1, rfl, ?_⟩, by norm_num, by decide!, by decide!⟩
  intro B boundaries fuel scheme dt max_dt courant_target
  unfold outer_loop
  rw [h1]
  rfl

/-! ## The temporal derivative is a function of the state on the mesh -/

theorem MinmodKernel_congr {N : Nat} (m : Cartesian2DMesh) (theta : ValueType)
    (U U1 : FieldVector N) (c : Nat) (k : Fin N) (hc : U1 k c = U k c)
    (hw : U1 k (minmodNeighbours m c).1 = U k (minmodNeighbours m c).1)
    (he : U1 k (minmodNeighbours m c).2.1 = U k (minmodNeighbours m c).2.1)
    (hs : U1 k (minmodNeighbours m c).2.2.1 = U k (minmodNeighbours m c).2.2.1)
    (hn : U1 k (minmodNeighbours m c).2.2.2 = U k (minmodNeighbours m c).2.2.2) :
    MinmodKernel m theta U1 c k = MinmodKernel m theta U c k := by
  unfold MinmodKernel
  simp only [hc, hw, he, hs, hn]

/-- The reconstructed slopes at the cells of the mesh depend on the state only
through its values at the cells of the mesh. -/
theorem calculate_congr (m : Cartesian2DMesh) (U U1 ox oy ox1 oy1 : FieldVector 3)
    (hU : ∀ c, c < m.cell_count → ∀ k, U1 k c = U k c) (c : Nat) (hc : c < m.cell_count)
    (k : Fin 3) :
    (MinmodSpatialDerivative.calculate m U1 ox1 oy1).1 k c
      = (MinmodSpatialDerivative.calculate m U ox oy).1 k c ∧
    (MinmodSpatialDerivative.calculate m U1 ox1 oy1).2 k c
      = (MinmodSpatialDerivative.calculate m U ox oy).2 k c := by
  obtain ⟨_, hix, hiy, hci⟩ := m.index_of_lt hc
  have hlt := minmodNeighbours_lt m hix hiy
  rw [hci] at hlt
  have hker := MinmodKernel_congr m (num 2) U U1 c k (hU c hc k) (hU _ hlt.1 k)
    (hU _ hlt.2.1 k) (hU _ hlt.2.2.1 k) (hU _ hlt.2.2.2 k)
  unfold MinmodSpatialDerivative.calculate parallel_for
  simp only [hc, if_true, hker, and_self]

theorem fluxFromSides_congr (B : Builtins) (m : Cartesian2DMesh)
    (U U1 zb dUdx dUdx1 dUdy dUdy1 : FieldVector 3) (xd : Bool) (l r : Nat) (edge : Int)
    (zbL zbR : ValueType)
    (hl : ∀ k, U1 k l = U k l ∧ dUdx1 k l = dUdx k l ∧ dUdy1 k l = dUdy k l)
    (hr : ∀ k, U1 k r = U k r ∧ dUdx1 k r = dUdx k r ∧ dUdy1 k r = dUdy k r) :
    fluxFromSides B m U1 zb dUdx1 dUdy1 xd l r edge zbL zbR
      = fluxFromSides B m U zb dUdx dUdy xd l r edge zbL zbR := by
  unfold fluxFromSides
  simp only [(hl _).1, (hl _).2.1, (hl _).2.2, (hr _).1, (hr _).2.1, (hr _).2.2]

/-- The flux kernel at a face reads the state and the slopes at the two cells
that `faceSides` gives for the face, and nowhere else. -/
theorem FluxKernel_congr (B : Builtins) (m : Cartesian2DMesh)
    (U U1 zb dUdx dUdx1 dUdy dUdy1 : FieldVector 3) (fid : Nat)
    (hl : ∀ k, U1 k (faceSides m fid).1 = U k (faceSides m fid).1 ∧
      dUdx1 k (faceSides m fid).1 = dUdx k (faceSides m fid).1 ∧
      dUdy1 k (faceSides m fid).1 = dUdy k (faceSides m fid).1)
    (hr : ∀ k, U1 k (faceSides m fid).2.1 = U k (faceSides m fid).2.1 ∧
      dUdx1 k (faceSides m fid).2.1 = dUdx k (faceSides m fid).2.1 ∧
      dUdy1 k (faceSides m fid).2.1 = dUdy k (faceSides m fid).2.1) :
    FluxKernel B m U1 zb dUdx1 dUdy1 fid = FluxKernel B m U zb dUdx dUdy fid := by
  unfold FluxKernel
  simp only [fluxFromSides_congr B m U U1 zb dUdx dUdx1 dUdy dUdy1 _ _ _ _ _ _ hl hr,
    fluxFromSides_congr B m U U1 zb dUdx dUdx1 dUdy dUdy1 _ _ _ _ _ _ hl hl,
    fluxFromSides_congr B m U U1 zb dUdx dUdx1 dUdy dUdy1 _ _ _ _ _ _ hr hr]

/-- The two cells that `faceSides` gives for each of the four faces of a cell of
the mesh are cells of the mesh. -/
theorem faceSides_cell_lt (m : Cartesian2DMesh) {ix iy : Nat} (hx : ix < m.ncells_0)
    (hy : iy < m.ncells_1) :
    ((faceSides m (iy * (m.ncells_0 + 1) + ix)).1 < m.cell_count ∧
      (faceSides m (iy * (m.ncells_0 + 1) + ix)).2.1 < m.cell_count) ∧
    ((faceSides m (iy * (m.ncells_0 + 1) + ix + 1)).1 < m.cell_count ∧
      (faceSides m (iy * (m.ncells_0 + 1) + ix + 1)).2.1 < m.cell_count) ∧
    ((faceSides m ((m.ncells_0 + 1) * m.ncells_1 + iy * m.ncells_0 + ix)).1 < m.cell_count ∧
      (faceSides m ((m.ncells_0 + 1) * m.ncells_1 + iy * m.ncells_0 + ix)).2.1
        < m.cell_count) ∧
    ((faceSides m ((m.ncells_0 + 1) * m.ncells_1 + iy * m.ncells_0 + ix + m.ncells_0)).1
        < m.cell_count ∧
      (faceSides m ((m.ncells_0 + 1) * m.ncells_1 + iy * m.ncells_0 + ix + m.ncells_0)).2.1
        < m.cell_count) := by
  have hc := m.linear_id_lt hx hy
  rw [Cartesian2DMesh.faceSides_W m hx hy, Cartesian2DMesh.faceSides_E m hx hy,
    Cartesian2DMesh.faceSides_S m hx hy, Cartesian2DMesh.faceSides_N m hx hy]
  refine ⟨?_, ?_, ?_, ?_⟩
  · split_ifs with h
    · exact ⟨m.linear_id_lt (by omega) hy, hc⟩
    · exact ⟨hc, hc⟩
  · split_ifs with h
    · exact ⟨hc, m.linear_id_lt h hy⟩
    · exact ⟨hc, hc⟩
  · split_ifs with h
    · exact ⟨m.linear_id_lt hx (by omega), hc⟩
    · exact ⟨hc, hc⟩
  · split_ifs with h
    · exact ⟨hc, m.linear_id_lt hx h⟩
    · exact ⟨hc, hc⟩

theorem TemporalDerivativeKernel_congr (B : Builtins) (m : Cartesian2DMesh)
    (U U1 zb : FieldVector 3) (n : FieldVector 4) (Q_in h_in : FieldVector 2)
    (F F1 : FieldVector 4) (t dt b0 b1 : ValueType) (ix iy : Nat) (hx : ix < m.ncells_0)
    (hU : ∀ k, U1 k (iy * m.ncells_0 + ix) = U k (iy * m.ncells_0 + ix))
    (hFW : ∀ k, F1 k (iy * (m.ncells_0 + 1) + ix) = F k (iy * (m.ncells_0 + 1) + ix))
    (hFE : ∀ k, F1 k (iy * (m.ncells_0 + 1) + ix + 1) = F k (iy * (m.ncells_0 + 1) + ix + 1))
    (hFS : ∀ k, F1 k ((m.ncells_0 + 1) * m.ncells_1 + iy * m.ncells_0 + ix)
      = F k ((m.ncells_0 + 1) * m.ncells_1 + iy * m.ncells_0 + ix))
    (hFN : ∀ k, F1 k ((m.ncells_0 + 1) * m.ncells_1 + iy * m.ncells_0 + ix + m.ncells_0)
      = F k ((m.ncells_0 + 1) * m.ncells_1 + iy * m.ncells_0 + ix + m.ncells_0)) :
    TemporalDerivativeKernel B m U1 zb n Q_in h_in F1 t dt b0 b1 (iy * m.ncells_0 + ix)
      = TemporalDerivativeKernel B m U zb n Q_in h_in F t dt b0 b1 (iy * m.ncells_0 + ix) := by
  have hsf : frictionSlope B U1 n (iy * m.ncells_0 + ix)
      = frictionSlope B U n (iy * m.ncells_0 + ix) := by
    unfold frictionSlope
    simp only [hU]
  unfold TemporalDerivativeKernel
  simp only [Cartesian2DMesh.get_cell_index_linear m hx, Cartesian2DMesh.get_faces_around_cell,
    hU, hFW, hFE, hFS, hFN, hsf]
/-- At the cells of the mesh `update_ddt` is a function of the constants of the
solver, of the values of the state at the cells of the mesh and of the four
time arguments: the temporaries of the solver and the previous contents of the
derivative do not matter. -/
theorem update_ddt_congr (B : Builtins) (sv sv1 : SVSolver) (U U1 old old1 : SolutionState)
    (t dt b0 b1 : ValueType) (hm : sv1.mesh_ = sv.mesh_) (hz : sv1.zbed_ = sv.zbed_)
    (hn : sv1.manning_n_ = sv.manning_n_) (hQ : sv1.Q_in_ = sv.Q_in_)
    (hh : sv1.h_in_ = sv.h_in_)
    (hU : ∀ c, c < sv.mesh_.cell_count → ∀ k, U1 k c = U k c)
    (c : Nat) (hc : c < sv.mesh_.cell_count) (k : Fin 3) :
    (sv1.update_ddt B U1 old1 t dt b0 b1).2 k c = (sv.update_ddt B U old t dt b0 b1).2 k c := by
  obtain ⟨_, hix, hiy, hci⟩ := sv.mesh_.index_of_lt hc
  obtain ⟨hW, hE, hS, hN⟩ := faceSides_cell_lt sv.mesh_ hix hiy
  have hside : ∀ id, id < sv.mesh_.cell_count → ∀ k,
      U1 k id = U k id ∧
      (MinmodSpatialDerivative.calculate sv.mesh_ U1 sv1.dUdx_ sv1.dUdy_).1 k id
        = (MinmodSpatialDerivative.calculate sv.mesh_ U sv.dUdx_ sv.dUdy_).1 k id ∧
      (MinmodSpatialDerivative.calculate sv.mesh_ U1 sv1.dUdx_ sv1.dUdy_).2 k id
        = (MinmodSpatialDerivative.calculate sv.mesh_ U sv.dUdx_ sv.dUdy_).2 k id :=
    fun id hid k => ⟨hU id hid k,
      (calculate_congr sv.mesh_ U U1 sv.dUdx_ sv.dUdy_ sv1.dUdx_ sv1.dUdy_ hU id hid k).1,
      (calculate_congr sv.mesh_ U U1 sv.dUdx_ sv.dUdy_ sv1.dUdx_ sv1.dUdy_ hU id hid k).2⟩
  have hflux : ∀ fid, fid < sv.mesh_.face_count →
      (faceSides sv.mesh_ fid).1 < sv.mesh_.cell_count →
      (faceSides sv.mesh_ fid).2.1 < sv.mesh_.cell_count → ∀ k,
      SVFluxFunction.calculate B sv.mesh_ U1 sv.zbed_
          (MinmodSpatialDerivative.calculate sv.mesh_ U1 sv1.dUdx_ sv1.dUdy_).1
          (MinmodSpatialDerivative.calculate sv.mesh_ U1 sv1.dUdx_ sv1.dUdy_).2 sv1.flux_ k fid
        = SVFluxFunction.calculate B sv.mesh_ U sv.zbed_
          (MinmodSpatialDerivative.calculate sv.mesh_ U sv.dUdx_ sv.dUdy_).1
          (MinmodSpatialDerivative.calculate sv.mesh_ U sv.dUdx_ sv.dUdy_).2 sv.flux_ k fid := by
    intro fid hf h1 h2 k
    unfold SVFluxFunction.calculate parallel_for
    rw [if_pos hf, if_pos hf, FluxKernel_congr B sv.mesh_ U U1 sv.zbed_ _ _ _ _ fid
      (hside _ h1) (hside _ h2)]
  have hfW := sv.mesh_.vertical_face_lt_face_count (j := c % sv.mesh_.ncells_0) (le_of_lt hix) hiy
  have hfE : c / sv.mesh_.ncells_0 * (sv.mesh_.ncells_0 + 1) + c % sv.mesh_.ncells_0 + 1
      < sv.mesh_.face_count := by
    have := sv.mesh_.vertical_face_lt_face_count (j := c % sv.mesh_.ncells_0 + 1) (by omega) hiy
    omega
  have hfS := sv.mesh_.horizontal_face_lt hix (j := c / sv.mesh_.ncells_0) (le_of_lt hiy)
  have hfN : (sv.mesh_.ncells_0 + 1) * sv.mesh_.ncells_1 + c / sv.mesh_.ncells_0 * sv.mesh_.ncells_0
      + c % sv.mesh_.ncells_0 + sv.mesh_.ncells_0 < sv.mesh_.face_count := by
    have := sv.mesh_.horizontal_face_lt hix (j := c / sv.mesh_.ncells_0 + 1) (by omega)
    have e : (c / sv.mesh_.ncells_0 + 1) * sv.mesh_.ncells_0
        = c / sv.mesh_.ncells_0 * sv.mesh_.ncells_0 + sv.mesh_.ncells_0 := by ring
    omega
  have hker := TemporalDerivativeKernel_congr B sv.mesh_ U U1 sv.zbed_ sv.manning_n_ sv.Q_in_
    sv.h_in_
    (SVFluxFunction.calculate B sv.mesh_ U sv.zbed_
      (MinmodSpatialDerivative.calculate sv.mesh_ U sv.dUdx_ sv.dUdy_).1
      (MinmodSpatialDerivative.calculate sv.mesh_ U sv.dUdx_ sv.dUdy_).2 sv.flux_)
    (SVFluxFunction.calculate B sv.mesh_ U1 sv.zbed_
      (MinmodSpatialDerivative.calculate sv.mesh_ U1 sv1.dUdx_ sv1.dUdy_).1
      (MinmodSpatialDerivative.calculate sv.mesh_ U1 sv1.dUdx_ sv1.dUdy_).2 sv1.flux_)
    t dt b0 b1 (c % sv.mesh_.ncells_0) (c / sv.mesh_.ncells_0) hix
    (by rw [hci]; exact hU c hc)
    (hflux _ hfW hW.1 hW.2) (hflux _ hfE hE.1 hE.2) (hflux _ hfS hS.1 hS.2)
    (hflux _ hfN hN.1 hN.2)
  rw [hci] at hker
  unfold SVSolver.update_ddt SVTemporalDerivative.calculate parallel_for
  simp only [hm, hz, hn, hQ, hh, hc, if_true, hker]

/-! ## The stages of a step against the specification -/

theorem accumulate_step (x S a k : ValueType) (dt : ℚ) :
    x + num dt * S + num dt * a * k = x + num dt * (S + a * k) := by
  cases x <;> cases S <;> cases a <;> cases k <;>
    simp only [ValueType.num_add, ValueType.num_mul, ValueType.nan_add, ValueType.add_nan,
      ValueType.nan_mul, ValueType.mul_nan]
  congr 1
  ring

theorem foldl_accumulate (cs : RungeKuttaCoefficientSet) (i : Nat) (dt : ℚ)
    (k : Nat → SolutionState) (vec_id : Fin 3) (item : Nat) (l : List Nat) (x S : ValueType) :
    l.foldl (fun acc j => acc + num dt * cs.a i j * k j vec_id item) (x + num dt * S)
      = x + num dt * l.foldl (fun acc j => acc + cs.a i j * k j vec_id item) S := by
  induction l generalizing S with
  | nil => rfl
  | cons j l ih =>
    simp only [List.foldl_cons]
    rw [accumulate_step, ih]

/-- The accumulation loop of the kernel adds up `U + Δt · Σ_{j<i} a[i][j] · k_j`. -/
theorem rkAccumulate_eq_spec (cs : RungeKuttaCoefficientSet) (i : Nat) (dt : ℚ)
    (U : SolutionState) (k : Nat → SolutionState) (vec_id : Fin 3) (item : Nat) :
    rkAccumulate cs i (num dt) U k vec_id item
      = U vec_id item + num dt * specWeightedSum cs i k vec_id item := by
  have h0 : U vec_id item = U vec_id item + num dt * num 0 := by
    cases U vec_id item
    · rfl
    · simp only [ValueType.num_mul, ValueType.num_add, mul_zero, add_zero]
  unfold rkAccumulate specWeightedSum
  rw [← foldl_accumulate, ← h0]

/-- The kernel `RungeKuttaStep` at a cell is the stage state of the
specification at that cell. -/
theorem RungeKuttaStep_eq_spec (cs : RungeKuttaCoefficientSet) (i : Nat) (dt : ℚ)
    (U : SolutionState) (k : Nat → SolutionState) (item : Nat) (vec_id : Fin 3) :
    RungeKuttaStep cs i (num dt) U k item vec_id = specStageState cs i (num dt) U k vec_id item := by
  unfold RungeKuttaStep specStageState specClamp
  simp only [rkAccumulate_eq_spec]

theorem specWeightedSum_congr (cs : RungeKuttaCoefficientSet) (i : Nat)
    (k k1 : Nat → SolutionState) (vec_id : Fin 3) (item : Nat)
    (h : ∀ j, j < i → k1 j vec_id item = k j vec_id item) :
    specWeightedSum cs i k1 vec_id item = specWeightedSum cs i k vec_id item := by
  unfold specWeightedSum
  have : ∀ (l : List Nat) (S : ValueType), (∀ j, j ∈ l → j < i) →
      l.foldl (fun acc j => acc + cs.a i j * k1 j vec_id item) S
        = l.foldl (fun acc j => acc + cs.a i j * k j vec_id item) S := by
    intro l
    induction l with
    | nil => intro S _; rfl
    | cons j l ih =>
      intro S hl
      simp only [List.foldl_cons]
      rw [h j (hl j (List.mem_cons_self _ _)), ih _ (fun j1 hj1 => hl j1 (List.mem_cons_of_mem _ hj1))]
  exact this _ _ (fun j hj => List.mem_range.mp hj)

/-- The stage state `U*_i` at a cell reads the derivatives `k_j` at that cell for
`j < i` only. -/
theorem specStageState_congr (cs : RungeKuttaCoefficientSet) (i : Nat) (dt : ValueType)
    (U : SolutionState) (k k1 : Nat → SolutionState) (item : Nat)
    (h : ∀ j, j < i → ∀ w, k1 j w item = k j w item) (vec_id : Fin 3) :
    specStageState cs i dt U k1 vec_id item = specStageState cs i dt U k vec_id item := by
  unfold specStageState
  have : (fun w => U w item + dt * specWeightedSum cs i k1 w item)
      = (fun w => U w item + dt * specWeightedSum cs i k w item) := by
    funext w
    rw [specWeightedSum_congr cs i k k1 w item (fun j hj => h j hj w)]
  rw [this]

/-- A later stage leaves the earlier entries of the table alone. -/
theorem specStageDerivatives_stable (f : SolutionState → ValueType → SolutionState)
    (cs : RungeKuttaCoefficientSet) (t dt : ValueType) (U : SolutionState) (n m i : Nat)
    (hi : i < n) (hnm : n ≤ m) :
    specStageDerivatives f cs t dt U m i = specStageDerivatives f cs t dt U n i := by
  induction m with
  | zero => omega
  | succ m ih =>
    rcases Nat.eq_or_lt_of_le hnm with h | h
    · rw [h]
    · have hne : i ≠ m := by omega
      show (if i = m then _ else specStageDerivatives f cs t dt U m i) = _
      rw [if_neg hne]
      exact ih (by omega)

/-- The table satisfies the recurrence of the specification:
`k_i = f(U*_i, t + c[i]·Δt)` with `U*_i` formed from the table itself. -/
theorem specStageDerivatives_rec (f : SolutionState → ValueType → SolutionState)
    (cs : RungeKuttaCoefficientSet) (t dt : ValueType) (U : SolutionState) (n i : Nat)
    (hi : i < n) :
    specStageDerivatives f cs t dt U n i
      = f (specStageState cs i dt U (specStageDerivatives f cs t dt U n)) (t + cs.c i * dt) := by
  rw [specStageDerivatives_stable f cs t dt U (i + 1) n i (by omega) (by omega)]
  show (if i = i then _ else _) = _
  rw [if_pos rfl]
  have h : specStageState cs i dt U (specStageDerivatives f cs t dt U i)
      = specStageState cs i dt U (specStageDerivatives f cs t dt U n) := by
    funext w item
    exact (specStageState_congr cs i dt U (specStageDerivatives f cs t dt U i)
      (specStageDerivatives f cs t dt U n) item
      (fun j hj w1 => by rw [specStageDerivatives_stable f cs t dt U i n j hj (by omega)]) w).symm
  rw [h]

theorem update_Ustar_dUdt (B : Builtins) (s : RungeKuttaTemporalScheme) (step : Nat)
    (time_now timestep bdy_t0 bdy_t1 : ValueType) (i : Nat) :
    (s.update_Ustar B step time_now timestep bdy_t0 bdy_t1).dUdt_ i =
      if step < s.coeffs_.S ∧ i = step then
        (s.solver_.update_ddt B
          (parallel_for s.solver_.mesh_.cell_count
            (RungeKuttaStep s.coeffs_ step timestep s.U_ s.dUdt_) s.Ustar_)
          (s.dUdt_ step) (time_now + s.coeffs_.c step * timestep) timestep bdy_t0 bdy_t1).2
      else s.dUdt_ i := by
  unfold RungeKuttaTemporalScheme.update_Ustar
  by_cases h : step < s.coeffs_.S
  · rw [if_pos h]
    by_cases hi : i = step
    · rw [if_pos ⟨h, hi⟩]
      show (if i = step then _ else _) = _
      rw [if_pos hi]
    · rw [if_neg (fun hh => hi hh.2)]
      show (if i = step then _ else _) = _
      rw [if_neg hi]
  · rw [if_neg h, if_neg (fun hh => h hh.1)]

/-- After the passes `0 .. n-1` of `step`, at every cell of the mesh: the stored
derivatives are the `k_i` of the specification for `i < n`, and the candidate
is the stage state `U*_{n-1}`. -/
theorem foldl_update_Ustar_stages (B : Builtins) (s : RungeKuttaTemporalScheme)
    (t b0 b1 : ValueType) (dt : ℚ) (n : Nat) (hn : n ≤ s.coeffs_.S + 1) :
    ∀ c, c < s.solver_.mesh_.cell_count →
    (∀ i, i < n → i < s.coeffs_.S → ∀ v,
      ((List.range n).foldl
        (fun acc st => acc.update_Ustar B st t (num dt) b0 b1) s).dUdt_ i v c
        = specStageDerivatives (s.solver_.temporalDerivative B (num dt) b0 b1) s.coeffs_ t (num dt)
            s.U_ s.coeffs_.S i v c) ∧
    (∀ m, n = m + 1 → ∀ v,
      ((List.range n).foldl
        (fun acc st => acc.update_Ustar B st t (num dt) b0 b1) s).Ustar_ v c
        = specStageState s.coeffs_ m (num dt) s.U_
            (specStageDerivatives (s.solver_.temporalDerivative B (num dt) b0 b1) s.coeffs_ t
              (num dt) s.U_ s.coeffs_.S) v c) := by
  induction n with
  | zero =>
    exact fun c _ => ⟨fun i hi => absurd hi (Nat.not_lt_zero i), fun m hm => absurd hm (by omega)⟩
  | succ n ih =>
    have ih1 := ih (by omega)
    obtain ⟨hU, hcs, hmesh, hz, hmn, hQ, hh⟩ :=
      foldl_update_Ustar_const B t (num dt) b0 b1 (List.range n) s
    rw [List.range_succ, List.foldl_append]
    simp only [List.foldl_cons, List.foldl_nil]
    generalize (List.range n).foldl
      (fun acc st => acc.update_Ustar B st t (num dt) b0 b1) s = r at ih1 hU hcs hmesh hz hmn hQ hh ⊢
    have ihd := fun c hc => (ih1 c hc).1
    have hstar : ∀ c, c < s.solver_.mesh_.cell_count → ∀ v,
        parallel_for r.solver_.mesh_.cell_count
          (RungeKuttaStep r.coeffs_ n (num dt) r.U_ r.dUdt_) r.Ustar_ v c
        = specStageState s.coeffs_ n (num dt) s.U_
            (specStageDerivatives (s.solver_.temporalDerivative B (num dt) b0 b1) s.coeffs_ t
              (num dt) s.U_ s.coeffs_.S) v c := by
      intro c hc v
      unfold parallel_for
      rw [hmesh, if_pos hc, hcs, hU, RungeKuttaStep_eq_spec]
      exact specStageState_congr _ _ _ _ _ _ c (fun j hj w => ihd c hc j hj (by omega) w) v
    intro c hc
    refine ⟨fun i hi hiS v => ?_, fun m hm v => ?_⟩
    · rw [update_Ustar_dUdt]
      by_cases hin : i = n
      · rw [if_pos ⟨by rw [hcs, ← hin]; exact hiS, hin⟩, hin]
        rw [specStageDerivatives_rec _ _ _ _ _ _ n (by omega)]
        have ht : t + r.coeffs_.c n * num dt = t + s.coeffs_.c n * num dt := by rw [hcs]
        rw [ht]
        exact update_ddt_congr B s.solver_ r.solver_
          (specStageState s.coeffs_ n (num dt) s.U_
            (specStageDerivatives (s.solver_.temporalDerivative B (num dt) b0 b1) s.coeffs_ t
              (num dt) s.U_ s.coeffs_.S))
          (parallel_for r.solver_.mesh_.cell_count
            (RungeKuttaStep r.coeffs_ n (num dt) r.U_ r.dUdt_) r.Ustar_)
          (fun _ _ => num 0) (r.dUdt_ n) (t + s.coeffs_.c n * num dt) (num dt) b0 b1
          hmesh hz hmn hQ hh (fun c1 hc1 w => hstar c1 hc1 w) c hc v
      · rw [if_neg (fun hh1 => hin hh1.2)]
        exact ihd c hc i (by omega) hiS v
    · have hmn1 : m = n := by omega
      rw [hmn1, update_Ustar_Ustar]
      exact hstar c hc v

theorem zero_add_one_mul (x : ValueType) : num 0 + num 1 * x = x := by
  cases x
  · rfl
  · simp only [ValueType.num_mul, ValueType.num_add, one_mul, zero_add]

theorem add_mul_zero (x : ValueType) (dt : ℚ) : x + num dt * num 0 = x := by
  cases x
  · rfl
  · simp only [ValueType.num_mul, ValueType.num_add, mul_zero, add_zero]

theorem add_zero_mul (x : ValueType) (dt : ℚ) : x + num 0 * num dt = x := by
  cases x
  · rfl
  · simp only [ValueType.num_mul, ValueType.num_add, zero_mul, add_zero]

/-- C15: for every scheme object (any number of stages `S`, any coefficients, any
state) and every numeric step size, at every cell of the mesh: after the passes
`0 .. i` of `step`, `i ≤ S`, the candidate is the stage state
`U*_i = clamp(U + Δt · Σ_{j<i} a[i][j] · k_j)` of the specification; for `i < S`
the derivative is `k_i = f(U*_i, t + c[i]·Δt, Δt, t⁰_bdy, t¹_bdy)` and `step`
leaves it in `dUdt_[i]`; the candidate of `step` is `U*_S`; `step` leaves `U_`
as it was and `accept_step` puts the candidate there; with the Euler
coefficients the candidate is `clamp(U + Δt · f(clamp(U), t))`. -/
theorem C15_step_computes_the_stages (B : Builtins) (s : RungeKuttaTemporalScheme)
    (t b0 b1 : ValueType) (dt : ℚ) :
    (∀ i, i ≤ s.coeffs_.S → ∀ c, c < s.solver_.mesh_.cell_count → ∀ v,
      ((List.range (i + 1)).foldl
        (fun acc st => acc.update_Ustar B st t (num dt) b0 b1) s).Ustar_ v c
        = s.specStage B t (num dt) b0 b1 i v c) ∧
    (∀ i, i < s.coeffs_.S →
      s.specDerivatives B t (num dt) b0 b1 i
        = s.solver_.temporalDerivative B (num dt) b0 b1 (s.specStage B t (num dt) b0 b1 i)
            (t + s.coeffs_.c i * num dt) ∧
      ∀ c, c < s.solver_.mesh_.cell_count → ∀ v,
        (s.step B t (num dt) b0 b1).dUdt_ i v c = s.specDerivatives B t (num dt) b0 b1 i v c) ∧
    (∀ c, c < s.solver_.mesh_.cell_count → ∀ v,
      (s.step B t (num dt) b0 b1).Ustar_ v c = s.specStage B t (num dt) b0 b1 s.coeffs_.S v c) ∧
    (s.step B t (num dt) b0 b1).U_ = s.U_ ∧
    (s.step B t (num dt) b0 b1).accept_step.U_ = (s.step B t (num dt) b0 b1).Ustar_ ∧
    (s.coeffs_ = eulerCoeffs → ∀ c, c < s.solver_.mesh_.cell_count → ∀ v,
      (s.step B t (num dt) b0 b1).Ustar_ v c
        = specClamp (fun w => s.U_ w c + num dt *
            s.solver_.temporalDerivative B (num dt) b0 b1
              (fun w1 c1 => specClamp (fun w2 => s.U_ w2 c1) w1) t w c) v) := by
  have hstep : ∀ c, c < s.solver_.mesh_.cell_count → ∀ v,
      (s.step B t (num dt) b0 b1).Ustar_ v c = s.specStage B t (num dt) b0 b1 s.coeffs_.S v c :=
    fun c hc v =>
      (foldl_update_Ustar_stages B s t b0 b1 dt (s.coeffs_.S + 1) (le_refl _) c hc).2 _ rfl v
  have hrec : ∀ i, i < s.coeffs_.S →
      s.specDerivatives B t (num dt) b0 b1 i
        = s.solver_.temporalDerivative B (num dt) b0 b1 (s.specStage B t (num dt) b0 b1 i)
            (t + s.coeffs_.c i * num dt) :=
    fun i hi => specStageDerivatives_rec _ _ _ _ _ _ i hi
  refine ⟨fun i hi c hc v =>
      (foldl_update_Ustar_stages B s t b0 b1 dt (i + 1) (by omega) c hc).2 i rfl v,
    fun i hi => ⟨hrec i hi, fun c hc v =>
      (foldl_update_Ustar_stages B s t b0 b1 dt (s.coeffs_.S + 1) (le_refl _) c hc).1 i
        (by omega) hi v⟩,
    hstep, (step_const B s t (num dt) b0 b1).1, rfl, fun he c hc v => ?_⟩
  have hS : s.coeffs_.S = 1 := by rw [he]; rfl
  have h0 : s.specStage B t (num dt) b0 b1 0 = fun w1 c1 => specClamp (fun w2 => s.U_ w2 c1) w1 := by
    funext w1 c1
    unfold RungeKuttaTemporalScheme.specStage specStageState specWeightedSum
    simp only [List.range_zero, List.foldl_nil, add_mul_zero]
  have hk := hrec 0 (by omega)
  have hc0 : s.coeffs_.c 0 = num 0 := by rw [he]; rfl
  rw [h0, hc0, add_zero_mul] at hk
  rw [hstep c hc v, hS]
  unfold RungeKuttaTemporalScheme.specStage specStageState
  have ha : s.coeffs_.a 1 0 = num 1 := by rw [he]; rfl
  have hsum : ∀ w, specWeightedSum s.coeffs_ 1 (s.specDerivatives B t (num dt) b0 b1) w c
      = s.solver_.temporalDerivative B (num dt) b0 b1
          (fun w1 c1 => specClamp (fun w2 => s.U_ w2 c1) w1) t w c := by
    intro w
    unfold specWeightedSum
    show num 0 + s.coeffs_.a 1 0 * s.specDerivatives B t (num dt) b0 b1 0 w c = _
    rw [ha, zero_add_one_mul, hk]
  simp only [hsum]

theorem C15_step_computes_the_stages_witness :
    0 < fillingBasin.scheme.solver_.mesh_.cell_count ∧
    fillingBasin.scheme.coeffs_ = eulerCoeffs ∧
    (fillingBasin.scheme.step sampleBuiltins (num 0) (num 1) (num 0) (num 1)).Ustar_ 0 0
      = specClamp (fun w => fillingBasin.scheme.U_ w 0 + num 1 *
          fillingBasin.scheme.solver_.temporalDerivative sampleBuiltins (num 1) (num 0) (num 1)
            (fun w1 c1 => specClamp (fun w2 => fillingBasin.scheme.U_ w2 c1) w1) (num 0) w 0) 0 :=
  ⟨by decide, rfl,
    (C15_step_computes_the_stages sampleBuiltins fillingBasin.scheme (num 0) (num 0) (num 1)
      1).2.2.2.2.2 rfl 0 (by decide) 0⟩

/-! ## The control number -/

theorem controlNumberAt_eq_spec (B : Builtins) (mesh_ : Cartesian2DMesh) (U : SolutionState)
    (timestep : ValueType) (id : Nat) :
    controlNumberAt B mesh_ U timestep id = timestep * specCellRate B mesh_ U id := rfl

/-- The bracket at a cell is not negative when it is a number, on a mesh with
positive cell sizes and with a square root that is not negative. -/
theorem specCellRate_nonneg (B : Builtins) (mesh_ : Cartesian2DMesh) (U : SolutionState)
    (hdx : 0 < mesh_.cell_size_0) (hdy : 0 < mesh_.cell_size_1)
    (hsqrt : ∀ x, 0 ≤ x → 0 ≤ B.sqrt x) (id : Nat) (x : ℚ)
    (h : specCellRate B mesh_ U id = num x) : 0 ≤ x := by
  unfold specCellRate at h
  simp only at h
  have hh : ∃ d, 0 ≤ d ∧ ValueType.fmax (U 0 id) (num 0) = num d := by
    cases U 0 id with
    | nan => exact ⟨0, le_refl _, rfl⟩
    | num a => exact ⟨max a 0, le_max_right _ _, ValueType.fmax_num a 0⟩
  obtain ⟨d, hd, hd1⟩ := hh
  have h981 : (0 : ℚ) ≤ 981 / 100 * d := mul_nonneg (by norm_num) hd
  rw [hd1, ValueType.num_mul, ValueType.liftSqrt_num B.sqrt h981] at h
  cases hu : U 1 id with
  | nan => rw [hu] at h; simp at h
  | num u =>
    cases hv : U 2 id with
    | nan => rw [hv] at h; simp at h
    | num v =>
      rw [hu, hv] at h
      simp only [ValueType.fabs_num, ValueType.num_add,
        ValueType.num_div_of_ne _ (ne_of_gt hdx), ValueType.num_div_of_ne _ (ne_of_gt hdy)] at h
      have hx := ValueType.num.inj h
      have hc := hsqrt _ h981
      rw [← hx]
      exact add_nonneg (div_nonneg (add_nonneg (abs_nonneg u) hc) (le_of_lt hdx))
        (div_nonneg (add_nonneg (abs_nonneg v) hc) (le_of_lt hdy))

/-- The reduction with `maximum`, started from a number, ends at a number that
is not smaller. -/
theorem foldl_maximum_num (f : Nat → ValueType) (l : List Nat) (a : ℚ) :
    ∃ q, l.foldl (fun acc id => maximum acc (f id)) (num a) = num q ∧ a ≤ q := by
  induction l generalizing a with
  | nil => exact ⟨a, rfl, le_refl _⟩
  | cons id l ih =>
    simp only [List.foldl_cons]
    cases hf : f id with
    | nan =>
      have : maximum (num a) nan = num a := by simp [maximum]
      rw [this]
      exact ih a
    | num y =>
      by_cases hay : a < y
      · have : maximum (num a) (num y) = num y := by simp [maximum, hay]
        rw [this]
        obtain ⟨q, hq, hle⟩ := ih y
        exact ⟨q, hq, le_trans (le_of_lt hay) hle⟩
      · have : maximum (num a) (num y) = num a := by simp [maximum, hay]
        rw [this]
        exact ih a

/-- The running `fmax` started from a number stays a number. -/
theorem foldl_fmax_isNum (X : Nat → ValueType) (l : List Nat) (x : ℚ) :
    (l.foldl (fun acc id => ValueType.fmax acc (X id)) (num x)).IsNum := by
  induction l generalizing x with
  | nil => exact ⟨x, rfl⟩
  | cons id l ih =>
    simp only [List.foldl_cons]
    cases X id with
    | nan => rw [ValueType.fmax_nan_right]; exact ih x
    | num y => rw [ValueType.fmax_num]; exact ih _

/-- The reduction commutes with a step size that is not negative: the reduction
of `Δt · X` from `0` is `Δt` times the maximum of the numbers among the `X`. -/
theorem foldl_maximum_scale (dt : ℚ) (hdt : 0 ≤ dt) (X : Nat → ValueType) (l : List Nat)
    (hX : ∀ id, id ∈ l → ∀ x, X id = num x → 0 ≤ x) (a : ℚ) (m : ValueType)
    (hm : (m = nan ∧ a = 0) ∨ ∃ x, m = num x ∧ 0 ≤ x ∧ a = dt * x) :
    ∃ q, l.foldl (fun acc id => maximum acc (num dt * X id)) (num a) = num q ∧
      ((l.foldl (fun acc id => ValueType.fmax acc (X id)) m = nan ∧ ∀ id, id ∈ l → X id = nan) ∨
        ∃ x, l.foldl (fun acc id => ValueType.fmax acc (X id)) m = num x ∧ 0 ≤ x ∧ q = dt * x) := by
  induction l generalizing a m with
  | nil =>
    refine ⟨a, rfl, ?_⟩
    rcases hm with ⟨h1, _⟩ | h
    · exact Or.inl ⟨h1, fun id hid => absurd hid (List.not_mem_nil id)⟩
    · exact Or.inr h
  | cons id l ih =>
    simp only [List.foldl_cons]
    have hXl : ∀ id1, id1 ∈ l → ∀ x, X id1 = num x → 0 ≤ x :=
      fun id1 h1 => hX id1 (List.mem_cons_of_mem _ h1)
    cases hf : X id with
    | nan =>
      have e1 : maximum (num a) (num dt * nan) = num a := by simp [maximum]
      rw [e1, ValueType.fmax_nan_right]
      obtain ⟨q, hq, hr⟩ := ih hXl a m hm
      refine ⟨q, hq, ?_⟩
      rcases hr with ⟨h1, h2⟩ | h
      · refine Or.inl ⟨h1, fun id1 hid1 => ?_⟩
        rcases List.mem_cons.mp hid1 with h3 | h3
        · rw [h3]; exact hf
        · exact h2 id1 h3
      · exact Or.inr h
    | num y =>
      have hy : 0 ≤ y := hX id (List.mem_cons_self _ _) y hf
      have key : ∃ a1 x1, maximum (num a) (num dt * num y) = num a1 ∧
          ValueType.fmax m (num y) = num x1 ∧ 0 ≤ x1 ∧ a1 = dt * x1 := by
        rcases hm with ⟨h1, h2⟩ | ⟨x, h1, h2, h3⟩
        · refine ⟨dt * y, y, ?_, ?_, hy, rfl⟩
          · rw [h2, ValueType.num_mul]
            unfold maximum
            split_ifs with h4
            · rfl
            · simp only [ValueType.lt_num, decide_eq_true_eq, not_lt] at h4
              exact congrArg num (le_antisymm (mul_nonneg hdt hy) h4)
          · rw [h1, ValueType.fmax_nan_left]
        · refine ⟨dt * max x y, max x y, ?_, ?_, le_trans h2 (le_max_left _ _), rfl⟩
          · rw [h3, ValueType.num_mul]
            unfold maximum
            split_ifs with h4
            · simp only [ValueType.lt_num, decide_eq_true_eq] at h4
              have hxy : x ≤ y := by
                by_contra hc
                have := mul_le_mul_of_nonneg_left (le_of_lt (not_le.mp hc)) hdt
                linarith
              rw [max_eq_right hxy]
            · simp only [ValueType.lt_num, decide_eq_true_eq, not_lt] at h4
              rcases le_total x y with hxy | hxy
              · rw [max_eq_right hxy]
                exact congrArg num (le_antisymm (mul_le_mul_of_nonneg_left hxy hdt) h4)
              · rw [max_eq_left hxy]
          · rw [h1, ValueType.fmax_num]
      obtain ⟨a1, x1, e1, e2, hx1, ha1⟩ := key
      rw [e1, e2]
      obtain ⟨q, hq, hr⟩ := ih hXl a1 (num x1) (Or.inr ⟨x1, rfl, hx1, ha1⟩)
      refine ⟨q, hq, ?_⟩
      rcases hr with ⟨h1, _⟩ | h
      · exact Or.inr (by
          have hge := foldl_fmax_isNum X l x1
          rw [h1] at hge
          exact absurd hge (by rintro ⟨_, h⟩; cases h))
      · exact Or.inr h

theorem ratSqrt_nonneg (x : ℚ) : 0 ≤ ratSqrt x := by
  unfold ratSqrt
  exact div_nonneg (Nat.cast_nonneg _) (Nat.cast_nonneg _)

/-- The reduction is linear in a factor that is not negative. -/
theorem foldl_maximum_linear (l d : ℚ) (hl : 0 ≤ l) (X : Nat → ValueType) (ids : List Nat)
    (a : ℚ) :
    ids.foldl (fun acc id => maximum acc (num (l * d) * X id)) (num (l * a))
      = num l * ids.foldl (fun acc id => maximum acc (num d * X id)) (num a) := by
  induction ids generalizing a with
  | nil => rfl
  | cons id ids ih =>
    simp only [List.foldl_cons]
    cases X id with
    | nan =>
      have e1 : ∀ p q : ℚ, maximum (num p) (num q * nan) = num p := by
        intro p q; simp [maximum]
      rw [e1, e1]
      exact ih a
    | num x =>
      simp only [ValueType.num_mul]
      by_cases h : a < d * x
      · have e2 : maximum (num a) (num (d * x)) = num (d * x) := by simp [maximum, h]
        have e1 : maximum (num (l * a)) (num (l * d * x)) = num (l * (d * x)) := by
          unfold maximum
          split_ifs with h4
          · exact congrArg num (by ring)
          · simp only [ValueType.lt_num, decide_eq_true_eq, not_lt] at h4
            have h5 := mul_le_mul_of_nonneg_left (le_of_lt h) hl
            exact congrArg num (le_antisymm h5 (by linarith))
        rw [e1, e2]
        exact ih _
      · have e2 : maximum (num a) (num (d * x)) = num a := by simp [maximum, h]
        have e1 : maximum (num (l * a)) (num (l * d * x)) = num (l * a) := by
          unfold maximum
          rw [if_neg]
          simp only [ValueType.lt_num, decide_eq_true_eq, not_lt]
          have h5 := mul_le_mul_of_nonneg_left (not_lt.mp h) hl
          linarith
        rw [e1, e2]
        exact ih _

/-- The reduction from `0` over values that are `0` or `nan` stays at `0`. -/
theorem foldl_maximum_zero (f : Nat → ValueType) (l : List Nat)
    (h : ∀ id, id ∈ l → f id = nan ∨ f id = num 0) :
    l.foldl (fun acc id => maximum acc (f id)) (num 0) = num 0 := by
  induction l with
  | nil => rfl
  | cons id l ih =>
    simp only [List.foldl_cons]
    have e : maximum (num 0) (f id) = num 0 := by
      rcases h id (List.mem_cons_self _ _) with h1 | h1
      · rw [h1]; simp [maximum]
      · rw [h1]; simp [maximum]
    rw [e]
    exact ih (fun id1 h1 => h id1 (List.mem_cons_of_mem _ h1))

/-- At a dry cell at rest the cell value of the control number is `0`, or `nan`
when the step size or a quotient is. -/
theorem controlNumberAt_dry (B : Builtins) (mesh_ : Cartesian2DMesh) (U : SolutionState)
    (timestep : ValueType) (id : Nat) (hsq : B.sqrt 0 = 0)
    (h0 : U 0 id = num 0) (h1 : U 1 id = num 0) (h2 : U 2 id = num 0) :
    controlNumberAt B mesh_ U timestep id = nan ∨ controlNumberAt B mesh_ U timestep id = num 0 := by
  unfold controlNumberAt
  simp only [h0, h1, h2, ValueType.fmax_num, max_self, ValueType.num_mul, mul_zero,
    ValueType.liftSqrt_num B.sqrt (le_refl (0 : ℚ)), hsq, ValueType.fabs_num, abs_zero,
    ValueType.num_add, add_zero, ValueType.num_div, zero_div]
  by_cases hx : mesh_.cell_size_0 = 0
  · rw [if_pos hx]; left; simp
  · by_cases hy : mesh_.cell_size_1 = 0
    · rw [if_pos hy]; left; simp
    · rw [if_neg hx, if_neg hy]
      cases timestep with
      | nan => left; rfl
      | num d => right; simp

/-- C16: `get_control_number(U, Δt)` is `Δt` times the maximum over the cells of
`(|u|+c)/dx + (|v|+c)/dy`, `c = √(9.81·max(h,0))`, for a step size that is not
negative on a mesh with positive cell sizes and at least one cell where the
bracket is a number (the square root being not negative); the result is a
number `≥ 0` for every step size; it is `0` for a dry state at rest; and it is
linear in the step size: a factor `λ ≥ 0` on `Δt` is a factor `λ` on the result,
so that the result is `Δt` times the result for `Δt = 1`. -/
theorem C16_control_number (B : Builtins) (sv : SVSolver) (U : SolutionState) :
    (∀ dt : ℚ, 0 ≤ dt → 0 < sv.mesh_.cell_size_0 → 0 < sv.mesh_.cell_size_1 →
      (∀ x, 0 ≤ x → 0 ≤ B.sqrt x) →
      (∃ c, c < sv.mesh_.cell_count ∧ (specCellRate B sv.mesh_ U c).IsNum) →
      sv.get_control_number B U (num dt) = specControlNumber B sv.mesh_ U (num dt)) ∧
    (∀ timestep : ValueType, ∃ q, sv.get_control_number B U timestep = num q ∧ 0 ≤ q) ∧
    (∀ timestep : ValueType, B.sqrt 0 = 0 →
      (∀ c, c < sv.mesh_.cell_count → U 0 c = num 0 ∧ U 1 c = num 0 ∧ U 2 c = num 0) →
      sv.get_control_number B U timestep = num 0) ∧
    (∀ l dt : ℚ, 0 ≤ l →
      sv.get_control_number B U (num (l * dt)) = num l * sv.get_control_number B U (num dt)) ∧
    (∀ dt : ℚ, 0 ≤ dt →
      sv.get_control_number B U (num dt) = num dt * sv.get_control_number B U (num 1)) := by
  have hlin : ∀ l dt : ℚ, 0 ≤ l →
      sv.get_control_number B U (num (l * dt)) = num l * sv.get_control_number B U (num dt) := by
    intro l dt hl
    unfold SVSolver.get_control_number SVControlNumber.calculate
    have := foldl_maximum_linear l dt hl (specCellRate B sv.mesh_ U)
      (List.range sv.mesh_.cell_count) 0
    rw [mul_zero] at this
    exact this
  refine ⟨?_, ?_, ?_, hlin, ?_⟩
  · intro dt hdt hdx hdy hsqrt ⟨c, hc, x, hx⟩
    unfold SVSolver.get_control_number SVControlNumber.calculate specControlNumber specMaxOver
    rw [List.foldl_map]
    obtain ⟨q, hq, hr⟩ := foldl_maximum_scale dt hdt (specCellRate B sv.mesh_ U)
      (List.range sv.mesh_.cell_count)
      (fun id _ y hy => specCellRate_nonneg B sv.mesh_ U hdx hdy hsqrt id y hy) 0 nan
      (Or.inl ⟨rfl, rfl⟩)
    have hq1 : (List.range sv.mesh_.cell_count).foldl
        (fun acc id => maximum acc (controlNumberAt B sv.mesh_ U (num dt) id)) (num 0) = num q := hq
    rw [hq1]
    rcases hr with ⟨_, h2⟩ | ⟨y, h1, _, h3⟩
    · have := h2 c (List.mem_range.mpr hc)
      rw [hx] at this
      cases this
    · rw [h1, h3]
      rfl
  · intro timestep
    obtain ⟨q, hq, hle⟩ := foldl_maximum_num (controlNumberAt B sv.mesh_ U timestep)
      (List.range sv.mesh_.cell_count) 0
    exact ⟨q, hq, hle⟩
  · intro timestep hsq hdry
    exact foldl_maximum_zero _ _ (fun id hid =>
      controlNumberAt_dry B sv.mesh_ U timestep id hsq (hdry id (List.mem_range.mp hid)).1
        (hdry id (List.mem_range.mp hid)).2.1 (hdry id (List.mem_range.mp hid)).2.2)
  · intro dt hdt
    have := hlin dt 1 hdt
    rw [mul_one] at this
    exact this

theorem C16_control_number_witness :
    (0 : ℚ) ≤ 1 / 2 ∧ 0 < unitMesh.cell_size_0 ∧ 0 < unitMesh.cell_size_1 ∧
    specCellRate sampleBuiltins unitMesh wetCellAtRest 0 = num 2 ∧
    (closedSolver unitMesh (fun _ => num 0)).get_control_number sampleBuiltins wetCellAtRest
        (num (1 / 2))
      = specControlNumber sampleBuiltins unitMesh wetCellAtRest (num (1 / 2)) :=
  ⟨by norm_num, by decide!, by decide!, by decide!,
    (C16_control_number sampleBuiltins (closedSolver unitMesh (fun _ => num 0))
      wetCellAtRest).1 (1 / 2) (by norm_num) (by decide!) (by decide!)
      (fun x _ => ratSqrt_nonneg x) ⟨0, by decide, 2, by decide!⟩⟩

/-! ## Stage boundary and friction at a cell -/

/-- At a cell with a stage boundary held at `hb ≥ 0` over the interval, the rate
written for the depth is `hb - h`, whatever the face fluxes and the inflow
samples. -/
theorem stage_boundary_rate (B : Builtins) (mesh_ : Cartesian2DMesh) (U zb : FieldVector 3)
    (n : FieldVector 4) (Q_in h_in : FieldVector 2) (F : FieldVector 4) (t dt b0 b1 hb : ℚ)
    (c : Nat) (hb0 : 0 ≤ hb) (hb01 : b1 - b0 ≠ 0) (h0 : h_in 0 c = num hb)
    (h1 : h_in 1 c = num hb) :
    TemporalDerivativeKernel B mesh_ U zb n Q_in h_in F (num t) (num dt) (num b0) (num b1) c 0
      = num hb - U 0 c := by
  have e : (1 : ℚ) / 2 * (hb + (t - b0) * ((hb - hb) / (b1 - b0)) +
      (hb + (t - b0) * ((hb - hb) / (b1 - b0)) + dt * ((hb - hb) / (b1 - b0)))) = hb := by
    rw [sub_self, zero_div]
    ring
  unfold TemporalDerivativeKernel
  simp only [h0, h1, ValueType.lt_num, ValueType.num_sub, ValueType.num_div_of_ne _ hb01,
    ValueType.num_mul, ValueType.num_add, e, ValueType.ge_num, decide_eq_true_eq,
    not_lt.mpr hb0, hb0, decide_False, decide_True, if_true, Bool.false_eq_true, if_false]
  rfl

/-- C17 (failing input): the dry one-cell basin with the stage boundary
`h_in = 1/2`, the interval `[0, 1/2]`, `Co_target = 5` and the step size `1/2`.
The rate written for the cell is `h_target - h = 1/2`; the step is accepted and
`inner_loop` returns after this one step with the depth `1/4` at the cell, half
way to the target `1/2`.  With the step size `1` the depth after the step is the
target. -/
theorem C17_stage_boundary_not_reached :
    (stageBasin.step sampleBuiltins (num 0) (num (1 / 2)) (num 0) (num (1 / 2))).dUdt_ 0 0 0
      = num (1 / 2) ∧
    (∃ st, inner_loop sampleBuiltins (fun _ _ sv => sv) 1 stageBasin (num (1 / 2)) (num 5)
        (num 5) (num 0) (num (1 / 2)) = Outcome.returned st ∧
      st.inner_steps = 1 ∧ st.t_local = num (1 / 2) ∧ st.scheme.U_ 0 0 = num (1 / 4)) ∧
    (stageBasin.step sampleBuiltins (num 0) (num 1) (num 0) (num 1)).accept_step.U_ 0 0
      = num (1 / 2) :=
  ⟨by decide!,
    ⟨_, (inner_loop_iterate_one sampleBuiltins (num 5) (num 5) (num 0) (num (1 / 2)) _).trans
      (inner_loop_body_returns sampleBuiltins (num 5) (num 5) (num 0) (num (1 / 2)) _
        (by decide!) (by decide!)),
      rfl, by decide!, by decide!⟩,
    by decide!⟩

/-- A friction term with the sign of the estimate and not larger than it in
magnitude is replaced by zero. -/
theorem limitFriction_same_sign (f e : ℚ) (hs : ValueType.signRat f = ValueType.signRat e) (hle : |f| ≤ |e|) :
    limitFriction (num f) (num e) = num 0 := by
  unfold limitFriction
  simp only [ValueType.sign_num, ValueType.eq_num, hs, decide_True, Bool.true_and,
    ValueType.fabs_num, ValueType.gt_num, decide_eq_true_eq, not_lt.mpr hle, if_false, if_true,
    decide_False, Bool.false_eq_true]

/-- C18 (failing input): the one-cell closed basin with Manning's `n = 1/10`,
depth `1`, `u = 1`, `v = 0` and the step size `1/100`.  The cell is wet, the
friction slope is `10/1001`, so `g·s_f·u = 981/10010` has the sign of the
half-step estimate `u_est = 1` and is smaller; the limiter returns `0` for it,
and the rate `du/dt` written by `update_ddt` is `0`, the rate of the same basin
without roughness: no friction is subtracted. -/
theorem C18_friction_dropped :
    (movingWater 0 0).gt (num (1 / 1000000)) = true ∧
    frictionSlope sampleBuiltins movingWater roughSolver.manning_n_ 0 = num (10 / 1001) ∧
    num (981 / 100) * num (10 / 1001) * movingWater 1 0 = num (981 / 10010) ∧
    limitFriction (num (981 / 10010)) (num 1) = num 0 ∧
    applyFriction (movingWater 1 0) (num 0)
      (frictionSlope sampleBuiltins movingWater roughSolver.manning_n_ 0) (num (1 / 100)) = num 0 ∧
    (roughSolver.update_ddt sampleBuiltins movingWater (fun _ _ => num 0) (num 0) (num (1 / 100))
      (num 0) (num 1)).2 1 0 = num 0 ∧
    ((closedSolver unitMesh (fun _ => num 0)).update_ddt sampleBuiltins movingWater
      (fun _ _ => num 0) (num 0) (num (1 / 100)) (num 0) (num 1)).2 1 0 = num 0 :=
  ⟨by decide!, by decide!, by decide!, by decide!, by decide!, by decide!, by decide!⟩

/-! ## Cells within a polygon -/

theorem pairsFrom_map {α β : Type} (f : α → β) (prev : α) (l : List α) :
    pairsFrom (f prev) (l.map f) = (pairsFrom prev l).map (Prod.map f f) := by
  induction l generalizing prev with
  | nil => rfl
  | cons p rest ih =>
    simp only [List.map_cons, pairsFrom]
    rw [ih]
    rfl

theorem getLastD_map {α β : Type} (f : α → β) (d : α) (l : List α) :
    (l.map f).getLastD (f d) = f (l.getLastD d) := by
  induction l generalizing d with
  | nil => rfl
  | cons p rest ih =>
    simp only [List.map_cons, List.getLastD_cons]
    exact ih p

/-- The pairs visited on a ring of numeric points are the edges of the ring. -/
theorem visitedPairs_toLineString (ls : List (ℚ × ℚ)) :
    visitedPairs ((num 0, num 0) : Point) (toLineString ls)
      = (specEdges ls).map
          (Prod.map (fun p : ℚ × ℚ => ((num p.1, num p.2) : Point))
            (fun p : ℚ × ℚ => ((num p.1, num p.2) : Point))) := by
  unfold visitedPairs toLineString specEdges visitedPairs
  have h : (ls.map (fun p : ℚ × ℚ => ((num p.1, num p.2) : Point))).getLastD (num 0, num 0)
      = (fun p : ℚ × ℚ => ((num p.1, num p.2) : Point)) (ls.getLastD (0, 0)) :=
    getLastD_map (fun p : ℚ × ℚ => ((num p.1, num p.2) : Point)) (0, 0) ls
  rw [h]
  exact pairsFrom_map (fun p : ℚ × ℚ => ((num p.1, num p.2) : Point)) (ls.getLastD (0, 0)) ls

/-- The test of the scanline on numeric points is the half-open rule at the row
line `y0 + yi dy`. -/
theorem crossesRow_num (m : Cartesian2DMesh) (hdy : 0 < m.cell_size_1) (yi : Nat)
    (a b : ℚ × ℚ) :
    crossesRow m yi (num a.1, num a.2) (num b.1, num b.2)
      = specCrosses a b (m.origin_1 + (yi : ℚ) * m.cell_size_1) := by
  have hne : m.cell_size_1 ≠ 0 := ne_of_gt hdy
  have e1 : ∀ z : ℚ, (z - m.origin_1) / m.cell_size_1 < (yi : ℚ)
      ↔ z < m.origin_1 + (yi : ℚ) * m.cell_size_1 := by
    intro z
    rw [div_lt_iff₀ hdy]
    constructor <;> intro h <;> linarith
  have e2 : ∀ z : ℚ, (yi : ℚ) ≤ (z - m.origin_1) / m.cell_size_1
      ↔ m.origin_1 + (yi : ℚ) * m.cell_size_1 ≤ z := by
    intro z
    rw [le_div_iff₀ hdy]
    constructor <;> intro h <;> linarith
  unfold crossesRow specCrosses
  simp only [ValueType.num_sub, ValueType.num_div_of_ne _ hne, ValueType.lt_num,
    ValueType.ge_num, e1, e2]
  rw [Bool.eq_iff_iff]
  simp only [Bool.or_eq_true, Bool.and_eq_true, decide_eq_true_eq]

/-- The value converted for a crossing edge is the column coordinate
`(X - x0) / dx` of the crossing. -/
theorem crossingNode_num (m : Cartesian2DMesh) (hdx : 0 < m.cell_size_0)
    (hdy : 0 < m.cell_size_1) (yi : Nat) (a b : ℚ × ℚ) (hab : a.2 ≠ b.2) :
    crossingNode m yi (num a.1, num a.2) (num b.1, num b.2)
      = toSizeT (num ((specCrossingX a b (m.origin_1 + (yi : ℚ) * m.cell_size_1) - m.origin_0)
          / m.cell_size_0)) := by
  have hx : m.cell_size_0 ≠ 0 := ne_of_gt hdx
  have hy : m.cell_size_1 ≠ 0 := ne_of_gt hdy
  have hd : (b.2 - m.origin_1) / m.cell_size_1 - (a.2 - m.origin_1) / m.cell_size_1 ≠ 0 := by
    rw [← sub_div]
    intro h
    rcases div_eq_zero_iff.mp h with h1 | h1
    · exact hab (by linarith)
    · exact hy h1
  have hba : b.2 - a.2 ≠ 0 := fun h => hab (by linarith)
  unfold crossingNode
  simp only [ValueType.num_sub, ValueType.num_div_of_ne _ hx, ValueType.num_div_of_ne _ hy,
    ValueType.num_div_of_ne _ hd, ValueType.num_mul, ValueType.num_add]
  congr 2
  unfold specCrossingX
  field_simp
  ring

theorem specCrosses_ne (a b : ℚ × ℚ) (y : ℚ) (h : specCrosses a b y = true) : a.2 ≠ b.2 := by
  unfold specCrosses at h
  simp only [decide_eq_true_eq] at h
  intro hab
  rcases h with ⟨h1, h2⟩ | ⟨h1, h2⟩ <;> linarith

/-- The scanline loop on a ring of numeric points whose crossings of the row
line have columns in `(-1, 2^64)`: the nodes are the columns of the crossings,
in the order of the edges. -/
theorem scanRow_num (m : Cartesian2DMesh) (hdx : 0 < m.cell_size_0) (hdy : 0 < m.cell_size_1)
    (ls : List (ℚ × ℚ)) (yi : Nat)
    (hin : ∀ e, e ∈ specEdges ls →
      specCrosses e.1 e.2 (m.origin_1 + (yi : ℚ) * m.cell_size_1) = true →
      -1 < (specCrossingX e.1 e.2 (m.origin_1 + (yi : ℚ) * m.cell_size_1) - m.origin_0)
          / m.cell_size_0 ∧
      (specCrossingX e.1 e.2 (m.origin_1 + (yi : ℚ) * m.cell_size_1) - m.origin_0)
          / m.cell_size_0 < 2 ^ 64) :
    scanRow m (toLineString ls) yi = some (specRowColumns m ls yi) := by
  unfold scanRow specRowColumns
  rw [visitedPairs_toLineString, List.foldl_map]
  have key : ∀ (E : List ((ℚ × ℚ) × (ℚ × ℚ))) (acc : List Nat),
      (∀ e, e ∈ E → specCrosses e.1 e.2 (m.origin_1 + (yi : ℚ) * m.cell_size_1) = true →
        -1 < (specCrossingX e.1 e.2 (m.origin_1 + (yi : ℚ) * m.cell_size_1) - m.origin_0)
            / m.cell_size_0 ∧
        (specCrossingX e.1 e.2 (m.origin_1 + (yi : ℚ) * m.cell_size_1) - m.origin_0)
            / m.cell_size_0 < 2 ^ 64) →
      E.foldl
        (fun acc pr =>
          match acc with
          | none => none
          | some nodes =>
            if crossesRow m yi
                (Prod.map (fun p : ℚ × ℚ => ((num p.1, num p.2) : Point))
                  (fun p : ℚ × ℚ => ((num p.1, num p.2) : Point)) pr).1
                (Prod.map (fun p : ℚ × ℚ => ((num p.1, num p.2) : Point))
                  (fun p : ℚ × ℚ => ((num p.1, num p.2) : Point)) pr).2 then
              match crossingNode m yi
                (Prod.map (fun p : ℚ × ℚ => ((num p.1, num p.2) : Point))
                  (fun p : ℚ × ℚ => ((num p.1, num p.2) : Point)) pr).1
                (Prod.map (fun p : ℚ × ℚ => ((num p.1, num p.2) : Point))
                  (fun p : ℚ × ℚ => ((num p.1, num p.2) : Point)) pr).2 with
              | none => none
              | some n => some (nodes ++ [n])
            else some nodes)
        (some acc)
      = some (acc ++ (E.filter
          (fun e => specCrosses e.1 e.2 (m.origin_1 + (yi : ℚ) * m.cell_size_1))).map
        (fun e => Int.toNat ⌊(specCrossingX e.1 e.2 (m.origin_1 + (yi : ℚ) * m.cell_size_1)
          - m.origin_0) / m.cell_size_0⌋)) := by
    intro E
    induction E with
    | nil => intro acc _; simp
    | cons e E ih =>
      intro acc h
      have hE := fun e1 he1 => h e1 (List.mem_cons_of_mem _ he1)
      simp only [List.foldl_cons, Prod.map_fst, Prod.map_snd]
      rw [crossesRow_num m hdy yi e.1 e.2]
      by_cases hc : specCrosses e.1 e.2 (m.origin_1 + (yi : ℚ) * m.cell_size_1) = true
      · rw [if_pos hc, crossingNode_num m hdx hdy yi e.1 e.2 (specCrosses_ne _ _ _ hc)]
        have hr := h e (List.mem_cons_self _ _) hc
        unfold toSizeT
        simp only [hr.1, hr.2, and_self, if_true]
        have := ih (acc ++ [Int.toNat ⌊(specCrossingX e.1 e.2
          (m.origin_1 + (yi : ℚ) * m.cell_size_1) - m.origin_0) / m.cell_size_0⌋]) hE
        simp only [Prod.map_fst, Prod.map_snd] at this
        rw [this]
        simp [List.filter_cons, hc]
      · rw [if_neg hc]
        have := ih acc hE
        simp only [Prod.map_fst, Prod.map_snd] at this
        rw [this]
        simp [List.filter_cons, hc]
  have := key (specEdges ls) [] hin
  simpa using this

/-- Along a chain of points the number of edges that cross a horizontal line is
odd exactly when the two ends of the chain are on different sides. -/
theorem pairsFrom_crossings_parity (y : ℚ) (l : List (ℚ × ℚ)) (prev : ℚ × ℚ) :
    ((pairsFrom prev l).filter (fun e => specCrosses e.1 e.2 y)).length % 2
      = if decide (prev.2 < y) = decide ((l.getLastD prev).2 < y) then 0 else 1 := by
  induction l generalizing prev with
  | nil => simp [pairsFrom]
  | cons p rest ih =>
    simp only [pairsFrom, List.getLastD_cons]
    have hc : specCrosses p prev y = (decide (p.2 < y) != decide (prev.2 < y)) := by
      unfold specCrosses
      rw [Bool.eq_iff_iff]
      simp only [decide_eq_true_eq, bne_iff_ne, ne_eq, decide_eq_decide]
      constructor
      · rintro (⟨h1, h2⟩ | ⟨h1, h2⟩)
        · exact fun h => absurd (h.mp h1) (not_lt.mpr h2)
        · exact fun h => absurd (h.mpr h1) (not_lt.mpr h2)
      · intro h
        by_cases hp : p.2 < y
        · left
          exact ⟨hp, not_lt.mp (fun hq => h ⟨fun _ => hq, fun _ => hp⟩)⟩
        · right
          by_cases hq : prev.2 < y
          · exact ⟨hq, not_lt.mp hp⟩
          · exact absurd ⟨fun h1 => absurd h1 hp, fun h1 => absurd h1 hq⟩ h
    have ih1 := ih p
    by_cases h1 : specCrosses p prev y = true
    · have hf : (((p, prev) :: pairsFrom p rest).filter (fun e => specCrosses e.1 e.2 y)).length
          = ((pairsFrom p rest).filter (fun e => specCrosses e.1 e.2 y)).length + 1 := by
        simp [List.filter_cons, h1]
      rw [hf]
      rw [hc] at h1
      revert ih1 h1
      cases decide (p.2 < y) <;> cases decide (prev.2 < y) <;>
        cases decide ((rest.getLastD p).2 < y) <;> simp <;> omega
    · have hf : (((p, prev) :: pairsFrom p rest).filter (fun e => specCrosses e.1 e.2 y)).length
          = ((pairsFrom p rest).filter (fun e => specCrosses e.1 e.2 y)).length := by
        simp [List.filter_cons, h1]
      rw [hf]
      rw [hc] at h1
      revert ih1 h1
      cases decide (p.2 < y) <;> cases decide (prev.2 < y) <;>
        cases decide ((rest.getLastD p).2 < y) <;> simp

theorem getLastD_getLastD {α : Type} (d : α) (l : List α) :
    l.getLastD (l.getLastD d) = l.getLastD d := by
  cases l with
  | nil => rfl
  | cons p rest =>
    simp only [List.getLastD_cons]

/-- A ring crosses a horizontal line an even number of times. -/
theorem specRowColumns_even (m : Cartesian2DMesh) (ls : List (ℚ × ℚ)) (yi : Nat) :
    (specRowColumns m ls yi).length % 2 = 0 := by
  unfold specRowColumns specEdges visitedPairs
  rw [List.length_map, pairsFrom_crossings_parity, getLastD_getLastD, if_pos rfl]

theorem exchangeFrom_perm (a : Nat) (l : List Nat) : (exchangeFrom a l).Perm (a :: l) := by
  induction l generalizing a with
  | nil => exact List.Perm.refl _
  | cons b rest ih =>
    unfold exchangeFrom
    split_ifs
    · exact ((ih a).cons b).trans (List.Perm.swap a b rest)
    · exact (ih b).cons a

/-- The exchange loop rearranges the nodes. -/
theorem exchangePass_perm (l : List Nat) : (exchangePass l).Perm l := by
  cases l with
  | nil => exact List.Perm.refl _
  | cons a rest => exact exchangeFrom_perm a rest

/-- The spans of a sorted vector of an even number of nodes, all below
`ncells_[0]`: the cell `xi` is passed to `fn` exactly when an odd number of
nodes are `<= xi`. -/
theorem emitSpans_sorted (nx yi : Nat) : ∀ nodes : List Nat, nodes.Sorted (· ≤ ·) →
    nodes.length % 2 = 0 → (∀ n, n ∈ nodes → n < nx) →
    ∃ out, emitSpans nx yi nodes = some out ∧
      ∀ id, id ∈ out ↔ ∃ xi, xi < nx ∧ id = yi * nx + xi ∧
        (nodes.countP (fun n => decide (n ≤ xi))) % 2 = 1
  | [], _, _, _ => ⟨[], rfl, fun id => by simp⟩
  | [a], _, h, _ => absurd h (by simp)
  | a :: b :: rest, hs, hl, hlt => by
    have hs1 := List.sorted_cons.mp hs
    have hs2 := List.sorted_cons.mp hs1.2
    have hab : a ≤ b := hs1.1 b (List.mem_cons_self _ _)
    have ha : a < nx := hlt a (List.mem_cons_self _ _)
    have hb : b < nx := hlt b (List.mem_cons_of_mem _ (List.mem_cons_self _ _))
    obtain ⟨out, ho, hmem⟩ := emitSpans_sorted nx yi rest hs2.2
      (by simp only [List.length_cons] at hl; omega)
      (fun n hn => hlt n (List.mem_cons_of_mem _ (List.mem_cons_of_mem _ hn)))
    refine ⟨(List.range' a (b - a)).map (fun xi => yi * nx + xi) ++ out, ?_, fun id => ?_⟩
    · unfold emitSpans
      rw [if_neg (by omega), if_pos hb, ho]
      simp only [if_neg (show ¬ a > nx by omega), if_neg (show ¬ b ≥ nx by omega)]
    · have hcount : ∀ xi, ((a :: b :: rest).countP (fun n => decide (n ≤ xi)))
          = rest.countP (fun n => decide (n ≤ xi)) + (if b ≤ xi then 1 else 0)
            + (if a ≤ xi then 1 else 0) := by
        intro xi
        rw [List.countP_cons, List.countP_cons]
        simp only [decide_eq_true_eq]
      have hzero : ∀ xi, xi < b → rest.countP (fun n => decide (n ≤ xi)) = 0 := by
        intro xi hxi
        rw [List.countP_eq_zero]
        intro n hn
        have := hs2.1 n hn
        simp only [decide_eq_true_eq]
        omega
      rw [List.mem_append, List.mem_map]
      constructor
      · rintro (⟨xi, hxi, rfl⟩ | h)
        · rw [List.mem_range'_1] at hxi
          refine ⟨xi, by omega, rfl, ?_⟩
          rw [hcount, hzero xi (by omega), if_neg (by omega), if_pos hxi.1]
        · obtain ⟨xi, hxi, hid, hodd⟩ := (hmem id).mp h
          refine ⟨xi, hxi, hid, ?_⟩
          have hbx : b ≤ xi := by
            by_contra hc
            rw [hzero xi (by omega)] at hodd
            omega
          rw [hcount, if_pos hbx, if_pos (by omega)]
          omega
      · rintro ⟨xi, hxi, hid, hodd⟩
        rw [hcount] at hodd
        by_cases hbx : b ≤ xi
        · right
          rw [if_pos hbx, if_pos (by omega)] at hodd
          exact (hmem id).mpr ⟨xi, hxi, hid, by omega⟩
        · left
          rw [hzero xi (by omega), if_neg hbx] at hodd
          have hax : a ≤ xi := by
            by_contra hc
            rw [if_neg hc] at hodd
            omega
          exact ⟨xi, List.mem_range'_1.mpr ⟨hax, by omega⟩, hid.symm⟩

/-- The loop over the rows, when every row gives its ids: the ids passed to `fn`
are those of the rows. -/
theorem foldl_rows (f : Nat → Option (List Nat)) (P : Nat → Nat → Prop) (l : List Nat)
    (acc : List Nat)
    (h : ∀ yi, yi ∈ l → ∃ row, f yi = some row ∧ ∀ id, id ∈ row ↔ P yi id) :
    ∃ out, l.foldl
        (fun acc yi =>
          match acc with
          | none => none
          | some out =>
            match f yi with
            | none => none
            | some row => some (out ++ row))
        (some acc) = some out ∧
      ∀ id, id ∈ out ↔ id ∈ acc ∨ ∃ yi, yi ∈ l ∧ P yi id := by
  induction l generalizing acc with
  | nil => exact ⟨acc, rfl, fun id => by simp⟩
  | cons yi l ih =>
    obtain ⟨row, hrow, hP⟩ := h yi (List.mem_cons_self _ _)
    obtain ⟨out, hout, hmem⟩ := ih (acc ++ row) (fun y hy => h y (List.mem_cons_of_mem _ hy))
    refine ⟨out, ?_, fun id => ?_⟩
    · simp only [List.foldl_cons, hrow]
      exact hout
    · rw [hmem id, List.mem_append, hP id]
      constructor
      · rintro ((h1 | h1) | ⟨y, hy, h1⟩)
        · exact Or.inl h1
        · exact Or.inr ⟨yi, List.mem_cons_self _ _, h1⟩
        · exact Or.inr ⟨y, List.mem_cons_of_mem _ hy, h1⟩
      · rintro (h1 | ⟨y, hy, h1⟩)
        · exact Or.inl (Or.inl h1)
        · rcases List.mem_cons.mp hy with h2 | h2
          · rw [h2] at h1
            exact Or.inl (Or.inr h1)
          · exact Or.inr ⟨y, h2, h1⟩

/-- The truncated column is `<= xi` exactly when the crossing is left of
`xi + 1`. -/
theorem toNat_floor_le (q : ℚ) (xi : Nat) : Int.toNat ⌊q⌋ ≤ xi ↔ q < (xi : ℚ) + 1 := by
  rw [Int.toNat_le]
  have h : ⌊q⌋ ≤ (xi : ℤ) ↔ ⌊q⌋ < (xi : ℤ) + 1 := by omega
  rw [h, Int.floor_lt]
  push_cast
  exact Iff.rfl

theorem emitRow_false (m : Cartesian2DMesh) (ls : LineString) (yi : Nat) (nodes : List Nat)
    (h : scanRow m ls yi = some nodes) :
    emitRow m ls false yi = emitSpans m.ncells_0 yi (exchangePass nodes) := by
  unfold emitRow
  rw [h]
  cases nodes with
  | nil => rfl
  | cons a rest => rfl

theorem specCrosses_symm (a b : ℚ × ℚ) (y : ℚ) : specCrosses a b y = specCrosses b a y := by
  unfold specCrosses
  rw [Bool.eq_iff_iff]
  simp only [decide_eq_true_eq]
  exact Or.comm

theorem specCrossingX_symm (a b : ℚ × ℚ) (y : ℚ) (hab : a.2 ≠ b.2) :
    specCrossingX a b y = specCrossingX b a y := by
  unfold specCrossingX
  have h1 : b.2 - a.2 ≠ 0 := fun h => hab (by linarith)
  have h2 : a.2 - b.2 ≠ 0 := fun h => hab (by linarith)
  field_simp
  ring

/-- A ring of fewer than three points has no inside. -/
theorem specInside_sliver (ls : List (ℚ × ℚ)) (p : ℚ × ℚ) (h : ls.length < 3) :
    specInside ls p = false := by
  unfold specInside specEdges visitedPairs
  rw [decide_eq_false_iff_not]
  match ls, h with
  | [], _ => simp [pairsFrom]
  | [a], _ =>
    have hc : specCrosses a a p.2 = false := by
      unfold specCrosses
      rw [decide_eq_false_iff_not]
      rintro (⟨h1, h2⟩ | ⟨h1, h2⟩) <;> linarith
    simp [pairsFrom, List.countP_cons, hc]
  | [a, b], _ =>
    simp only [List.getLastD_cons, List.getLastD_nil, pairsFrom, List.countP_cons,
      List.countP_nil]
    by_cases hc : specCrosses a b p.2 = true
    · have hab := specCrosses_ne a b p.2 hc
      rw [← specCrosses_symm a b, ← specCrossingX_symm a b p.2 hab]
      generalize (specCrosses a b p.2 && decide (specCrossingX a b p.2 < p.1)) = c
      cases c <;> decide
    · rw [← specCrosses_symm a b]
      simp only [hc, Bool.false_and, Bool.false_eq_true, if_false]
      decide

/-- The number of nodes `<= xi` in the row `yi` is the number of edges that
cross the row line to the left of the sampled corner of the cell `(xi, yi)`. -/
theorem columns_count (m : Cartesian2DMesh) (ls : List (ℚ × ℚ)) (hdx : 0 < m.cell_size_0)
    (yi xi : Nat) :
    (exchangePass (specRowColumns m ls yi)).countP (fun n => decide (n ≤ xi))
      = (specEdges ls).countP
          (fun e => specCrosses e.1 e.2 (sampledCorner m xi yi).2 &&
            decide (specCrossingX e.1 e.2 (sampledCorner m xi yi).2
              < (sampledCorner m xi yi).1)) := by
  rw [(exchangePass_perm _).countP_eq]
  unfold specRowColumns
  rw [List.countP_map, List.countP_filter]
  apply List.countP_congr
  intro e _
  simp only [Function.comp_apply, Bool.and_eq_true, decide_eq_true_eq, sampledCorner]
  rw [toNat_floor_le, div_lt_iff₀ hdx]
  constructor
  · rintro ⟨h1, h2⟩
    exact ⟨h2, by linarith⟩
  · rintro ⟨h1, h2⟩
    exact ⟨by linarith, h1⟩

theorem specInside_corner_iff (m : Cartesian2DMesh) (ls : List (ℚ × ℚ))
    (hdx : 0 < m.cell_size_0) (yi xi : Nat) :
    specInside ls (sampledCorner m xi yi) = true
      ↔ (exchangePass (specRowColumns m ls yi)).countP (fun n => decide (n ≤ xi)) % 2 = 1 := by
  unfold specInside
  rw [decide_eq_true_eq, ← columns_count m ls hdx]

/-- The scanline loop on a ring that crosses the row line within the extent of
the mesh: the nodes are the columns of the crossings, all below `ncells_[0]`. -/
theorem scanRow_within (m : Cartesian2DMesh) (ls : List (ℚ × ℚ))
    (hdx : 0 < m.cell_size_0) (hdy : 0 < m.cell_size_1) (hnx : m.ncells_0 < 2 ^ 64) (yi : Nat)
    (hin : ∀ e, e ∈ specEdges ls →
      specCrosses e.1 e.2 (m.origin_1 + (yi : ℚ) * m.cell_size_1) = true →
      m.origin_0 ≤ specCrossingX e.1 e.2 (m.origin_1 + (yi : ℚ) * m.cell_size_1) ∧
      specCrossingX e.1 e.2 (m.origin_1 + (yi : ℚ) * m.cell_size_1)
        < m.origin_0 + (m.ncells_0 : ℚ) * m.cell_size_0) :
    scanRow m (toLineString ls) yi = some (specRowColumns m ls yi) ∧
    ∀ n, n ∈ exchangePass (specRowColumns m ls yi) → n < m.ncells_0 := by
  have hcol : ∀ e, e ∈ specEdges ls →
      specCrosses e.1 e.2 (m.origin_1 + (yi : ℚ) * m.cell_size_1) = true →
      0 ≤ (specCrossingX e.1 e.2 (m.origin_1 + (yi : ℚ) * m.cell_size_1) - m.origin_0)
          / m.cell_size_0 ∧
      (specCrossingX e.1 e.2 (m.origin_1 + (yi : ℚ) * m.cell_size_1) - m.origin_0)
          / m.cell_size_0 < (m.ncells_0 : ℚ) := by
    intro e he hc
    obtain ⟨h1, h2⟩ := hin e he hc
    exact ⟨div_nonneg (by linarith) (le_of_lt hdx), by rw [div_lt_iff₀ hdx]; linarith⟩
  have hnxq : (m.ncells_0 : ℚ) < 2 ^ 64 := by exact_mod_cast hnx
  refine ⟨scanRow_num m hdx hdy ls yi (fun e he hc =>
    ⟨by linarith [(hcol e he hc).1], lt_trans (hcol e he hc).2 hnxq⟩), ?_⟩
  intro n hn
  rw [(exchangePass_perm _).mem_iff] at hn
  unfold specRowColumns at hn
  obtain ⟨e, he, rfl⟩ := List.mem_map.mp hn
  obtain ⟨he1, he2⟩ := List.mem_filter.mp he
  obtain ⟨h1, h2⟩ := hcol e he1 he2
  have hpos : 0 < m.ncells_0 := by
    have : (0 : ℚ) < (m.ncells_0 : ℚ) := lt_of_le_of_lt h1 h2
    exact_mod_cast this
  have := (toNat_floor_le ((specCrossingX e.1 e.2
    (m.origin_1 + (yi : ℚ) * m.cell_size_1) - m.origin_0) / m.cell_size_0)
    (m.ncells_0 - 1)).mpr (by
      have hc : ((m.ncells_0 - 1 : ℕ) : ℚ) + 1 = (m.ncells_0 : ℚ) := by
        have : m.ncells_0 - 1 + 1 = m.ncells_0 := by omega
        exact_mod_cast this
      rw [hc]
      exact h2)
  omega

/-- The row `yi` for `inverted = false`, on a ring of numeric points that crosses
the row line within the mesh and whose nodes the exchange loop leaves sorted:
the cells passed to `fn` are those whose sampled corner is inside the ring. -/
theorem emitRow_corner (m : Cartesian2DMesh) (ls : List (ℚ × ℚ))
    (hdx : 0 < m.cell_size_0) (hdy : 0 < m.cell_size_1) (hnx : m.ncells_0 < 2 ^ 64) (yi : Nat)
    (hin : ∀ e, e ∈ specEdges ls →
      specCrosses e.1 e.2 (m.origin_1 + (yi : ℚ) * m.cell_size_1) = true →
      m.origin_0 ≤ specCrossingX e.1 e.2 (m.origin_1 + (yi : ℚ) * m.cell_size_1) ∧
      specCrossingX e.1 e.2 (m.origin_1 + (yi : ℚ) * m.cell_size_1)
        < m.origin_0 + (m.ncells_0 : ℚ) * m.cell_size_0)
    (hsorted : (exchangePass (specRowColumns m ls yi)).Sorted (· ≤ ·)) :
    ∃ row, emitRow m (toLineString ls) false yi = some row ∧
      ∀ id, id ∈ row ↔ ∃ xi, xi < m.ncells_0 ∧ id = yi * m.ncells_0 + xi ∧
        specInside ls (sampledCorner m xi yi) = true := by
  obtain ⟨hscan, hlt⟩ := scanRow_within m ls hdx hdy hnx yi hin
  rw [emitRow_false _ _ _ _ hscan]
  obtain ⟨out, ho, hmem⟩ := emitSpans_sorted m.ncells_0 yi _ hsorted
    (by rw [(exchangePass_perm _).length_eq]; exact specRowColumns_even m ls yi) hlt
  refine ⟨out, ho, fun id => ?_⟩
  rw [hmem id]
  constructor
  · rintro ⟨xi, hxi, hid, hodd⟩
    exact ⟨xi, hxi, hid, (specInside_corner_iff m ls hdx yi xi).mpr hodd⟩
  · rintro ⟨xi, hxi, hid, hin1⟩
    exact ⟨xi, hxi, hid, (specInside_corner_iff m ls hdx yi xi).mp hin1⟩

/-- The inner loop of the inverted branch on a sorted vector of an even number of
nodes: the cell `xi` is within a span exactly when an odd number of nodes are
`<= xi`. -/
theorem withinSpans_sorted (xi : Nat) : ∀ nodes : List Nat, nodes.Sorted (· ≤ ·) →
    nodes.length % 2 = 0 →
    withinSpans xi nodes = some (decide ((nodes.countP (fun n => decide (n ≤ xi))) % 2 = 1))
  | [], _, _ => rfl
  | [a], _, h => absurd h (by simp)
  | a :: b :: rest, hs, hl => by
    have hs1 := List.sorted_cons.mp hs
    have hs2 := List.sorted_cons.mp hs1.2
    have hab : a ≤ b := hs1.1 b (List.mem_cons_self _ _)
    have ih := withinSpans_sorted xi rest hs2.2 (by simp only [List.length_cons] at hl; omega)
    have hcount : ((a :: b :: rest).countP (fun n => decide (n ≤ xi)))
        = rest.countP (fun n => decide (n ≤ xi)) + (if b ≤ xi then 1 else 0)
          + (if a ≤ xi then 1 else 0) := by
      rw [List.countP_cons, List.countP_cons]
      simp only [decide_eq_true_eq]
    have hzero : xi < b → rest.countP (fun n => decide (n ≤ xi)) = 0 := by
      intro hxi
      rw [List.countP_eq_zero]
      intro n hn
      have := hs2.1 n hn
      simp only [decide_eq_true_eq]
      omega
    unfold withinSpans
    rw [hcount]
    by_cases h1 : xi ≥ a ∧ xi < b
    · rw [if_pos h1, hzero h1.2, if_neg (by omega), if_pos h1.1]
      rfl
    · rw [if_neg h1, ih]
      congr 1
      rw [decide_eq_decide]
      by_cases hbx : b ≤ xi
      · rw [if_pos hbx, if_pos (by omega)]
        omega
      · rw [hzero (by omega), if_neg hbx, if_neg (by omega)]

/-- The inverted branch on a sorted vector of an even number of nodes: the cell
`xi` of the row is passed to `fn` exactly when an even number of nodes are
`<= xi`. -/
theorem emitOutside_sorted (nx yi : Nat) (nodes : List Nat) (hs : nodes.Sorted (· ≤ ·))
    (hl : nodes.length % 2 = 0) :
    ∃ out, emitOutside nx yi nodes = some out ∧
      ∀ id, id ∈ out ↔ ∃ xi, xi < nx ∧ id = yi * nx + xi ∧
        ¬ (nodes.countP (fun n => decide (n ≤ xi))) % 2 = 1 := by
  have key : ∀ (l : List Nat) (acc : List Nat),
      ∃ out, l.foldl
          (fun acc xi =>
            match acc with
            | none => none
            | some out =>
              match withinSpans xi nodes with
              | none => none
              | some true => some out
              | some false => some (out ++ [yi * nx + xi]))
          (some acc) = some out ∧
        ∀ id, id ∈ out ↔ id ∈ acc ∨ ∃ xi, xi ∈ l ∧ id = yi * nx + xi ∧
          ¬ (nodes.countP (fun n => decide (n ≤ xi))) % 2 = 1 := by
    intro l
    induction l with
    | nil => exact fun acc => ⟨acc, rfl, fun id => by simp⟩
    | cons xi l ih =>
      intro acc
      simp only [List.foldl_cons, withinSpans_sorted xi nodes hs hl]
      by_cases hodd : (nodes.countP (fun n => decide (n ≤ xi))) % 2 = 1
      · simp only [hodd, decide_True]
        obtain ⟨out, ho, hmem⟩ := ih acc
        refine ⟨out, ho, fun id => ?_⟩
        rw [hmem id]
        constructor
        · rintro (h | ⟨x, hx, h1, h2⟩)
          · exact Or.inl h
          · exact Or.inr ⟨x, List.mem_cons_of_mem _ hx, h1, h2⟩
        · rintro (h | ⟨x, hx, h1, h2⟩)
          · exact Or.inl h
          · rcases List.mem_cons.mp hx with h3 | h3
            · rw [h3] at h2
              exact absurd hodd h2
            · exact Or.inr ⟨x, h3, h1, h2⟩
      · simp only [hodd, decide_False]
        obtain ⟨out, ho, hmem⟩ := ih (acc ++ [yi * nx + xi])
        refine ⟨out, ho, fun id => ?_⟩
        rw [hmem id, List.mem_append, List.mem_singleton]
        constructor
        · rintro ((h | h) | ⟨x, hx, h1, h2⟩)
          · exact Or.inl h
          · exact Or.inr ⟨xi, List.mem_cons_self _ _, h, hodd⟩
          · exact Or.inr ⟨x, List.mem_cons_of_mem _ hx, h1, h2⟩
        · rintro (h | ⟨x, hx, h1, h2⟩)
          · exact Or.inl (Or.inl h)
          · rcases List.mem_cons.mp hx with h3 | h3
            · rw [h3] at h1
              exact Or.inl (Or.inr h1)
            · exact Or.inr ⟨x, h3, h1, h2⟩
  obtain ⟨out, ho, hmem⟩ := key (List.range nx) []
  refine ⟨out, ho, fun id => ?_⟩
  rw [hmem id]
  constructor
  · rintro (h | ⟨x, hx, h1, h2⟩)
    · exact absurd h (List.not_mem_nil id)
    · exact ⟨x, List.mem_range.mp hx, h1, h2⟩
  · rintro ⟨x, hx, h1, h2⟩
    exact Or.inr ⟨x, List.mem_range.mpr hx, h1, h2⟩

/-- The row `yi` for `inverted = true`, under the conditions of `emitRow_corner`:
the cells passed to `fn` are those whose sampled corner is not inside the
ring. -/
theorem emitRow_outside_corner (m : Cartesian2DMesh) (ls : List (ℚ × ℚ))
    (hdx : 0 < m.cell_size_0) (hdy : 0 < m.cell_size_1) (hnx : m.ncells_0 < 2 ^ 64) (yi : Nat)
    (hin : ∀ e, e ∈ specEdges ls →
      specCrosses e.1 e.2 (m.origin_1 + (yi : ℚ) * m.cell_size_1) = true →
      m.origin_0 ≤ specCrossingX e.1 e.2 (m.origin_1 + (yi : ℚ) * m.cell_size_1) ∧
      specCrossingX e.1 e.2 (m.origin_1 + (yi : ℚ) * m.cell_size_1)
        < m.origin_0 + (m.ncells_0 : ℚ) * m.cell_size_0)
    (hsorted : (exchangePass (specRowColumns m ls yi)).Sorted (· ≤ ·)) :
    ∃ row, emitRow m (toLineString ls) true yi = some row ∧
      ∀ id, id ∈ row ↔ ∃ xi, xi < m.ncells_0 ∧ id = yi * m.ncells_0 + xi ∧
        specInside ls (sampledCorner m xi yi) = false := by
  obtain ⟨hscan, -⟩ := scanRow_within m ls hdx hdy hnx yi hin
  have hfalse : ∀ xi, specInside ls (sampledCorner m xi yi) = false
      ↔ ¬ (exchangePass (specRowColumns m ls yi)).countP (fun n => decide (n ≤ xi)) % 2 = 1 := by
    intro xi
    rw [← specInside_corner_iff m ls hdx yi xi, Bool.not_eq_true]
  unfold emitRow
  rw [hscan]
  cases hcols : specRowColumns m ls yi with
  | nil =>
    refine ⟨_, rfl, fun id => ?_⟩
    rw [List.mem_map]
    constructor
    · rintro ⟨xi, hxi, rfl⟩
      refine ⟨xi, List.mem_range.mp hxi, rfl, ?_⟩
      rw [hfalse, hcols]
      simp [exchangePass]
    · rintro ⟨xi, hxi, hid, _⟩
      exact ⟨xi, List.mem_range.mpr hxi, hid.symm⟩
  | cons a rest =>
    rw [hcols] at hsorted
    obtain ⟨out, ho, hmem⟩ := emitOutside_sorted m.ncells_0 yi _ hsorted
      (by rw [(exchangePass_perm _).length_eq, ← hcols]; exact specRowColumns_even m ls yi)
    refine ⟨out, ho, fun id => ?_⟩
    rw [hmem id]
    constructor
    · rintro ⟨xi, hxi, hid, hodd⟩
      refine ⟨xi, hxi, hid, ?_⟩
      rw [hfalse, hcols]
      exact hodd
    · rintro ⟨xi, hxi, hid, hin1⟩
      refine ⟨xi, hxi, hid, ?_⟩
      rw [hfalse, hcols] at hin1
      exact hin1

/-- The method for `inverted = false` on a ring that crosses every row line
within the mesh and whose nodes the exchange loop leaves sorted: it returns, and
the ids passed to `fn` are the cells whose sampled corner is inside the ring. -/
theorem within_selects_corners (m : Cartesian2DMesh) (ls : List (ℚ × ℚ))
    (hdx : 0 < m.cell_size_0) (hdy : 0 < m.cell_size_1) (hnx : m.ncells_0 < 2 ^ 64)
    (hin : ∀ yi, yi < m.ncells_1 → ∀ e, e ∈ specEdges ls →
      specCrosses e.1 e.2 (m.origin_1 + (yi : ℚ) * m.cell_size_1) = true →
      m.origin_0 ≤ specCrossingX e.1 e.2 (m.origin_1 + (yi : ℚ) * m.cell_size_1) ∧
      specCrossingX e.1 e.2 (m.origin_1 + (yi : ℚ) * m.cell_size_1)
        < m.origin_0 + (m.ncells_0 : ℚ) * m.cell_size_0)
    (hsorted : ∀ yi, yi < m.ncells_1 →
      (exchangePass (specRowColumns m ls yi)).Sorted (· ≤ ·)) :
    ∃ out, for_each_object_within m [toLineString ls] false = some out ∧
      ∀ id, id ∈ out ↔ ∃ ix iy, ix < m.ncells_0 ∧ iy < m.ncells_1 ∧
        id = iy * m.ncells_0 + ix ∧ specInside ls (sampledCorner m ix iy) = true := by
  by_cases hlen : ls.length < 3
  · refine ⟨[], ?_, fun id => ?_⟩
    · unfold for_each_object_within
      simp only [toLineString, List.length_map, hlen, if_true]
    · constructor
      · intro h
        exact absurd h (List.not_mem_nil id)
      · rintro ⟨ix, iy, _, _, _, h⟩
        rw [specInside_sliver ls _ hlen] at h
        exact absurd h Bool.false_ne_true
  · obtain ⟨out, ho, hmem⟩ := foldl_rows (emitRow m (toLineString ls) false)
      (fun yi id => ∃ xi, xi < m.ncells_0 ∧ id = yi * m.ncells_0 + xi ∧
        specInside ls (sampledCorner m xi yi) = true)
      (List.range m.ncells_1) []
      (fun yi hyi => emitRow_corner m ls hdx hdy hnx yi
        (hin yi (List.mem_range.mp hyi)) (hsorted yi (List.mem_range.mp hyi)))
    refine ⟨out, ?_, fun id => ?_⟩
    · unfold for_each_object_within
      simp only [toLineString, List.length_map, hlen, if_false]
      exact ho
    · rw [hmem id]
      constructor
      · rintro (h | ⟨yi, hyi, xi, hxi, hid, hins⟩)
        · exact absurd h (List.not_mem_nil id)
        · exact ⟨xi, yi, hxi, List.mem_range.mp hyi, hid, hins⟩
      · rintro ⟨xi, yi, hxi, hyi, hid, hins⟩
        exact Or.inr ⟨yi, List.mem_range.mpr hyi, xi, hxi, hid, hins⟩

/-- The method for `inverted = true` on a ring of at least three points, under
the conditions of `within_selects_corners`: it returns, and the ids passed to
`fn` are the cells whose sampled corner is not inside the ring. -/
theorem inverted_selects_the_rest (m : Cartesian2DMesh) (ls : List (ℚ × ℚ))
    (hdx : 0 < m.cell_size_0) (hdy : 0 < m.cell_size_1) (hnx : m.ncells_0 < 2 ^ 64)
    (hlen : 3 ≤ ls.length)
    (hin : ∀ yi, yi < m.ncells_1 → ∀ e, e ∈ specEdges ls →
      specCrosses e.1 e.2 (m.origin_1 + (yi : ℚ) * m.cell_size_1) = true →
      m.origin_0 ≤ specCrossingX e.1 e.2 (m.origin_1 + (yi : ℚ) * m.cell_size_1) ∧
      specCrossingX e.1 e.2 (m.origin_1 + (yi : ℚ) * m.cell_size_1)
        < m.origin_0 + (m.ncells_0 : ℚ) * m.cell_size_0)
    (hsorted : ∀ yi, yi < m.ncells_1 →
      (exchangePass (specRowColumns m ls yi)).Sorted (· ≤ ·)) :
    ∃ out, for_each_object_within m [toLineString ls] true = some out ∧
      ∀ id, id ∈ out ↔ ∃ ix iy, ix < m.ncells_0 ∧ iy < m.ncells_1 ∧
        id = iy * m.ncells_0 + ix ∧ specInside ls (sampledCorner m ix iy) = false := by
  obtain ⟨out, ho, hmem⟩ := foldl_rows (emitRow m (toLineString ls) true)
    (fun yi id => ∃ xi, xi < m.ncells_0 ∧ id = yi * m.ncells_0 + xi ∧
      specInside ls (sampledCorner m xi yi) = false)
    (List.range m.ncells_1) []
    (fun yi hyi => emitRow_outside_corner m ls hdx hdy hnx yi
      (hin yi (List.mem_range.mp hyi)) (hsorted yi (List.mem_range.mp hyi)))
  refine ⟨out, ?_, fun id => ?_⟩
  · unfold for_each_object_within
    simp only [toLineString, List.length_map, not_lt.mpr hlen, if_false]
    exact ho
  · rw [hmem id]
    constructor
    · rintro (h | ⟨yi, hyi, xi, hxi, hid, hins⟩)
      · exact absurd h (List.not_mem_nil id)
      · exact ⟨xi, yi, hxi, List.mem_range.mp hyi, hid, hins⟩
    · rintro ⟨xi, yi, hxi, hyi, hid, hins⟩
      exact Or.inr ⟨yi, List.mem_range.mpr hyi, xi, hxi, hid, hins⟩

/-- A cell id determines its column and row. -/
theorem cell_id_unique (nx ix iy jx jy : Nat) (hi : ix < nx) (hj : jx < nx)
    (h : iy * nx + ix = jy * nx + jx) : ix = jx ∧ iy = jy := by
  have h1 : (iy * nx + ix) % nx = ix := by
    rw [Nat.add_comm, Nat.add_mul_mod_self_right, Nat.mod_eq_of_lt hi]
  have h2 : (jy * nx + jx) % nx = jx := by
    rw [Nat.add_comm, Nat.add_mul_mod_self_right, Nat.mod_eq_of_lt hj]
  have hx : ix = jx := by rw [← h1, ← h2, h]
  have hpos : 0 < nx := by omega
  rw [hx] at h
  have h3 : iy * nx = jy * nx := by omega
  exact ⟨hx, Nat.eq_of_mul_eq_mul_right hpos h3⟩

/-- The ring around the rectangle `[0, 5] x [-1, 1]` on the row of two unit
cells: it covers both cells and extends beyond the mesh to the right.  The nodes
of the row are `5` and `0`; with `inverted = false` the span from `0` to `5` is
skipped, its second node not being below `ncells_[0] = 2`, and no cell is
passed to `fn`; with `inverted = true` both cells are within the span and no
cell is passed to `fn` either. -/
theorem wide_polygon_selects_nothing :
    twoCellMesh.cell_count = 2 ∧
    scanRow twoCellMesh (toLineString wideRectangle) 0 = some [5, 0] ∧
    exchangePass [5, 0] = [0, 5] ∧
    for_each_object_within twoCellMesh [toLineString wideRectangle] false = some [] ∧
    for_each_object_within twoCellMesh [toLineString wideRectangle] true = some [] ∧
    specInside wideRectangle (specCellCentre twoCellMesh 0 0) = true ∧
    specInside wideRectangle (specCellCentre twoCellMesh 1 0) = true ∧
    specInside wideRectangle (sampledCorner twoCellMesh 0 0) = true ∧
    specInside wideRectangle (sampledCorner twoCellMesh 1 0) = true :=
  ⟨by decide!, by decide!, by decide!, by decide!, by decide!, by decide!, by decide!,
    by decide!, by decide!⟩

/-- The exchange loop does not sort a vector of four nodes in descending
order. -/
theorem exchangePass_not_sorted : exchangePass [4, 3, 2, 1] = [3, 2, 1, 4] := by decide

/-- C19 (counterexample): on the unit cell, the ring around the square
`[1/4, 3/4] x [1/4, 3/4]` holds the centre `(1/2, 1/2)` of the cell strictly
inside, and no cell is passed to `fn`; on the row of two unit cells, the ring
around the square `[3/4, 5/4] x [-1/4, 1/4]` does not hold the centre of the
cell `0`, and the cell `0` is passed to `fn`. -/
theorem C19_centre_inside_not_emitted :
    for_each_object_within unitMesh [toLineString centreSquare] false = some [] ∧
    specCellCentre unitMesh 0 0 = (1 / 2, 1 / 2) ∧
    specInside centreSquare (specCellCentre unitMesh 0 0) = true ∧
    for_each_object_within twoCellMesh [toLineString cornerSquare] false = some [0] ∧
    specCellCentre twoCellMesh 0 0 = (1 / 2, 1 / 2) ∧
    specInside cornerSquare (specCellCentre twoCellMesh 0 0) = false :=
  ⟨by decide!, by decide!, by decide!, by decide!, by decide!, by decide!⟩

/-- C19 (amended): for every ring of numeric points and every mesh with positive
cell sizes, when on every row line `y = y0 + iy dy` the ring crosses within the
extent `[x0, x0 + nx dx)` of the mesh and the exchange loop leaves the columns
of the crossings in ascending order, `for_each_object_within(P, fn, false)`
returns, and the ids passed to `fn` are exactly the cells `(ix, iy)` whose
corner `(x0 + (ix + 1) dx, y0 + iy dy)` is inside the ring by the even-odd rule
(half-open in `y`, a point on a crossing counted as right of it). -/
theorem C19_cells_by_sampled_corner (m : Cartesian2DMesh) (ls : List (ℚ × ℚ))
    (hdx : 0 < m.cell_size_0) (hdy : 0 < m.cell_size_1) (hnx : m.ncells_0 < 2 ^ 64)
    (hin : ∀ yi, yi < m.ncells_1 → ∀ e, e ∈ specEdges ls →
      specCrosses e.1 e.2 (m.origin_1 + (yi : ℚ) * m.cell_size_1) = true →
      m.origin_0 ≤ specCrossingX e.1 e.2 (m.origin_1 + (yi : ℚ) * m.cell_size_1) ∧
      specCrossingX e.1 e.2 (m.origin_1 + (yi : ℚ) * m.cell_size_1)
        < m.origin_0 + (m.ncells_0 : ℚ) * m.cell_size_0)
    (hsorted : ∀ yi, yi < m.ncells_1 →
      (exchangePass (specRowColumns m ls yi)).Sorted (· ≤ ·)) :
    ∃ out, for_each_object_within m [toLineString ls] false = some out ∧
      ∀ id, id ∈ out ↔ ∃ ix iy, ix < m.ncells_0 ∧ iy < m.ncells_1 ∧
        id = iy * m.ncells_0 + ix ∧ specInside ls (sampledCorner m ix iy) = true :=
  within_selects_corners m ls hdx hdy hnx hin hsorted

theorem C19_cells_by_sampled_corner_witness :
    for_each_object_within twoCellMesh [toLineString cornerSquare] false = some [0] ∧
    ∃ out, for_each_object_within twoCellMesh [toLineString cornerSquare] false = some out ∧
      ∀ id, id ∈ out ↔ ∃ ix iy, ix < twoCellMesh.ncells_0 ∧ iy < twoCellMesh.ncells_1 ∧
        id = iy * twoCellMesh.ncells_0 + ix ∧
        specInside cornerSquare (sampledCorner twoCellMesh ix iy) = true :=
  ⟨by decide!,
    C19_cells_by_sampled_corner twoCellMesh cornerSquare (by decide!) (by decide!) (by decide!)
      (by decide!) (by decide!)⟩

/-- A ring of two points on the row of two unit cells: the method returns at the
guard for rings of fewer than three points, so that no cell is passed to `fn`
with `inverted = false` and none with `inverted = true`. -/
theorem sliver_selects_nothing :
    twoCellMesh.cell_count = 2 ∧
    for_each_object_within twoCellMesh [toLineString sliverRing] false = some [] ∧
    for_each_object_within twoCellMesh [toLineString sliverRing] true = some [] :=
  ⟨by decide!, by decide!, by decide!⟩

/-- The two calls on a ring that stays within the mesh: for every ring of at least
three numeric points and every mesh with positive cell sizes, when on every
row line the ring crosses within the extent `[x0, x0 + nx dx)` of the mesh and
the exchange loop leaves the columns of the crossings in ascending order, both
calls return, and the ids passed to `fn` with `inverted = true` are exactly the
cells of the mesh that are not passed with `inverted = false`: the two sets
are disjoint and together they are all `nx * ny` cells. -/
theorem inverted_complement_within_mesh (m : Cartesian2DMesh) (ls : List (ℚ × ℚ))
    (hdx : 0 < m.cell_size_0) (hdy : 0 < m.cell_size_1) (hnx : m.ncells_0 < 2 ^ 64)
    (hlen : 3 ≤ ls.length)
    (hin : ∀ yi, yi < m.ncells_1 → ∀ e, e ∈ specEdges ls →
      specCrosses e.1 e.2 (m.origin_1 + (yi : ℚ) * m.cell_size_1) = true →
      m.origin_0 ≤ specCrossingX e.1 e.2 (m.origin_1 + (yi : ℚ) * m.cell_size_1) ∧
      specCrossingX e.1 e.2 (m.origin_1 + (yi : ℚ) * m.cell_size_1)
        < m.origin_0 + (m.ncells_0 : ℚ) * m.cell_size_0)
    (hsorted : ∀ yi, yi < m.ncells_1 →
      (exchangePass (specRowColumns m ls yi)).Sorted (· ≤ ·)) :
    ∃ within outside,
      for_each_object_within m [toLineString ls] false = some within ∧
      for_each_object_within m [toLineString ls] true = some outside ∧
      (∀ id, id ∈ outside ↔ id < m.cell_count ∧ id ∉ within) ∧
      (∀ id, id ∈ within → id < m.cell_count) ∧
      (∀ id, id < m.cell_count → (id ∈ within ∨ id ∈ outside)) ∧
      (∀ id, ¬ (id ∈ within ∧ id ∈ outside)) := by
  obtain ⟨within, hw, hwm⟩ := within_selects_corners m ls hdx hdy hnx hin hsorted
  obtain ⟨outside, ho, hom⟩ := inverted_selects_the_rest m ls hdx hdy hnx hlen hin hsorted
  have hlt : ∀ ix iy, ix < m.ncells_0 → iy < m.ncells_1 →
      iy * m.ncells_0 + ix < m.cell_count := by
    intro ix iy hx hy
    unfold Cartesian2DMesh.cell_count
    have h1 : (iy + 1) * m.ncells_0 ≤ m.ncells_1 * m.ncells_0 :=
      Nat.mul_le_mul_right _ hy
    have h2 : (iy + 1) * m.ncells_0 = iy * m.ncells_0 + m.ncells_0 := by ring
    have h3 : m.ncells_1 * m.ncells_0 = m.ncells_0 * m.ncells_1 := Nat.mul_comm _ _
    omega
  have hdecomp : ∀ id, id < m.cell_count →
      ∃ ix iy, ix < m.ncells_0 ∧ iy < m.ncells_1 ∧ id = iy * m.ncells_0 + ix := by
    intro id hid
    unfold Cartesian2DMesh.cell_count at hid
    have hpos : 0 < m.ncells_0 := by
      rcases Nat.eq_zero_or_pos m.ncells_0 with h | h
      · rw [h, Nat.zero_mul] at hid
        exact absurd hid (Nat.not_lt_zero _)
      · exact h
    refine ⟨id % m.ncells_0, id / m.ncells_0, Nat.mod_lt _ hpos,
      Nat.div_lt_of_lt_mul hid, ?_⟩
    have := Nat.div_add_mod id m.ncells_0
    rw [Nat.mul_comm] at this
    exact this.symm
  have hcompl : ∀ id, id ∈ outside ↔ id < m.cell_count ∧ id ∉ within := by
    intro id
    rw [hom id, hwm id]
    constructor
    · rintro ⟨ix, iy, hx, hy, hid, hf⟩
      refine ⟨by rw [hid]; exact hlt ix iy hx hy, ?_⟩
      rintro ⟨jx, jy, hjx, _, hjd, ht⟩
      obtain ⟨e1, e2⟩ := cell_id_unique m.ncells_0 ix iy jx jy hx hjx (by rw [← hid, ← hjd])
      rw [e1, e2, ht] at hf
      exact absurd hf Bool.noConfusion
    · rintro ⟨hid, hnot⟩
      obtain ⟨ix, iy, hx, hy, hd⟩ := hdecomp id hid
      refine ⟨ix, iy, hx, hy, hd, ?_⟩
      cases hs : specInside ls (sampledCorner m ix iy) with
      | false => rfl
      | true => exact absurd ⟨ix, iy, hx, hy, hd, hs⟩ hnot
  refine ⟨within, outside, hw, ho, hcompl, ?_, ?_, ?_⟩
  · intro id hid
    obtain ⟨ix, iy, hx, hy, hd, _⟩ := (hwm id).mp hid
    rw [hd]
    exact hlt ix iy hx hy
  · intro id hid
    by_cases h : id ∈ within
    · exact Or.inl h
    · exact Or.inr ((hcompl id).mpr ⟨hid, h⟩)
  · rintro id ⟨h1, h2⟩
    exact ((hcompl id).mp h2).2 h1

theorem inverted_complement_within_mesh_example :
    for_each_object_within twoCellMesh [toLineString cornerSquare] false = some [0] ∧
    for_each_object_within twoCellMesh [toLineString cornerSquare] true = some [1] ∧
    ∃ within outside,
      for_each_object_within twoCellMesh [toLineString cornerSquare] false = some within ∧
      for_each_object_within twoCellMesh [toLineString cornerSquare] true = some outside ∧
      (∀ id, id ∈ outside ↔ id < twoCellMesh.cell_count ∧ id ∉ within) ∧
      (∀ id, id ∈ within → id < twoCellMesh.cell_count) ∧
      (∀ id, id < twoCellMesh.cell_count → (id ∈ within ∨ id ∈ outside)) ∧
      (∀ id, ¬ (id ∈ within ∧ id ∈ outside)) :=
  ⟨by decide!, by decide!,
    inverted_complement_within_mesh twoCellMesh cornerSquare (by decide!) (by decide!)
      (by decide!) (by decide!) (by decide!) (by decide!)⟩

/-- C20: the ring around the rectangle `[0, 5] x [-1, 1]` on the row of two unit
cells `[0, 2] x [0, 1]` extends beyond the mesh to the right and holds both
cells; `for_each_object_within` returns with `inverted = false` and with
`inverted = true`, and neither call passes the cell `0` or the cell `1` to
`fn`: the two sets do not cover the mesh.  The nodes of the row are `0` and `5`
after the exchange loop; the span branch tests `5 < ncells_[0]` before it
would limit the node to `ncells_[0]`, and skips the span, while the inverted
branch finds both cells within the span. -/
theorem C20_polygon_beyond_mesh_not_covered :
    twoCellMesh.cell_count = 2 ∧
    twoCellMesh.origin_0 + (twoCellMesh.ncells_0 : ℚ) * twoCellMesh.cell_size_0 < 5 ∧
    specInside wideRectangle (specCellCentre twoCellMesh 0 0) = true ∧
    specInside wideRectangle (specCellCentre twoCellMesh 1 0) = true ∧
    exchangePass [5, 0] = [0, 5] ∧
    emitSpans twoCellMesh.ncells_0 0 [0, 5] = some [] ∧
    emitOutside twoCellMesh.ncells_0 0 [0, 5] = some [] ∧
    ∃ within outside,
      for_each_object_within twoCellMesh [toLineString wideRectangle] false = some within ∧
      for_each_object_within twoCellMesh [toLineString wideRectangle] true = some outside ∧
      (0 : Nat) < twoCellMesh.cell_count ∧ 0 ∉ within ∧ 0 ∉ outside ∧
      (1 : Nat) < twoCellMesh.cell_count ∧ 1 ∉ within ∧ 1 ∉ outside :=
  ⟨by decide!, by decide!, by decide!, by decide!, by decide!, by decide!, by decide!,
    [], [], by decide!, by decide!, by decide!, List.not_mem_nil 0, List.not_mem_nil 0,
    by decide!, List.not_mem_nil 1, List.not_mem_nil 1⟩

/-! ## Faces and cells of the mesh -/

namespace Cartesian2DMesh

/-- The cells around a vertical face, by the column `fx` and the row `fy` of the
face. -/
theorem cells_around_vertical (m : Cartesian2DMesh) (hnx : 1 ≤ m.ncells_0) {fid : Nat}
    (hv : fid < (m.ncells_0 + 1) * m.ncells_1) :
    fid / (m.ncells_0 + 1) < m.ncells_1 ∧ fid % (m.ncells_0 + 1) ≤ m.ncells_0 ∧
    m.get_cells_around_face fid =
      (if fid % (m.ncells_0 + 1) = 0 then m.face_count
        else fid / (m.ncells_0 + 1) * m.ncells_0 + (fid % (m.ncells_0 + 1) - 1),
       if fid % (m.ncells_0 + 1) = m.ncells_0 then m.face_count
        else fid / (m.ncells_0 + 1) * m.ncells_0 + fid % (m.ncells_0 + 1)) := by
  have hfy : fid / (m.ncells_0 + 1) < m.ncells_1 := Nat.div_lt_of_lt_mul hv
  have hfx : fid % (m.ncells_0 + 1) < m.ncells_0 + 1 := Nat.mod_lt _ (by omega)
  unfold get_cells_around_face get_cell_linear_id
  rw [if_pos hv]
  generalize fid / (m.ncells_0 + 1) = fy at hfy ⊢
  generalize fid % (m.ncells_0 + 1) = fx at hfx ⊢
  refine ⟨hfy, by omega, ?_⟩
  by_cases h1 : fx < m.ncells_0
  · by_cases h2 : fx > 0
    · simp only [h1, h2, if_true, if_neg (show ¬ fx = 0 by omega),
        if_neg (show ¬ fx = m.ncells_0 by omega)]
    · simp only [h1, h2, if_true, if_false, if_pos (show fx = 0 by omega),
        if_neg (show ¬ fx = m.ncells_0 by omega)]
  · simp only [h1, if_false, if_pos (show fx = m.ncells_0 by omega),
      if_neg (show ¬ fx = 0 by omega)]

/-- The cells around a horizontal face, by the column `fx` and the row `fy` of
the face. -/
theorem cells_around_horizontal (m : Cartesian2DMesh) (hnx : 1 ≤ m.ncells_0)
    (hny : 1 ≤ m.ncells_1) {fid : Nat}
    (hv : ¬ fid < (m.ncells_0 + 1) * m.ncells_1) (hf : fid < m.face_count) :
    (fid - (m.ncells_0 + 1) * m.ncells_1) / m.ncells_0 ≤ m.ncells_1 ∧
    (fid - (m.ncells_0 + 1) * m.ncells_1) % m.ncells_0 < m.ncells_0 ∧
    m.get_cells_around_face fid =
      (if (fid - (m.ncells_0 + 1) * m.ncells_1) / m.ncells_0 = 0 then m.face_count
        else ((fid - (m.ncells_0 + 1) * m.ncells_1) / m.ncells_0 - 1) * m.ncells_0
          + (fid - (m.ncells_0 + 1) * m.ncells_1) % m.ncells_0,
       if (fid - (m.ncells_0 + 1) * m.ncells_1) / m.ncells_0 = m.ncells_1 then m.face_count
        else (fid - (m.ncells_0 + 1) * m.ncells_1) / m.ncells_0 * m.ncells_0
          + (fid - (m.ncells_0 + 1) * m.ncells_1) % m.ncells_0) := by
  have hloc : fid - (m.ncells_0 + 1) * m.ncells_1 < m.ncells_0 * (m.ncells_1 + 1) := by
    unfold face_count at hf
    omega
  have hfy : (fid - (m.ncells_0 + 1) * m.ncells_1) / m.ncells_0 < m.ncells_1 + 1 :=
    Nat.div_lt_of_lt_mul hloc
  have hfx : (fid - (m.ncells_0 + 1) * m.ncells_1) % m.ncells_0 < m.ncells_0 :=
    Nat.mod_lt _ (by omega)
  unfold get_cells_around_face get_cell_linear_id
  rw [if_neg hv]
  dsimp only
  generalize (fid - (m.ncells_0 + 1) * m.ncells_1) / m.ncells_0 = fy at hfy ⊢
  generalize (fid - (m.ncells_0 + 1) * m.ncells_1) % m.ncells_0 = fx at hfx ⊢
  refine ⟨by omega, hfx, ?_⟩
  by_cases h1 : fy < m.ncells_1
  · by_cases h2 : fy > 0
    · simp only [h1, h2, if_true, if_neg (show ¬ fy = 0 by omega),
        if_neg (show ¬ fy = m.ncells_1 by omega)]
    · simp only [h1, h2, if_true, if_false, if_pos (show fy = 0 by omega),
        if_neg (show ¬ fy = m.ncells_1 by omega)]
  · simp only [h1, if_false, if_pos (show fy = m.ncells_1 by omega),
      if_neg (show ¬ fy = 0 by omega)]

end Cartesian2DMesh

/-- C23: on a mesh with `nx, ny >= 1`, for every face id below `face_count`.  An
id below `(nx+1)*ny` is a vertical face, in column `fx = fid % (nx+1) <= nx` of
row `fy = fid / (nx+1) < ny`, with the cell `(fx-1, fy)` on its left and
`(fx, fy)` on its right; any other id is a horizontal face, in column
`fx < nx` of row `fy <= ny`, with the cell `(fx, fy-1)` below and `(fx, fy)`
above; the side that would lie outside the mesh (`fx = 0`, `fx = nx`, `fy = 0`,
`fy = ny`) holds `face_count`.  Each side is a valid cell id or `face_count`,
never `face_count` on both sides, and for an interior face the right-hand id is
the left-hand id `+ 1` (vertical) or `+ nx` (horizontal). -/
theorem C23_cells_around_face (m : Cartesian2DMesh) (hnx : 1 ≤ m.ncells_0)
    (hny : 1 ≤ m.ncells_1) (fid : Nat) (hf : fid < m.face_count) :
    (fid < (m.ncells_0 + 1) * m.ncells_1 →
      fid / (m.ncells_0 + 1) < m.ncells_1 ∧ fid % (m.ncells_0 + 1) ≤ m.ncells_0 ∧
      m.get_cells_around_face fid =
        (if fid % (m.ncells_0 + 1) = 0 then m.face_count
          else m.get_cell_linear_id (fid % (m.ncells_0 + 1) - 1, fid / (m.ncells_0 + 1)),
         if fid % (m.ncells_0 + 1) = m.ncells_0 then m.face_count
          else m.get_cell_linear_id (fid % (m.ncells_0 + 1), fid / (m.ncells_0 + 1)))) ∧
    (¬ fid < (m.ncells_0 + 1) * m.ncells_1 →
      (fid - (m.ncells_0 + 1) * m.ncells_1) / m.ncells_0 ≤ m.ncells_1 ∧
      (fid - (m.ncells_0 + 1) * m.ncells_1) % m.ncells_0 < m.ncells_0 ∧
      m.get_cells_around_face fid =
        (if (fid - (m.ncells_0 + 1) * m.ncells_1) / m.ncells_0 = 0 then m.face_count
          else m.get_cell_linear_id ((fid - (m.ncells_0 + 1) * m.ncells_1) % m.ncells_0,
            (fid - (m.ncells_0 + 1) * m.ncells_1) / m.ncells_0 - 1),
         if (fid - (m.ncells_0 + 1) * m.ncells_1) / m.ncells_0 = m.ncells_1 then m.face_count
          else m.get_cell_linear_id ((fid - (m.ncells_0 + 1) * m.ncells_1) % m.ncells_0,
            (fid - (m.ncells_0 + 1) * m.ncells_1) / m.ncells_0))) ∧
    ((m.get_cells_around_face fid).1 < m.cell_count ∨
      (m.get_cells_around_face fid).1 = m.face_count) ∧
    ((m.get_cells_around_face fid).2 < m.cell_count ∨
      (m.get_cells_around_face fid).2 = m.face_count) ∧
    ¬ ((m.get_cells_around_face fid).1 = m.face_count ∧
      (m.get_cells_around_face fid).2 = m.face_count) ∧
    ((m.get_cells_around_face fid).1 < m.cell_count →
      (m.get_cells_around_face fid).2 < m.cell_count →
      (m.get_cells_around_face fid).2 = (m.get_cells_around_face fid).1
        + (if fid < (m.ncells_0 + 1) * m.ncells_1 then 1 else m.ncells_0)) := by
  have hfc := m.cell_count_le_face_count
  by_cases hv : fid < (m.ncells_0 + 1) * m.ncells_1
  · obtain ⟨hy, hx, he⟩ := m.cells_around_vertical hnx hv
    refine ⟨fun _ => ⟨hy, hx, he⟩, fun h => absurd hv h, ?_⟩
    rw [he, if_pos hv]
    generalize fid / (m.ncells_0 + 1) = fy at hy ⊢
    generalize fid % (m.ncells_0 + 1) = fx at hx ⊢
    by_cases h0 : fx = 0
    · have hn : ¬ fx = m.ncells_0 := by omega
      have hc : fy * m.ncells_0 + fx < m.cell_count := m.linear_id_lt (by omega) hy
      rw [if_pos h0, if_neg hn]
      dsimp only
      exact ⟨Or.inr rfl, Or.inl hc, fun h => by omega, fun h => by omega⟩
    · by_cases hn : fx = m.ncells_0
      · have hc : fy * m.ncells_0 + (fx - 1) < m.cell_count := m.linear_id_lt (by omega) hy
        rw [if_neg h0, if_pos hn]
        dsimp only
        exact ⟨Or.inl hc, Or.inr rfl, fun h => by omega, fun _ h => by omega⟩
      · have hc : fy * m.ncells_0 + fx < m.cell_count := m.linear_id_lt (by omega) hy
        have hc1 : fy * m.ncells_0 + (fx - 1) < m.cell_count := m.linear_id_lt (by omega) hy
        rw [if_neg h0, if_neg hn]
        dsimp only
        exact ⟨Or.inl hc1, Or.inl hc, fun h => by omega, fun _ _ => by omega⟩
  · obtain ⟨hy, hx, he⟩ := m.cells_around_horizontal hnx hny hv hf
    refine ⟨fun h => absurd h hv, fun _ => ⟨hy, hx, he⟩, ?_⟩
    rw [he, if_neg hv]
    generalize (fid - (m.ncells_0 + 1) * m.ncells_1) / m.ncells_0 = fy at hy ⊢
    generalize (fid - (m.ncells_0 + 1) * m.ncells_1) % m.ncells_0 = fx at hx ⊢
    by_cases h0 : fy = 0
    · have hn : ¬ fy = m.ncells_1 := by omega
      have hc : fy * m.ncells_0 + fx < m.cell_count := m.linear_id_lt hx (by omega)
      rw [if_pos h0, if_neg hn]
      dsimp only
      exact ⟨Or.inr rfl, Or.inl hc, fun h => by omega, fun h => by omega⟩
    · have hsub : (fy - 1) * m.ncells_0 + m.ncells_0 = fy * m.ncells_0 := by
        have : fy = (fy - 1) + 1 := by omega
        conv_rhs => rw [this]
        ring
      by_cases hn : fy = m.ncells_1
      · have hc : (fy - 1) * m.ncells_0 + fx < m.cell_count := m.linear_id_lt hx (by omega)
        rw [if_neg h0, if_pos hn]
        dsimp only
        exact ⟨Or.inl hc, Or.inr rfl, fun h => by omega, fun _ h => by omega⟩
      · have hc : fy * m.ncells_0 + fx < m.cell_count := m.linear_id_lt hx (by omega)
        have hc1 : (fy - 1) * m.ncells_0 + fx < m.cell_count := m.linear_id_lt hx (by omega)
        rw [if_neg h0, if_neg hn]
        dsimp only
        exact ⟨Or.inl hc1, Or.inl hc, fun h => by omega, fun _ _ => by omega⟩

theorem C23_cells_around_face_witness :
    1 ≤ twoCellMesh.ncells_0 ∧ 1 ≤ twoCellMesh.ncells_1 ∧ 1 < twoCellMesh.face_count ∧
    twoCellMesh.get_cells_around_face 1 = (0, 1) ∧
    ((twoCellMesh.get_cells_around_face 1).1 < twoCellMesh.cell_count →
      (twoCellMesh.get_cells_around_face 1).2 < twoCellMesh.cell_count →
      (twoCellMesh.get_cells_around_face 1).2 = (twoCellMesh.get_cells_around_face 1).1
        + (if 1 < (twoCellMesh.ncells_0 + 1) * twoCellMesh.ncells_1 then 1
            else twoCellMesh.ncells_0)) :=
  ⟨by decide, by decide, by decide, by decide,
    (C23_cells_around_face twoCellMesh (by decide) (by decide) 1 (by decide)).2.2.2.2.2⟩

/-- C24: for every cell `(ix, iy)` of the mesh, the ids `(W, E, S, N)` given by
`get_faces_around_cell` are four different face ids below `face_count`, `W` and
`E` below `(nx+1)*ny` (vertical) and `S` and `N` not (horizontal);
`get_cells_around_face` has the cell on the right-hand side of `W` and of `S`
and on the left-hand side of `E` and of `N`; the `E` face of `(ix, iy)` is the
`W` face of `(ix+1, iy)` and the `N` face of `(ix, iy)` is the `S` face of
`(ix, iy+1)`. -/
theorem C24_faces_around_cell (m : Cartesian2DMesh) (ix iy : Nat) (hx : ix < m.ncells_0)
    (hy : iy < m.ncells_1) :
    (m.get_faces_around_cell (ix, iy)).1 < (m.ncells_0 + 1) * m.ncells_1 ∧
    (m.get_faces_around_cell (ix, iy)).2.1 < (m.ncells_0 + 1) * m.ncells_1 ∧
    (m.ncells_0 + 1) * m.ncells_1 ≤ (m.get_faces_around_cell (ix, iy)).2.2.1 ∧
    (m.ncells_0 + 1) * m.ncells_1 ≤ (m.get_faces_around_cell (ix, iy)).2.2.2 ∧
    (m.get_faces_around_cell (ix, iy)).2.2.1 < m.face_count ∧
    (m.get_faces_around_cell (ix, iy)).2.2.2 < m.face_count ∧
    (m.get_faces_around_cell (ix, iy)).1 ≠ (m.get_faces_around_cell (ix, iy)).2.1 ∧
    (m.get_faces_around_cell (ix, iy)).2.2.1 ≠ (m.get_faces_around_cell (ix, iy)).2.2.2 ∧
    (m.get_cells_around_face (m.get_faces_around_cell (ix, iy)).1).2
      = m.get_cell_linear_id (ix, iy) ∧
    (m.get_cells_around_face (m.get_faces_around_cell (ix, iy)).2.1).1
      = m.get_cell_linear_id (ix, iy) ∧
    (m.get_cells_around_face (m.get_faces_around_cell (ix, iy)).2.2.1).2
      = m.get_cell_linear_id (ix, iy) ∧
    (m.get_cells_around_face (m.get_faces_around_cell (ix, iy)).2.2.2).1
      = m.get_cell_linear_id (ix, iy) ∧
    (m.get_faces_around_cell (ix, iy)).2.1 = (m.get_faces_around_cell (ix + 1, iy)).1 ∧
    (m.get_faces_around_cell (ix, iy)).2.2.2 = (m.get_faces_around_cell (ix, iy + 1)).2.2.1 := by
  have hnx : 1 ≤ m.ncells_0 := by omega
  have hny : 1 ≤ m.ncells_1 := by omega
  have hW := m.vertical_face_lt (j := ix) (by omega) hy
  have hE := m.vertical_face_lt (j := ix + 1) (by omega) hy
  have hS := m.horizontal_face_lt hx (j := iy) (by omega)
  have hN := m.horizontal_face_lt hx (j := iy + 1) (by omega)
  have hN1 : (iy + 1) * m.ncells_0 = iy * m.ncells_0 + m.ncells_0 := by ring
  have hdivW : (iy * (m.ncells_0 + 1) + ix) / (m.ncells_0 + 1) = iy := by
    rw [Nat.mul_comm, Nat.mul_add_div (by omega), Nat.div_eq_of_lt (by omega)]
    simp
  have hmodW : (iy * (m.ncells_0 + 1) + ix) % (m.ncells_0 + 1) = ix := by
    rw [Nat.mul_comm, Nat.mul_add_mod, Nat.mod_eq_of_lt (by omega)]
  have hdivE : (iy * (m.ncells_0 + 1) + (ix + 1)) / (m.ncells_0 + 1) = iy := by
    rw [Nat.mul_comm, Nat.mul_add_div (by omega), Nat.div_eq_of_lt (by omega)]
    simp
  have hmodE : (iy * (m.ncells_0 + 1) + (ix + 1)) % (m.ncells_0 + 1) = ix + 1 := by
    rw [Nat.mul_comm, Nat.mul_add_mod, Nat.mod_eq_of_lt (by omega)]
  have hdivS : ∀ j, (j * m.ncells_0 + ix) / m.ncells_0 = j := by
    intro j
    rw [Nat.mul_comm, Nat.mul_add_div (by omega), Nat.div_eq_of_lt hx]
    simp
  have hmodS : ∀ j, (j * m.ncells_0 + ix) % m.ncells_0 = ix := by
    intro j
    rw [Nat.mul_comm, Nat.mul_add_mod, Nat.mod_eq_of_lt hx]
  have hlocS : ∀ j, (m.ncells_0 + 1) * m.ncells_1 + j * m.ncells_0 + ix
      - (m.ncells_0 + 1) * m.ncells_1 = j * m.ncells_0 + ix := by
    intro j
    omega
  have cW := (m.cells_around_vertical hnx hW).2.2
  have cE := (m.cells_around_vertical hnx hE).2.2
  have cS := (m.cells_around_horizontal hnx hny (by omega) hS).2.2
  have cN := (m.cells_around_horizontal hnx hny (by omega) hN).2.2
  rw [hdivW, hmodW] at cW
  rw [hdivE, hmodE] at cE
  rw [hlocS, hdivS, hmodS] at cS
  rw [hlocS, hdivS, hmodS] at cN
  have eE : iy * (m.ncells_0 + 1) + ix + 1 = iy * (m.ncells_0 + 1) + (ix + 1) := by omega
  have eN : (m.ncells_0 + 1) * m.ncells_1 + iy * m.ncells_0 + ix + m.ncells_0
      = (m.ncells_0 + 1) * m.ncells_1 + (iy + 1) * m.ncells_0 + ix := by omega
  unfold Cartesian2DMesh.get_faces_around_cell Cartesian2DMesh.get_cell_linear_id
  dsimp only
  rw [eE, eN, cW, cE, cS, cN]
  dsimp only
  refine ⟨hW, hE, by omega, by omega, hS, hN, by omega, by omega, ?_, ?_, ?_, ?_, rfl, ?_⟩
  · rw [if_neg (by omega)]
  · rw [if_neg (by omega), Nat.add_sub_cancel]
  · rw [if_neg (by omega)]
  · rw [if_neg (by omega), Nat.add_sub_cancel]
  · omega

theorem C24_faces_around_cell_witness :
    0 < twoCellMesh.ncells_0 ∧ 0 < twoCellMesh.ncells_1 ∧
    twoCellMesh.get_faces_around_cell (0, 0) = (0, 1, 3, 5) ∧
    (twoCellMesh.get_cells_around_face (twoCellMesh.get_faces_around_cell (0, 0)).2.1).1
      = twoCellMesh.get_cell_linear_id (0, 0) ∧
    (twoCellMesh.get_faces_around_cell (0, 0)).2.1 = (twoCellMesh.get_faces_around_cell (0 + 1, 0)).1 :=
  ⟨by decide, by decide, by decide,
    (C24_faces_around_cell twoCellMesh 0 0 (by decide) (by decide)).2.2.2.2.2.2.2.2.2.1,
    (C24_faces_around_cell twoCellMesh 0 0 (by decide) (by decide)).2.2.2.2.2.2.2.2.2.2.2.2.1⟩

/-! ## Mesh selections -/

/-- The spans of a row pass only cells of the row to `fn`. -/
theorem emitSpans_bound (nx yi : Nat) : ∀ (nodes out : List Nat),
    emitSpans nx yi nodes = some out → ∀ id, id ∈ out → ∃ xi, xi < nx ∧ id = yi * nx + xi
  | [], out, h, id, hid => by
    unfold emitSpans at h
    cases Option.some.inj h
    simp at hid
  | [a], out, h, id, hid => by
    unfold emitSpans at h
    split_ifs at h
    cases Option.some.inj h
    simp at hid
  | a :: b :: rest, out, h, id, hid => by
    unfold emitSpans at h
    by_cases ha : a ≥ nx
    · rw [if_pos ha] at h
      cases Option.some.inj h
      simp at hid
    · rw [if_neg ha] at h
      by_cases hb : b < nx
      · rw [if_pos hb] at h
        cases hr : emitSpans nx yi rest with
        | none => rw [hr] at h; cases h
        | some o =>
          rw [hr] at h
          simp only [if_neg (show ¬ a > nx by omega), if_neg (show ¬ b ≥ nx by omega)] at h
          cases Option.some.inj h
          rcases List.mem_append.mp hid with h1 | h1
          · obtain ⟨xi, hxi, hx⟩ := List.mem_map.mp h1
            have := List.mem_range'_1.mp hxi
            exact ⟨xi, by omega, hx.symm⟩
          · exact emitSpans_bound nx yi rest o hr id h1
      · rw [if_neg hb] at h
        exact emitSpans_bound nx yi rest out h id hid

/-- The inverted branch of a row passes only cells of the row to `fn`. -/
theorem emitOutside_bound (nx yi : Nat) (nodes out : List Nat)
    (h : emitOutside nx yi nodes = some out) :
    ∀ id, id ∈ out → ∃ xi, xi < nx ∧ id = yi * nx + xi := by
  have key : ∀ (l : List Nat) (acc : Option (List Nat)) (out : List Nat),
      (∀ a, acc = some a → ∀ id, id ∈ a → ∃ xi, xi < nx ∧ id = yi * nx + xi) →
      (∀ xi, xi ∈ l → xi < nx) →
      l.foldl
          (fun acc xi =>
            match acc with
            | none => none
            | some out =>
              match withinSpans xi nodes with
              | none => none
              | some true => some out
              | some false => some (out ++ [yi * nx + xi]))
          acc = some out →
      ∀ id, id ∈ out → ∃ xi, xi < nx ∧ id = yi * nx + xi := by
    intro l
    induction l with
    | nil =>
      intro acc out hacc _ hf
      exact hacc out hf
    | cons x l ih =>
      intro acc out hacc hl hf
      rw [List.foldl_cons] at hf
      refine ih _ out ?_ (fun xi hxi => hl xi (List.mem_cons_of_mem _ hxi)) hf
      intro a ha id hid
      cases acc with
      | none => cases ha
      | some o =>
        cases hw : withinSpans x nodes with
        | none => simp only [hw] at ha; cases ha
        | some b =>
          cases b with
          | true =>
            simp only [hw] at ha
            rw [← Option.some.inj ha] at hid
            exact hacc o rfl id hid
          | false =>
            simp only [hw] at ha
            rw [← Option.some.inj ha] at hid
            rcases List.mem_append.mp hid with h1 | h1
            · exact hacc o rfl id h1
            · exact ⟨x, hl x (List.mem_cons_self _ _), List.mem_singleton.mp h1⟩
  exact key (List.range nx) (some []) out
    (fun a ha id hid => by cases Option.some.inj ha; simp at hid)
    (fun xi hxi => List.mem_range.mp hxi) h

/-- Every row passes only its own cells to `fn`. -/
theorem emitRow_bound (m : Cartesian2DMesh) (ls : LineString) (inverted : Bool) (yi : Nat)
    (row : List Nat) (h : emitRow m ls inverted yi = some row) :
    ∀ id, id ∈ row → ∃ xi, xi < m.ncells_0 ∧ id = yi * m.ncells_0 + xi := by
  unfold emitRow at h
  cases hs : scanRow m ls yi with
  | none => rw [hs] at h; cases h
  | some nodes =>
    rw [hs] at h
    cases nodes with
    | nil =>
      cases inverted with
      | true =>
        simp only [if_true] at h
        cases Option.some.inj h
        intro id hid
        obtain ⟨xi, hxi, hx⟩ := List.mem_map.mp hid
        exact ⟨xi, List.mem_range.mp hxi, hx.symm⟩
      | false =>
        simp only [Bool.false_eq_true, if_false] at h
        cases Option.some.inj h
        intro id hid
        simp at hid
    | cons a rest =>
      cases inverted with
      | true =>
        simp only [if_true] at h
        exact emitOutside_bound _ _ _ _ h
      | false =>
        simp only [Bool.false_eq_true, if_false] at h
        exact emitSpans_bound _ _ _ _ h

/-- A loop over rows that returns passes only ids of its start and its rows. -/
theorem foldl_rows_bound (f : Nat → Option (List Nat)) (Q : Nat → Prop) (l : List Nat) :
    ∀ (acc : Option (List Nat)) (out : List Nat),
      (∀ a, acc = some a → ∀ id, id ∈ a → Q id) →
      (∀ yi, yi ∈ l → ∀ row, f yi = some row → ∀ id, id ∈ row → Q id) →
      l.foldl
          (fun acc yi =>
            match acc with
            | none => none
            | some out =>
              match f yi with
              | none => none
              | some row => some (out ++ row))
          acc = some out →
      ∀ id, id ∈ out → Q id := by
  induction l with
  | nil =>
    intro acc out hacc _ hf
    exact hacc out hf
  | cons y l ih =>
    intro acc out hacc hl hf
    rw [List.foldl_cons] at hf
    refine ih _ out ?_ (fun yi hyi => hl yi (List.mem_cons_of_mem _ hyi)) hf
    intro a ha id hid
    cases acc with
    | none => cases ha
    | some o =>
      cases hr : f y with
      | none => simp only [hr] at ha; cases ha
      | some row =>
        simp only [hr] at ha
        cases Option.some.inj ha
        rcases List.mem_append.mp hid with h1 | h1
        · exact hacc o rfl id h1
        · exact hl y (List.mem_cons_self _ _) row hr id h1

/-- Every id that `for_each_object_within` passes to `fn` is the id of a cell of
the mesh, whatever the polygon and the flag `inverted`. -/
theorem for_each_object_within_bound (m : Cartesian2DMesh) (poly : Polygon) (inverted : Bool)
    (out : List Nat) (h : for_each_object_within m poly inverted = some out) :
    ∀ id, id ∈ out → id < m.cell_count := by
  unfold for_each_object_within at h
  match poly, h with
  | [ls], h =>
    simp only at h
    by_cases hl : ls.length < 3
    · rw [if_pos hl] at h
      cases Option.some.inj h
      intro id hid
      simp at hid
    · rw [if_neg hl] at h
      refine foldl_rows_bound (emitRow m ls inverted) (fun id => id < m.cell_count)
        (List.range m.ncells_1) (some []) out
        (fun a ha id hid => by cases Option.some.inj ha; simp at hid) ?_ h
      intro yi hyi row hrow id hid
      obtain ⟨xi, hxi, hx⟩ := emitRow_bound m ls inverted yi row hrow id hid
      rw [hx]
      exact Cartesian2DMesh.linear_id_lt m hxi (List.mem_range.mp hyi)

/-- The members of `uniqueErase l` are those of `l`. -/
theorem mem_uniqueErase (x : Nat) : ∀ l : List Nat, x ∈ uniqueErase l ↔ x ∈ l
  | [] => Iff.rfl
  | [a] => Iff.rfl
  | a :: b :: rest => by
    unfold uniqueErase
    have ih := mem_uniqueErase x (b :: rest)
    by_cases hab : a = b
    · rw [if_pos hab, ih, hab]
      simp
    · rw [if_neg hab, List.mem_cons, ih, List.mem_cons (a := x) (b := a)]

/-- On a sorted vector `uniqueErase` leaves a strictly increasing one. -/
theorem uniqueErase_sorted : ∀ l : List Nat, l.Sorted (· ≤ ·) → (uniqueErase l).Sorted (· < ·)
  | [], _ => List.sorted_nil
  | [a], _ => List.sorted_singleton a
  | a :: b :: rest, hs => by
    unfold uniqueErase
    have hs1 := List.sorted_cons.mp hs
    have ih := uniqueErase_sorted (b :: rest) hs1.2
    by_cases hab : a = b
    · rw [if_pos hab]
      exact ih
    · rw [if_neg hab]
      refine List.sorted_cons.mpr ⟨fun x hx => ?_, ih⟩
      have hx1 := (mem_uniqueErase x (b :: rest)).mp hx
      have h1 : a ≤ b := hs1.1 b (List.mem_cons_self _ _)
      have h2 : b ≤ x := by
        rcases List.mem_cons.mp hx1 with h3 | h3
        · exact le_of_eq h3.symm
        · exact (List.sorted_cons.mp hs1.2).1 x h3
      omega

/-- The list stored by `allocate_list` is strictly increasing and has the members
of the vector it is given. -/
theorem allocate_list_spec (id_list : List Nat) :
    (allocate_list id_list).Sorted (· < ·) ∧
      ∀ id, id ∈ allocate_list id_list ↔ id ∈ id_list := by
  unfold allocate_list
  refine ⟨uniqueErase_sorted _ (List.sorted_insertionSort (· ≤ ·) id_list), fun id => ?_⟩
  rw [mem_uniqueErase]
  exact (List.perm_insertionSort (· ≤ ·) id_list).mem_iff

/-- The ids of an `id list` that is accepted are below the object count. -/
theorem pushIds_bound (idmax : Nat) : ∀ (ids out : List Nat), pushIds idmax ids = some out →
    ∀ id, id ∈ out → id < idmax
  | [], out, h, id, hid => by
    unfold pushIds at h
    cases Option.some.inj h
    simp at hid
  | a :: rest, out, h, id, hid => by
    unfold pushIds at h
    by_cases ha : a < idmax
    · rw [if_pos ha] at h
      cases hr : pushIds idmax rest with
      | none => rw [hr] at h; cases h
      | some l =>
        rw [hr] at h
        cases Option.some.inj h
        rcases List.mem_cons.mp hid with h1 | h1
        · rw [h1]; exact ha
        · exact pushIds_bound idmax rest l hr id h1
    · rw [if_neg ha] at h
      cases h

/-- The id found by `id_at_location` is below the object count. -/
theorem id_at_location_bound (m : Cartesian2DMesh) (loc : Point) (id : Nat)
    (h : id_at_location m loc = some id) : id < m.cell_count := by
  unfold id_at_location at h
  cases hg : get_nearest_object m loc with
  | none => rw [hg] at h; cases h
  | some i =>
    rw [hg] at h
    simp only at h
    by_cases hi : i < m.cell_count
    · rw [if_pos hi] at h
      cases Option.some.inj h
      exact hi
    · rw [if_neg hi] at h
      cases h

/-- The ids of a `location list` that is accepted are below the object count. -/
theorem pushLocations_bound (m : Cartesian2DMesh) : ∀ (locs : List Point) (out : List Nat),
    pushLocations m locs = some out → ∀ id, id ∈ out → id < m.cell_count
  | [], out, h, id, hid => by
    unfold pushLocations at h
    cases Option.some.inj h
    simp at hid
  | a :: rest, out, h, id, hid => by
    unfold pushLocations at h
    cases ha : id_at_location m a with
    | none => rw [ha] at h; cases h
    | some i =>
      rw [ha] at h
      cases hr : pushLocations m rest with
      | none => rw [hr] at h; cases h
      | some l =>
        rw [hr] at h
        cases Option.some.inj h
        rcases List.mem_cons.mp hid with h1 | h1
        · rw [h1]; exact id_at_location_bound m a i ha
        · exact pushLocations_bound m rest l hr id h1

/-- The ids of the polygons of a multipolygon are below the object count. -/
theorem pushPolygons_bound (m : Cartesian2DMesh) : ∀ (polys : List Polygon) (out : List Nat),
    pushPolygons m polys = some out → ∀ id, id ∈ out → id < m.cell_count
  | [], out, h, id, hid => by
    unfold pushPolygons at h
    cases Option.some.inj h
    simp at hid
  | a :: rest, out, h, id, hid => by
    unfold pushPolygons at h
    cases ha : for_each_object_within m a false with
    | none => rw [ha] at h; cases h
    | some ids =>
      rw [ha] at h
      cases hr : pushPolygons m rest with
      | none => rw [hr] at h; cases h
      | some l =>
        rw [hr] at h
        cases Option.some.inj h
        rcases List.mem_append.mp hid with h1 | h1
        · exact for_each_object_within_bound m a false ids ha id h1
        · exact pushPolygons_bound m rest l hr id h1

/-- The ids of one geometry are below the object count. -/
theorem pushGeometry_bound (m : Cartesian2DMesh) (g : Geometry) (out : List Nat)
    (h : pushGeometry m g = some out) : ∀ id, id ∈ out → id < m.cell_count := by
  intro id hid
  cases g with
  | point pt =>
    unfold pushGeometry at h
    simp only at h
    cases ha : id_at_location m pt with
    | none => rw [ha] at h; cases h
    | some i =>
      rw [ha] at h
      cases Option.some.inj h
      rw [List.mem_singleton.mp hid]
      exact id_at_location_bound m pt i ha
  | multipoint mpt => exact pushLocations_bound m mpt out h id hid
  | polygon poly => exact for_each_object_within_bound m poly false out h id hid
  | multipolygon mpoly => exact pushPolygons_bound m mpoly out h id hid
  | linestring => cases h
  | multilinestring => cases h
  | collection => cases h

/-- The ids of the geometries of a collection are below the object count. -/
theorem pushGeometries_bound (m : Cartesian2DMesh) : ∀ (gc : List Geometry) (out : List Nat),
    pushGeometries m gc = some out → ∀ id, id ∈ out → id < m.cell_count
  | [], out, h, id, hid => by
    unfold pushGeometries at h
    cases Option.some.inj h
    simp at hid
  | a :: rest, out, h, id, hid => by
    unfold pushGeometries at h
    cases ha : pushGeometry m a with
    | none => rw [ha] at h; cases h
    | some ids =>
      rw [ha] at h
      cases hr : pushGeometries m rest with
      | none => rw [hr] at h; cases h
      | some l =>
        rw [hr] at h
        cases Option.some.inj h
        rcases List.mem_append.mp hid with h1 | h1
        · exact pushGeometry_bound m a ids ha id h1
        · exact pushGeometries_bound m rest l hr id h1

/-- An inverted selection is made only from one polygon, or from one multipolygon
of one polygon. -/
theorem pushInverted_some (m : Cartesian2DMesh) (gc : List Geometry) (out : List Nat)
    (h : pushInverted m gc = some out) :
    ∃ poly, (gc = [Geometry.polygon poly] ∨ gc = [Geometry.multipolygon [poly]]) ∧
      for_each_object_within m poly true = some out := by
  unfold pushInverted at h
  split at h
  · exact ⟨_, Or.inl rfl, h⟩
  · split at h
    · exact ⟨_, Or.inr rfl, h⟩
    · cases h
  · cases h

/-- The ids collected for a selection are below the object count. -/
theorem collectIds_bound (m : Cartesian2DMesh) (conf : SelectionConfig) (out : List Nat)
    (h : collectIds m conf = some out) : ∀ id, id ∈ out → id < m.cell_count := by
  intro id hid
  cases conf with
  | global => cases h
  | unknown => cases h
  | id_list ids => exact pushIds_bound _ ids out h id hid
  | location_list locs => exact pushLocations_bound m locs out h id hid
  | gis gc inverted =>
    unfold collectIds at h
    cases inverted with
    | true =>
      simp only [if_true] at h
      obtain ⟨poly, _, hp⟩ := pushInverted_some m gc out h
      exact for_each_object_within_bound m poly true out hp id hid
    | false =>
      simp only [Bool.false_eq_true, if_false] at h
      exact pushGeometries_bound m gc out h id hid

/-- C21: a selection that is constructed from an id list, a location list or gis
geometries stores a strictly increasing list whose members are exactly the ids
the configuration produced, every one below the object count of the mesh, and
`size()` is the length of that list; a global selection is always constructed
and its `size()` is the object count. -/
theorem C21_selection_list (m : Cartesian2DMesh) (conf : SelectionConfig) (sel : MeshSelection)
    (h : MeshSelection.create m conf = some sel) :
    (conf = SelectionConfig.global → sel.is_global = true ∧ sel.size m = m.cell_count) ∧
    (conf ≠ SelectionConfig.global →
      ∃ ids l, collectIds m conf = some ids ∧ sel.list_ = some l ∧ l.Sorted (· < ·) ∧
        (∀ id, id ∈ l ↔ id ∈ ids) ∧ (∀ id, id ∈ l → id < m.cell_count) ∧
        sel.is_global = false ∧ sel.size m = l.length) ∧
    ∃ g, MeshSelection.create m SelectionConfig.global = some g ∧ g.size m = m.cell_count := by
  refine ⟨fun hg => ?_, fun hg => ?_, ⟨{ list_ := none }, rfl, rfl⟩⟩
  · rw [hg] at h
    rw [← Option.some.inj h]
    exact ⟨rfl, rfl⟩
  · have key : ∀ ids, collectIds m conf = some ids →
        MeshSelection.create m conf = some { list_ := some (allocate_list ids) } := by
      intro ids hids
      unfold MeshSelection.create
      cases conf with
      | global => exact absurd rfl hg
      | unknown => simp only [hids]
      | id_list ids => simp only [hids]
      | location_list locs => simp only [hids]
      | gis gc inverted => simp only [hids]
    cases hc : collectIds m conf with
    | none =>
      exfalso
      unfold MeshSelection.create at h
      cases conf with
      | global => exact hg rfl
      | unknown => simp only [hc] at h; cases h
      | id_list ids => simp only [hc] at h; cases h
      | location_list locs => simp only [hc] at h; cases h
      | gis gc inverted => simp only [hc] at h; cases h
    | some ids =>
      rw [key ids hc] at h
      rw [← Option.some.inj h]
      have hspec := allocate_list_spec ids
      exact ⟨ids, allocate_list ids, rfl, rfl, hspec.1, hspec.2,
        fun id hid => collectIds_bound m conf ids hc id ((hspec.2 id).mp hid), rfl, rfl⟩

theorem C21_selection_list_witness :
    MeshSelection.create twoCellMesh (SelectionConfig.id_list [1, 0, 1])
        = some { list_ := some [0, 1] } ∧
      ∃ ids l, collectIds twoCellMesh (SelectionConfig.id_list [1, 0, 1]) = some ids ∧
        (MeshSelection.mk (some [0, 1])).list_ = some l ∧ l.Sorted (· < ·) ∧
        (∀ id, id ∈ l ↔ id ∈ ids) ∧ (∀ id, id ∈ l → id < twoCellMesh.cell_count) ∧
        (MeshSelection.mk (some [0, 1])).is_global = false ∧
        (MeshSelection.mk (some [0, 1])).size twoCellMesh = l.length :=
  ⟨rfl, (C21_selection_list twoCellMesh (SelectionConfig.id_list [1, 0, 1])
    { list_ := some [0, 1] } rfl).2.1 (by intro h; cases h)⟩

/-- C22: a gis selection with `inverted = true` is constructed only from a
collection that holds exactly one polygon, or exactly one multipolygon of
exactly one polygon: for every other collection (empty, several geometries, a
point, a multipoint, a multipolygon of another size, ...) the constructor
throws and there is no selection. -/
theorem C22_inverted_needs_one_polygon (m : Cartesian2DMesh) (gc : List Geometry)
    (h : ¬ ∃ poly, gc = [Geometry.polygon poly] ∨ gc = [Geometry.multipolygon [poly]]) :
    MeshSelection.create m (SelectionConfig.gis gc true) = none := by
  cases hc : pushInverted m gc with
  | some out =>
    obtain ⟨poly, hp, _⟩ := pushInverted_some m gc out hc
    exact absurd ⟨poly, hp⟩ h
  | none =>
    unfold MeshSelection.create
    simp only [collectIds, if_true, hc]

theorem C22_inverted_needs_one_polygon_witness :
    MeshSelection.create twoCellMesh
      (SelectionConfig.gis [Geometry.multipolygon [[toLineString cornerSquare],
        [toLineString cornerSquare]]] true) = none :=
  C22_inverted_needs_one_polygon twoCellMesh _ (by
    rintro ⟨poly, h | h⟩
    · cases h
    · cases h)

/-- C25: on the mesh of four cells of size `1/4` the point `(0.3, 0.1)` lies in
the cell `1` (between `x = 1/4` and `x = 1/2`), and `get_nearest_object<Cell>`
returns the cell `3`; on the mesh of two cells of size `2` the point `(5, 1)`
is right of the mesh and the method returns the object count, which is the id
of no cell. -/
theorem C25_nearest_cell_wrong :
    quarterMesh.origin_0 + 1 * quarterMesh.cell_size_0 ≤ 3 / 10 ∧
      (3 / 10 : ℚ) < quarterMesh.origin_0 + 2 * quarterMesh.cell_size_0 ∧
      quarterMesh.origin_1 ≤ 1 / 10 ∧
      (1 / 10 : ℚ) < quarterMesh.origin_1 + 1 * quarterMesh.cell_size_1 ∧
      quarterMesh.get_cell_linear_id (1, 0) = 1 ∧
      get_nearest_object quarterMesh (num (3 / 10), num (1 / 10)) = some 3 ∧
      get_nearest_object coarseMesh (num 5, num 1) = some coarseMesh.cell_count ∧
      id_at_location coarseMesh (num 5, num 1) = none := by
  decide!

/-! ## Field modifiers -/

/-- The loop of `modify_field` over a list of distinct objects: an object of the
list is modified once, every other entry keeps its value. -/
theorem foldl_modifyAt (op : Operation) (fm : FieldModifier) (func : FieldFunctor)
    (m : Cartesian2DMesh) (time : ValueType) : ∀ (l : List Nat) (field : MeshField), l.Nodup →
    ∀ i, l.foldl (modifyAt op fm func m time) field i =
      if i ∈ l ∧ (ValueCalculator.get_value fm func m time i).isNan = false then
        op.apply (field i) (ValueCalculator.get_value fm func m time i)
      else field i
  | [], field, _, i => by simp
  | a :: rest, field, hnd, i => by
    have hnd1 := List.nodup_cons.mp hnd
    rw [List.foldl_cons, foldl_modifyAt op fm func m time rest _ hnd1.2 i]
    by_cases hia : i = a
    · have hir : i ∉ rest := by rw [hia]; exact hnd1.1
      rw [if_neg (fun h => hir h.1)]
      unfold modifyAt
      rw [hia]
      cases hv : (ValueCalculator.get_value fm func m time a).isNan with
      | true => simp
      | false => simp [Function.update_same]
    · have hstep : modifyAt op fm func m time field a i = field i := by
        unfold modifyAt
        split_ifs
        · rfl
        · exact Function.update_noteq hia _ _
      rw [hstep]
      simp only [List.mem_cons, hia, false_or]

/-- The value of `get_value` at an object where the functor gives a number that
is not the nodata value, for a modifier whose offset and factor are numbers. -/
theorem get_value_valid (fm : FieldModifier) (func : FieldFunctor) (m : Cartesian2DMesh)
    (time : ValueType) (i : Nat) (hoff : fm.offset_.IsNum) (hfac : fm.factor_.IsNum)
    (hv : (ValueCalculator.functorValue fm func m time i).isNan = false)
    (hn : (ValueCalculator.functorValue fm func m time i).ne fm.nodata_ = true) :
    ValueCalculator.get_value fm func m time i
        = clamp (fm.offset_ + fm.factor_ * ValueCalculator.functorValue fm func m time i)
            fm.min_ fm.max_ ∧
      (ValueCalculator.get_value fm func m time i).isNan = false := by
  obtain ⟨o, ho⟩ := hoff
  obtain ⟨f, hf⟩ := hfac
  have h1 : ValueCalculator.get_value fm func m time i
      = clamp (fm.offset_ + fm.factor_ * ValueCalculator.functorValue fm func m time i)
          fm.min_ fm.max_ := by
    unfold ValueCalculator.get_value
    simp only [hv, hn, Bool.not_false, Bool.and_self, if_true]
  refine ⟨h1, ?_⟩
  rw [h1, ho, hf]
  cases hx : ValueCalculator.functorValue fm func m time i with
  | nan => rw [hx] at hv; cases hv
  | num x =>
    rw [ValueType.num_mul, ValueType.num_add]
    unfold clamp
    have h2 : ∃ y, ValueType.fmax (num (o + f * x)) fm.min_ = num y := by
      cases fm.min_ with
      | nan => exact ⟨_, rfl⟩
      | num a => exact ⟨_, ValueType.fmax_num _ _⟩
    obtain ⟨y, hy⟩ := h2
    rw [hy]
    cases fm.max_ with
    | nan => rfl
    | num b =>
      rw [ValueType.fmin_num]
      rfl

/-- The value of `get_value` is `nan` where the functor gives `nan` or the nodata
value. -/
theorem get_value_skipped (fm : FieldModifier) (func : FieldFunctor) (m : Cartesian2DMesh)
    (time : ValueType) (i : Nat)
    (h : (ValueCalculator.functorValue fm func m time i).isNan = true ∨
      (ValueCalculator.functorValue fm func m time i).ne fm.nodata_ = false) :
    (ValueCalculator.get_value fm func m time i).isNan = true := by
  unfold ValueCalculator.get_value
  rcases h with h | h
  · simp only [h, Bool.not_true, Bool.false_and, Bool.false_eq_true, if_false]
    rfl
  · simp only [h, Bool.and_false, Bool.false_eq_true, if_false]
    rfl

/-- The list of a selection that the constructor returns has no duplicates. -/
theorem create_list_nodup (m : Cartesian2DMesh) (conf : SelectionConfig) (sel : MeshSelection)
    (h : MeshSelection.create m conf = some sel) : ∀ l, sel.list_ = some l → l.Nodup := by
  intro l hl
  have key : ∀ c, c ≠ SelectionConfig.global → MeshSelection.create m c = some sel →
      l.Nodup := by
    intro c hc hcr
    cases hids : collectIds m c with
    | none =>
      exfalso
      unfold MeshSelection.create at hcr
      cases c with
      | global => exact hc rfl
      | unknown => simp only [hids] at hcr; cases hcr
      | id_list ids => simp only [hids] at hcr; cases hcr
      | location_list locs => simp only [hids] at hcr; cases hcr
      | gis gc inverted => simp only [hids] at hcr; cases hcr
    | some ids =>
      have hsel : sel = { list_ := some (allocate_list ids) } := by
        unfold MeshSelection.create at hcr
        cases c with
        | global => exact absurd rfl hc
        | unknown => simp only [hids] at hcr; exact (Option.some.inj hcr).symm
        | id_list ids => simp only [hids] at hcr; exact (Option.some.inj hcr).symm
        | location_list locs => simp only [hids] at hcr; exact (Option.some.inj hcr).symm
        | gis gc inverted => simp only [hids] at hcr; exact (Option.some.inj hcr).symm
      rw [hsel] at hl
      rw [← Option.some.inj hl]
      exact (allocate_list_spec ids).1.nodup
  by_cases hg : conf = SelectionConfig.global
  · rw [hg] at h
    rw [← Option.some.inj h] at hl
    cases hl
  · exact key conf hg h

/-- The effect of `modify_field` at one object, for a selection without
duplicates. -/
theorem modify_field_at (op : Operation) (fm : FieldModifier) (func : FieldFunctor)
    (m : Cartesian2DMesh) (time : ValueType) (field : MeshField)
    (hsel : ∀ l, fm.sel_.list_ = some l → l.Nodup) (i : Nat) :
    (fm.sel_.selects m i ∧ (ValueCalculator.get_value fm func m time i).isNan = false →
      modify_field op fm func m time field i
        = op.apply (field i) (ValueCalculator.get_value fm func m time i)) ∧
    (¬ (fm.sel_.selects m i ∧ (ValueCalculator.get_value fm func m time i).isNan = false) →
      modify_field op fm func m time field i = field i) := by
  unfold modify_field MeshSelection.selects
  cases hl : fm.sel_.list_ with
  | none =>
    simp only
    rw [foldl_modifyAt op fm func m time _ field (List.nodup_range _) i]
    exact ⟨fun h => if_pos ⟨List.mem_range.mpr h.1, h.2⟩,
      fun h => if_neg (fun h2 => h ⟨List.mem_range.mp h2.1, h2.2⟩)⟩
  | some l =>
    simp only
    rw [foldl_modifyAt op fm func m time _ field (hsel l hl) i]
    exact ⟨fun h => if_pos h, fun h => if_neg h⟩

/-- The value `get_value` of a fixed value under the modifier of
`clear_boundary_conditions`, for the two values used there. -/
theorem get_value_clear (m : Cartesian2DMesh) (time : ValueType) (i : Nat) :
    ValueCalculator.get_value clearBoundariesModifier (FixedValueFieldFunctor (num 0)) m time i
        = num 0 ∧
      ValueCalculator.get_value clearBoundariesModifier (FixedValueFieldFunctor (num (-1))) m
        time i = num (-1) := by
  constructor
  · show (if (!(num 0).isNan && (num 0).ne (num 1)) = true then
      clamp (num 0 + num 1 * num 0) (num (-2)) (num 2) else nan) = num 0
    decide!
  · show (if (!(num (-1)).isNan && (num (-1)).ne (num 1)) = true then
      clamp (num 0 + num 1 * num (-1)) (num (-2)) (num 2) else nan) = num (-1)
    decide!

/-- C26: after `clear_boundary_conditions` every cell of the mesh holds
`Q_in0 = Q_in1 = 0` and `h_in0 = h_in1 = -1`, whatever the four fields held
before (`nan` included); the other members of the solver are not changed. -/
theorem C26_clear_boundary_conditions (sv : SVSolver) (k : Fin 2) (i : Nat)
    (hi : i < sv.mesh_.cell_count) :
    sv.clear_boundary_conditions.Q_in_ k i = num 0 ∧
      sv.clear_boundary_conditions.h_in_ k i = num (-1) ∧
      sv.clear_boundary_conditions.mesh_ = sv.mesh_ ∧
      sv.clear_boundary_conditions.zbed_ = sv.zbed_ ∧
      sv.clear_boundary_conditions.manning_n_ = sv.manning_n_ := by
  have hv := get_value_clear sv.mesh_ (num 0) i
  refine ⟨?_, ?_, rfl, rfl, rfl⟩
  · show modify_field Operation.set clearBoundariesModifier (FixedValueFieldFunctor (num 0))
      sv.mesh_ (num 0) (sv.Q_in_ k) i = num 0
    rw [(modify_field_at Operation.set clearBoundariesModifier (FixedValueFieldFunctor (num 0))
      sv.mesh_ (num 0) (sv.Q_in_ k) (fun l hl => by cases hl) i).1 ⟨hi, by rw [hv.1]; rfl⟩, hv.1]
    rfl
  · show modify_field Operation.set clearBoundariesModifier (FixedValueFieldFunctor (num (-1)))
      sv.mesh_ (num 0) (sv.h_in_ k) i = num (-1)
    rw [(modify_field_at Operation.set clearBoundariesModifier
      (FixedValueFieldFunctor (num (-1))) sv.mesh_ (num 0) (sv.h_in_ k)
      (fun l hl => by cases hl) i).1 ⟨hi, by rw [hv.2]; rfl⟩, hv.2]
    rfl

theorem C26_clear_boundary_conditions_witness :
    staleSolver.Q_in_ 0 0 = nan ∧ staleSolver.h_in_ 0 0 = nan ∧
      staleSolver.clear_boundary_conditions.Q_in_ 0 0 = num 0 ∧
      staleSolver.clear_boundary_conditions.h_in_ 0 0 = num (-1) :=
  ⟨rfl, rfl, (C26_clear_boundary_conditions staleSolver 0 0 (by decide)).1,
    (C26_clear_boundary_conditions staleSolver 0 0 (by decide)).2.1⟩

/-- C27: `modify_field` with `v` the value of the functor at the coordinate of the
object `i` (offset and factor of the modifier being numbers, the selection list
without duplicates): at every object of the selection (every object of the
mesh for a global selection) where `v` is neither `nan` nor the nodata value,
the field becomes `op(field[i], clamp(offset + factor * v, min, max))`; every
other entry keeps its value. -/
theorem C27_modify_field (op : Operation) (fm : FieldModifier) (func : FieldFunctor)
    (m : Cartesian2DMesh) (time : ValueType) (field : MeshField)
    (hoff : fm.offset_.IsNum) (hfac : fm.factor_.IsNum)
    (hsel : ∀ l, fm.sel_.list_ = some l → l.Nodup) (i : Nat) :
    (fm.sel_.selects m i ∧ (ValueCalculator.functorValue fm func m time i).isNan = false ∧
        (ValueCalculator.functorValue fm func m time i).ne fm.nodata_ = true →
      modify_field op fm func m time field i
        = op.apply (field i)
            (clamp (fm.offset_ + fm.factor_ * ValueCalculator.functorValue fm func m time i)
              fm.min_ fm.max_)) ∧
    (¬ (fm.sel_.selects m i ∧ (ValueCalculator.functorValue fm func m time i).isNan = false ∧
        (ValueCalculator.functorValue fm func m time i).ne fm.nodata_ = true) →
      modify_field op fm func m time field i = field i) := by
  have hat := modify_field_at op fm func m time field hsel i
  constructor
  · rintro ⟨hs, hv, hn⟩
    have hg := get_value_valid fm func m time i hoff hfac hv hn
    rw [hat.1 ⟨hs, hg.2⟩, hg.1]
  · intro h
    refine hat.2 (fun hc => h ⟨hc.1, ?_⟩)
    by_contra hvn
    have hsk : (ValueCalculator.get_value fm func m time i).isNan = true := by
      apply get_value_skipped
      by_cases hv : (ValueCalculator.functorValue fm func m time i).isNan = true
      · exact Or.inl hv
      · right
        have hv1 : (ValueCalculator.functorValue fm func m time i).isNan = false := by
          simpa using hv
        by_contra hne
        exact hvn ⟨hv1, by simpa using hne⟩
    rw [hsk] at hc
    cases hc.2

theorem C27_modify_field_witness :
    modify_field Operation.offset sampleModifier (FixedValueFieldFunctor (num 1)) twoCellMesh
        (num 0) (fun _ => num 5) 1 = num 8 ∧
      modify_field Operation.offset sampleModifier (FixedValueFieldFunctor (num 1)) twoCellMesh
        (num 0) (fun _ => num 5) 1
        = Operation.offset.apply (num 5)
            (clamp (sampleModifier.offset_ + sampleModifier.factor_ *
              ValueCalculator.functorValue sampleModifier (FixedValueFieldFunctor (num 1))
                twoCellMesh (num 0) 1) sampleModifier.min_ sampleModifier.max_) ∧
      modify_field Operation.offset sampleModifier (FixedValueFieldFunctor (num 1)) twoCellMesh
        (num 0) (fun _ => num 5) 0 = num 5 :=
  ⟨by decide!,
    (C27_modify_field Operation.offset sampleModifier (FixedValueFieldFunctor (num 1))
      twoCellMesh (num 0) (fun _ => num 5) ⟨1, rfl⟩ ⟨2, rfl⟩
      (fun l hl => by cases hl; exact List.nodup_singleton 1) 1).1
      ⟨List.mem_singleton.mpr rfl, by decide!, by decide!⟩,
    (C27_modify_field Operation.offset sampleModifier (FixedValueFieldFunctor (num 1))
      twoCellMesh (num 0) (fun _ => num 5) ⟨1, rfl⟩ ⟨2, rfl⟩
      (fun l hl => by cases hl; exact List.nodup_singleton 1) 0).2
      (fun h => by
        have h1 : (0 : Nat) ∈ [1] := h.1
        simp at h1)⟩

/-! ## Time series -/

/-- The scan of the accessor stops at the first entry above `time`. -/
theorem TimeSeriesAccessor.scan_eq (time : ℚ) : ∀ (l : List ℚ) (k j : Nat), j < l.length →
    (∀ p, p < j → l.getD p 0 ≤ time) → l.getD j 0 > time →
    TimeSeriesAccessor.scan l time k = k + j
  | [], _, _, hj, _, _ => absurd hj (by simp)
  | a :: rest, k, 0, _, _, h0 => by
    unfold TimeSeriesAccessor.scan
    rw [if_pos (by simpa using h0)]
    rfl
  | a :: rest, k, j + 1, hj, hlo, hhi => by
    unfold TimeSeriesAccessor.scan
    have ha : ¬ a > time := by
      have := hlo 0 (Nat.succ_pos j)
      simp only [List.getD_cons_zero] at this
      exact not_lt.mpr this
    rw [if_neg ha, TimeSeriesAccessor.scan_eq time rest (k + 1) j
      (by simpa using hj)
      (fun p hp => by
        have := hlo (p + 1) (by omega)
        simpa using this)
      (by simpa using hhi)]
    omega

/-- At the last time of the series `0, 1` the accessor reads the index `2` of
arrays of two entries. -/
theorem TimeSeriesAccessor.call_at_last :
    TimeSeriesAccessor.call [0, 1] [0, 1] 1 = none := by
  decide!

/-- C28 (counterexample): at the time `-1`, before the first time of the series
with the times `0, 1` and the values `0, 1`, the accessor returns `-1`, the
value of the line through the first two points, and not the first value `0`. -/
theorem C28_extrapolates_before_first :
    (-1 : ℚ) ≤ [(0 : ℚ), 1].getD 0 0 ∧ [(0 : ℚ), 1].getD 0 0 = 0 ∧
      TimeSeriesAccessor.call [0, 1] [0, 1] (-1) = some (num (-1)) := by
  decide!

/-- C28 (amended): for strictly increasing times, as many values, and a time `t`
below the last time, the accessor returns (reading inside the arrays only) the
value at `t` of the line through the points `i` and `i + 1`, where `i` is the
segment with `t_i <= t < t_{i+1}`, or the first segment when `t < t_1`; this is
the first value at `t = t_0`. -/
theorem C28_interpolates_below_last (times values : List ℚ) (t : ℚ) (i : Nat)
    (hs : times.Sorted (· < ·)) (hlen : values.length = times.length)
    (hi : i + 1 < times.length) (hlo : i = 0 ∨ times.getD i 0 ≤ t)
    (hhi : t < times.getD (i + 1) 0) :
    TimeSeriesAccessor.call times values t = some (num (specSegment times values i t)) ∧
      (t = times.getD 0 0 → i = 0 ∧ specSegment times values i t = values.getD 0 0) := by
  have hmono : ∀ p q, p < q → q < times.length → times.getD p 0 < times.getD q 0 := by
    intro p q hpq hq
    rw [List.getD_eq_getElem _ _ (by omega : p < times.length), List.getD_eq_getElem _ _ hq]
    exact List.pairwise_iff_getElem.mp hs p q (by omega) hq hpq
  have hscan : TimeSeriesAccessor.scan (times.drop 1) t 1 = 1 + i := by
    apply TimeSeriesAccessor.scan_eq
    · rw [List.length_drop]; omega
    · intro p hp
      rw [List.getD_eq_getElem?_getD, List.getElem?_drop, ← List.getD_eq_getElem?_getD]
      rcases hlo with h0 | h0
      · omega
      · by_cases hpi : 1 + p = i
        · rw [hpi]; exact h0
        · exact le_trans (le_of_lt (hmono (1 + p) i (by omega) (by omega))) h0
    · rw [List.getD_eq_getElem?_getD, List.getElem?_drop, ← List.getD_eq_getElem?_getD,
        Nat.add_comm]
      exact hhi
  have hne : times.getD (i + 1) 0 - times.getD i 0 ≠ 0 :=
    sub_ne_zero.mpr (ne_of_gt (hmono i (i + 1) (by omega) hi))
  constructor
  · unfold TimeSeriesAccessor.call
    simp only [hscan]
    rw [Nat.add_sub_cancel_left, Nat.add_comm 1 i,
      List.getElem?_eq_getElem (by omega : i < times.length),
      List.getElem?_eq_getElem hi,
      List.getElem?_eq_getElem (by omega : i < values.length),
      List.getElem?_eq_getElem (by omega : i + 1 < values.length)]
    simp only
    have e1 : times[i] = times.getD i 0 := (List.getD_eq_getElem _ _ _).symm
    have e2 : times[i + 1] = times.getD (i + 1) 0 := (List.getD_eq_getElem _ _ _).symm
    have e3 : values[i] = values.getD i 0 := (List.getD_eq_getElem _ _ _).symm
    have e4 : values[i + 1] = values.getD (i + 1) 0 := (List.getD_eq_getElem _ _ _).symm
    rw [e1, e2, e3, e4, ValueType.num_sub, ValueType.num_sub, ValueType.num_sub,
      ValueType.num_div_of_ne _ hne, ValueType.num_mul, ValueType.num_add]
    unfold specSegment
    congr 2
    field_simp
  · intro ht
    have h0 : i = 0 := by
      rcases hlo with h0 | h0
      · exact h0
      · by_contra hne0
        have := hmono 0 i (by omega) (by omega)
        rw [← ht] at this
        exact absurd h0 (not_le.mpr this)
    refine ⟨h0, ?_⟩
    unfold specSegment
    rw [h0, ht]
    simp

theorem C28_interpolates_below_last_witness :
    TimeSeriesAccessor.call [0, 1, 3] [0, 1, 5] 2 = some (num 3) ∧
      TimeSeriesAccessor.call [0, 1, 3] [0, 1, 5] 2
        = some (num (specSegment [0, 1, 3] [0, 1, 5] 1 2)) :=
  ⟨by decide!,
    (C28_interpolates_below_last [0, 1, 3] [0, 1, 5] 2 1 (by decide!) rfl (by decide)
      (Or.inr (by decide!)) (by decide!)).1⟩

/-- C29: `load_csv` returns the series with the times `0, 2, 1` of the file, which
are not increasing, where `load_inline` throws for the same entries; and with a
time factor of `-1` the series that `load_inline` returns for the times `0, 1`
has the times `0, -1`. -/
theorem C29_csv_times_not_checked :
    load_csv defaultScaling [0, 2, 1] [10, 20, 30] = some ([0, 2, 1], [10, 20, 30]) ∧
      ¬ ([0, 2, 1] : List ℚ).Sorted (· < ·) ∧
      load_inline defaultScaling [(0, 10), (2, 20), (1, 30)] = none ∧
      load_inline defaultScaling [(0, 10), (1, 20), (2, 30)]
        = some ([0, 1, 2], [10, 20, 30]) ∧
      load_inline { defaultScaling with time_factor := -1 } [(0, 10), (1, 20)]
        = some ([0, -1], [10, 20]) := by
  decide!

/-! ## Rasters -/

/-- C30: on the raster of one pixel (value `5`, nodata `-9999`) over the unit
square the location `(-0.5, 0.5)`, half a pixel left of the raster, has the
fractional column `-1/2`, and `inspect_point` returns the pixel value `5` and
not the nodata `-1` of the caller; so does the location `(0.5, 1.5)`, half a
pixel above; half a pixel right and half a pixel below the caller's nodata is
returned. -/
theorem C30_near_strip_reads_edge_pixel :
    unitRaster.get_fractional_xi (num (-1 / 2), num (1 / 2)) = num (-1 / 2) ∧
      unitRaster.inspect_point (num (-1 / 2), num (1 / 2)) (num (-1)) = some (num 5) ∧
      unitRaster.get_fractional_yi (num (1 / 2), num (3 / 2)) = num (-1 / 2) ∧
      unitRaster.inspect_point (num (1 / 2), num (3 / 2)) (num (-1)) = some (num 5) ∧
      unitRaster.inspect_point (num (3 / 2), num (1 / 2)) (num (-1)) = some (num (-1)) ∧
      unitRaster.inspect_point (num (1 / 2), num (-1 / 2)) (num (-1)) = some (num (-1)) ∧
      unitRaster.inspect_point (num (1 / 2), num (1 / 2)) (num (-1)) = some (num 5) := by
  decide!

/-- C31: on the raster of one pixel of value `5` the box of size `1/2` around the
centre of the pixel lies inside the pixel and `inspect_box` with the mean
operation returns the caller's nodata `-1`; on the raster of `2 x 2` pixels the
box `[0.5, 1.5] x [0.5, 1.5]` meets all four pixels and the result is the value
`1` of one; the box `[3, 5] x [1, 2]` right of that raster gives the mean of the
pixel `(1, 1)` and the entry after the pixels; and the box `[2, 4] x [-0.5, 1.5]`
right of the raster of one pixel reads the index `2` of `values_ro_`, which
has two entries.  A box on the pixel grid is reduced over its pixels. -/
theorem C31_box_misses_covered_pixels :
    unitRaster.inspect_point (num (1 / 2), num (1 / 2)) (num (-1)) = some (num 5) ∧
      unitRaster.inspect_box (num (1 / 2), num (1 / 2)) (num (1 / 2), num (1 / 2)) (num (-1))
        = some (num (-1)) ∧
      squareRaster.inspect_box (num 1, num 1) (num 1, num 1) (num (-1)) = some (num 1) ∧
      squareRaster.inspect_box (num 4, num (3 / 2)) (num 2, num 1) (num (-1))
        = some (num ((4 + -9999) / 2)) ∧
      unitRaster.values_ro_.length = 2 ∧
      unitRaster.inspect_box (num 3, num (1 / 2)) (num 2, num 2) (num (-1)) = none ∧
      squareRaster.inspect_box (num 1, num 1) (num 2, num 2) (num (-1))
        = some (num ((1 + 2 + 3 + 4) / 4)) := by
  decide!

/-- C38: for the geotransform `a = 0, b = 1, c = 1/2, d = 0, e = 1, f = 1`
(`b f = 1`, `c e = 1/2`) the pixel `(col, row) = (1, 1)` lies at
`X = a + b col + c row = 3/2`, `Y = d + e col + f row = 2`, and
`get_fractional_xi`, `get_fractional_yi` return `(1/4, 1/4)` there: the
difference is multiplied by `1 - c e / (b f)`, where the inverse map divides
by it. -/
theorem C38_rotated_round_trip_fails :
    skewRaster.x_tl + skewRaster.x_size * num 1 + skewRaster.x_rot * num 1 = num (3 / 2) ∧
      skewRaster.y_tl + skewRaster.y_rot * num 1 + skewRaster.y_size * num 1 = num 2 ∧
      skewRaster.inv_denom = num (1 / 2) ∧
      skewRaster.get_fractional_xi (num (3 / 2), num 2) = num (1 / 4) ∧
      skewRaster.get_fractional_yi (num (3 / 2), num 2) = num (1 / 4) ∧
      (3 / 2 - 2 * (1 / 2) : ℚ) / (1 / 2) = 1 := by
  decide!

/-! ## Initial conditions -/

/-- Without deactivated cells the state that `initial_state` returns has
`u = v = 0` at every cell, whatever the configuration holds. -/
theorem SVSolver.initial_state_velocity (sv : SVSolver) (gconf : GlobalConfig)
    (U : SolutionState) (h : sv.initial_state gconf [] = some U) :
    (U 1 = fun _ => num 0) ∧ (U 2 = fun _ => num 0) := by
  unfold SVSolver.initial_state at h
  dsimp only at h
  split_ifs at h
  all_goals
    rw [← Option.some.inj h]
    exact ⟨rfl, rfl⟩

/-- C32: with the velocity `(u, v) = (1, 2)` configured (depth `1`),
`initial_velocity` gives the fields `(1, 2)` and the state that `initial_state`
returns holds `(h, u, v) = (1, 0, 0)` at the cell `0`; with the unit flow
`(qx, qy) = (1, 4)` and the depth `2`, `initial_velocity` gives
`(1/2, 2)` and the state holds `(2, 0, 0)`; with both `(u, v)` and `(qx, qy)`
configured `initial_velocity` throws and `initial_state` returns a state. -/
theorem C32_initial_velocity_not_applied :
    (SVSolver.initial_velocity velocityConfig (fun _ => num 1)).map
        (fun uv => (uv 0 0, uv 1 0)) = some (num 1, num 2) ∧
      ((closedSolver twoCellMesh (fun _ => num 0)).initial_state velocityConfig []).map
        (fun U => (U 0 0, U 1 0, U 2 0)) = some (num 1, num 0, num 0) ∧
      (SVSolver.initial_velocity unitFlowConfig (fun _ => num 2)).map
        (fun uv => (uv 0 0, uv 1 0)) = some (num (1 / 2), num 2) ∧
      ((closedSolver twoCellMesh (fun _ => num 0)).initial_state unitFlowConfig []).map
        (fun U => (U 0 0, U 1 0, U 2 0)) = some (num 2, num 0, num 0) ∧
      (SVSolver.initial_velocity conflictingConfig (fun _ => num 1)).isNone = true ∧
      ((closedSolver twoCellMesh (fun _ => num 0)).initial_state conflictingConfig []).isSome
        = true := by
  decide!

/-! ## NIMROD rasters -/

/-- C33: for a file of `2 x 2` pixels (pixel size `1`, lower left corner `(0, 0)`)
loaded without a bounding box, `ncols() * nrows()` is `4` and `values()` is
empty; with the bounding box `(0, -3, 2, -1)`, below the file, the constructor
returns with `ulc_ypx_ = 1 > lrc_ypx_ = 0`; with the bounding box
`(0.5, 0.5, 1.5, 1)` inside the file the lower row `3, 4` is handed on. -/
theorem C33_whole_file_has_no_values :
    (NIMRODRasterFormat.create sampleBlock 2 2 0 1 1 2 none).map
        (fun r => (r.ncols, r.nrows, r.values)) = some (2, 2, []) ∧
      (NIMRODRasterFormat.create sampleBlock 2 2 0 1 1 2 (some (0, -3, 2, -1))).map
        (fun r => (r.ulc_ypx_, r.lrc_ypx_, r.ncols, r.nrows, r.values))
        = some (1, 0, 2, 0, []) ∧
      (NIMRODRasterFormat.create sampleBlock 2 2 0 1 1 2 (some (1 / 2, 1 / 2, 3 / 2, 1))).map
        (fun r => (r.ulc_xpx_, r.ulc_ypx_, r.lrc_xpx_, r.lrc_ypx_, r.values))
        = some (0, 1, 1, 1, [num 3, num 4]) := by
  decide!

/-! ## Hemisphere -/

/-- The value of the hemisphere functor at a point, for numbers: inside the
circle the sum of the root and the centre height, multiplied by `1` (convex) or
`-1`; outside `nodata`. -/
theorem hemisphere_at_point (B : Builtins) (x0 y0 z0 r x y : ℚ) (convex : Bool)
    (time nodata : ValueType) :
    ((x - x0) * (x - x0) + (y - y0) * (y - y0) ≤ r * r →
      (HemisphereFieldFunctor B (num x0, num y0) (num z0) (num r) convex).at_point time
          (num x, num y) nodata
        = num ((B.sqrt (r * r - (x - x0) * (x - x0) - (y - y0) * (y - y0)) + z0)
            * (if convex then 1 else -1))) ∧
    (¬ (x - x0) * (x - x0) + (y - y0) * (y - y0) ≤ r * r →
      (HemisphereFieldFunctor B (num x0, num y0) (num z0) (num r) convex).at_point time
          (num x, num y) nodata = nodata) := by
  have hge : (num (r * r - (x - x0) * (x - x0) - (y - y0) * (y - y0))).ge (num 0)
      = decide ((x - x0) * (x - x0) + (y - y0) * (y - y0) ≤ r * r) := by
    show decide ((0 : ℚ) ≤ r * r - (x - x0) * (x - x0) - (y - y0) * (y - y0)) = _
    apply decide_eq_decide.mpr
    constructor <;> intro h <;> linarith
  constructor
  · intro h
    show (if (num r * num r - (num x - num x0) * (num x - num x0)
        - (num y - num y0) * (num y - num y0)).ge (num 0) = true then _ else _) = _
    rw [ValueType.num_sub, ValueType.num_sub, ValueType.num_mul, ValueType.num_mul,
      ValueType.num_mul, ValueType.num_sub, ValueType.num_sub, hge,
      if_pos (decide_eq_true h)]
    have hd : ¬ r * r - (x - x0) * (x - x0) - (y - y0) * (y - y0) < 0 := by
      intro hc; linarith
    have hs : ValueType.liftSqrt B.sqrt
        (num (r * r - (x - x0) * (x - x0) - (y - y0) * (y - y0)))
        = num (B.sqrt (r * r - (x - x0) * (x - x0) - (y - y0) * (y - y0))) := by
      show (if r * r - (x - x0) * (x - x0) - (y - y0) * (y - y0) < 0 then nan else num _) = _
      rw [if_neg hd]
    show (ValueType.liftSqrt B.sqrt (num _) + num z0) * _ = _
    rw [hs, ValueType.num_add]
    cases convex with
    | true => exact ValueType.num_mul _ _
    | false => exact ValueType.num_mul _ _
  · intro h
    show (if (num r * num r - (num x - num x0) * (num x - num x0)
        - (num y - num y0) * (num y - num y0)).ge (num 0) = true then _ else _) = _
    rw [ValueType.num_sub, ValueType.num_sub, ValueType.num_mul, ValueType.num_mul,
      ValueType.num_mul, ValueType.num_sub, ValueType.num_sub, hge,
      if_neg (by simpa using h)]

/-- C34: the hemisphere that is not convex, of radius `1` about `(0, 0)` with the
centre height `z0 = 1`, has the value `-2` at its centre, that is
`-(sqrt(1) + z0)`, and not `-sqrt(1) + z0 = 0`; the convex one has the value
`2 = sqrt(1) + z0`; outside the circle the functor returns nodata. -/
theorem C34_concave_negates_centre_height :
    (HemisphereFieldFunctor sampleBuiltins (num 0, num 0) (num 1) (num 1) false).at_point
        (num 0) (num 0, num 0) (num (-9999)) = num (-2) ∧
      -(sampleBuiltins.sqrt (1 * 1 - 0 * 0 - 0 * 0)) + (1 : ℚ) = 0 ∧
      (HemisphereFieldFunctor sampleBuiltins (num 0, num 0) (num 1) (num 1) true).at_point
        (num 0) (num 0, num 0) (num (-9999)) = num 2 ∧
      (HemisphereFieldFunctor sampleBuiltins (num 0, num 0) (num 1) (num 1) false).at_point
        (num 0) (num 1, num 1) (num (-9999)) = num (-9999) := by
  decide!

/-! ## The exchange loop on a row with four crossings -/

/-- C37: on the row of four unit cells the comb with two teeth crosses the row
line at the columns `2, 3, 0, 1` (in the order of its ring); the exchange loop
leaves `2, 0, 1, 3`, which is not in non-decreasing order, and the cells
`1, 2` are passed to `fn`, where the spans of the sorted crossings
`0, 1, 2, 3` are the cells `0` and `2`. -/
theorem C37_exchange_loop_does_not_sort :
    scanRow combMesh (toLineString combRing) 0 = some [2, 3, 0, 1] ∧
      exchangePass [2, 3, 0, 1] = [2, 0, 1, 3] ∧
      ¬ ([2, 0, 1, 3] : List Nat).Sorted (· ≤ ·) ∧
      for_each_object_within combMesh [toLineString combRing] false = some [1, 2] ∧
      emitSpans 4 0 [0, 1, 2, 3] = some [0, 2] := by
  refine ⟨by decide!, by decide, by decide, by decide!, by decide⟩

/-! ## The tableaux of the named schemes -/

/-- C39: for every method that `create` knows, with the coefficients read as exact
rationals, the weights of the last row sum to `1` and every stage row `i < S`
sums to `c[i]`; for `generic2` for every `alpha != 0`, for `generic3` for
every `alpha` other than `0`, `1` and `2/3`.  The tableau has `S + 1` rows of
`S` entries and `S` stage times. -/
theorem C39_tableau_row_sums (method : RKMethod) (alpha : ℚ)
    (h2 : method = RKMethod.generic2 → alpha ≠ 0)
    (h3 : method = RKMethod.generic3 → alpha ≠ 0 ∧ alpha ≠ 1 ∧ alpha ≠ 2 / 3) :
    (((method.coeffs alpha).a_.getD (method.coeffs alpha).S []).sum = 1) ∧
      (∀ i, i < (method.coeffs alpha).S →
        ((method.coeffs alpha).a_.getD i []).sum = (method.coeffs alpha).c_.getD i 0) ∧
      (method.coeffs alpha).a_.map List.length
        = List.replicate ((method.coeffs alpha).S + 1) (method.coeffs alpha).S ∧
      (method.coeffs alpha).c_.length = (method.coeffs alpha).S := by
  cases method
  case generic2 =>
    have ha := h2 rfl
    refine ⟨?_, fun i hi => ?_, rfl, rfl⟩
    · show ([1 - 1 / (2 * alpha), 1 / (2 * alpha)] : List ℚ).sum = 1
      simp only [List.sum_cons, List.sum_nil]
      ring
    · have hi2 : i < 2 := hi
      interval_cases i
      · show ([0, 0] : List ℚ).sum = 0
        norm_num
      · show ([alpha, 0] : List ℚ).sum = alpha
        simp
  case generic3 =>
    obtain ⟨ha0, ha1, ha2⟩ := h3 rfl
    have h1a : 1 - alpha ≠ 0 := sub_ne_zero.mpr (Ne.symm ha1)
    refine ⟨?_, fun i hi => ?_, rfl, rfl⟩
    · show ([1 / 2 - 1 / (6 * alpha), 1 / (6 * alpha * (1 - alpha)),
        (2 - 3 * alpha) / (6 * (1 - alpha))] : List ℚ).sum = 1
      simp only [List.sum_cons, List.sum_nil]
      field_simp
      ring
    · have hi3 : i < 3 := hi
      interval_cases i
      · show ([0, 0, 0] : List ℚ).sum = 0
        norm_num
      · show ([alpha, 0, 0] : List ℚ).sum = alpha
        simp
      · show ([1 + (1 - alpha) / (alpha * (3 * alpha - 2)),
          -(1 - alpha) / (alpha * (3 * alpha - 2)), 0] : List ℚ).sum = 1
        simp only [List.sum_cons, List.sum_nil]
        ring
  all_goals
    refine ⟨by norm_num [RKMethod.coeffs], fun i hi => ?_, rfl, rfl⟩
    simp only [RKMethod.coeffs] at hi
    interval_cases i <;> norm_num [RKMethod.coeffs]

theorem C39_tableau_row_sums_witness :
    (((RKMethod.generic3.coeffs (1 / 2)).a_.getD 3 []).sum = 1) ∧
      ((RKMethod.generic3.coeffs (1 / 2)).a_.getD 2 []).sum
        = (RKMethod.generic3.coeffs (1 / 2)).c_.getD 2 0 :=
  ⟨(C39_tableau_row_sums RKMethod.generic3 (1 / 2) (fun h => by cases h)
      (fun _ => ⟨by norm_num, by norm_num, by norm_num⟩)).1,
    (C39_tableau_row_sums RKMethod.generic3 (1 / 2) (fun h => by cases h)
      (fun _ => ⟨by norm_num, by norm_num, by norm_num⟩)).2.1 2 (by decide)⟩

/-! ## The flux divergence summed over the mesh -/

/-- The flux divergence at the cell `(ix, iy)` times the cell area, for mass fluxes
that are numbers at the four faces of the cell. -/
theorem fluxDivergence_cell (m : Cartesian2DMesh) (F : FieldVector 4)
    (hdx : m.cell_size_0 ≠ 0) (hdy : m.cell_size_1 ≠ 0)
    (hF : ∀ fid, fid < m.face_count → (F 0 fid).IsNum) {ix iy : Nat}
    (hx : ix < m.ncells_0) (hy : iy < m.ncells_1) :
    (fluxDivergence m F (iy * m.ncells_0 + ix)).IsNum ∧
    (fluxDivergence m F (iy * m.ncells_0 + ix)).toRat * (m.cell_size_0 * m.cell_size_1)
      = m.cell_size_1 * ((F 0 (iy * (m.ncells_0 + 1) + ix)).toRat
          - (F 0 (iy * (m.ncells_0 + 1) + (ix + 1))).toRat)
        + m.cell_size_0 * ((F 0 ((m.ncells_0 + 1) * m.ncells_1 + iy * m.ncells_0 + ix)).toRat
          - (F 0 ((m.ncells_0 + 1) * m.ncells_1 + (iy + 1) * m.ncells_0 + ix)).toRat) := by
  have hfc : m.face_count = (m.ncells_0 + 1) * m.ncells_1 + m.ncells_0 * (m.ncells_1 + 1) := rfl
  have hrow : iy * (m.ncells_0 + 1) + (m.ncells_0 + 1) ≤ (m.ncells_0 + 1) * m.ncells_1 := by
    calc iy * (m.ncells_0 + 1) + (m.ncells_0 + 1) = (iy + 1) * (m.ncells_0 + 1) := by ring
      _ ≤ m.ncells_1 * (m.ncells_0 + 1) := Nat.mul_le_mul_right _ hy
      _ = (m.ncells_0 + 1) * m.ncells_1 := by ring
  have hcol : (iy + 1) * m.ncells_0 + m.ncells_0 ≤ m.ncells_0 * (m.ncells_1 + 1) := by
    calc (iy + 1) * m.ncells_0 + m.ncells_0 = (iy + 2) * m.ncells_0 := by ring
      _ ≤ (m.ncells_1 + 1) * m.ncells_0 := Nat.mul_le_mul_right _ (by omega)
      _ = m.ncells_0 * (m.ncells_1 + 1) := by ring
  have hcol0 : (iy + 1) * m.ncells_0 = iy * m.ncells_0 + m.ncells_0 := by ring
  obtain ⟨w, hw⟩ := hF (iy * (m.ncells_0 + 1) + ix) (by omega)
  obtain ⟨e, he⟩ := hF (iy * (m.ncells_0 + 1) + (ix + 1)) (by omega)
  obtain ⟨s, hs⟩ := hF ((m.ncells_0 + 1) * m.ncells_1 + iy * m.ncells_0 + ix) (by omega)
  obtain ⟨n, hn⟩ := hF ((m.ncells_0 + 1) * m.ncells_1 + (iy + 1) * m.ncells_0 + ix) (by omega)
  have hval : fluxDivergence m F (iy * m.ncells_0 + ix)
      = num ((w - e) / m.cell_size_0 + (s - n) / m.cell_size_1) := by
    unfold fluxDivergence
    rw [Cartesian2DMesh.get_cell_index_linear m hx]
    show (F 0 (iy * (m.ncells_0 + 1) + ix) - F 0 (iy * (m.ncells_0 + 1) + ix + 1))
        / num m.cell_size_0
      + (F 0 ((m.ncells_0 + 1) * m.ncells_1 + iy * m.ncells_0 + ix)
        - F 0 ((m.ncells_0 + 1) * m.ncells_1 + iy * m.ncells_0 + ix + m.ncells_0))
        / num m.cell_size_1 = _
    have e1 : iy * (m.ncells_0 + 1) + ix + 1 = iy * (m.ncells_0 + 1) + (ix + 1) := by ring
    have e2 : (m.ncells_0 + 1) * m.ncells_1 + iy * m.ncells_0 + ix + m.ncells_0
        = (m.ncells_0 + 1) * m.ncells_1 + (iy + 1) * m.ncells_0 + ix := by ring
    rw [e1, e2, hw, he, hs, hn, ValueType.num_sub, ValueType.num_sub,
      ValueType.num_div_of_ne _ hdx, ValueType.num_div_of_ne _ hdy, ValueType.num_add]
  refine ⟨⟨_, hval⟩, ?_⟩
  rw [hval, hw, he, hs, hn]
  show ((w - e) / m.cell_size_0 + (s - n) / m.cell_size_1) * (m.cell_size_0 * m.cell_size_1)
    = m.cell_size_1 * (w - e) + m.cell_size_0 * (s - n)
  field_simp
  ring

/-- C40: for every mesh with cell sizes other than zero and every flux field whose
mass component is a number at every face, the sum over all cells of the
flux-divergence part of `dh/dt` times the cell area `dx * dy` is `dy` times the
sum over the rows of (`Fh` at the west boundary face minus `Fh` at the east
boundary face) plus `dx` times the sum over the columns of (`Fh` at the south
boundary face minus `Fh` at the north boundary face): the flux of every
interior face cancels between its two cells. -/
theorem C40_flux_divergence_telescopes (m : Cartesian2DMesh) (F : FieldVector 4)
    (hdx : m.cell_size_0 ≠ 0) (hdy : m.cell_size_1 ≠ 0)
    (hF : ∀ fid, fid < m.face_count → (F 0 fid).IsNum) :
    ∑ c ∈ Finset.range m.cell_count,
        (fluxDivergence m F c).toRat * (m.cell_size_0 * m.cell_size_1)
      = m.cell_size_1 * ∑ iy ∈ Finset.range m.ncells_1,
            ((F 0 (iy * (m.ncells_0 + 1))).toRat
              - (F 0 (iy * (m.ncells_0 + 1) + m.ncells_0)).toRat)
        + m.cell_size_0 * ∑ ix ∈ Finset.range m.ncells_0,
            ((F 0 ((m.ncells_0 + 1) * m.ncells_1 + ix)).toRat
              - (F 0 ((m.ncells_0 + 1) * m.ncells_1 + m.ncells_1 * m.ncells_0 + ix)).toRat) := by
  unfold Cartesian2DMesh.cell_count
  rw [sum_cells]
  have hcell : ∀ iy, iy ∈ Finset.range m.ncells_1 → ∀ ix, ix ∈ Finset.range m.ncells_0 →
      (fluxDivergence m F (iy * m.ncells_0 + ix)).toRat * (m.cell_size_0 * m.cell_size_1)
        = m.cell_size_1 * ((F 0 (iy * (m.ncells_0 + 1) + ix)).toRat
            - (F 0 (iy * (m.ncells_0 + 1) + (ix + 1))).toRat)
          + m.cell_size_0
            * ((F 0 ((m.ncells_0 + 1) * m.ncells_1 + iy * m.ncells_0 + ix)).toRat
              - (F 0 ((m.ncells_0 + 1) * m.ncells_1 + (iy + 1) * m.ncells_0 + ix)).toRat) :=
    fun iy hiy ix hix => (fluxDivergence_cell m F hdx hdy hF (Finset.mem_range.mp hix)
      (Finset.mem_range.mp hiy)).2
  rw [Finset.sum_congr rfl (fun iy hiy => Finset.sum_congr rfl (hcell iy hiy))]
  simp only [Finset.sum_add_distrib, ← Finset.mul_sum]
  congr 1
  · congr 1
    apply Finset.sum_congr rfl
    intro iy _
    rw [Finset.sum_range_sub' (fun j => (F 0 (iy * (m.ncells_0 + 1) + j)).toRat)]
    rfl
  · congr 1
    rw [Finset.sum_comm]
    apply Finset.sum_congr rfl
    intro ix _
    rw [Finset.sum_range_sub'
      (fun j => (F 0 ((m.ncells_0 + 1) * m.ncells_1 + j * m.ncells_0 + ix)).toRat)]
    simp only [zero_mul, add_zero]

theorem C40_flux_divergence_telescopes_witness :
    ∑ c ∈ Finset.range twoCellMesh.cell_count,
        (fluxDivergence twoCellMesh squareFluxes c).toRat
          * (twoCellMesh.cell_size_0 * twoCellMesh.cell_size_1)
      = twoCellMesh.cell_size_1 * ∑ iy ∈ Finset.range twoCellMesh.ncells_1,
            ((squareFluxes 0 (iy * (twoCellMesh.ncells_0 + 1))).toRat
              - (squareFluxes 0 (iy * (twoCellMesh.ncells_0 + 1) + twoCellMesh.ncells_0)).toRat)
        + twoCellMesh.cell_size_0 * ∑ ix ∈ Finset.range twoCellMesh.ncells_0,
            ((squareFluxes 0 ((twoCellMesh.ncells_0 + 1) * twoCellMesh.ncells_1 + ix)).toRat
              - (squareFluxes 0 ((twoCellMesh.ncells_0 + 1) * twoCellMesh.ncells_1
                  + twoCellMesh.ncells_1 * twoCellMesh.ncells_0 + ix)).toRat) :=
  C40_flux_divergence_telescopes twoCellMesh squareFluxes (by decide!) (by decide!)
    (fun fid _ => ⟨_, rfl⟩)

/-- The depth component that the temporal-derivative kernel writes at a cell
without a stage boundary (`h_in0 < 0`) is the flux divergence plus the inflow
source. -/
theorem TemporalDerivativeKernel_dhdt (B : Builtins) (m : Cartesian2DMesh)
    (U zb : FieldVector 3) (n : FieldVector 4) (Q_in h_in : FieldVector 2) (F : FieldVector 4)
    (t dt b0 b1 : ValueType) (c : Nat) (hh : (h_in 0 c).lt (num 0) = true) :
    TemporalDerivativeKernel B m U zb n Q_in h_in F t dt b0 b1 c 0
      = fluxDivergence m F c
        + num (1 / 2)
          * ((Q_in 0 c + (t - b0) * ((Q_in 1 c - Q_in 0 c) / (b1 - b0)))
            + ((Q_in 0 c + (t - b0) * ((Q_in 1 c - Q_in 0 c) / (b1 - b0)))
              + dt * ((Q_in 1 c - Q_in 0 c) / (b1 - b0))))
          / (num m.cell_size_0 * num m.cell_size_1) := by
  unfold TemporalDerivativeKernel fluxDivergence
  simp only [hh, if_true, Matrix.cons_val_zero]
  rfl

/-! ## Wall faces -/

theorem divergingRow_nonneg : NonNegDepth divergingRow.solver_.mesh_ divergingRow.U_ := by
  intro c _ h hh
  have h1 : num (1 / 1000) = num h := hh
  have h2 : (1 / 1000 : ℚ) = h := ValueType.num.inj h1
  rw [← h2]
  norm_num

/-- C35: in a state that is consistent with the bed (every cell inactive or
holding numbers), with no negative depth, zero bed-slope fields and the slopes
of the minmod reconstruction, every wall face of a live cell with the depth
`h` (a face on the mesh boundary, or with the inactive cell on its other side)
has the ghost bed `zb_live + 1.1 h` on its other side, so that the bed step
written to `F[3]` is `1.1 h` across the wall, and the fluxes `Hh`, `Hu`, `Hv`
are all `0`, whatever the depth and the velocity of the live cell. -/
theorem C35_wall_is_reflecting {m : Cartesian2DMesh} {zbed : FieldVector 3}
    {U : SolutionState} (hcons : Consistent m zbed U) (hnn : NonNegDepth m U)
    (hslope : ∀ c, c < m.cell_count → zbed 1 c = num 0 ∧ zbed 2 c = num 0)
    (hdx : 0 < m.cell_size_0) (hdy : 0 < m.cell_size_1) (B : Builtins)
    (oldx oldy : FieldVector 3) (ix iy : Nat) (hx : ix < m.ncells_0) (hy : iy < m.ncells_1)
    (h : ℚ) (hU0 : U 0 (iy * m.ncells_0 + ix) = num h)
    (hact : zbed 0 (iy * m.ncells_0 + ix) ≠ nan) :
    ((ix = 0 ∨ zbed 0 (iy * m.ncells_0 + (ix - 1)) = nan) →
      FluxKernel B m U zbed (MinmodSpatialDerivative.calculate m U oldx oldy).1
        (MinmodSpatialDerivative.calculate m U oldx oldy).2 (iy * (m.ncells_0 + 1) + ix)
        = ![num 0, num 0, num 0, num (-(h * (11 / 10)))]) ∧
    ((ix + 1 = m.ncells_0 ∨ zbed 0 (iy * m.ncells_0 + (ix + 1)) = nan) →
      FluxKernel B m U zbed (MinmodSpatialDerivative.calculate m U oldx oldy).1
        (MinmodSpatialDerivative.calculate m U oldx oldy).2 (iy * (m.ncells_0 + 1) + ix + 1)
        = ![num 0, num 0, num 0, num (h * (11 / 10))]) ∧
    ((iy = 0 ∨ zbed 0 ((iy - 1) * m.ncells_0 + ix) = nan) →
      FluxKernel B m U zbed (MinmodSpatialDerivative.calculate m U oldx oldy).1
        (MinmodSpatialDerivative.calculate m U oldx oldy).2
        ((m.ncells_0 + 1) * m.ncells_1 + iy * m.ncells_0 + ix)
        = ![num 0, num 0, num 0, num (-(h * (11 / 10)))]) ∧
    ((iy + 1 = m.ncells_1 ∨ zbed 0 ((iy + 1) * m.ncells_0 + ix) = nan) →
      FluxKernel B m U zbed (MinmodSpatialDerivative.calculate m U oldx oldy).1
        (MinmodSpatialDerivative.calculate m U oldx oldy).2
        ((m.ncells_0 + 1) * m.ncells_1 + iy * m.ncells_0 + ix + m.ncells_0)
        = ![num 0, num 0, num 0, num (h * (11 / 10))]) := by
  have hc := m.linear_id_lt hx hy
  obtain ⟨z, Uc, sx, sy, hz, hUc, hh, hsx, hsy, hzx, hzy⟩ :=
    hcons.cell hnn hdx hdy oldx oldy hx hy hact
  have hh0 : Uc 0 = h := ValueType.num.inj ((hUc 0).symm.trans hU0)
  rw [← hh0]
  refine ⟨fun hwall => ?_, fun hwall => ?_, fun hwall => ?_, fun hwall => ?_⟩
  · exact FluxKernel_W_wall B m U zbed _ _ ix iy hx hy z (Uc 0) (Uc 1) (Uc 2) sx sy hz (hUc 0)
      (hUc 1) (hUc 2) hsx hsy (hslope _ hc) hh
      (hzx (hwall.elim Or.inl (fun h => Or.inr (Or.inl h))) 0) hwall
  · exact FluxKernel_E_wall B m U zbed _ _ ix iy hx hy z (Uc 0) (Uc 1) (Uc 2) sx sy hz (hUc 0)
      (hUc 1) (hUc 2) hsx hsy (hslope _ hc) hh
      (hzx (hwall.elim (fun h => Or.inr (Or.inr (Or.inl h)))
        (fun h => Or.inr (Or.inr (Or.inr h)))) 0) hwall
  · exact FluxKernel_S_wall B m U zbed _ _ ix iy hx hy z (Uc 0) (Uc 1) (Uc 2) sx sy hz (hUc 0)
      (hUc 1) (hUc 2) hsx hsy (hslope _ hc) hh
      (hzy (hwall.elim Or.inl (fun h => Or.inr (Or.inl h))) 0) hwall
  · exact FluxKernel_N_wall B m U zbed _ _ ix iy hx hy z (Uc 0) (Uc 1) (Uc 2) sx sy hz (hUc 0)
      (hUc 1) (hUc 2) hsx hsy (hslope _ hc) hh
      (hzy (hwall.elim (fun h => Or.inr (Or.inr (Or.inl h)))
        (fun h => Or.inr (Or.inr (Or.inr h)))) 0) hwall

theorem C35_wall_is_reflecting_witness :
    divergingRow.U_ 1 0 = num (-1) ∧
      FluxKernel sampleBuiltins tripleMesh divergingRow.U_ divergingRow.solver_.zbed_
        (MinmodSpatialDerivative.calculate tripleMesh divergingRow.U_
          divergingRow.solver_.dUdx_ divergingRow.solver_.dUdy_).1
        (MinmodSpatialDerivative.calculate tripleMesh divergingRow.U_
          divergingRow.solver_.dUdx_ divergingRow.solver_.dUdy_).2 (0 * (3 + 1) + 0)
        = ![num 0, num 0, num 0, num (-(1 / 1000 * (11 / 10)))] :=
  ⟨rfl, (C35_wall_is_reflecting (m := tripleMesh) divergingRow_consistent divergingRow_nonneg
    (fun _ _ => ⟨rfl, rfl⟩) (by decide!) (by decide!) sampleBuiltins
    divergingRow.solver_.dUdx_ divergingRow.solver_.dUdy_ 0 0 (by decide)
    (by decide) (1 / 1000) rfl (by decide)).1 (Or.inl rfl)⟩

/-! ## The partial regime of the face flux -/

/-- In the partial regime (no side's water level above the face bed, not both
sides dry) the side with the higher bed is dry, the other side is wet, and the
flux is the single-sided flux of the state of the side with the higher bed. -/
theorem faceFluxRat_step (sqrt : ℚ → ℚ) (xdir ydir z_m z_p h_m h_p u_m u_p v_m v_p : ℚ)
    (hsub : ¬ (max z_m z_p < z_m + max h_m 0 ∨ max z_m z_p < z_p + max h_p 0))
    (hwet : ¬ (max h_m 0 ≤ 0 ∧ max h_p 0 ≤ 0)) :
    (z_p < z_m → max h_m 0 = 0 ∧ 0 < max h_p 0 ∧
      ∀ k, faceFluxRat sqrt xdir ydir z_m z_p h_m h_p u_m u_p v_m v_p k
        = ![singleSidedFlux xdir ydir (max h_m 0) u_m v_m (sqrt (981 / 100 * max h_m 0)) (-1) 0,
            singleSidedFlux xdir ydir (max h_m 0) u_m v_m (sqrt (981 / 100 * max h_m 0)) (-1) 1,
            singleSidedFlux xdir ydir (max h_m 0) u_m v_m (sqrt (981 / 100 * max h_m 0)) (-1) 2,
            z_p - z_m] k) ∧
    (¬ z_p < z_m → z_m < z_p ∧ max h_p 0 = 0 ∧ 0 < max h_m 0 ∧
      ∀ k, faceFluxRat sqrt xdir ydir z_m z_p h_m h_p u_m u_p v_m v_p k
        = ![singleSidedFlux xdir ydir (max h_p 0) u_p v_p (sqrt (981 / 100 * max h_p 0)) 1 0,
            singleSidedFlux xdir ydir (max h_p 0) u_p v_p (sqrt (981 / 100 * max h_p 0)) 1 1,
            singleSidedFlux xdir ydir (max h_p 0) u_p v_p (sqrt (981 / 100 * max h_p 0)) 1 2,
            z_p - z_m] k) := by
  have hm0 : 0 ≤ max h_m 0 := le_max_right _ _
  have hp0 : 0 ≤ max h_p 0 := le_max_right _ _
  push_neg at hsub
  constructor
  · intro hz
    have hmax : max z_m z_p = z_m := max_eq_left (le_of_lt hz)
    have hm : max h_m 0 = 0 := by
      have := hsub.1
      rw [hmax] at this
      linarith
    have hp : 0 < max h_p 0 := by
      by_contra hc
      exact hwet ⟨le_of_eq hm, not_lt.mp hc⟩
    refine ⟨hm, hp, fun k => ?_⟩
    unfold faceFluxRat
    simp only
    rw [if_neg (by push_neg; exact hsub), if_neg hwet, if_pos hz]
    unfold singleSidedFlux
    fin_cases k
    · show max h_m 0 * _ - _ = max h_m 0 * _ - _
      ring
    · show _ - _ = _ - _
      ring
    · show _ - _ = _ - _
      ring
    · rfl
  · intro hz
    have hle : z_m ≤ z_p := not_lt.mp hz
    have hmax : max z_m z_p = z_p := max_eq_right hle
    have hp : max h_p 0 = 0 := by
      have := hsub.2
      rw [hmax] at this
      linarith
    have hm : 0 < max h_m 0 := by
      by_contra hc
      exact hwet ⟨not_lt.mp hc, le_of_eq hp⟩
    have hlt : z_m < z_p := by
      have := hsub.1
      rw [hmax] at this
      linarith
    refine ⟨hlt, hp, hm, fun k => ?_⟩
    unfold faceFluxRat
    simp only
    rw [if_neg (by push_neg; exact hsub), if_neg hwet, if_neg hz]
    unfold singleSidedFlux
    fin_cases k
    · show max h_p 0 * _ - _ = max h_p 0 * _ - _
      ring
    · show _ - _ = _ - _
      ring
    · show _ - _ = _ - _
      ring
    · rfl

/-- The mass component of a single-sided flux of a dry state is zero. -/
theorem singleSidedFlux_dry (xdir ydir u v c side : ℚ) :
    singleSidedFlux xdir ydir 0 u v c side 0 = 0 := by
  unfold singleSidedFlux
  show (0 : ℚ) * _ - 1 / 2 * _ * (side * 0) = 0
  ring

/-- C36 (counterexample): at a face between a wet side `m` (bed `0`, depth `1/2`,
velocity `1`) and a dry side `p` on a step (bed `1`, depth `0`) the flux is `0`
in all three components, where the single-sided flux of the wet side has a mass
component of at least `1/2`; it stays the same when the state of the wet side
is changed to depth `1/4` and velocity `3`, and it changes when the velocity
of the dry side is set to `-2`. -/
theorem C36_flux_ignores_wet_side :
    faceFlux sampleBuiltins (num 1) (num 0) (num 0) (num 1) (num (1 / 2)) (num 0) (num 1)
        (num 0) (num 0) (num 0) = ![num 0, num 0, num 0, num 1] ∧
      faceFlux sampleBuiltins (num 1) (num 0) (num 0) (num 1) (num (1 / 4)) (num 0) (num 3)
        (num 0) (num 0) (num 0) = ![num 0, num 0, num 0, num 1] ∧
      faceFlux sampleBuiltins (num 1) (num 0) (num 0) (num 1) (num (1 / 2)) (num 0) (num 1)
        (num (-2)) (num 0) (num 0) = ![num 0, num 4, num 0, num 1] ∧
      1 / 2 ≤ singleSidedFlux 1 0 (1 / 2) 1 0 (sampleBuiltins.sqrt (981 / 100 * (1 / 2))) (-1)
        0 := by
  have hs0 : sampleBuiltins.sqrt 0 = 0 := by decide!
  have hmax : max (0 : ℚ) 1 = 1 := max_eq_right (by norm_num)
  have hsub : ∀ h : ℚ, 0 < h → h ≤ 1 →
      ¬ (max (0 : ℚ) 1 < 0 + max h 0 ∨ max (0 : ℚ) 1 < 1 + max (0 : ℚ) 0) := by
    intro h h0 h1
    rw [hmax, max_self, max_eq_left (le_of_lt h0)]
    push_neg
    exact ⟨by linarith, by norm_num⟩
  have hwet : ∀ h : ℚ, 0 < h → ¬ (max h 0 ≤ 0 ∧ max (0 : ℚ) 0 ≤ 0) := by
    intro h h0 hc
    rw [max_eq_left (le_of_lt h0)] at hc
    linarith [hc.1]
  have key : ∀ (h u up : ℚ), 0 < h → h ≤ 1 →
      faceFlux sampleBuiltins (num 1) (num 0) (num 0) (num 1) (num h) (num 0) (num u)
        (num up) (num 0) (num 0)
        = ![num 0, num (up * (1 / 2 * up) - 1 / 2 * |up| * up), num 0, num 1] := by
    intro h u up h0 h1
    rw [faceFlux_num_fun]
    funext k
    rw [((faceFluxRat_step sampleBuiltins.sqrt 1 0 0 1 h 0 u up 0 0 (hsub h h0 h1)
      (hwet h h0)).2 (by norm_num)).2.2.2 k]
    unfold singleSidedFlux
    simp only [max_self, mul_zero, hs0]
    fin_cases k
    · show num _ = num _
      congr 1
      simp
    · show num _ = num _
      congr 1
      simp
    · show num _ = num _
      congr 1
      simp
    · show num _ = num _
      congr 1
      norm_num
  refine ⟨?_, ?_, ?_, ?_⟩
  · rw [key (1 / 2) 1 0 (by norm_num) (by norm_num)]
    norm_num
  · rw [key (1 / 4) 3 0 (by norm_num) (by norm_num)]
    norm_num
  · rw [key (1 / 2) 1 (-2) (by norm_num) (by norm_num)]
    have : |(-2 : ℚ)| = 2 := by norm_num [abs_of_neg]
    rw [this]
    norm_num
  · unfold singleSidedFlux
    show (1 / 2 : ℚ) ≤ 1 / 2 * (1 * 1 + 0 * 0) - 1 / 2 * |_| * (-1 * (1 / 2))
    have := abs_nonneg ((1 : ℚ) * 1 + 0 * 0
      + ValueType.signRat (1 * 1 + 0 * 0) * sampleBuiltins.sqrt (981 / 100 * (1 / 2)))
    linarith

/-- C36 (amended): in the partial regime of a face (neither water level above the
face bed `max(z_m, z_p)`, and not both limited depths zero) the two beds
differ, the side with the higher bed has the depth zero and the other side is
the wet one, and the face flux is the single-sided flux computed from the
projected state of the side with the higher bed: its mass component is `0`. -/
theorem C36_step_flux_from_higher_side (B : Builtins)
    (xdir ydir z_m z_p h_m h_p u_m u_p v_m v_p : ℚ)
    (hsub : ¬ (max z_m z_p < z_m + max h_m 0 ∨ max z_m z_p < z_p + max h_p 0))
    (hwet : ¬ (max h_m 0 ≤ 0 ∧ max h_p 0 ≤ 0)) :
    faceFlux B (num xdir) (num ydir) (num z_m) (num z_p) (num h_m) (num h_p) (num u_m)
        (num u_p) (num v_m) (num v_p) 0 = num 0 ∧
    (z_p < z_m → max h_m 0 = 0 ∧ 0 < max h_p 0 ∧
      faceFlux B (num xdir) (num ydir) (num z_m) (num z_p) (num h_m) (num h_p) (num u_m)
          (num u_p) (num v_m) (num v_p)
        = ![num (singleSidedFlux xdir ydir (max h_m 0) u_m v_m
              (B.sqrt (981 / 100 * max h_m 0)) (-1) 0),
            num (singleSidedFlux xdir ydir (max h_m 0) u_m v_m
              (B.sqrt (981 / 100 * max h_m 0)) (-1) 1),
            num (singleSidedFlux xdir ydir (max h_m 0) u_m v_m
              (B.sqrt (981 / 100 * max h_m 0)) (-1) 2),
            num (z_p - z_m)]) ∧
    (¬ z_p < z_m → z_m < z_p ∧ max h_p 0 = 0 ∧ 0 < max h_m 0 ∧
      faceFlux B (num xdir) (num ydir) (num z_m) (num z_p) (num h_m) (num h_p) (num u_m)
          (num u_p) (num v_m) (num v_p)
        = ![num (singleSidedFlux xdir ydir (max h_p 0) u_p v_p
              (B.sqrt (981 / 100 * max h_p 0)) 1 0),
            num (singleSidedFlux xdir ydir (max h_p 0) u_p v_p
              (B.sqrt (981 / 100 * max h_p 0)) 1 1),
            num (singleSidedFlux xdir ydir (max h_p 0) u_p v_p
              (B.sqrt (981 / 100 * max h_p 0)) 1 2),
            num (z_p - z_m)]) := by
  have hstep := faceFluxRat_step B.sqrt xdir ydir z_m z_p h_m h_p u_m u_p v_m v_p hsub hwet
  refine ⟨?_, fun hz => ?_, fun hz => ?_⟩
  · rw [faceFlux_num]
    congr 1
    by_cases hz : z_p < z_m
    · obtain ⟨hm, -, hk⟩ := hstep.1 hz
      rw [hk 0, hm]
      exact singleSidedFlux_dry _ _ _ _ _ _
    · obtain ⟨-, hp, -, hk⟩ := hstep.2 hz
      rw [hk 0, hp]
      exact singleSidedFlux_dry _ _ _ _ _ _
  · obtain ⟨hm, hp, hk⟩ := hstep.1 hz
    refine ⟨hm, hp, ?_⟩
    rw [faceFlux_num_fun]
    funext k
    rw [hk k]
    fin_cases k <;> rfl
  · obtain ⟨hlt, hp, hm, hk⟩ := hstep.2 hz
    refine ⟨hlt, hp, hm, ?_⟩
    rw [faceFlux_num_fun]
    funext k
    rw [hk k]
    fin_cases k <;> rfl

theorem C36_step_flux_from_higher_side_witness :
    faceFlux sampleBuiltins (num 1) (num 0) (num 0) (num 1) (num (1 / 2)) (num 0) (num 1)
        (num (-2)) (num 0) (num 0) 0 = num 0 ∧
      ((0 : ℚ) < 1 ∧ max (0 : ℚ) 0 = 0 ∧ 0 < max (1 / 2 : ℚ) 0) :=
  ⟨(C36_step_flux_from_higher_side sampleBuiltins 1 0 0 1 (1 / 2) 0 1 (-2) 0 0
      (by
        rw [max_eq_right (by norm_num : (0 : ℚ) ≤ 1), max_self,
          max_eq_left (by norm_num : (0 : ℚ) ≤ 1 / 2)]
        norm_num)
      (by
        rw [max_eq_left (by norm_num : (0 : ℚ) ≤ 1 / 2)]
        norm_num)).1,
    by norm_num⟩

end Morgflow
